import Mathlib

/-!
# Verification development for the `rama` mesher (`src/rama/mesh.cc`, `src/rama/shape.h`)

Shallow embedding of `Mesh` (construction, derivative propagation, spatial index) in Lean.

Modelling conventions used throughout:

* a C++ `double` (and `float`) is the rational `ℚ` it holds; the arithmetic of `mesh.cc` on
  coordinates, lengths, derivatives and distances rounds each operation to the nearest
  representable value, ties to even (`dadd`, `dsub`, `dmul`, `ddiv`, `fsub`), with no fused
  multiply-add and no extended precision; the product of a 32-bit grid coordinate with the
  cell side, a power of two, is exact. NaN and the infinities have no rational: a quotient
  with divisor `0` and an overflow are outside the model, and statements about such values
  carry the hypothesis that excludes them;
* a `JetNum` is a value together with one derivative; comparisons and `ToDouble` read the value;
* a C++ `int` is an `Int`; a conversion from `double` to a 32-bit integer wraps modulo `2 ^ 32`
  (the conversion is undefined in C++ when the value does not fit);
* a loop `for (int i = lo; i <= hi; i++)` whose bound `hi` is `INT_MAX` does not end (the
  increment overflows): a call that runs into one has no result, which is `none` (`forInt`,
  `Mesh.FindTriangleRun`);
* `std::vector` is `List`; an out-of-range read yields the default element of the type, an
  out-of-range write (a triangle vertex that is no point index) is dropped;
* `std::map` is an association list; keys of `JetNum` pairs compare by value;
* the callback invocations of the dielectric pass are observed on `Mesh.dielectricRun`, a copy of
  the loop that records them and computes the same result;
* functions of the repository that are only declared in the sources at hand (`shape.cc`,
  `edge_type.h`, `my_jet.h`, the Triangle kernel, the Lua glue) are parameters of the
  definitions that call them.
-/

namespace Rama

/-! ## Data model (`shape.h`) -/

/-- Modelled from the spec: `my_jet.h` is not among the sources. A dual number
`Dual{value, derivative}`: a scalar with its first derivative with respect to one design
parameter. -/
structure JetNum where
  val : ℚ
  deriv : ℚ
deriving DecidableEq

/-- Assignment of a plain `double` to a `JetNum`: the derivative is zero. -/
def JetNum.ofDouble (v : ℚ) : JetNum := ⟨v, 0⟩

instance : Inhabited JetNum := ⟨JetNum.ofDouble 0⟩

/-- `ToDouble(JetNum)`: the value, the derivative is dropped. -/
def ToDouble (a : JetNum) : ℚ := a.val

/-- `JetNum::Derivative()`. -/
def JetNum.Derivative (a : JetNum) : ℚ := a.deriv

/-- Modelled from the spec: `operator==` of `JetNum` (`my_jet.h`, not among the sources)
compares values only; `mesh.cc` line 549 says of the material comparison built on it
"Doesn't compare derivatives". -/
def JetNum.eq (a b : JetNum) : Bool := decide (a.val = b.val)

/-- `JetComplex`: a complex number whose real and imaginary parts are `JetNum`s. -/
structure JetComplex where
  re : JetNum
  im : JetNum
deriving DecidableEq

/-- Conversion of a real `JetNum` to a `JetComplex` (imaginary part zero). -/
def JetComplex.ofReal (a : JetNum) : JetComplex := ⟨a, JetNum.ofDouble 0⟩

instance : Inhabited JetComplex := ⟨JetComplex.ofReal (JetNum.ofDouble 0)⟩

/-- `operator==` of `std::complex<JetNum>`: both parts compare equal. -/
def JetComplex.eq (a b : JetComplex) : Bool := a.re.eq b.re && a.im.eq b.im

/-- `JetPoint`: `p[0]` is `x`, `p[1]` is `y`. -/
structure JetPoint where
  x : JetNum
  y : JetNum
deriving DecidableEq

/-- `JetPoint::setZero()`. -/
def JetPoint.zero : JetPoint := ⟨JetNum.ofDouble 0, JetNum.ofDouble 0⟩

instance : Inhabited JetPoint := ⟨JetPoint.zero⟩

/-- A `JetPoint` whose two coordinates are assigned from plain doubles. -/
def JetPoint.ofDoubles (x y : ℚ) : JetPoint := ⟨JetNum.ofDouble x, JetNum.ofDouble y⟩

/-- Modelled from the spec: `edge_type.h` is not among the sources. The classification of a
boundary edge (default, port number, absorbing boundary, ...); `0` is the default kind. -/
abbrev EdgeKind := Int

/-- Modelled from the spec: `edge_type.h` is not among the sources. `EdgeInfo` has the two slots
`kind[0], kind[1]` and the two distances `dist[0], dist[1]` that `mesh.cc` reads and writes. -/
structure EdgeInfo where
  kind0 : EdgeKind
  kind1 : EdgeKind
  dist0 : ℚ
  dist1 : ℚ
deriving DecidableEq

/-- The default-constructed `EdgeInfo e;`. -/
instance : Inhabited EdgeInfo := ⟨⟨0, 0, 0, 0⟩⟩

/-- `struct RPoint`. -/
structure RPoint where
  p : JetPoint
  e : EdgeInfo
  original_piece : Int
  original_edge : Int
deriving DecidableEq

/-- `RPoint()`: zero coordinates, default edge metadata, provenance `(-1, -1)`. -/
instance : Inhabited RPoint := ⟨⟨JetPoint.zero, default, -1, -1⟩⟩

/-- `struct Material`. -/
structure Material where
  color : Nat
  epsilon : JetComplex
  callback : String
deriving DecidableEq

/-- `Material()`: color `0xe0e0ff`, `epsilon = 1`, no callback. -/
instance : Inhabited Material :=
  ⟨⟨0xe0e0ff, JetComplex.ofReal (JetNum.ofDouble 1), ""⟩⟩

/-- `Material::operator==` (`shape.h` lines 64-66). -/
def Material.eq (m a : Material) : Bool :=
  decide (m.color = a.color) && m.epsilon.eq a.epsilon && decide (m.callback = a.callback)

/-- A C array `int a[3]`. -/
structure Int3 where
  a0 : Int
  a1 : Int
  a2 : Int
deriving DecidableEq

/-- The element `a[j]` of an `int a[3]`. -/
def Int3.get (a : Int3) (j : Fin 3) : Int :=
  match j with
  | 0 => a.a0
  | 1 => a.a1
  | 2 => a.a2

instance : CoeFun Int3 (fun _ => Fin 3 → Int) := ⟨Int3.get⟩

/-- The array filled by a loop `for (int j = 0; j < 3; j++) a[j] = f(j)`. -/
def Int3.ofFn (f : Fin 3 → Int) : Int3 := ⟨f 0, f 1, f 2⟩

/-- `struct Triangle`. -/
structure Triangle where
  index : Int3
  material : Int
  neighbor : Int3
deriving DecidableEq

instance : Inhabited Triangle := ⟨⟨⟨0, 0, 0⟩, 0, ⟨0, 0, 0⟩⟩⟩

/-- `Shape::Polygon`. -/
structure Polygon where
  p : List RPoint
  material : Material
deriving DecidableEq

instance : Inhabited Polygon := ⟨⟨[], default⟩⟩

/-- `class Shape`: the vector `polys_`. -/
structure Shape where
  polys_ : List Polygon
deriving DecidableEq

/-- `Shape::NumPieces`. -/
def Shape.NumPieces (s : Shape) : Nat := s.polys_.length

/-- `Shape::Piece`. -/
def Shape.Piece (s : Shape) (n : Nat) : List RPoint := (s.polys_.getD n default).p

/-- `Shape::GetMaterial`. -/
def Shape.GetMaterial (s : Shape) (n : Nat) : Material := (s.polys_.getD n default).material

/-- Read of `v[i]` for a C++ `int` index `i`. -/
def getI {α : Type} [Inhabited α] (v : List α) (i : Int) : α :=
  if 0 ≤ i then v.getD i.toNat default else default

/-! ## Floating-point arithmetic

IEEE 754 binary formats with rounding to nearest, ties to even: precision 53 and least normal
exponent `-1022` for `double`, precision 24 and least normal exponent `-126` for `float`. -/

/-- The number of binary digits of `n`, counted with at most `fuel` halvings (`fuel = n`
suffices). -/
def bitLength : Nat → Nat → Nat
  | 0, _ => 0
  | fuel + 1, n => if n = 0 then 0 else bitLength fuel (n / 2) + 1

/-- The largest integer `e` with `2 ^ e ≤ q`, for a positive rational `q`: the difference of
the numbers of binary digits of numerator and denominator, or one less. -/
def floorLog2 (q : ℚ) : Int :=
  let e : Int := (bitLength q.num.natAbs q.num.natAbs : Int) - (bitLength q.den q.den : Int)
  if (2 : ℚ) ^ e ≤ q then e else e - 1

/-- Rounding of a rational to the nearest integer, ties to the even one. -/
def roundHalfEven (q : ℚ) : Int :=
  if q - ⌊q⌋ < 1 / 2 then ⌊q⌋
  else if 1 / 2 < q - ⌊q⌋ then ⌊q⌋ + 1
  else if ⌊q⌋ % 2 = 0 then ⌊q⌋ else ⌊q⌋ + 1

/-- Rounding to the binary format of precision `p` whose least normal exponent is `emin`: the
nearest multiple of the unit in the last place `2 ^ (e - (p - 1))`, where `e` is the exponent of
`q`, not below `emin` (subnormal numbers). Overflow to an infinity is not modelled. -/
def roundBinary (p : Nat) (emin : Int) (q : ℚ) : ℚ :=
  if q = 0 then 0
  else
    let ulp : ℚ := (2 : ℚ) ^ (max (floorLog2 |q|) emin - ((p : Int) - 1))
    (roundHalfEven (q / ulp) : ℚ) * ulp

/-- Rounding to `double`. -/
def roundDouble (q : ℚ) : ℚ := roundBinary 53 (-1022) q

/-- Rounding to `float`. -/
def roundFloat (q : ℚ) : ℚ := roundBinary 24 (-126) q

/-- `a + b` on `double`s. -/
def dadd (a b : ℚ) : ℚ := roundDouble (a + b)

/-- `a - b` on `double`s. -/
def dsub (a b : ℚ) : ℚ := roundDouble (a - b)

/-- `a * b` on `double`s. -/
def dmul (a b : ℚ) : ℚ := roundDouble (a * b)

/-- `a / b` on `double`s with `b ≠ 0`. For `b = 0` the `double` is NaN or an infinity, which no
rational is; the value `0` of the model then stands for no value of the program. -/
def ddiv (a b : ℚ) : ℚ := roundDouble (a / b)

/-- `a - b` on `float`s. -/
def fsub (a b : ℚ) : ℚ := roundFloat (a - b)

/-- `sqr(x)` on a `double` (`mesh.cc` line 293). -/
def sqr (x : ℚ) : ℚ := dmul x x

/-- The rational is a `double`. -/
def IsDouble (q : ℚ) : Prop := roundDouble q = q

instance (q : ℚ) : Decidable (IsDouble q) := by unfold IsDouble; infer_instance

/-! ## The spatial index (`mesh.cc` lines 554-617) -/

/-- `std::map<uint64, vector<int>>`, as an association list with distinct keys. -/
abbrev SpatialIndex := List (Nat × List Nat)

/-- `spatial_index_.find(key)`: the vector stored under `key`, if any. -/
def SpatialIndex.find (idx : SpatialIndex) (key : Nat) : Option (List Nat) :=
  match idx with
  | [] => none
  | (k, v) :: rest => if k = key then some v else SpatialIndex.find rest key

/-- `spatial_index_[key].push_back(i)`. -/
def SpatialIndex.push (idx : SpatialIndex) (key : Nat) (i : Nat) : SpatialIndex :=
  match idx with
  | [] => [(key, [i])]
  | (k, v) :: rest =>
    if k = key then (k, v ++ [i]) :: rest else (k, v) :: SpatialIndex.push rest key i

/-- `class Mesh`: the members that `mesh.cc` reads and writes. -/
structure Mesh where
  valid_mesh_ : Bool
  points_ : List RPoint
  triangles_ : List Triangle
  materials_ : List Material
  cell_size_ : Int
  spatial_index_ : SpatialIndex
  dielectric_ : List JetComplex
deriving DecidableEq

deriving instance DecidableEq for Except

/-- Conversion of an integral value to `int32`, wrapping modulo `2 ^ 32`. -/
def toInt32 (z : Int) : Int := (z + 2 ^ 31) % 2 ^ 32 - 2 ^ 31

/-- The conversion `uint32(ix)` of an `int32`. -/
def toUInt32 (z : Int) : Nat := (z % 2 ^ 32).toNat

/-- `GridIndex` (`mesh.cc` lines 554-556). -/
def GridIndex (ix iy : Int) : Nat := (toUInt32 ix <<< 32) ||| toUInt32 iy

/-- `ldexp(1, e)` in `double`: `2 ^ e`, which underflows to `0` below the smallest subnormal
`2 ^ (-1074)`. For `e > 1023` the `double` is `+inf`, which a rational cannot hold: statements
about the cell side are made for exponents in the finite range (`Mesh.CellOK`, or an explicit
bound `e ≤ 1023`). -/
def ldexp1 (e : Int) : ℚ := if e < -1074 then 0 else (2 : ℚ) ^ e

/-- `int i = floor(q)`. -/
def floorInt (q : ℚ) : Int := toInt32 ⌊q⌋

/-- The values `lo, lo + 1, ..., hi` that `i` takes in a loop `for (int i = lo; i <= hi; i++)`
which ends (`hi` is not `INT_MAX`, see `forInt`). -/
def loopRange (lo hi : Int) : List Int :=
  (List.range (hi + 1 - lo).toNat).map (fun (k : Nat) => lo + (k : Int))

/-- The type of `TriangleIntersectsBox(p, xmin, xmax, ymin, ymax)` (declared in `shape.h`). -/
abbrev BoxTest := JetPoint → JetPoint → JetPoint → ℚ → ℚ → ℚ → ℚ → Bool

/-- The type of `PointInTriangle(p, a, b, c)` (declared in `shape.h`). -/
abbrev TriTest := JetPoint → JetPoint → JetPoint → JetPoint → Int

/-- The corner `j` of triangle `t`: `points_[t.index[j]].p`. -/
def Mesh.corner (m : Mesh) (t : Triangle) (j : Fin 3) : JetPoint :=
  (getI m.points_ (t.index j)).p

/-- A loop over a list whose body may fail to return (`none`). -/
def foldlO {α β : Type} (f : β → α → Option β) : β → List α → Option β
  | b, [] => some b
  | b, a :: rest =>
    match f b a with
    | none => none
    | some b2 => foldlO f b2 rest

/-- The loop `for (int i = lo; i <= hi; i++) body` on 32-bit `int`s. When `hi` is `INT_MAX` the
test `i <= hi` holds for every `int` and the increment of `INT_MAX` overflows: the loop never
ends, which is `none`. Otherwise the body runs for `i = lo, ..., hi`. -/
def forInt {σ : Type} (lo hi : Int) (body : σ → Int → Option σ) (init : σ) : Option σ :=
  if hi = 2 ^ 31 - 1 then none else foldlO body init (loopRange lo hi)

/-- The body of the loop over triangles in `Mesh::FindTriangle` (lines 568-594) with its two
`int` loops: triangle `i` is pushed into every cell of its bounding-box range whose box it
intersects; `none` when a loop does not end. -/
def Mesh.registerTriangleRun (TriangleIntersectsBox : BoxTest) (m : Mesh) (idx : SpatialIndex)
    (i : Nat) : Option SpatialIndex :=
  let cell := ldexp1 m.cell_size_
  let t := m.triangles_.getD i default
  let tp0 := m.corner t 0
  let tp1 := m.corner t 1
  let tp2 := m.corner t 2
  let xmin := min (min (ToDouble tp0.x) (ToDouble tp1.x)) (ToDouble tp2.x)
  let xmax := max (max (ToDouble tp0.x) (ToDouble tp1.x)) (ToDouble tp2.x)
  let ymin := min (min (ToDouble tp0.y) (ToDouble tp1.y)) (ToDouble tp2.y)
  let ymax := max (max (ToDouble tp0.y) (ToDouble tp1.y)) (ToDouble tp2.y)
  let ixmin := floorInt (ddiv xmin cell)
  let ixmax := floorInt (ddiv xmax cell)
  let iymin := floorInt (ddiv ymin cell)
  let iymax := floorInt (ddiv ymax cell)
  forInt ixmin ixmax (fun acc (ix : Int) =>
    forInt iymin iymax (fun acc2 (iy : Int) =>
      some (if TriangleIntersectsBox tp0 tp1 tp2 (ix * cell) ((toInt32 (ix + 1) : ℚ) * cell)
          (iy * cell) ((toInt32 (iy + 1) : ℚ) * cell)
        then SpatialIndex.push acc2 (GridIndex ix iy) i
        else acc2)) acc) idx

/-- The first block of `Mesh::FindTriangle` (lines 566-596) run on an empty index: the index it
builds, or `none` when a loop over grid cells does not end. -/
def Mesh.buildIndexRun (TriangleIntersectsBox : BoxTest) (m : Mesh) : Option SpatialIndex :=
  foldlO (Mesh.registerTriangleRun TriangleIntersectsBox m) [] (List.range m.triangles_.length)

/-- The index that the loop body of lines 568-594 computes for triangle `i` when its two loops
over grid cells end (`Mesh.registerTriangleRun` then returns this value). -/
def Mesh.registerTriangle (TriangleIntersectsBox : BoxTest) (m : Mesh) (idx : SpatialIndex)
    (i : Nat) : SpatialIndex :=
  let cell := ldexp1 m.cell_size_
  let t := m.triangles_.getD i default
  let tp0 := m.corner t 0
  let tp1 := m.corner t 1
  let tp2 := m.corner t 2
  let xmin := min (min (ToDouble tp0.x) (ToDouble tp1.x)) (ToDouble tp2.x)
  let xmax := max (max (ToDouble tp0.x) (ToDouble tp1.x)) (ToDouble tp2.x)
  let ymin := min (min (ToDouble tp0.y) (ToDouble tp1.y)) (ToDouble tp2.y)
  let ymax := max (max (ToDouble tp0.y) (ToDouble tp1.y)) (ToDouble tp2.y)
  let ixmin := floorInt (ddiv xmin cell)
  let ixmax := floorInt (ddiv xmax cell)
  let iymin := floorInt (ddiv ymin cell)
  let iymax := floorInt (ddiv ymax cell)
  (loopRange ixmin ixmax).foldl (fun acc (ix : Int) =>
    (loopRange iymin iymax).foldl (fun acc2 (iy : Int) =>
      if TriangleIntersectsBox tp0 tp1 tp2 (ix * cell) (((ix + 1 : Int) : ℚ) * cell)
          (iy * cell) (((iy + 1 : Int) : ℚ) * cell)
      then SpatialIndex.push acc2 (GridIndex ix iy) i
      else acc2) acc) idx

/-- The index built by the first block of `Mesh::FindTriangle` (lines 566-596) when all its
loops end (`Mesh.buildIndexRun` then returns this value). -/
def Mesh.buildIndex (TriangleIntersectsBox : BoxTest) (m : Mesh) : SpatialIndex :=
  (List.range m.triangles_.length).foldl (Mesh.registerTriangle TriangleIntersectsBox m) []

/-- The scan of a cell's candidate list (lines 608-616): the first candidate that contains the
test point, or `-1`. -/
def Mesh.scan (PointInTriangle : TriTest) (m : Mesh) (test_point : JetPoint) :
    List Nat → Int
  | [] => -1
  | c :: rest =>
    let tri := m.triangles_.getD c default
    if PointInTriangle test_point (m.corner tri 0) (m.corner tri 1) (m.corner tri 2) ≠ 0
    then (c : Int)
    else Mesh.scan PointInTriangle m test_point rest

/-- `Mesh::FindTriangle(x, y)` (lines 558-617): the returned index and the mesh afterwards (the
spatial index is built when it is empty), or `none` when the index build does not end. -/
def Mesh.FindTriangleRun (PointInTriangle : TriTest) (TriangleIntersectsBox : BoxTest)
    (m : Mesh) (x y : ℚ) : Option (Int × Mesh) :=
  let cell := ldexp1 m.cell_size_
  let built : Option Mesh :=
    if m.spatial_index_.isEmpty
    then
      match Mesh.buildIndexRun TriangleIntersectsBox m with
      | none => none
      | some idx => some { m with spatial_index_ := idx }
    else some m
  match built with
  | none => none
  | some m1 =>
    let ix := floorInt (ddiv x cell)
    let iy := floorInt (ddiv y cell)
    match SpatialIndex.find m1.spatial_index_ (GridIndex ix iy) with
    | none => some (-1, m1)
    | some cands => some (Mesh.scan PointInTriangle m1 (JetPoint.ofDoubles x y) cands, m1)

/-- What a call `Mesh::FindTriangle(x, y)` that returns yields: the returned index and the mesh
afterwards (`Mesh.FindTriangleRun` is `some` of this value whenever the index build ends). -/
def Mesh.FindTriangle (PointInTriangle : TriTest) (TriangleIntersectsBox : BoxTest)
    (m : Mesh) (x y : ℚ) : Int × Mesh :=
  let cell := ldexp1 m.cell_size_
  let m1 : Mesh :=
    if m.spatial_index_.isEmpty
    then { m with spatial_index_ := Mesh.buildIndex TriangleIntersectsBox m }
    else m
  let ix := floorInt (ddiv x cell)
  let iy := floorInt (ddiv y cell)
  match SpatialIndex.find m1.spatial_index_ (GridIndex ix iy) with
  | none => (-1, m1)
  | some cands => (Mesh.scan PointInTriangle m1 (JetPoint.ofDoubles x y) cands, m1)

/-- The range of a 32-bit signed integer. -/
def I32 (z : Int) : Prop := -2 ^ 31 ≤ z ∧ z < 2 ^ 31

instance (z : Int) : Decidable (I32 z) := by unfold I32; infer_instance

/-- The 32-bit signed integers other than `INT_MAX`: the upper bounds with which a loop
`for (int i = lo; i <= hi; i++)` ends. -/
def I32Loop (z : Int) : Prop := -2 ^ 31 ≤ z ∧ z < 2 ^ 31 - 1

instance (z : Int) : Decidable (I32Loop z) := by unfold I32Loop; infer_instance

/-- The cell side `ldexp(1, cell_size_)` is a positive finite `double`, namely
`2 ^ cell_size_`, and its product with a 32-bit grid coordinate does not overflow
(`2 ^ 32 * 2 ^ 991 < 2 ^ 1024`). -/
def Mesh.CellOK (m : Mesh) : Prop := -1074 ≤ m.cell_size_ ∧ m.cell_size_ ≤ 991

instance (m : Mesh) : Decidable m.CellOK := by unfold Mesh.CellOK; infer_instance

/-- Triangle `t` is listed under key `k` of the index. -/
def SpatialIndex.Lists (idx : SpatialIndex) (k t : Nat) : Prop :=
  ∃ l, SpatialIndex.find idx k = some l ∧ t ∈ l

/-- `TriangleIntersectsBox` applied to triangle number `t` of the mesh and the box of grid cell
`(ix, iy)`, as in lines 589-590 and in `TEST_FUNCTION(SpatialIndex)` lines 727-728. -/
def Mesh.hitsCell (TriangleIntersectsBox : BoxTest) (m : Mesh) (t : Nat) (ix iy : Int) : Bool :=
  let cell := ldexp1 m.cell_size_
  let tri := m.triangles_.getD t default
  TriangleIntersectsBox (m.corner tri 0) (m.corner tri 1) (m.corner tri 2)
    (ix * cell) (((ix + 1 : Int) : ℚ) * cell) (iy * cell) (((iy + 1 : Int) : ℚ) * cell)

/-- `PointInTriangle` applied to the query point `(x, y)` and triangle number `t` of the mesh,
as in lines 610-611 and in `TEST_FUNCTION(SpatialIndex)` lines 745-747. -/
def Mesh.contains (PointInTriangle : TriTest) (m : Mesh) (t : Nat) (x y : ℚ) : Int :=
  let tri := m.triangles_.getD t default
  PointInTriangle (JetPoint.ofDoubles x y) (m.corner tri 0) (m.corner tri 1) (m.corner tri 2)

/-- The states of the lazily built index: still empty, or the index built from the mesh. -/
def Mesh.IndexOK (TriangleIntersectsBox : BoxTest) (m : Mesh) : Prop :=
  m.spatial_index_ = [] ∨ m.spatial_index_ = Mesh.buildIndex TriangleIntersectsBox m

/-- The states of the lazily built index that a program reaches: still empty, or the index that
a build which ended has returned. -/
def Mesh.IndexBuilt (TriangleIntersectsBox : BoxTest) (m : Mesh) : Prop :=
  m.spatial_index_ = [] ∨ Mesh.buildIndexRun TriangleIntersectsBox m = some m.spatial_index_

/-- The bounding box `(xmin, xmax, ymin, ymax)` of triangle number `t` (lines 573-580). -/
def Mesh.bbox (m : Mesh) (t : Nat) : ℚ × ℚ × ℚ × ℚ :=
  let tri := m.triangles_.getD t default
  let tp0 := m.corner tri 0
  let tp1 := m.corner tri 1
  let tp2 := m.corner tri 2
  (min (min (ToDouble tp0.x) (ToDouble tp1.x)) (ToDouble tp2.x),
   max (max (ToDouble tp0.x) (ToDouble tp1.x)) (ToDouble tp2.x),
   min (min (ToDouble tp0.y) (ToDouble tp1.y)) (ToDouble tp2.y),
   max (max (ToDouble tp0.y) (ToDouble tp1.y)) (ToDouble tp2.y))

/-- The divisions by the cell side that place triangle `t` and the query point `(x, y)` on the
grid are exact: the quotients of the four bounds of the bounding box and of `x` and `y` by the
cell side are `double`s (a division by a power of two rounds only when it underflows). -/
def Mesh.ExactGrid (m : Mesh) (t : Nat) (x y : ℚ) : Prop :=
  ddiv (m.bbox t).1 (ldexp1 m.cell_size_) = (m.bbox t).1 / ldexp1 m.cell_size_ ∧
  ddiv (m.bbox t).2.1 (ldexp1 m.cell_size_) = (m.bbox t).2.1 / ldexp1 m.cell_size_ ∧
  ddiv (m.bbox t).2.2.1 (ldexp1 m.cell_size_) = (m.bbox t).2.2.1 / ldexp1 m.cell_size_ ∧
  ddiv (m.bbox t).2.2.2 (ldexp1 m.cell_size_) = (m.bbox t).2.2.2 / ldexp1 m.cell_size_ ∧
  ddiv x (ldexp1 m.cell_size_) = x / ldexp1 m.cell_size_ ∧
  ddiv y (ldexp1 m.cell_size_) = y / ldexp1 m.cell_size_

instance (m : Mesh) (t : Nat) (x y : ℚ) : Decidable (m.ExactGrid t x y) := by
  unfold Mesh.ExactGrid; infer_instance

/-- Every registration in the index is a valid triangle under the key of a cell whose box the
triangle intersects. -/
def Mesh.Sound (TriangleIntersectsBox : BoxTest) (m : Mesh) (idx : SpatialIndex) : Prop :=
  ∀ k t, SpatialIndex.Lists idx k t →
    t < m.triangles_.length ∧
    ∃ ix iy, I32 ix ∧ I32 iy ∧ k = GridIndex ix iy ∧
      m.hitsCell TriangleIntersectsBox t ix iy = true

/-- Triangle `i` is listed under every cell of its enumerated range whose box it intersects. -/
def Mesh.Covers (TriangleIntersectsBox : BoxTest) (m : Mesh) (i : Nat) (idx : SpatialIndex) :
    Prop :=
  ∀ ix iy : Int,
    floorInt (ddiv (m.bbox i).1 (ldexp1 m.cell_size_)) ≤ ix →
    ix ≤ floorInt (ddiv (m.bbox i).2.1 (ldexp1 m.cell_size_)) →
    floorInt (ddiv (m.bbox i).2.2.1 (ldexp1 m.cell_size_)) ≤ iy →
    iy ≤ floorInt (ddiv (m.bbox i).2.2.2 (ldexp1 m.cell_size_)) →
    m.hitsCell TriangleIntersectsBox i ix iy = true →
    SpatialIndex.Lists idx (GridIndex ix iy) i

/-! ## Derivative propagation: `Mesh::UpdateDerivatives` (`mesh.cc` lines 528-552)

The square root of the C library is a parameter `sqrt : ℚ → ℚ`. A failed `CHECK` aborts the
program: the model returns `Except.error`. -/

/-- `ToVector2d(p - q).norm()`: the Euclidean norm of the difference of the coordinate values,
the square root of the sum of the squares, in `double` arithmetic. -/
def diffNorm (sqrt : ℚ → ℚ) (p q : JetPoint) : ℚ :=
  sqrt (dadd (dmul (dsub (ToDouble p.x) (ToDouble q.x)) (dsub (ToDouble p.x) (ToDouble q.x)))
    (dmul (dsub (ToDouble p.y) (ToDouble q.y)) (dsub (ToDouble p.y) (ToDouble q.y))))

/-- The interpolation parameter `alpha` of lines 537-538 for the mesh point `pt` on the edge
from `p1` to `p2`. When the computed length of the edge is `0` the program divides by zero and
`alpha` is NaN or an infinity (see `ddiv`). -/
def edgeAlpha (sqrt : ℚ → ℚ) (pt p1 p2 : JetPoint) : ℚ :=
  ddiv (diffNorm sqrt pt p1) (diffNorm sqrt p2 p1)

/-- The first endpoint `s.Piece(p)[e]` of the edge a mesh point comes from. -/
def Shape.edgeStart (s : Shape) (p e : Int) : RPoint := getI (s.Piece p.toNat) e

/-- The second endpoint `s.Piece(p)[(e + 1) % s.Piece(p).size()]`. -/
def Shape.edgeEnd (s : Shape) (p e : Int) : RPoint :=
  getI (s.Piece p.toNat) ((e + 1) % ((s.Piece p.toNat).length : Int))

/-- `JetNum` with its `Derivative()` overwritten. -/
def JetNum.setDerivative (a : JetNum) (d : ℚ) : JetNum := { a with deriv := d }

/-- The body of the loop over points (lines 531-543). -/
def updatePoint (sqrt : ℚ → ℚ) (s : Shape) (pt : RPoint) : Except String RPoint :=
  let p := pt.original_piece
  let e := pt.original_edge
  if 0 ≤ p then
    if p < (s.NumPieces : Int) ∧ 0 ≤ e ∧ e < ((s.Piece p.toNat).length : Int) then
      let p1 := s.edgeStart p e
      let p2 := s.edgeEnd p e
      let alpha := edgeAlpha sqrt pt.p p1.p p2.p
      .ok { pt with
        p := { x := pt.p.x.setDerivative
                 (dadd (dmul (dsub 1 alpha) p1.p.x.Derivative) (dmul alpha p2.p.x.Derivative))
               y := pt.p.y.setDerivative
                 (dadd (dmul (dsub 1 alpha) p1.p.y.Derivative)
                   (dmul alpha p2.p.y.Derivative)) } }
    else .error "CHECK failed: p < s.NumPieces() && e >= 0 && e < s.Piece(p).size()"
  else .ok pt

/-- The loop over points (lines 530-544). -/
def updatePoints (sqrt : ℚ → ℚ) (s : Shape) : List RPoint → Except String (List RPoint)
  | [] => .ok []
  | pt :: rest =>
    match updatePoint sqrt s pt with
    | .error msg => .error msg
    | .ok pt' =>
      match updatePoints sqrt s rest with
      | .error msg => .error msg
      | .ok rest' => .ok (pt' :: rest')

/-- The loop over materials (lines 548-551), from position `i` on. -/
def updateMaterials (s : Shape) : Nat → List Material → Except String (List Material)
  | _, [] => .ok []
  | i, mat :: rest =>
    if mat.eq (s.GetMaterial i) then
      match updateMaterials s (i + 1) rest with
      | .error msg => .error msg
      | .ok rest' => .ok (s.GetMaterial i :: rest')
    else .error "CHECK failed: materials_[i] == s.GetMaterial(i)"

/-- `Mesh::UpdateDerivatives(s)` (lines 528-552). -/
def Mesh.UpdateDerivatives (sqrt : ℚ → ℚ) (s : Shape) (m : Mesh) : Except String Mesh :=
  match updatePoints sqrt s m.points_ with
  | .error msg => .error msg
  | .ok pts =>
    if m.materials_.length = s.NumPieces then
      match updateMaterials s 0 m.materials_ with
      | .error msg => .error msg
      | .ok mats => .ok { m with points_ := pts, materials_ := mats }
    else .error "CHECK failed: materials_.size() == s.NumPieces()"

/-- The provenance of a mesh point as construction leaves it: `(-1, -1)`, or a piece index that
is not negative. -/
def RPoint.ProvenanceOK (pt : RPoint) : Prop :=
  (pt.original_piece = -1 ∧ pt.original_edge = -1) ∨ 0 ≤ pt.original_piece

instance (pt : RPoint) : Decidable pt.ProvenanceOK := by
  unfold RPoint.ProvenanceOK; infer_instance

/-- The range check of line 534 on the provenance of a mesh point. -/
def RPoint.ProvenanceInRange (s : Shape) (pt : RPoint) : Prop :=
  pt.original_piece < (s.NumPieces : Int) ∧ 0 ≤ pt.original_edge ∧
    pt.original_edge < ((s.Piece pt.original_piece.toNat).length : Int)

instance (s : Shape) (pt : RPoint) : Decidable (pt.ProvenanceInRange s) := by
  unfold RPoint.ProvenanceInRange; infer_instance

/-! ## Mesh construction: `Mesh::Mesh` (`mesh.cc` lines 112-401)

The functions of `Shape` defined in `shape.cc`, the Triangle kernel, the C library square root
and `EdgeInfo::SharedKind` are the fields of `Env`. The process-wide
`square_of_longest_edge_permitted` is threaded through: construction takes its value before the
call and returns its value after the call. -/

/-- `kSharpestAllowableAngle = 1e-4` (line 22): the `double` nearest to `1 / 10000`. -/
def kSharpestAllowableAngle : ℚ := roundDouble (1 / 10000)

/-- `triunsuitable(v1, v2, v3, area)` (lines 32-50), reading the process-wide threshold; the
differences, products and sums are `double` operations. -/
def triunsuitable (square_of_longest_edge_permitted : ℚ) (v1 v2 v3 : ℚ × ℚ) (_area : ℚ) : Int :=
  let dx1 := dsub v1.1 v3.1
  let dy1 := dsub v1.2 v3.2
  let dx2 := dsub v2.1 v3.1
  let dy2 := dsub v2.2 v3.2
  let dx3 := dsub v1.1 v2.1
  let dy3 := dsub v1.2 v2.2
  let len1 := dadd (dmul dx1 dx1) (dmul dy1 dy1)
  let len2 := dadd (dmul dx2 dx2) (dmul dy2 dy2)
  let len3 := dadd (dmul dx3 dx3) (dmul dy3 dy3)
  let maxlen := max len1 (max len2 len3)
  if maxlen > square_of_longest_edge_permitted then 1 else 0

/-- The fields of the kernel's `struct triangulateio` that `mesh.cc` reads and writes. A null
`triangleattributelist` is `none`. -/
structure triangulateio where
  pointlist : List ℚ
  pointmarkerlist : List Int
  numberofpoints : Int
  trianglelist : List Int
  triangleattributelist : Option (List ℚ)
  neighborlist : List Int
  numberoftriangles : Int
  numberofcorners : Int
  numberoftriangleattributes : Int
  segmentlist : List Int
  segmentmarkerlist : List Int
  numberofsegments : Int
  holelist : List ℚ
  numberofholes : Int
  regionlist : List ℚ
  numberofregions : Int
deriving DecidableEq

/-- The type of the refinement oracle `triunsuitable` that the kernel calls back. -/
abbrev Oracle := ℚ × ℚ → ℚ × ℚ → ℚ × ℚ → ℚ → Int

/-- `Lua` with the callback registry: the callback registered under an identifier, run on the
vectors of `x` and `y` coordinates, returns one or two result vectors, or fails (`none`). -/
abbrev Lua := String → List JetNum → List JetNum → Option (List JetNum × Option (List JetNum))

/-- The collaborators of `Mesh::Mesh` whose code is not in `mesh.cc` or `shape.h`. -/
structure Env where
  /-- `Shape::GeometryError()`: `none` is the null pointer (well formed). -/
  GeometryError : Shape → Option String
  /-- `Shape::SharpestAngle()`. -/
  SharpestAngle : Shape → JetNum
  /-- `Shape::Area(n)`. -/
  Area : Shape → Nat → JetNum
  /-- `Shape::SetMerge(s)`, as a function of `s`. -/
  SetMerge : Shape → Shape
  /-- `AnyPointInPoly(poly, poly_size, &point)`; `none` is its fatal error. -/
  AnyPointInPoly : List RPoint → Int → Option JetPoint
  /-- `triangulate(options, &tin, &tout, NULL)` of the Triangle kernel, calling back the given
  oracle; `none` is a call of `triexit` (the `longjmp`). -/
  triangulate : String → Oracle → triangulateio → Option triangulateio
  /-- `sqrt` of the C library. -/
  sqrt : ℚ → ℚ
  /-- `EdgeInfo::SharedKind(other, &d1, &d2)`: the shared kind and the two distances, which the
  caller holds in `float`s. -/
  SharedKind : EdgeInfo → EdgeInfo → EdgeKind × ℚ × ℚ
  /-- The conversion of a `double` to the element type of `EdgeInfo::dist`, which `edge_type.h`
  declares: the identity if the type is `double`, `roundFloat` if it is `float`. -/
  toDist : ℚ → ℚ

/-- The exponent that `frexp(x, &e)` stores: `0` for `x = 0`, else the `e` with
`2 ^ (e - 1) ≤ |x| < 2 ^ e`. -/
def frexpExp (x : ℚ) : Int := if x = 0 then 0 else Int.log 2 |x| + 1

/-- A loop whose body may abort the program. -/
def foldlE {α β : Type} (f : β → α → Except String β) : β → List α → Except String β
  | b, [] => .ok b
  | b, a :: rest =>
    match f b a with
    | .error msg => .error msg
    | .ok b' => foldlE f b' rest

/-- `std::map<std::pair<JetNum, JetNum>, int>`: keys are compared by coordinate values. -/
abbrev PointMap := List ((ℚ × ℚ) × Nat)

/-- `point_map.find(key)`. -/
def PointMap.find (pm : PointMap) (key : ℚ × ℚ) : Option Nat :=
  match pm with
  | [] => none
  | (k, v) :: rest => if k = key then some v else PointMap.find rest key

/-- The key `std::make_pair(p[0], p[1])` of a point. -/
def JetPoint.key (p : JetPoint) : ℚ × ℚ := (ToDouble p.x, ToDouble p.y)

/-- The two point indexes of lines 182-184. -/
structure PointIndex where
  point_map : PointMap
  index_map : List (Nat × Nat)
deriving DecidableEq

/-- The body of the deduplication loop (lines 187-192) for the point `s.Piece(i)[j]`. -/
def PointIndex.visit (s : Shape) (st : PointIndex) (i j : Nat) : PointIndex :=
  let p := ((s.Piece i).getD j default).p
  if (st.point_map.find p.key).isNone then
    { point_map := st.point_map ++ [(p.key, st.index_map.length)]
      index_map := st.index_map ++ [(i, j)] }
  else st

/-- The deduplication loops (lines 185-194). -/
def Shape.pointIndex (s : Shape) : PointIndex :=
  (List.range s.NumPieces).foldl (fun st i =>
    (List.range (s.Piece i).length).foldl (fun st2 j => PointIndex.visit s st2 i j) st)
    ⟨[], []⟩

/-- The shape vertex `s.Piece(i)[j]` for an entry `(i, j)` of `index_map`. -/
def Shape.vertex (s : Shape) (ij : Nat × Nat) : RPoint := (s.Piece ij.1).getD ij.2 default

/-- `tin.pointlist` (lines 222-228): `x, y` of the representative vertex of every UPI. -/
def kernelPointlist (s : Shape) (index_map : List (Nat × Nat)) : List ℚ :=
  index_map.flatMap (fun ij => [ToDouble (s.vertex ij).p.x, ToDouble (s.vertex ij).p.y])

/-- `tin.pointmarkerlist` (line 227): `2 + upi`. -/
def kernelPointmarkerlist (index_map : List (Nat × Nat)) : List Int :=
  (List.range index_map.length).map (fun (upi : Nat) => 2 + (upi : Int))

/-- The state of the segment loop (lines 231-250): the keys of `segment_map` that are `true`,
and the two output arrays; `offset` is the length of `segmentmarkerlist`. -/
structure SegmentState where
  segment_map : List (Nat × Nat)
  segmentlist : List Int
  segmentmarkerlist : List Int
deriving DecidableEq

/-- The body of the segment loop (lines 236-247) for the edge starting at `s.Piece(i)[j]`. -/
def SegmentState.visit (s : Shape) (pm : PointMap) (st : SegmentState) (i j : Nat) :
    Except String SegmentState :=
  let p1 := ((s.Piece i).getD j default).p
  let p2 := ((s.Piece i).getD ((j + 1) % (s.Piece i).length) default).p
  match pm.find p1.key, pm.find p2.key with
  | some u1, some u2 =>
    if (u1, u2) ∈ st.segment_map then .ok st
    else .ok { segment_map := (u1, u2) :: st.segment_map
               segmentlist := st.segmentlist ++ [(u1 : Int), (u2 : Int)]
               segmentmarkerlist := st.segmentmarkerlist ++ [-1 - (u1 : Int)] }
  | _, _ => .error "CHECK failed: it1 != point_map.end() && it2 != point_map.end()"

/-- The segment loops (lines 234-249). -/
def kernelSegments (s : Shape) (pm : PointMap) : Except String SegmentState :=
  foldlE (fun st i =>
    foldlE (fun st2 j => SegmentState.visit s pm st2 i j) st (List.range (s.Piece i).length))
    ⟨[], [], []⟩ (List.range s.NumPieces)

/-- `is_a_hole` (lines 163-169). -/
def isAHole (env : Env) (s : Shape) : List Bool :=
  (List.range s.NumPieces).map (fun i => decide (ToDouble (env.Area s i) < 0))

/-- `num_holes` (lines 162-169). -/
def numHoles (env : Env) (s : Shape) : Nat := (isAHole env s).count true

/-- The points of all hole pieces, appended to a polygon in lines 262-266. -/
def holePieces (env : Env) (s : Shape) : List RPoint :=
  (List.range s.NumPieces).flatMap (fun j =>
    if (isAHole env s).getD j false then s.Piece j else [])

/-- The body of the region loop (lines 256-275) for piece `i`. -/
def regionVisit (env : Env) (s : Shape) (regionlist : List ℚ) (i : Nat) :
    Except String (List ℚ) :=
  if (isAHole env s).getD i false then .ok regionlist
  else
    match env.AnyPointInPoly (s.Piece i ++ holePieces env s) ((s.Piece i).length : Int) with
    | none => .error "AnyPointInPoly failed"
    | some point_in_poly =>
      .ok (regionlist ++ [ToDouble point_in_poly.x, ToDouble point_in_poly.y, (i : ℚ), -1])

/-- The region loop with its final `CHECK` (lines 253-278). -/
def kernelRegions (env : Env) (s : Shape) : Except String (List ℚ) :=
  match foldlE (regionVisit env s) [] (List.range s.NumPieces) with
  | .error msg => .error msg
  | .ok regionlist =>
    if regionlist.length / 4 = s.NumPieces - numHoles env s then .ok regionlist
    else .error "CHECK failed: offset == s.NumPieces() - num_holes"

/-- The body of the hole discovery loop (lines 152-158) on the merged shape. -/
def holeVisit (env : Env) (hole_finder : Shape) (hole_points : List RPoint) (i : Nat) :
    Except String (List RPoint) :=
  if ToDouble (env.Area hole_finder i) < 0 then
    match env.AnyPointInPoly (hole_finder.Piece i) (-1) with
    | none => .error "AnyPointInPoly failed"
    | some p => .ok (hole_points ++ [{ (default : RPoint) with p := p }])
  else .ok hole_points

/-- Hole discovery (lines 148-159). -/
def holePoints (env : Env) (s : Shape) : Except String (List RPoint) :=
  foldlE (holeVisit env (env.SetMerge s)) [] (List.range (env.SetMerge s).NumPieces)

/-- `tin.holelist` (lines 280-283). -/
def kernelHolelist (hole_points : List RPoint) : List ℚ :=
  hole_points.flatMap (fun h => [ToDouble h.p.x, ToDouble h.p.y])

/-- The input structure `tin` handed to the kernel (lines 139-283). -/
def kernelInput (env : Env) (s : Shape) : Except String triangulateio :=
  match holePoints env s with
  | .error msg => .error msg
  | .ok hole_points =>
    match kernelSegments s s.pointIndex.point_map with
    | .error msg => .error msg
    | .ok seg =>
      match kernelRegions env s with
      | .error msg => .error msg
      | .ok regionlist =>
        .ok { pointlist := kernelPointlist s s.pointIndex.index_map
              pointmarkerlist := kernelPointmarkerlist s.pointIndex.index_map
              numberofpoints := (s.pointIndex.index_map.length : Int)
              trianglelist := []
              triangleattributelist := none
              neighborlist := []
              numberoftriangles := 0
              numberofcorners := 0
              numberoftriangleattributes := 0
              segmentlist := seg.segmentlist
              segmentmarkerlist := seg.segmentmarkerlist
              numberofsegments := (seg.segmentmarkerlist.length : Int)
              holelist := kernelHolelist hole_points
              numberofholes := (hole_points.length : Int)
              regionlist := regionlist
              numberofregions := (s.NumPieces : Int) - (numHoles env s : Int) }

/-- The option string of the kernel call (lines 303-307). -/
def kernelOptions (longest_edge_permitted : ℚ) : String :=
  if longest_edge_permitted > 0 then "zpAQqun" else "zpAQn"

/-- `(p - q).squaredNorm()` on coordinate values, in `double` arithmetic. -/
def squaredNorm (p q : JetPoint) : ℚ :=
  dadd (dmul (dsub (ToDouble p.x) (ToDouble q.x)) (dsub (ToDouble p.x) (ToDouble q.x)))
    (dmul (dsub (ToDouble p.y) (ToDouble q.y)) (dsub (ToDouble p.y) (ToDouble q.y)))

/-- The body of the loop over output points (lines 312-357): the mesh point made from the
kernel output point `(x, y)` with the given marker. On a segment (`marker < 0`) the distances
`d1, d2` are `float`s, so `d2 - d1` is a `float` subtraction; the product with the `double`
`alpha` and the sum are `double` operations, and the result is converted to the type of
`dist[0]`. When the computed squared length `len2` of the edge is `0`, `alpha` is NaN or an
infinity (see `ddiv`). -/
def interpretPoint (env : Env) (s : Shape) (index_map : List (Nat × Nat)) (x y : ℚ)
    (marker : Int) : Except String RPoint :=
  let pt : RPoint := { (default : RPoint) with p := JetPoint.ofDoubles x y }
  if marker ≥ 2 then
    let upi := marker - 2
    if upi < (index_map.length : Int) then
      let piece := (getI index_map upi).1
      let piece_index := (getI index_map upi).2
      .ok { pt with
        e := ((s.Piece piece).getD piece_index default).e
        original_piece := (piece : Int)
        original_edge := (piece_index : Int) }
    else .error "CHECK failed: upi < index_map.size()"
  else if marker < 0 then
    let upi := -marker - 1
    if upi < (index_map.length : Int) then
      let piece := (getI index_map upi).1
      let piece_index1 := (getI index_map upi).2
      let piece_index2 := (piece_index1 + 1) % (s.Piece piece).length
      let p1 := (s.Piece piece).getD piece_index1 default
      let p2 := (s.Piece piece).getD piece_index2 default
      let shared := env.SharedKind p1.e p2.e
      let d1 := shared.2.1
      let d2 := shared.2.2
      let len1 := squaredNorm pt.p p1.p
      let len2 := squaredNorm p2.p p1.p
      let alpha := env.sqrt (ddiv len1 len2)
      .ok { pt with
        e := { (default : EdgeInfo) with
          kind0 := shared.1, dist0 := env.toDist (dadd (dmul alpha (fsub d2 d1)) d1) }
        original_piece := (piece : Int)
        original_edge := (piece_index1 : Int) }
    else .error "CHECK failed: upi < index_map.size()"
  else if marker = 1 then .error "Internal error, marker==1 found"
  else .ok pt

/-- The loop over output points (lines 310-358). -/
def interpretPoints (env : Env) (s : Shape) (index_map : List (Nat × Nat))
    (tout : triangulateio) : Except String (List RPoint) :=
  foldlE (fun pts i =>
    match interpretPoint env s index_map (tout.pointlist.getD (2 * i) 0)
        (tout.pointlist.getD (2 * i + 1) 0) (tout.pointmarkerlist.getD i 0) with
    | .error msg => .error msg
    | .ok pt => .ok (pts ++ [pt])) [] (List.range tout.numberofpoints.toNat)

/-- The conversion `int polygon_index = attribute` of a `double`: truncation toward zero. -/
def truncInt (q : ℚ) : Int := toInt32 (if 0 ≤ q then ⌊q⌋ else ⌈q⌉)

/-- The body of the loop over output triangles (lines 364-379). -/
def interpretTriangle (s : Shape) (tout : triangulateio) (attributes : List ℚ) (i : Nat) :
    Except String Triangle :=
  let polygon_index := truncInt (attributes.getD i 0)
  if (polygon_index : ℚ) = attributes.getD i 0 then
    if 0 ≤ polygon_index ∧ polygon_index < (s.NumPieces : Int) then
      .ok { material := polygon_index
            index := Int3.ofFn (fun j => tout.trianglelist.getD (i * 3 + j.val) 0)
            neighbor := Int3.ofFn (fun j =>
              tout.neighborlist.getD (i * 3 + (j.val + 2) % 3) 0) }
    else .error "CHECK failed: polygon_index >= 0 && polygon_index < s.NumPieces()"
  else .error "CHECK failed: polygon_index == tout.triangleattributelist[i]"

/-- The three `CHECK`s and the loop over output triangles (lines 359-380). -/
def interpretTriangles (s : Shape) (tout : triangulateio) : Except String (List Triangle) :=
  if tout.numberofcorners = 3 then
    if tout.numberoftriangleattributes = 1 then
      match tout.triangleattributelist with
      | none => .error "CHECK failed: tout.triangleattributelist"
      | some attributes =>
        foldlE (fun tris i =>
          match interpretTriangle s tout attributes i with
          | .error msg => .error msg
          | .ok t => .ok (tris ++ [t])) [] (List.range tout.numberoftriangles.toNat)
    else .error "CHECK failed: tout.numberoftriangleattributes == 1"
  else .error "CHECK failed: tout.numberofcorners == 3"

/-! ### `Mesh::DeterminePointDielectric` (lines 619-692) -/

/-- `mark[i] = true` for a C++ `int` index. -/
def markSet (mark : List Bool) (i : Int) : List Bool :=
  if 0 ≤ i then mark.set i.toNat true else mark

/-- The marks of the points touched by material `i` (lines 640-647). -/
def Mesh.markMaterial (m : Mesh) (i : Nat) : List Bool :=
  m.triangles_.foldl (fun mark t =>
    if t.material = (i : Int) then markSet (markSet (markSet mark (t.index 0)) (t.index 1)) (t.index 2)
    else mark) (List.replicate m.points_.length false)

/-- The points whose mark is set, in increasing index order (lines 661-668). -/
def markedPoints : List Bool → List RPoint → List RPoint
  | mk :: marks, pt :: pts => if mk then pt :: markedPoints marks pts else markedPoints marks pts
  | _, _ => []

/-- The assignment loop of lines 677-688, from counter value `count` on. -/
def assignResults (result0 : List JetNum) (result1 : Option (List JetNum)) :
    Nat → List Bool → List JetComplex → List JetComplex
  | count, mk :: marks, d :: ds =>
    (if mk then
      match result1 with
      | some r1 => (⟨result0.getD count default, r1.getD count default⟩ : JetComplex)
      | none => JetComplex.ofReal (result0.getD count default)
     else d) :: assignResults result0 result1 (count + (if mk then 1 else 0)) marks ds
  | _, _, ds => ds

/-- The loop over materials of lines 634-691, over the remaining material indices; a failed
callback clears the result and returns. -/
def Mesh.dielectricLoop (lua : Lua) (m : Mesh) : List Nat → List JetComplex → List JetComplex
  | [], dielectric => dielectric
  | i :: rest, dielectric =>
    if (m.materials_.getD i default).callback = "" then Mesh.dielectricLoop lua m rest dielectric
    else if 0 < (m.markMaterial i).count true then
      match lua (m.materials_.getD i default).callback
          ((markedPoints (m.markMaterial i) m.points_).map (fun pt => pt.p.x))
          ((markedPoints (m.markMaterial i) m.points_).map (fun pt => pt.p.y)) with
      | none => []
      | some (result0, result1) =>
        Mesh.dielectricLoop lua m rest
          (assignResults result0 result1 0 (m.markMaterial i) dielectric)
    else Mesh.dielectricLoop lua m rest dielectric

/-- `Mesh::DeterminePointDielectric(lua, &dielectric)`: the resulting vector. -/
def Mesh.DeterminePointDielectric (lua : Lua) (m : Mesh) : List JetComplex :=
  if m.materials_.all (fun mat => mat.callback = "") then []
  else Mesh.dielectricLoop lua m (List.range m.materials_.length)
    (List.replicate m.points_.length (JetComplex.ofReal (JetNum.ofDouble 1)))

/-! ### The constructor -/

/-- The mesh members when the constructor returns early: `valid_mesh_` is false and the
vectors are empty. -/
def Mesh.invalid (cell_size : Int) : Mesh :=
  { valid_mesh_ := false, points_ := [], triangles_ := [], materials_ := [],
    cell_size_ := cell_size, spatial_index_ := [], dielectric_ := [] }

/-- `Mesh::Mesh(s, longest_edge_permitted, lua)` (lines 112-401). `cell_size0` is the
indeterminate initial content of the member `cell_size_`, `threshold0` the value of
`square_of_longest_edge_permitted` before the call. The result is the constructed mesh and the
value of `square_of_longest_edge_permitted` after the call; `Except.error` is an abort of the
program (`Panic` or a failed `CHECK`). -/
def Mesh.construct (env : Env) (s : Shape) (longest_edge_permitted : ℚ) (lua : Option Lua)
    (cell_size0 : Int) (threshold0 : ℚ) : Except String (Mesh × ℚ) :=
  match env.GeometryError s with
  | some _ => .ok (Mesh.invalid cell_size0, threshold0)
  | none =>
    if ToDouble (env.SharpestAngle s) < kSharpestAllowableAngle then
      .ok (Mesh.invalid (frexpExp longest_edge_permitted - 2), threshold0)
    else
      match kernelInput env s with
      | .error msg => .error msg
      | .ok tin =>
        match env.triangulate (kernelOptions longest_edge_permitted)
            (triunsuitable (sqr longest_edge_permitted)) tin with
        | none =>
          .ok (Mesh.invalid (frexpExp longest_edge_permitted - 2), sqr longest_edge_permitted)
        | some tout =>
          match interpretPoints env s s.pointIndex.index_map tout with
          | .error msg => .error msg
          | .ok points =>
            match interpretTriangles s tout with
            | .error msg => .error msg
            | .ok triangles =>
              match Mesh.UpdateDerivatives env.sqrt s
                  { valid_mesh_ := true
                    points_ := points
                    triangles_ := triangles
                    materials_ := (List.range s.NumPieces).map s.GetMaterial
                    cell_size_ := frexpExp longest_edge_permitted - 2
                    spatial_index_ := []
                    dielectric_ := [] } with
              | .error msg => .error msg
              | .ok m =>
                match lua with
                | some l =>
                  .ok ({ m with dielectric_ := Mesh.DeterminePointDielectric l m },
                    sqr longest_edge_permitted)
                | none => .ok (m, sqr longest_edge_permitted)

/-! ## Geometry utilities declared in `shape.h` lines 336-343

`shape.cc` is not among the sources. The theorems about `Mesh::FindTriangle` take the two
utilities as parameters; the definitions below follow their declaration comments and are used
to instantiate those theorems on concrete meshes. -/

/-- Twice the signed area of the triangle `(a, b, p)`, on coordinate values. -/
def side (a b p : JetPoint) : ℚ :=
  (ToDouble b.x - ToDouble a.x) * (ToDouble p.y - ToDouble a.y)
    - (ToDouble b.y - ToDouble a.y) * (ToDouble p.x - ToDouble a.x)

/-- The point `p` lies in the closed bounding box of `a, b, c`. -/
def inBounds (p a b c : JetPoint) : Prop :=
  min (min (ToDouble a.x) (ToDouble b.x)) (ToDouble c.x) ≤ ToDouble p.x ∧
  ToDouble p.x ≤ max (max (ToDouble a.x) (ToDouble b.x)) (ToDouble c.x) ∧
  min (min (ToDouble a.y) (ToDouble b.y)) (ToDouble c.y) ≤ ToDouble p.y ∧
  ToDouble p.y ≤ max (max (ToDouble a.y) (ToDouble b.y)) (ToDouble c.y)

instance (p a b c : JetPoint) : Decidable (inBounds p a b c) := by
  unfold inBounds; infer_instance

/-- Modelled from the spec: `shape.cc` is not among the sources; `shape.h` declares
`PointInTriangle` as "Returns 0 if 'p' is not in the triangle defined by a,b,c, +1 if it is,
or -1 if pt is on the triangle boundary". Exact test by the signs of the three edge functions. -/
def PointInTriangle (p a b c : JetPoint) : Int :=
  let d1 := side a b p
  let d2 := side b c p
  let d3 := side c a p
  if ¬ inBounds p a b c then 0
  else if (0 < d1 ∧ 0 < d2 ∧ 0 < d3) ∨ (d1 < 0 ∧ d2 < 0 ∧ d3 < 0) then 1
  else if (0 ≤ d1 ∧ 0 ≤ d2 ∧ 0 ≤ d3) ∨ (d1 ≤ 0 ∧ d2 ≤ 0 ∧ d3 ≤ 0) then -1
  else 0

/-- The line through the edge `a -> b` separates the box from the triangle `(a, b, c)`: the four
box corners lie strictly beyond the range `[min 0 s, max 0 s]` that the edge function takes on
the triangle, `s` being its value at the third vertex `c`. -/
def edgeSeparates (a b c : JetPoint) (xmin xmax ymin ymax : ℚ) : Prop :=
  let s := side a b c
  let f := fun (x y : ℚ) => side a b (JetPoint.ofDoubles x y)
  (max 0 s < f xmin ymin ∧ max 0 s < f xmax ymin ∧ max 0 s < f xmin ymax ∧
      max 0 s < f xmax ymax) ∨
  (f xmin ymin < min 0 s ∧ f xmax ymin < min 0 s ∧ f xmin ymax < min 0 s ∧
      f xmax ymax < min 0 s)

instance (a b c : JetPoint) (xmin xmax ymin ymax : ℚ) :
    Decidable (edgeSeparates a b c xmin xmax ymin ymax) := by
  unfold edgeSeparates; infer_instance

/-- Modelled from the spec: `shape.cc` is not among the sources; `shape.h` declares
`TriangleIntersectsBox` as "Return true if the triangle (p[0],p[1],p[2]) intersects the box".
Exact separating-axis test of the closed triangle against the closed box: the two box axes and
the three edge normals. -/
def TriangleIntersectsBox (a b c : JetPoint) (xmin xmax ymin ymax : ℚ) : Bool :=
  decide (min (min (ToDouble a.x) (ToDouble b.x)) (ToDouble c.x) ≤ xmax) &&
  decide (xmin ≤ max (max (ToDouble a.x) (ToDouble b.x)) (ToDouble c.x)) &&
  decide (min (min (ToDouble a.y) (ToDouble b.y)) (ToDouble c.y) ≤ ymax) &&
  decide (ymin ≤ max (max (ToDouble a.y) (ToDouble b.y)) (ToDouble c.y)) &&
  !decide (edgeSeparates a b c xmin xmax ymin ymax) &&
  !decide (edgeSeparates b c a xmin xmax ymin ymax) &&
  !decide (edgeSeparates c a b xmin xmax ymin ymax)

/-- A containment test reports only points of the triangle's bounding box. -/
def TriTest.InBounds (PIT : TriTest) : Prop :=
  ∀ p a b c, PIT p a b c ≠ 0 → inBounds p a b c

/-- The box test is exact with respect to the containment test: a triangle that contains a
point of the closed box is reported as intersecting the box. -/
def BoxTest.Exact (TIB : BoxTest) (PIT : TriTest) : Prop :=
  ∀ a b c xmin xmax ymin ymax,
    (∃ p : JetPoint, xmin ≤ ToDouble p.x ∧ ToDouble p.x ≤ xmax ∧
      ymin ≤ ToDouble p.y ∧ ToDouble p.y ≤ ymax ∧ PIT p a b c ≠ 0) →
    TIB a b c xmin xmax ymin ymax = true

/-- The spatial index after the lazy build at the head of `Mesh::FindTriangle`. -/
def Mesh.indexAfter (TriangleIntersectsBox : BoxTest) (m : Mesh) : SpatialIndex :=
  if m.spatial_index_.isEmpty then Mesh.buildIndex TriangleIntersectsBox m else m.spatial_index_

/-- The grid coordinates `floor(c / cell)` of the three corners of triangle `t` are 32-bit
signed integers other than `INT_MAX`: they lie in `[-2 ^ 31, 2 ^ 31 - 1)`. -/
def Mesh.InRange (m : Mesh) (t : Nat) : Prop :=
  ∀ j : Fin 3,
    I32Loop ⌊ToDouble (m.corner (m.triangles_.getD t default) j).x / ldexp1 m.cell_size_⌋ ∧
    I32Loop ⌊ToDouble (m.corner (m.triangles_.getD t default) j).y / ldexp1 m.cell_size_⌋

/-- The grid of the mesh is within the range of the machine arithmetic: the cell side is a
positive finite `double`, and for every triangle the quotients of the bounds of its bounding box
by the cell side are exact and the grid coordinates of its corners lie in
`[-2 ^ 31, 2 ^ 31 - 1)`. Then no conversion to `int` is out of range and no loop bound of the
index build is `INT_MAX`. -/
def Mesh.GridInRange (m : Mesh) : Prop :=
  m.CellOK ∧ ∀ i, i < m.triangles_.length → m.InRange i ∧ m.ExactGrid i 0 0

/-- No loop over grid cells of the index build has the upper bound `INT_MAX`: the last grid
column and the last grid row of every triangle differ from `2 ^ 31 - 1`. -/
def Mesh.BuildEnds (m : Mesh) : Prop :=
  ∀ i, i < m.triangles_.length →
    floorInt (ddiv (m.bbox i).2.1 (ldexp1 m.cell_size_)) ≠ 2 ^ 31 - 1 ∧
    floorInt (ddiv (m.bbox i).2.2.2 (ldexp1 m.cell_size_)) ≠ 2 ^ 31 - 1

instance (m : Mesh) : Decidable m.BuildEnds := by unfold Mesh.BuildEnds; infer_instance

/-- `RPoint(JetNum x, JetNum y)` (`shape.h` line 35), on plain coordinates. -/
def RPoint.ofXY (x y : ℚ) : RPoint := ⟨JetPoint.ofDoubles x y, default, -1, -1⟩

/-- Example mesh: the single triangle `(0,0), (1,0), (0,1)` on a grid of cell side `2 ^ 0`. -/
def triMesh : Mesh :=
  { valid_mesh_ := true
    points_ := [RPoint.ofXY 0 0, RPoint.ofXY 1 0, RPoint.ofXY 0 1]
    triangles_ := [⟨⟨0, 1, 2⟩, 0, ⟨-1, -1, -1⟩⟩]
    materials_ := [default]
    cell_size_ := 0
    spatial_index_ := []
    dielectric_ := [] }

/-- Example mesh: a small triangle near `x = 2 ^ 30` on a grid of cell side `2 ^ (-2)` (the
cell size of a mesh built with refinement disabled), so that the grid columns of its corners
are `2 ^ 32` and do not fit in 32 bits. -/
def farMesh : Mesh :=
  { valid_mesh_ := true
    points_ := [RPoint.ofXY (1073741824 + 1 / 20) (1 / 20),
                RPoint.ofXY (1073741824 + 1 / 5) (1 / 20),
                RPoint.ofXY (1073741824 + 1 / 20) (1 / 5)]
    triangles_ := [⟨⟨0, 1, 2⟩, 0, ⟨-1, -1, -1⟩⟩]
    materials_ := [default]
    cell_size_ := -2
    spatial_index_ := []
    dielectric_ := [] }

/-- Example mesh: a triangle whose last grid column is `INT_MAX = 2 ^ 31 - 1`
(`floor(536870911.75 / 0.25) = 2147483647`), on a grid of cell side `2 ^ (-2)`. -/
def maxMesh : Mesh :=
  { valid_mesh_ := true
    points_ := [RPoint.ofXY 536870911 0, RPoint.ofXY (536870911 + 3 / 4) 0,
                RPoint.ofXY 536870911 (1 / 2)]
    triangles_ := [⟨⟨0, 1, 2⟩, 0, ⟨-1, -1, -1⟩⟩]
    materials_ := [default]
    cell_size_ := -2
    spatial_index_ := []
    dielectric_ := [] }

/-- Digit-by-digit integer square root: the largest `r < 2 ^ k` (added to the digits already
fixed) with `r * r ≤ n`. -/
def isqrtBits (n : Nat) : Nat → Nat → Nat
  | 0, r => r
  | k + 1, r => isqrtBits n k (if (r + 2 ^ k) * (r + 2 ^ k) ≤ n then r + 2 ^ k else r)

/-- A concrete rounded square root for the examples: `sqrt q` rounded down to 16 fractional
bits (for `0 ≤ q < 2 ^ 32`). -/
def sqrtRounded (q : ℚ) : ℚ := (isqrtBits (⌊q * 2 ^ 32⌋.toNat) 32 0 : ℚ) / 2 ^ 16

/-- Example shape: the unit square; the `x` coordinates of its first two vertices carry the
derivatives `1` and `3`, the `y` coordinates `5` and `9`. -/
def squareShape : Shape :=
  ⟨[⟨[⟨⟨⟨0, 1⟩, ⟨0, 5⟩⟩, default, -1, -1⟩, ⟨⟨⟨1, 3⟩, ⟨0, 9⟩⟩, default, -1, -1⟩,
      RPoint.ofXY 1 1, RPoint.ofXY 0 1], default⟩]⟩

/-- Example mesh over `squareShape`: a copy of vertex `0`, the midpoint of edge `0`, and an
interior point. -/
def edgeMesh : Mesh :=
  { valid_mesh_ := true
    points_ := [⟨JetPoint.ofDoubles 0 0, default, 0, 0⟩,
                ⟨JetPoint.ofDoubles (1 / 2) 0, default, 0, 0⟩,
                RPoint.ofXY (1 / 2) (1 / 2)]
    triangles_ := [⟨⟨0, 1, 2⟩, 0, ⟨-1, -1, -1⟩⟩]
    materials_ := [default]
    cell_size_ := 0
    spatial_index_ := []
    dielectric_ := [] }

/-- The mesh `edgeMesh` after `UpdateDerivatives(squareShape)`. -/
def edgeMeshUpdated : Mesh :=
  { edgeMesh with
    points_ := [⟨⟨⟨0, 1⟩, ⟨0, 5⟩⟩, default, 0, 0⟩,
                ⟨⟨⟨1 / 2, 2⟩, ⟨0, 7⟩⟩, default, 0, 0⟩,
                RPoint.ofXY (1 / 2) (1 / 2)] }

/-- `squareShape` with the permittivity of its material changed from `1` to `2` (same color,
same callback). -/
def squareShapeEps2 : Shape :=
  ⟨[⟨(squareShape.Piece 0), { (default : Material) with
      epsilon := JetComplex.ofReal (JetNum.ofDouble 2) }⟩]⟩

/-- `squareShape` with a derivative `5` on the permittivity of its material (same color, same
permittivity value, same callback). -/
def squareShapeEpsDeriv : Shape :=
  ⟨[⟨(squareShape.Piece 0), { (default : Material) with
      epsilon := ⟨⟨1, 5⟩, JetNum.ofDouble 0⟩ }⟩]⟩

/-- `Material` with the derivatives of its permittivity overwritten. -/
def Material.setEpsilonDerivative (a : Material) (dre dim : ℚ) : Material :=
  { a with epsilon := ⟨a.epsilon.re.setDerivative dre, a.epsilon.im.setDerivative dim⟩ }

/-- The kernel output for `squareShape` used in the examples: the four input points with
their markers, one extra point on edge `0` (marker `-1`), one interior point (marker `0`), and
two triangles of region `0`. -/
def squareOutput (tin : triangulateio) : triangulateio :=
  { tin with
    pointlist := tin.pointlist ++ [1 / 2, 0, 1 / 2, 1 / 2]
    pointmarkerlist := tin.pointmarkerlist ++ [-1, 0]
    numberofpoints := tin.numberofpoints + 2
    trianglelist := [0, 1, 2, 0, 2, 3]
    triangleattributelist := some [0, 0]
    neighborlist := [-1, 1, -1, -1, -1, 0]
    numberoftriangles := 2
    numberofcorners := 3
    numberoftriangleattributes := 1 }

/-- Example collaborators: every shape is well formed with sharpest angle `3/2`, areas are
`1`, merging is the identity, the interior point of a polygon is `(1/2, 1/2)`, the kernel
answers with `squareOutput` (and fails when the oracle rejects a triangle of side `1/8`),
the square root is `sqrtRounded`, the shared kind of two edge infos is the second slot of
the first with both distances, and the distances of an `EdgeInfo` are `float`s. -/
def exampleEnv : Env :=
  { GeometryError := fun _ => none
    SharpestAngle := fun _ => JetNum.ofDouble (3 / 2)
    Area := fun _ _ => JetNum.ofDouble 1
    SetMerge := fun s => s
    AnyPointInPoly := fun _ _ => some (JetPoint.ofDoubles (1 / 2) (1 / 2))
    triangulate := fun _ oracle tin =>
      if oracle (0, 0) (1 / 8, 0) (0, 1 / 8) 0 = 1 then none else some (squareOutput tin)
    sqrt := sqrtRounded
    SharedKind := fun a b => (a.kind1, a.dist1, b.dist0)
    toDist := roundFloat }

/-- The mesh that `Mesh::Mesh(squareShape, 1/2, NULL)` constructs with `exampleEnv`. -/
def squareMesh : Mesh :=
  { valid_mesh_ := true
    points_ := [⟨⟨⟨0, 1⟩, ⟨0, 5⟩⟩, default, 0, 0⟩, ⟨⟨⟨1, 3⟩, ⟨0, 9⟩⟩, default, 0, 1⟩,
                ⟨⟨⟨1, 0⟩, ⟨1, 0⟩⟩, default, 0, 2⟩, ⟨⟨⟨0, 0⟩, ⟨1, 0⟩⟩, default, 0, 3⟩,
                ⟨⟨⟨1 / 2, 2⟩, ⟨0, 7⟩⟩, default, 0, 0⟩, RPoint.ofXY (1 / 2) (1 / 2)]
    triangles_ := [⟨⟨0, 1, 2⟩, 0, ⟨-1, -1, 1⟩⟩, ⟨⟨0, 2, 3⟩, 0, ⟨0, -1, -1⟩⟩]
    materials_ := [default]
    cell_size_ := -2
    spatial_index_ := []
    dielectric_ := [] }

/-! ## Reading the kernel output -/

/-- The corner `j` of kernel output triangle `i`: `tout.trianglelist[i*3 + j]`. -/
def triangulateio.corner (tout : triangulateio) (i : Nat) (j : Fin 3) : Int :=
  tout.trianglelist.getD (i * 3 + j.val) 0

/-- The neighbor slot `k` of kernel output triangle `i`: `tout.neighborlist[i*3 + k]`. -/
def triangulateio.neighborSlot (tout : triangulateio) (i : Nat) (k : Fin 3) : Int :=
  tout.neighborlist.getD (i * 3 + k.val) 0

/-- The kernel's convention for its adjacency table: neighbor slot `k` of triangle `i` is the
triangle across the edge opposite corner `k`, so a neighbor that exists has the two other
corners of triangle `i` among its own corners. -/
def triangulateio.NeighborOpposite (tout : triangulateio) : Prop :=
  ∀ (i : Nat) (k : Fin 3) (n : Nat), i < tout.numberoftriangles.toNat →
    tout.neighborSlot i k = (n : Int) → n < tout.numberoftriangles.toNat →
    (∃ a : Fin 3, tout.corner n a = tout.corner i (k + 1)) ∧
    (∃ b : Fin 3, tout.corner n b = tout.corner i (k + 2))

/-- The attribute of output triangle `i` is an exact integer `k` with `0 ≤ k < NumPieces`. -/
def Shape.RegionAttribute (s : Shape) (attr : ℚ) : Prop :=
  ∃ k : Int, (k : ℚ) = attr ∧ 0 ≤ k ∧ k < (s.NumPieces : Int)

/-- The kernel input assembled for `squareShape` in the examples. -/
def squareInput : triangulateio :=
  { pointlist := [0, 0, 1, 0, 1, 1, 0, 1]
    pointmarkerlist := [2, 3, 4, 5]
    numberofpoints := 4
    trianglelist := []
    triangleattributelist := none
    neighborlist := []
    numberoftriangles := 0
    numberofcorners := 0
    numberoftriangleattributes := 0
    segmentlist := [0, 1, 1, 2, 2, 3, 3, 0]
    segmentmarkerlist := [-1, -2, -3, -4]
    numberofsegments := 4
    holelist := []
    numberofholes := 0
    regionlist := [1 / 2, 1 / 2, 0, -1]
    numberofregions := 1 }

/-- The squared length of the edge between two kernel vertices. -/
def sqLen (a b : ℚ × ℚ) : ℚ := (a.1 - b.1) ^ 2 + (a.2 - b.2) ^ 2

/-- The largest of the three squared edge lengths of a candidate triangle. -/
def longestSq (v1 v2 v3 : ℚ × ℚ) : ℚ := max (sqLen v1 v2) (max (sqLen v2 v3) (sqLen v3 v1))

/-- The kernel consults the refinement oracle only when its options contain `u`: without it the
result does not depend on the oracle. -/
def Env.OracleOnlyWithU (env : Env) : Prop :=
  ∀ (options : String) (o1 o2 : Oracle) (tin : triangulateio),
    'u' ∉ options.toList → env.triangulate options o1 tin = env.triangulate options o2 tin

/-- The published content of a construction: validity and the point, triangle, material and
dielectric arrays of the mesh. -/
def Mesh.arrays (r : Mesh × ℚ) :
    Bool × List RPoint × List Triangle × List Material × List JetComplex :=
  (r.1.valid_mesh_, r.1.points_, r.1.triangles_, r.1.materials_, r.1.dielectric_)

/-! ## The dielectric pass with its callback invocations recorded -/

/-- A recorded callback invocation: the material index and the vectors of `x` and `y`
coordinates that were pushed to the Lua stack. -/
abbrev LuaCall := Nat × List JetNum × List JetNum

/-- The loop over materials of lines 634-691 as `Mesh.dielectricLoop`, which also records each
`RunCallback` invocation (line 671) in the order made. -/
def Mesh.dielectricRun (lua : Lua) (m : Mesh) :
    List Nat → List JetComplex → List LuaCall × List JetComplex
  | [], dielectric => ([], dielectric)
  | i :: rest, dielectric =>
    if (m.materials_.getD i default).callback = "" then Mesh.dielectricRun lua m rest dielectric
    else if 0 < (m.markMaterial i).count true then
      match lua (m.materials_.getD i default).callback
          ((markedPoints (m.markMaterial i) m.points_).map (fun pt => pt.p.x))
          ((markedPoints (m.markMaterial i) m.points_).map (fun pt => pt.p.y)) with
      | none =>
        ([(i, (markedPoints (m.markMaterial i) m.points_).map (fun pt => pt.p.x),
            (markedPoints (m.markMaterial i) m.points_).map (fun pt => pt.p.y))], [])
      | some (result0, result1) =>
        ((i, (markedPoints (m.markMaterial i) m.points_).map (fun pt => pt.p.x),
            (markedPoints (m.markMaterial i) m.points_).map (fun pt => pt.p.y)) ::
          (Mesh.dielectricRun lua m rest
            (assignResults result0 result1 0 (m.markMaterial i) dielectric)).1,
         (Mesh.dielectricRun lua m rest
            (assignResults result0 result1 0 (m.markMaterial i) dielectric)).2)
    else Mesh.dielectricRun lua m rest dielectric

/-- `Mesh::DeterminePointDielectric(lua, &dielectric)` with the callback invocations it makes:
the invocations in order, and the resulting vector. -/
def Mesh.DeterminePointDielectricRun (lua : Lua) (m : Mesh) : List LuaCall × List JetComplex :=
  if m.materials_.all (fun mat => mat.callback = "") then ([], [])
  else Mesh.dielectricRun lua m (List.range m.materials_.length)
    (List.replicate m.points_.length (JetComplex.ofReal (JetNum.ofDouble 1)))

/-- The outcome of the callback of material `i` on a recorded invocation. -/
def Mesh.callOutcome (lua : Lua) (m : Mesh) (c : LuaCall) :
    Option (List JetNum × Option (List JetNum)) :=
  lua (m.materials_.getD c.1 default).callback c.2.1 c.2.2

/-- Point `j` is a vertex of triangle `t`. -/
def Triangle.hasVertex (t : Triangle) (j : Nat) : Bool :=
  decide (t.index 0 = (j : Int)) || decide (t.index 1 = (j : Int)) ||
    decide (t.index 2 = (j : Int))

/-- Point `j` is a vertex of some triangle of material `i`. -/
def Mesh.touches (m : Mesh) (i j : Nat) : Bool :=
  m.triangles_.any (fun t => decide (t.material = (i : Int)) && t.hasVertex j)

/-- The distinct mesh points that are vertices of some triangle of material `i`, in increasing
point-index order. -/
def Mesh.touchedBy (m : Mesh) (i : Nat) : List Nat :=
  (List.range m.points_.length).filter (m.touches i)

/-- Every triangle vertex is the index of a mesh point. -/
def Mesh.VerticesValid (m : Mesh) : Prop :=
  ∀ t ∈ m.triangles_, ∀ k : Fin 3, 0 ≤ t.index k ∧ t.index k < (m.points_.length : Int)

/-- The value assigned from result element `k`: the complex value `(result0[k], result1[k])`
when two result vectors were returned, the scalar `result0[k]` when one was. -/
def resultValue (result0 : List JetNum) (result1 : Option (List JetNum)) (k : Nat) :
    JetComplex :=
  match result1 with
  | some r1 => ⟨result0.getD k default, r1.getD k default⟩
  | none => JetComplex.ofReal (result0.getD k default)

/-- Some material has a callback identifier. -/
def Mesh.haveCallbacks (m : Mesh) : Prop := ∃ mat ∈ m.materials_, mat.callback ≠ ""

/-- Point `j` is a vertex of a triangle whose material has a callback. -/
def Mesh.touchedByCallback (m : Mesh) (j : Nat) : Prop :=
  ∃ i, i < m.materials_.length ∧ (m.materials_.getD i default).callback ≠ "" ∧
    m.touches i j = true

/-- Example: `squareMesh` with a callback `"eps"` on its only material. -/
def squareMeshCallback : Mesh :=
  { squareMesh with materials_ := [{ (default : Material) with callback := "eps" }] }

/-- Example Lua state: the callback `"eps"` returns the `x` coordinates as real part and the
`y` coordinates as imaginary part; every other identifier fails. -/
def exampleLua : Lua := fun name x y => if name = "eps" then some (x, some y) else none

/-- Example Lua state in which every callback fails. -/
def failingLua : Lua := fun _ _ _ => none

/-- The invocation expected for material `i`: the coordinates of the points of
`Mesh.touchedBy`, in that order. -/
def Mesh.callArgs (m : Mesh) (i : Nat) : LuaCall :=
  (i, (m.touchedBy i).map (fun j => (m.points_.getD j default).p.x),
    (m.touchedBy i).map (fun j => (m.points_.getD j default).p.y))

/-- Example: the points of `squareMesh` with three triangles of materials 0, 1 and 2, whose
callbacks are `"eps"`, `"bad"` and `"eps"`. -/
def threeMaterialMesh : Mesh :=
  { squareMesh with
    triangles_ := [⟨⟨0, 1, 2⟩, 0, ⟨-1, -1, 1⟩⟩, ⟨⟨0, 2, 3⟩, 1, ⟨0, -1, -1⟩⟩,
                   ⟨⟨3, 4, 5⟩, 2, ⟨-1, -1, -1⟩⟩]
    materials_ := [{ (default : Material) with callback := "eps" },
                   { (default : Material) with callback := "bad" },
                   { (default : Material) with callback := "eps" }] }

/-! ## Reference description of the point and segment indexes -/

/-- The boundary points `(i, j)` of a shape in scan order: pieces in order, points within a
piece in order. -/
def Shape.boundary (s : Shape) : List (Nat × Nat) :=
  (List.range s.NumPieces).flatMap (fun i =>
    (List.range (s.Piece i).length).map (fun j => (i, j)))

/-- The exact coordinate pair of the boundary point `(i, j)`. -/
def Shape.coords (s : Shape) (ij : Nat × Nat) : ℚ × ℚ := (s.vertex ij).p.key

/-- The first occurrences, in order, of the distinct values of `key` in a list: an element is
kept, and the later elements with its key are dropped. -/
def firstOccurrences {α κ : Type} [DecidableEq κ] (key : α → κ) : List α → List α
  | [] => []
  | a :: rest => a :: (firstOccurrences key rest).filter (fun b => decide (key b ≠ key a))

/-- The first occurrences of the distinct coordinate pairs among the boundary points. -/
def Shape.firstPoints (s : Shape) : List (Nat × Nat) := firstOccurrences s.coords s.boundary

/-- The position of the first element of a list that equals `k` (the length of the list if
there is none). -/
def positionOf {κ : Type} [DecidableEq κ] (k : κ) : List κ → Nat
  | [] => 0
  | a :: rest => if a = k then 0 else positionOf k rest + 1

/-- The unique point index of a boundary point by its description: the position, among the
first occurrences, of the one with its coordinates. -/
def Shape.UPI (s : Shape) (ij : Nat × Nat) : Nat :=
  positionOf (s.coords ij) (s.firstPoints.map s.coords)

/-- The boundary point that follows `(i, j)` on its piece: `(i, (j + 1) mod size)`. -/
def Shape.next (s : Shape) (ij : Nat × Nat) : Nat × Nat :=
  (ij.1, (ij.2 + 1) % (s.Piece ij.1).length)

/-- The ordered pairs (UPI of point `j`, UPI of point `(j + 1) mod size`) of all boundary
edges, in scan order. -/
def Shape.edges (s : Shape) : List (Nat × Nat) :=
  s.boundary.map (fun ij => (s.UPI ij, s.UPI (s.next ij)))

/-- The distinct ordered pairs of `Shape.edges`, in order of first occurrence. -/
def Shape.firstEdges (s : Shape) : List (Nat × Nat) := firstOccurrences id s.edges

/-- The effect of the segment loop body (lines 240-246) for an edge whose end points have the
UPIs `e`. -/
def SegmentState.emit (st : SegmentState) (e : Nat × Nat) : SegmentState :=
  if e ∈ st.segment_map then st
  else { segment_map := e :: st.segment_map
         segmentlist := st.segmentlist ++ [(e.1 : Int), (e.2 : Int)]
         segmentmarkerlist := st.segmentmarkerlist ++ [-1 - (e.1 : Int)] }

/-- Example shape: the unit square and the triangle `(1,0), (2,0), (1,1)` beside it; the
triangle traverses the shared edge against the direction of the square. -/
def twoPieceShape : Shape :=
  ⟨[⟨[RPoint.ofXY 0 0, RPoint.ofXY 1 0, RPoint.ofXY 1 1, RPoint.ofXY 0 1], default⟩,
    ⟨[RPoint.ofXY 1 0, RPoint.ofXY 2 0, RPoint.ofXY 1 1], default⟩]⟩

/-! ## Reference descriptions for the kernel regions and the point markers -/

/-- The pieces that are not holes, in increasing order: those whose signed area is not
negative. -/
def Shape.nonHoles (env : Env) (s : Shape) : List Nat :=
  (List.range s.NumPieces).filter (fun i => decide (¬ ToDouble (env.Area s i) < 0))

/-- The interior seed point that `AnyPointInPoly` finds for piece `i` (lines 263-268): the
piece together with the points of all holes, and the size of the piece. -/
def regionSeed (env : Env) (s : Shape) (i : Nat) : Option JetPoint :=
  env.AnyPointInPoly (s.Piece i ++ holePieces env s) ((s.Piece i).length : Int)

/-- The region entry `x, y, attribute, area` of piece `i`: the seed point, the piece index and
`-1`. -/
def regionEntry (env : Env) (s : Shape) (i : Nat) : List ℚ :=
  match regionSeed env s i with
  | some p => [ToDouble p.x, ToDouble p.y, (i : ℚ), -1]
  | none => []

/-- The region list by its description: one entry per piece that is not a hole, in piece
order. -/
def regionEntries (env : Env) (s : Shape) : List ℚ :=
  (s.nonHoles env).flatMap (regionEntry env s)

/-- The UPI that the output loop decodes from a marker (`marker - 2` for a copied point,
`-marker - 1` for a point on a segment) is below `n`; markers `0` and `1` decode nothing. -/
def markerInRange (n : Nat) (marker : Int) : Prop :=
  (2 ≤ marker → marker - 2 < (n : Int)) ∧ (marker < 0 → -marker - 1 < (n : Int))

instance (n : Nat) (marker : Int) : Decidable (markerInRange n marker) := by
  unfold markerInRange; infer_instance

/-- Example collaborators: as `exampleEnv`, with piece 0 of every shape of negative area (a
hole). -/
def holeEnv : Env :=
  { exampleEnv with Area := fun _ i => JetNum.ofDouble (if i = 0 then -1 else 1) }

/-- Example shape: the unit square whose edge from vertex 0 to vertex 1 is a port of kind 5:
slot 1 of vertex 0 and slot 0 of vertex 1 hold the kind. -/
def portShape : Shape :=
  ⟨[⟨[⟨JetPoint.ofDoubles 0 0, ⟨0, 5, 0, 0⟩, -1, -1⟩,
      ⟨JetPoint.ofDoubles 1 0, ⟨5, 0, 0, 0⟩, -1, -1⟩,
      RPoint.ofXY 1 1, RPoint.ofXY 0 1], default⟩]⟩

/-- Example shape: the two pieces of `twoPieceShape` painted with different materials, so that
they stay unmerged and share the points `(1, 0)` and `(1, 1)`. -/
def paintedShape : Shape :=
  ⟨[⟨twoPieceShape.Piece 0, default⟩,
    ⟨twoPieceShape.Piece 1, { (default : Material) with color := 255 }⟩]⟩

/-- Example: the points of `squareMesh` with the triangle `(0, 1, 2)` of material 0 (callback
`"one"`) and the triangle `(0, 2, 3)` of material 1 (callback `"eps"`); points 0 and 2 are
shared by the two materials. -/
def twoCallbackMesh : Mesh :=
  { squareMesh with
    triangles_ := [⟨⟨0, 1, 2⟩, 0, ⟨-1, -1, 1⟩⟩, ⟨⟨0, 2, 3⟩, 1, ⟨0, -1, -1⟩⟩]
    materials_ := [{ (default : Material) with callback := "one" },
                   { (default : Material) with callback := "eps" }] }

/-- Example Lua state: `"one"` returns the single vector of sevens, `"eps"` returns the `x`
coordinates as real part and the `y` coordinates as imaginary part. -/
def twoLua : Lua := fun name x y =>
  if name = "one" then some (x.map (fun _ => JetNum.ofDouble 7), none)
  else if name = "eps" then some (x, some y) else none

/-- The provenance of a mesh point is `(-1, -1)` or a pair `(piece, edge)` with
`0 ≤ piece < s.NumPieces()` and `0 ≤ edge <` the size of that piece. -/
def RPoint.ProvenanceValid (s : Shape) (pt : RPoint) : Prop :=
  (pt.original_piece = -1 ∧ pt.original_edge = -1) ∨
  (0 ≤ pt.original_piece ∧ pt.ProvenanceInRange s)

instance (s : Shape) (pt : RPoint) : Decidable (pt.ProvenanceValid s) := by
  unfold RPoint.ProvenanceValid; infer_instance

/-- Example mesh on a grid of cell side `2 ^ (-2)`: the wide triangle `(0,0), (2^29,0), (0,1)`
(number 0), whose last grid column `2 ^ 31` does not fit in 32 bits, and its neighbor
`(0,0), (0,1), (-1,0)` (number 1) across the edge from `(0,0)` to `(0,1)`. -/
def wideMesh : Mesh :=
  { valid_mesh_ := true
    points_ := [RPoint.ofXY 0 0, RPoint.ofXY 536870912 0, RPoint.ofXY 0 1, RPoint.ofXY (-1) 0]
    triangles_ := [⟨⟨0, 1, 2⟩, 0, ⟨-1, -1, 1⟩⟩, ⟨⟨0, 2, 3⟩, 0, ⟨0, -1, -1⟩⟩]
    materials_ := [default]
    cell_size_ := -2
    spatial_index_ := []
    dielectric_ := [] }

/-- Example collaborators whose kernel keeps the contract of the `-u` switch: as `exampleEnv`,
but the kernel calls the oracle back only when its options contain `u`. -/
def contractEnv : Env :=
  { exampleEnv with
    triangulate := fun options oracle tin =>
      if 'u' ∈ options.toList ∧ oracle (0, 0) (1 / 8, 0) (0, 1 / 8) 0 = 1 then none
      else some (squareOutput tin) }

/-- The squared length of the edge between two kernel vertices as `triunsuitable` computes it:
the differences, the squares and the sum are `double` operations. -/
def sqLenD (a b : ℚ × ℚ) : ℚ :=
  dadd (dmul (dsub a.1 b.1) (dsub a.1 b.1)) (dmul (dsub a.2 b.2) (dsub a.2 b.2))

/-- The largest of the three computed squared edge lengths of a candidate triangle. -/
def longestSqD (v1 v2 v3 : ℚ × ℚ) : ℚ :=
  max (sqLenD v1 v2) (max (sqLenD v2 v3) (sqLenD v3 v1))

/-- Example target edge length: the `double` `1153866101 / 2 ^ 30`, the hypotenuse of the
right triangle with legs `279828051 / 2 ^ 30` and `1119420940 / 2 ^ 30`. -/
def hypotenuseLength : ℚ := 1153866101 / 1073741824

/-- Example vertex: the apex `(279828051 / 2 ^ 30, 1119420940 / 2 ^ 30)` of that right
triangle, whose other two vertices are `(279828051 / 2 ^ 30, 0)` and `(0, 0)`. -/
def hypotenuseApex : ℚ × ℚ := (279828051 / 1073741824, 1119420940 / 1073741824)

/-- Example shape: the unit square whose vertex `0` holds the distance `dist[1] = 1` and the
kind `kind[1] = 5`, and whose vertex `1` holds the distance `dist[0] = 2 ^ (-30)`; both
distances are `float`s. -/
def floatShape : Shape :=
  ⟨[⟨[⟨JetPoint.ofDoubles 0 0, ⟨0, 5, 0, 1⟩, -1, -1⟩,
      ⟨JetPoint.ofDoubles 1 0, ⟨0, 0, 1 / 1073741824, 0⟩, -1, -1⟩,
      RPoint.ofXY 1 1, RPoint.ofXY 0 1], default⟩]⟩

/-- Example shape: the unit square whose first two vertices carry the `x` derivatives `1` and
`2 ^ (-60)`. -/
def roundShape : Shape :=
  ⟨[⟨[⟨⟨⟨0, 1⟩, ⟨0, 0⟩⟩, default, -1, -1⟩,
      ⟨⟨⟨1, 1 / 1152921504606846976⟩, ⟨0, 0⟩⟩, default, -1, -1⟩,
      RPoint.ofXY 1 1, RPoint.ofXY 0 1], default⟩]⟩

/-- Example mesh over `roundShape`: the midpoint `(1/2, 0)` of edge `0`. -/
def roundMesh : Mesh :=
  { valid_mesh_ := true
    points_ := [⟨JetPoint.ofDoubles (1 / 2) 0, default, 0, 0⟩]
    triangles_ := []
    materials_ := [default]
    cell_size_ := 0
    spatial_index_ := []
    dielectric_ := [] }

/-! ## Auxiliary lemmas: loops, 32-bit integers, the association list -/

/-! ### Floating-point rounding -/

/-- No digits in zero. -/
theorem bitLength_zero (fuel : Nat) : bitLength fuel 0 = 0 := by
  cases fuel <;> simp [bitLength]

/-- `bitLength n n` is the number of binary digits of `n`. -/
theorem bitLength_spec (fuel n : Nat) (h : n ≤ fuel) (hn : 0 < n) :
    2 ^ (bitLength fuel n - 1) ≤ n ∧ n < 2 ^ bitLength fuel n := by
  induction fuel generalizing n with
  | zero => omega
  | succ fuel ih =>
    have hne : n ≠ 0 := by omega
    simp only [bitLength, if_neg hne]
    by_cases h2 : n / 2 = 0
    · rw [h2, bitLength_zero]
      have : n = 1 := by omega
      subst this
      simp
    · have hpos : 0 < n / 2 := Nat.pos_of_ne_zero h2
      obtain ⟨a, b⟩ := ih (n / 2) (by omega) hpos
      have hb : 0 < bitLength fuel (n / 2) := by
        by_contra hc
        have : bitLength fuel (n / 2) = 0 := by omega
        rw [this] at b
        simp at b
        omega
      have e1 : bitLength fuel (n / 2) + 1 - 1 = (bitLength fuel (n / 2) - 1) + 1 := by omega
      rw [e1, pow_succ, pow_succ]
      constructor <;> omega

/-- `floorLog2 q` is the exponent of `q`: `2 ^ e ≤ q < 2 ^ (e + 1)`. -/
theorem floorLog2_spec (q : ℚ) (hq : 0 < q) :
    (2 : ℚ) ^ floorLog2 q ≤ q ∧ q < (2 : ℚ) ^ (floorLog2 q + 1) := by
  have hnum : 0 < q.num := Rat.num_pos.mpr hq
  have ha : 0 < q.num.natAbs := Int.natAbs_pos.mpr (ne_of_gt hnum)
  have hb : 0 < q.den := q.den_pos
  obtain ⟨a1, a2⟩ := bitLength_spec q.num.natAbs q.num.natAbs le_rfl ha
  obtain ⟨b1, b2⟩ := bitLength_spec q.den q.den le_rfl hb
  have hla : 0 < bitLength q.num.natAbs q.num.natAbs := by
    by_contra hc
    have : bitLength q.num.natAbs q.num.natAbs = 0 := by omega
    rw [this, pow_zero] at a2
    omega
  have hlb : 0 < bitLength q.den q.den := by
    by_contra hc
    have : bitLength q.den q.den = 0 := by omega
    rw [this, pow_zero] at b2
    omega
  have hqa : q = (q.num.natAbs : ℚ) / (q.den : ℚ) := by
    have h1 : (q.num.natAbs : ℚ) = (q.num : ℚ) := by
      rw [Nat.cast_natAbs, abs_of_pos hnum]
    rw [h1]
    exact (Rat.num_div_den q).symm
  have hbq : (0 : ℚ) < (q.den : ℚ) := by exact_mod_cast hb
  -- bounds on numerator and denominator as rationals
  have A1 : (2 : ℚ) ^ (bitLength q.num.natAbs q.num.natAbs - 1) ≤ (q.num.natAbs : ℚ) := by
    exact_mod_cast a1
  have A2 : (q.num.natAbs : ℚ) < (2 : ℚ) ^ bitLength q.num.natAbs q.num.natAbs := by
    exact_mod_cast a2
  have B1 : (2 : ℚ) ^ (bitLength q.den q.den - 1) ≤ (q.den : ℚ) := by exact_mod_cast b1
  have B2 : (q.den : ℚ) < (2 : ℚ) ^ bitLength q.den q.den := by exact_mod_cast b2
  -- the candidate exponent
  have hup : q < (2 : ℚ) ^ (((bitLength q.num.natAbs q.num.natAbs : Int)
      - (bitLength q.den q.den : Int)) + 1) := by
    have e : (2 : ℚ) ^ (((bitLength q.num.natAbs q.num.natAbs : Int)
        - (bitLength q.den q.den : Int)) + 1)
        = (2 : ℚ) ^ bitLength q.num.natAbs q.num.natAbs
          / (2 : ℚ) ^ (bitLength q.den q.den - 1) := by
      rw [eq_div_iff (by positivity), ← zpow_natCast, ← zpow_natCast, ← zpow_add₀ (by norm_num)]
      congr 1
      have : ((bitLength q.den q.den - 1 : Nat) : Int) = (bitLength q.den q.den : Int) - 1 := by
        omega
      rw [this]
      ring
    rw [e]
    refine lt_of_eq_of_lt hqa ?_
    rw [div_lt_div_iff₀ hbq (by positivity)]
    calc (q.num.natAbs : ℚ) * (2 : ℚ) ^ (bitLength q.den q.den - 1)
        ≤ (q.num.natAbs : ℚ) * (q.den : ℚ) := by
          apply mul_le_mul_of_nonneg_left B1
          positivity
      _ < (2 : ℚ) ^ bitLength q.num.natAbs q.num.natAbs * (q.den : ℚ) := by
          apply mul_lt_mul_of_pos_right A2 hbq
  have hlo : (2 : ℚ) ^ (((bitLength q.num.natAbs q.num.natAbs : Int)
      - (bitLength q.den q.den : Int)) - 1) ≤ q := by
    have e : (2 : ℚ) ^ (((bitLength q.num.natAbs q.num.natAbs : Int)
        - (bitLength q.den q.den : Int)) - 1)
        = (2 : ℚ) ^ (bitLength q.num.natAbs q.num.natAbs - 1)
          / (2 : ℚ) ^ bitLength q.den q.den := by
      rw [eq_div_iff (by positivity), ← zpow_natCast, ← zpow_natCast, ← zpow_add₀ (by norm_num)]
      congr 1
      have : ((bitLength q.num.natAbs q.num.natAbs - 1 : Nat) : Int)
          = (bitLength q.num.natAbs q.num.natAbs : Int) - 1 := by omega
      rw [this]
      ring
    rw [e]
    refine le_of_le_of_eq ?_ hqa.symm
    rw [div_le_div_iff₀ (by positivity) hbq]
    calc (2 : ℚ) ^ (bitLength q.num.natAbs q.num.natAbs - 1) * (q.den : ℚ)
        ≤ (q.num.natAbs : ℚ) * (q.den : ℚ) := by
          apply mul_le_mul_of_nonneg_right A1 hbq.le
      _ ≤ (q.num.natAbs : ℚ) * (2 : ℚ) ^ bitLength q.den q.den := by
          apply mul_le_mul_of_nonneg_left B2.le
          positivity
  unfold floorLog2
  simp only
  by_cases hc : (2 : ℚ) ^ ((bitLength q.num.natAbs q.num.natAbs : Int)
      - (bitLength q.den q.den : Int)) ≤ q
  · rw [if_pos hc]
    exact ⟨hc, hup⟩
  · rw [if_neg hc]
    refine ⟨hlo, ?_⟩
    rw [sub_add_cancel]
    exact not_le.mp hc

/-- The integer rounding moves a value by at most one half. -/
theorem roundHalfEven_near (x : ℚ) : |(roundHalfEven x : ℚ) - x| ≤ 1 / 2 := by
  unfold roundHalfEven
  have h1 := Int.floor_le x
  have h2 := Int.lt_floor_add_one x
  by_cases c1 : x - ⌊x⌋ < 1 / 2
  · rw [if_pos c1, abs_le]
    constructor <;> linarith
  · rw [if_neg c1]
    by_cases c2 : 1 / 2 < x - ⌊x⌋
    · rw [if_pos c2, abs_le]
      push_cast
      constructor <;> linarith
    · rw [if_neg c2]
      have e : x - ⌊x⌋ = 1 / 2 := le_antisymm (not_lt.mp c2) (not_lt.mp c1)
      by_cases c3 : ⌊x⌋ % 2 = 0
      · rw [if_pos c3, abs_le]
        constructor <;> linarith
      · rw [if_neg c3, abs_le]
        push_cast
        constructor <;> linarith

/-- The rounding is to a nearest multiple of the unit in the last place: it is an integer
multiple of that unit, at most half a unit away. -/
theorem roundBinary_near (p : Nat) (emin : Int) (q : ℚ) (hq : q ≠ 0) :
    (∃ n : Int, roundBinary p emin q
      = (n : ℚ) * (2 : ℚ) ^ (max (floorLog2 |q|) emin - ((p : Int) - 1))) ∧
    |roundBinary p emin q - q|
      ≤ (2 : ℚ) ^ (max (floorLog2 |q|) emin - ((p : Int) - 1)) / 2 := by
  unfold roundBinary
  rw [if_neg hq]
  simp only
  have hu : (0 : ℚ) < (2 : ℚ) ^ (max (floorLog2 |q|) emin - ((p : Int) - 1)) :=
    zpow_pos (by norm_num) _
  refine ⟨⟨_, rfl⟩, ?_⟩
  have hn := roundHalfEven_near (q / (2 : ℚ) ^ (max (floorLog2 |q|) emin - ((p : Int) - 1)))
  have e : (roundHalfEven (q / (2 : ℚ) ^ (max (floorLog2 |q|) emin - ((p : Int) - 1))) : ℚ)
      * (2 : ℚ) ^ (max (floorLog2 |q|) emin - ((p : Int) - 1)) - q
      = ((roundHalfEven (q / (2 : ℚ) ^ (max (floorLog2 |q|) emin - ((p : Int) - 1))) : ℚ)
          - q / (2 : ℚ) ^ (max (floorLog2 |q|) emin - ((p : Int) - 1)))
        * (2 : ℚ) ^ (max (floorLog2 |q|) emin - ((p : Int) - 1)) := by
    field_simp
  rw [e, abs_mul, abs_of_pos hu]
  calc _ ≤ 1 / 2 * (2 : ℚ) ^ (max (floorLog2 |q|) emin - ((p : Int) - 1)) :=
        mul_le_mul_of_nonneg_right hn hu.le
    _ = _ := by ring

theorem roundHalfEven_neg (q : ℚ) : roundHalfEven (-q) = -roundHalfEven q := by
  unfold roundHalfEven
  by_cases hint : (⌊q⌋ : ℚ) = q
  · have h1 : ⌊-q⌋ = -⌊q⌋ := by
      rw [← hint, ← Int.cast_neg, Int.floor_intCast, Int.floor_intCast]
    have h2 : q - ⌊q⌋ = 0 := by rw [hint]; ring
    have h3 : -q - ((-⌊q⌋ : Int) : ℚ) = 0 := by push_cast; rw [hint]; ring
    rw [h1, h3, h2]
    norm_num
  · have hlt : (⌊q⌋ : ℚ) < q := lt_of_le_of_ne (Int.floor_le q) hint
    have hlt2 : q < ⌊q⌋ + 1 := Int.lt_floor_add_one q
    have h1 : ⌊-q⌋ = -⌊q⌋ - 1 := by
      rw [Int.floor_eq_iff]
      push_cast
      constructor <;> linarith
    rw [h1]
    have h3 : -q - ((-⌊q⌋ - 1 : Int) : ℚ) = 1 - (q - ⌊q⌋) := by push_cast; ring
    rw [h3]
    by_cases c1 : q - ⌊q⌋ < 1 / 2
    · have c2 : ¬ (1 - (q - (⌊q⌋ : ℚ)) < 1 / 2) := by linarith
      have c3 : 1 / 2 < 1 - (q - (⌊q⌋ : ℚ)) := by linarith
      rw [if_pos c1, if_neg c2, if_pos c3]
      ring
    · by_cases c4 : 1 / 2 < q - ⌊q⌋
      · have c5 : 1 - (q - (⌊q⌋ : ℚ)) < 1 / 2 := by linarith
        rw [if_neg c1, if_pos c4, if_pos c5]
        ring
      · have c6 : ¬ (1 - (q - (⌊q⌋ : ℚ)) < 1 / 2) := by linarith
        have c7 : ¬ (1 / 2 < 1 - (q - (⌊q⌋ : ℚ))) := by linarith
        rw [if_neg c1, if_neg c4, if_neg c6, if_neg c7]
        by_cases c8 : ⌊q⌋ % 2 = 0
        · have c9 : ¬ ((-⌊q⌋ - 1) % 2 = 0) := by omega
          rw [if_pos c8, if_neg c9]
          ring
        · have c9 : (-⌊q⌋ - 1) % 2 = 0 := by omega
          rw [if_neg c8, if_pos c9]
          ring

theorem roundBinary_neg (p : Nat) (emin : Int) (q : ℚ) :
    roundBinary p emin (-q) = -roundBinary p emin q := by
  unfold roundBinary
  by_cases h : q = 0
  · simp [h]
  · have h2 : ¬ (-q = 0) := by simpa using h
    rw [if_neg h, if_neg h2, abs_neg]
    simp only
    rw [neg_div, roundHalfEven_neg]
    push_cast
    ring

theorem roundDouble_neg (q : ℚ) : roundDouble (-q) = -roundDouble q :=
  roundBinary_neg 53 (-1022) q

theorem roundDouble_zero : roundDouble 0 = 0 := rfl

theorem roundDouble_one : roundDouble 1 = 1 := by decide!

theorem dsub_comm (a b : ℚ) : dsub a b = -dsub b a := by
  unfold dsub
  rw [← roundDouble_neg]
  congr 1
  ring

theorem dsub_self (a : ℚ) : dsub a a = 0 := by
  unfold dsub
  rw [sub_self]
  rfl

theorem dmul_neg_neg (a : ℚ) : dmul (-a) (-a) = dmul a a := by
  unfold dmul
  congr 1
  ring

theorem dmul_zero_left (a : ℚ) : dmul 0 a = 0 := by
  unfold dmul
  rw [zero_mul]
  rfl

theorem dmul_one_left (a : ℚ) (h : IsDouble a) : dmul 1 a = a := by
  unfold dmul
  rw [one_mul]
  exact h

theorem dadd_zero_right (a : ℚ) (h : IsDouble a) : dadd a 0 = a := by
  unfold dadd
  rw [add_zero]
  exact h

theorem ddiv_zero_left (b : ℚ) : ddiv 0 b = 0 := by
  unfold ddiv
  rw [zero_div]
  rfl


theorem foldl_inv {α β : Type} (Q : β → Prop) (f : β → α → β) (l : List α) (b : β)
    (hb : Q b) (hf : ∀ b a, a ∈ l → Q b → Q (f b a)) : Q (l.foldl f b) := by
  induction l generalizing b with
  | nil => simpa using hb
  | cons a tl ih =>
    simp only [List.foldl_cons]
    apply ih
    · exact hf b a (List.mem_cons_self _ _) hb
    · intro b' a' ha' hb'
      exact hf b' a' (List.mem_cons_of_mem _ ha') hb'

theorem foldl_reach {α β : Type} (f : β → α → β) (R : α → β → Prop) (l : List α)
    (hstep : ∀ b a, a ∈ l → R a (f b a))
    (hmono : ∀ b a a', R a' b → R a' (f b a)) :
    ∀ (b : β) (a : α), a ∈ l → R a (l.foldl f b) := by
  induction l with
  | nil => intro b a ha; cases ha
  | cons c tl ih =>
    intro b a ha
    simp only [List.foldl_cons]
    rcases List.mem_cons.mp ha with h | h
    · subst h
      apply foldl_inv (R a) f tl (f b a)
      · exact hstep b a (List.mem_cons_self _ _)
      · intro b' a' _ hb'
        exact hmono b' a' a hb'
    · exact ih (fun b' a' ha' => hstep b' a' (List.mem_cons_of_mem _ ha')) (f b c) a h

theorem mem_loopRange (lo hi z : Int) : z ∈ loopRange lo hi ↔ lo ≤ z ∧ z ≤ hi := by
  unfold loopRange
  simp only [List.mem_map, List.mem_range]
  constructor
  · rintro ⟨k, hk, rfl⟩
    have := Int.lt_toNat.mp hk
    constructor <;> omega
  · rintro ⟨h1, h2⟩
    have h3 : ((z - lo).toNat : Int) = z - lo := Int.toNat_of_nonneg (by omega)
    refine ⟨(z - lo).toNat, ?_, ?_⟩
    · apply Int.lt_toNat.mpr
      omega
    · omega

theorem toInt32_I32 (z : Int) : I32 (toInt32 z) := by
  unfold I32 toInt32
  constructor <;> omega

theorem toInt32_of_I32 (z : Int) (h : I32 z) : toInt32 z = z := by
  unfold I32 at h
  unfold toInt32
  omega

theorem toUInt32_lt (z : Int) : toUInt32 z < 2 ^ 32 := by
  unfold toUInt32
  omega

theorem toUInt32_inj (a b : Int) (ha : I32 a) (hb : I32 b) (h : toUInt32 a = toUInt32 b) :
    a = b := by
  unfold I32 at ha hb
  unfold toUInt32 at h
  omega

theorem GridIndex_eq_add (ix iy : Int) :
    GridIndex ix iy = 2 ^ 32 * toUInt32 ix + toUInt32 iy := by
  unfold GridIndex
  rw [Nat.shiftLeft_eq, Nat.mul_comm, ← Nat.mul_add_lt_is_or (toUInt32_lt iy)]

theorem GridIndex_inj (ix iy jx jy : Int) (h1 : I32 ix) (h2 : I32 iy) (h3 : I32 jx)
    (h4 : I32 jy) (h : GridIndex ix iy = GridIndex jx jy) : ix = jx ∧ iy = jy := by
  rw [GridIndex_eq_add, GridIndex_eq_add] at h
  have a1 := toUInt32_lt iy
  have a2 := toUInt32_lt jy
  have e1 : toUInt32 ix = toUInt32 jx := by omega
  have e2 : toUInt32 iy = toUInt32 jy := by omega
  exact ⟨toUInt32_inj _ _ h1 h3 e1, toUInt32_inj _ _ h2 h4 e2⟩

theorem SpatialIndex.find_push (idx : SpatialIndex) (key i k : Nat) :
    SpatialIndex.find (SpatialIndex.push idx key i) k =
      if k = key then some ((SpatialIndex.find idx key).getD [] ++ [i])
      else SpatialIndex.find idx k := by
  induction idx with
  | nil =>
    by_cases h : k = key
    · simp [SpatialIndex.push, SpatialIndex.find, h]
    · have h' : ¬ key = k := fun e => h e.symm
      simp [SpatialIndex.push, SpatialIndex.find, h, h']
  | cons hd tl ih =>
    obtain ⟨k0, v0⟩ := hd
    by_cases h0 : k0 = key
    · by_cases h : k = key
      · simp [SpatialIndex.push, SpatialIndex.find, h0, h]
      · have h' : ¬ key = k := fun e => h e.symm
        simp [SpatialIndex.push, SpatialIndex.find, h0, h, h']
    · by_cases h : k = key
      · subst h
        simp [SpatialIndex.push, SpatialIndex.find, h0, ih]
      · simp [SpatialIndex.push, SpatialIndex.find, h0, h, ih]

theorem SpatialIndex.lists_push_self (idx : SpatialIndex) (key i : Nat) :
    SpatialIndex.Lists (SpatialIndex.push idx key i) key i := by
  refine ⟨(SpatialIndex.find idx key).getD [] ++ [i], ?_, ?_⟩
  · rw [SpatialIndex.find_push, if_pos rfl]
  · simp

theorem SpatialIndex.lists_push_mono (idx : SpatialIndex) (key i k t : Nat)
    (h : SpatialIndex.Lists idx k t) : SpatialIndex.Lists (SpatialIndex.push idx key i) k t := by
  obtain ⟨l, hl, ht⟩ := h
  by_cases hk : k = key
  · subst hk
    refine ⟨l ++ [i], ?_, ?_⟩
    · rw [SpatialIndex.find_push, if_pos rfl, hl]; rfl
    · simp [ht]
  · exact ⟨l, by rw [SpatialIndex.find_push, if_neg hk, hl], ht⟩

theorem SpatialIndex.lists_push_inv (idx : SpatialIndex) (key i k t : Nat)
    (h : SpatialIndex.Lists (SpatialIndex.push idx key i) k t) :
    SpatialIndex.Lists idx k t ∨ (k = key ∧ t = i) := by
  obtain ⟨l, hl, ht⟩ := h
  rw [SpatialIndex.find_push] at hl
  by_cases hk : k = key
  · rw [if_pos hk] at hl
    have hl' := Option.some.inj hl
    subst hl'
    rcases List.mem_append.mp ht with h1 | h1
    · left
      cases hf : SpatialIndex.find idx key with
      | none => rw [hf] at h1; simp at h1
      | some l0 =>
        rw [hf] at h1
        exact ⟨l0, by rw [hk, hf], by simpa using h1⟩
    · right
      exact ⟨hk, by simpa using h1⟩
  · rw [if_neg hk] at hl
    exact Or.inl ⟨l, hl, ht⟩

/-! ## The spatial index: soundness and completeness of the build -/

theorem Mesh.registerTriangle_eq (TIB : BoxTest) (m : Mesh) (idx : SpatialIndex) (i : Nat) :
    Mesh.registerTriangle TIB m idx i =
      (loopRange (floorInt (ddiv (m.bbox i).1 (ldexp1 m.cell_size_)))
          (floorInt (ddiv (m.bbox i).2.1 (ldexp1 m.cell_size_)))).foldl
        (fun acc (ix : Int) =>
          (loopRange (floorInt (ddiv (m.bbox i).2.2.1 (ldexp1 m.cell_size_)))
              (floorInt (ddiv (m.bbox i).2.2.2 (ldexp1 m.cell_size_)))).foldl
            (fun acc2 (iy : Int) =>
              if m.hitsCell TIB i ix iy = true
              then SpatialIndex.push acc2 (GridIndex ix iy) i else acc2) acc) idx := rfl

theorem I32_of_between (lo hi z : Int) (h1 : I32 lo) (h2 : I32 hi) (h3 : lo ≤ z) (h4 : z ≤ hi) :
    I32 z := by
  unfold I32 at *
  constructor <;> omega

theorem Mesh.sound_nil (TIB : BoxTest) (m : Mesh) : Mesh.Sound TIB m [] := by
  intro k t h
  obtain ⟨l, hl, _⟩ := h
  simp [SpatialIndex.find] at hl

theorem Mesh.registerTriangle_sound (TIB : BoxTest) (m : Mesh) (idx : SpatialIndex) (i : Nat)
    (hi : i < m.triangles_.length) (h : Mesh.Sound TIB m idx) :
    Mesh.Sound TIB m (Mesh.registerTriangle TIB m idx i) := by
  rw [Mesh.registerTriangle_eq]
  apply foldl_inv (Mesh.Sound TIB m) _ _ _ h
  intro acc ix hix hacc
  apply foldl_inv (Mesh.Sound TIB m) _ _ _ hacc
  intro acc2 iy hiy hacc2
  by_cases hc : m.hitsCell TIB i ix iy = true
  · rw [if_pos hc]
    intro k t hl
    rcases SpatialIndex.lists_push_inv _ _ _ _ _ hl with h1 | ⟨hk, ht⟩
    · exact hacc2 k t h1
    · subst hk ht
      rw [mem_loopRange] at hix hiy
      exact ⟨hi, ix, iy,
        I32_of_between _ _ _ (toInt32_I32 _) (toInt32_I32 _) hix.1 hix.2,
        I32_of_between _ _ _ (toInt32_I32 _) (toInt32_I32 _) hiy.1 hiy.2, rfl, hc⟩
  · rw [if_neg hc]
    exact hacc2

theorem Mesh.buildIndex_sound (TIB : BoxTest) (m : Mesh) :
    Mesh.Sound TIB m (Mesh.buildIndex TIB m) := by
  unfold Mesh.buildIndex
  apply foldl_inv (Mesh.Sound TIB m) _ _ _ (Mesh.sound_nil TIB m)
  intro b i hi hb
  exact Mesh.registerTriangle_sound TIB m b i (List.mem_range.mp hi) hb

theorem Mesh.registerTriangle_mono (TIB : BoxTest) (m : Mesh) (idx : SpatialIndex) (i k t : Nat)
    (h : SpatialIndex.Lists idx k t) :
    SpatialIndex.Lists (Mesh.registerTriangle TIB m idx i) k t := by
  rw [Mesh.registerTriangle_eq]
  apply foldl_inv (fun b => SpatialIndex.Lists b k t) _ _ _ h
  intro acc ix _ hacc
  apply foldl_inv (fun b => SpatialIndex.Lists b k t) _ _ _ hacc
  intro acc2 iy _ hacc2
  by_cases hc : m.hitsCell TIB i ix iy = true
  · rw [if_pos hc]
    exact SpatialIndex.lists_push_mono _ _ _ _ _ hacc2
  · rw [if_neg hc]
    exact hacc2

theorem Mesh.registerTriangle_covers (TIB : BoxTest) (m : Mesh) (idx : SpatialIndex) (i : Nat) :
    Mesh.Covers TIB m i (Mesh.registerTriangle TIB m idx i) := by
  intro ix iy h1 h2 h3 h4 hc
  rw [Mesh.registerTriangle_eq]
  have hx : ix ∈ loopRange (floorInt (ddiv (m.bbox i).1 (ldexp1 m.cell_size_)))
      (floorInt (ddiv (m.bbox i).2.1 (ldexp1 m.cell_size_))) := (mem_loopRange _ _ _).mpr ⟨h1, h2⟩
  have hy : iy ∈ loopRange (floorInt (ddiv (m.bbox i).2.2.1 (ldexp1 m.cell_size_)))
      (floorInt (ddiv (m.bbox i).2.2.2 (ldexp1 m.cell_size_))) := (mem_loopRange _ _ _).mpr ⟨h3, h4⟩
  refine foldl_reach _
    (fun (jx : Int) b => m.hitsCell TIB i jx iy = true →
      SpatialIndex.Lists b (GridIndex jx iy) i) _ ?_ ?_ idx ix hx hc
  · intro b jx _ hcj
    refine foldl_reach _
      (fun (jy : Int) b => m.hitsCell TIB i jx jy = true →
        SpatialIndex.Lists b (GridIndex jx jy) i) _ ?_ ?_ b iy hy hcj
    · intro b2 jy _ hcjy
      rw [if_pos hcjy]
      exact SpatialIndex.lists_push_self _ _ _
    · intro b2 jy jy' hprev hcjy
      by_cases hc2 : m.hitsCell TIB i jx jy = true
      · rw [if_pos hc2]
        exact SpatialIndex.lists_push_mono _ _ _ _ _ (hprev hcjy)
      · rw [if_neg hc2]
        exact hprev hcjy
  · intro b jx jx' hprev hcj
    apply foldl_inv (fun b => SpatialIndex.Lists b (GridIndex jx' iy) i) _ _ _ (hprev hcj)
    intro acc2 jy _ hacc2
    by_cases hc2 : m.hitsCell TIB i jx jy = true
    · rw [if_pos hc2]
      exact SpatialIndex.lists_push_mono _ _ _ _ _ hacc2
    · rw [if_neg hc2]
      exact hacc2

theorem Mesh.buildIndex_covers (TIB : BoxTest) (m : Mesh) (i : Nat)
    (hi : i < m.triangles_.length) : Mesh.Covers TIB m i (Mesh.buildIndex TIB m) := by
  unfold Mesh.buildIndex
  refine foldl_reach (Mesh.registerTriangle TIB m) (fun j b => Mesh.Covers TIB m j b) _ ?_ ?_
    [] i (List.mem_range.mpr hi)
  · intro b j _
    exact Mesh.registerTriangle_covers TIB m b j
  · intro b j j' hprev ix iy h1 h2 h3 h4 hc
    exact Mesh.registerTriangle_mono TIB m b j _ _ (hprev ix iy h1 h2 h3 h4 hc)

/-! ## The modelled geometry utilities are exact -/

theorem side_sum (a b c p : JetPoint) :
    side a b p + side b c p + side c a p = side a b c := by
  unfold side; ring

theorem side_cycle (a b c : JetPoint) : side b c a = side a b c := by
  unfold side; ring

theorem affine_box_gt (A B x y xmin xmax ymin ymax M : ℚ)
    (hx1 : xmin ≤ x) (hx2 : x ≤ xmax) (hy1 : ymin ≤ y) (hy2 : y ≤ ymax)
    (h1 : M < A * ymin - B * xmin) (h2 : M < A * ymin - B * xmax)
    (h3 : M < A * ymax - B * xmin) (h4 : M < A * ymax - B * xmax) :
    M < A * y - B * x := by
  rcases le_total 0 A with hA | hA <;> rcases le_total 0 B with hB | hB
  · nlinarith [mul_nonneg hA (sub_nonneg.mpr hy1), mul_nonneg hB (sub_nonneg.mpr hx2)]
  · nlinarith [mul_nonneg hA (sub_nonneg.mpr hy1),
      mul_nonneg (neg_nonneg.mpr hB) (sub_nonneg.mpr hx1)]
  · nlinarith [mul_nonneg (neg_nonneg.mpr hA) (sub_nonneg.mpr hy2),
      mul_nonneg hB (sub_nonneg.mpr hx2)]
  · nlinarith [mul_nonneg (neg_nonneg.mpr hA) (sub_nonneg.mpr hy2),
      mul_nonneg (neg_nonneg.mpr hB) (sub_nonneg.mpr hx1)]

theorem affine_box_lt (A B x y xmin xmax ymin ymax M : ℚ)
    (hx1 : xmin ≤ x) (hx2 : x ≤ xmax) (hy1 : ymin ≤ y) (hy2 : y ≤ ymax)
    (h1 : A * ymin - B * xmin < M) (h2 : A * ymin - B * xmax < M)
    (h3 : A * ymax - B * xmin < M) (h4 : A * ymax - B * xmax < M) :
    A * y - B * x < M := by
  have := affine_box_gt (-A) (-B) x y xmin xmax ymin ymax (-M) hx1 hx2 hy1 hy2
    (by linarith) (by linarith) (by linarith) (by linarith)
  linarith

theorem not_edgeSeparates (a b c p : JetPoint) (xmin xmax ymin ymax : ℚ)
    (hx1 : xmin ≤ ToDouble p.x) (hx2 : ToDouble p.x ≤ xmax)
    (hy1 : ymin ≤ ToDouble p.y) (hy2 : ToDouble p.y ≤ ymax)
    (hlo : min 0 (side a b c) ≤ side a b p) (hhi : side a b p ≤ max 0 (side a b c)) :
    ¬ edgeSeparates a b c xmin xmax ymin ymax := by
  unfold edgeSeparates
  simp only [side, ToDouble, JetPoint.ofDoubles, JetNum.ofDouble] at *
  rintro (⟨h1, h2, h3, h4⟩ | ⟨h1, h2, h3, h4⟩)
  · have := affine_box_gt (b.x.val - a.x.val) (b.y.val - a.y.val) p.x.val p.y.val
      xmin xmax ymin ymax
      (max 0 ((b.x.val - a.x.val) * (c.y.val - a.y.val)
          - (b.y.val - a.y.val) * (c.x.val - a.x.val))
        + (b.x.val - a.x.val) * a.y.val - (b.y.val - a.y.val) * a.x.val)
      hx1 hx2 hy1 hy2 (by linarith) (by linarith) (by linarith) (by linarith)
    linarith
  · have := affine_box_lt (b.x.val - a.x.val) (b.y.val - a.y.val) p.x.val p.y.val
      xmin xmax ymin ymax
      (min 0 ((b.x.val - a.x.val) * (c.y.val - a.y.val)
          - (b.y.val - a.y.val) * (c.x.val - a.x.val))
        + (b.x.val - a.x.val) * a.y.val - (b.y.val - a.y.val) * a.x.val)
      hx1 hx2 hy1 hy2 (by linarith) (by linarith) (by linarith) (by linarith)
    linarith

theorem PointInTriangle_inBounds : TriTest.InBounds PointInTriangle := by
  intro p a b c h
  by_contra hb
  apply h
  unfold PointInTriangle
  simp [hb]

theorem PointInTriangle_signs (p a b c : JetPoint) (h : PointInTriangle p a b c ≠ 0) :
    (0 ≤ side a b p ∧ 0 ≤ side b c p ∧ 0 ≤ side c a p) ∨
    (side a b p ≤ 0 ∧ side b c p ≤ 0 ∧ side c a p ≤ 0) := by
  by_contra hs
  apply h
  unfold PointInTriangle
  have h1 : ¬ ((0 < side a b p ∧ 0 < side b c p ∧ 0 < side c a p) ∨
      (side a b p < 0 ∧ side b c p < 0 ∧ side c a p < 0)) := by
    rintro (⟨x1, x2, x3⟩ | ⟨x1, x2, x3⟩)
    · exact hs (Or.inl ⟨x1.le, x2.le, x3.le⟩)
    · exact hs (Or.inr ⟨x1.le, x2.le, x3.le⟩)
  simp only [if_neg h1, if_neg hs]
  split <;> rfl

theorem TriangleIntersectsBox_exact : BoxTest.Exact TriangleIntersectsBox PointInTriangle := by
  intro a b c xmin xmax ymin ymax ⟨p, hx1, hx2, hy1, hy2, hp⟩
  obtain ⟨b1, b2, b3, b4⟩ := PointInTriangle_inBounds p a b c hp
  have hsum := side_sum a b c p
  have c1 := side_cycle a b c
  have c2 := side_cycle b c a
  have hs := PointInTriangle_signs p a b c hp
  have e1 : ¬ edgeSeparates a b c xmin xmax ymin ymax := by
    apply not_edgeSeparates a b c p xmin xmax ymin ymax hx1 hx2 hy1 hy2
    · rcases hs with ⟨s1, s2, s3⟩ | ⟨s1, s2, s3⟩
      · exact le_trans (min_le_left _ _) s1
      · exact le_trans (min_le_right _ _) (by linarith)
    · rcases hs with ⟨s1, s2, s3⟩ | ⟨s1, s2, s3⟩
      · exact le_trans (by linarith) (le_max_right _ _)
      · exact le_trans s1 (le_max_left _ _)
  have e2 : ¬ edgeSeparates b c a xmin xmax ymin ymax := by
    apply not_edgeSeparates b c a p xmin xmax ymin ymax hx1 hx2 hy1 hy2
    · rcases hs with ⟨s1, s2, s3⟩ | ⟨s1, s2, s3⟩
      · exact le_trans (min_le_left _ _) s2
      · exact le_trans (min_le_right _ _) (by linarith)
    · rcases hs with ⟨s1, s2, s3⟩ | ⟨s1, s2, s3⟩
      · exact le_trans (by linarith) (le_max_right _ _)
      · exact le_trans s2 (le_max_left _ _)
  have e3 : ¬ edgeSeparates c a b xmin xmax ymin ymax := by
    apply not_edgeSeparates c a b p xmin xmax ymin ymax hx1 hx2 hy1 hy2
    · rcases hs with ⟨s1, s2, s3⟩ | ⟨s1, s2, s3⟩
      · exact le_trans (min_le_left _ _) s3
      · exact le_trans (min_le_right _ _) (by linarith)
    · rcases hs with ⟨s1, s2, s3⟩ | ⟨s1, s2, s3⟩
      · exact le_trans (by linarith) (le_max_right _ _)
      · exact le_trans s3 (le_max_left _ _)
  unfold TriangleIntersectsBox
  simp only [Bool.and_eq_true, decide_eq_true_eq, Bool.not_eq_true', decide_eq_false_iff_not]
  exact ⟨⟨⟨⟨⟨⟨le_trans b1 hx2, le_trans hx1 b2⟩, le_trans b3 hy2⟩, le_trans hy1 b4⟩, e1⟩, e2⟩, e3⟩

/-! ## `Mesh::FindTriangle` -/

theorem Mesh.scan_index (PIT : TriTest) (m : Mesh) (idx : SpatialIndex) (tp : JetPoint)
    (cands : List Nat) :
    Mesh.scan PIT { m with spatial_index_ := idx } tp cands = Mesh.scan PIT m tp cands := by
  induction cands with
  | nil => rfl
  | cons c rest ih =>
    simp only [Mesh.scan, ih]
    rfl

theorem Mesh.FindTriangle_fst (PIT : TriTest) (TIB : BoxTest) (m : Mesh) (x y : ℚ) :
    (m.FindTriangle PIT TIB x y).1 =
      match SpatialIndex.find (m.indexAfter TIB)
        (GridIndex (floorInt (ddiv x (ldexp1 m.cell_size_))) (floorInt (ddiv y (ldexp1 m.cell_size_)))) with
      | none => -1
      | some cands => m.scan PIT (JetPoint.ofDoubles x y) cands := by
  unfold Mesh.FindTriangle Mesh.indexAfter
  cases hE : m.spatial_index_.isEmpty
  · simp only [Bool.false_eq_true, if_false]
    cases hf : SpatialIndex.find m.spatial_index_
      (GridIndex (floorInt (ddiv x (ldexp1 m.cell_size_))) (floorInt (ddiv y (ldexp1 m.cell_size_)))) <;> rfl
  · simp only [if_true]
    cases hf : SpatialIndex.find (Mesh.buildIndex TIB m)
      (GridIndex (floorInt (ddiv x (ldexp1 m.cell_size_))) (floorInt (ddiv y (ldexp1 m.cell_size_)))) with
    | none => rfl
    | some c => exact Mesh.scan_index PIT m _ _ c

theorem Mesh.FindTriangle_snd (PIT : TriTest) (TIB : BoxTest) (m : Mesh) (x y : ℚ) :
    (m.FindTriangle PIT TIB x y).2 = { m with spatial_index_ := m.indexAfter TIB } := by
  unfold Mesh.FindTriangle Mesh.indexAfter
  cases hE : m.spatial_index_.isEmpty
  · simp only [Bool.false_eq_true, if_false]
    cases hf : SpatialIndex.find m.spatial_index_
      (GridIndex (floorInt (ddiv x (ldexp1 m.cell_size_))) (floorInt (ddiv y (ldexp1 m.cell_size_)))) <;> rfl
  · simp only [if_true]
    cases hf : SpatialIndex.find (Mesh.buildIndex TIB m)
      (GridIndex (floorInt (ddiv x (ldexp1 m.cell_size_))) (floorInt (ddiv y (ldexp1 m.cell_size_)))) <;> rfl

theorem Mesh.indexAfter_eq (TIB : BoxTest) (m : Mesh) (hm : m.IndexOK TIB) :
    m.indexAfter TIB = Mesh.buildIndex TIB m := by
  unfold Mesh.indexAfter
  rcases hm with h | h
  · simp [h]
  · by_cases he : m.spatial_index_.isEmpty = true
    · simp [he]
    · simp [he, h]

theorem Mesh.FindTriangle_indexOK (PIT : TriTest) (TIB : BoxTest) (m : Mesh)
    (hm : m.IndexOK TIB) (x y : ℚ) : (m.FindTriangle PIT TIB x y).2.IndexOK TIB := by
  rw [Mesh.FindTriangle_snd, Mesh.indexAfter_eq TIB m hm]
  exact Or.inr rfl

theorem Mesh.scan_spec (PIT : TriTest) (m : Mesh) (x y : ℚ) (cands : List Nat) :
    m.scan PIT (JetPoint.ofDoubles x y) cands = -1 ∨
    ∃ c, c ∈ cands ∧ m.scan PIT (JetPoint.ofDoubles x y) cands = (c : Int) ∧
      m.contains PIT c x y ≠ 0 := by
  induction cands with
  | nil => left; rfl
  | cons c rest ih =>
    by_cases hc : m.contains PIT c x y ≠ 0
    · right
      refine ⟨c, List.mem_cons_self _ _, ?_, hc⟩
      unfold Mesh.contains at hc
      simp only [Mesh.scan, if_pos hc]
    · have hs : m.scan PIT (JetPoint.ofDoubles x y) (c :: rest)
          = m.scan PIT (JetPoint.ofDoubles x y) rest := by
        unfold Mesh.contains at hc
        simp only [Mesh.scan, if_neg hc]
      rw [hs]
      rcases ih with h | ⟨d, hd, h1, h2⟩
      · exact Or.inl h
      · exact Or.inr ⟨d, List.mem_cons_of_mem _ hd, h1, h2⟩

theorem Mesh.scan_nonneg (PIT : TriTest) (m : Mesh) (x y : ℚ) (cands : List Nat) (t : Nat)
    (ht : t ∈ cands) (hc : m.contains PIT t x y ≠ 0) :
    0 ≤ m.scan PIT (JetPoint.ofDoubles x y) cands := by
  induction cands with
  | nil => cases ht
  | cons c rest ih =>
    by_cases hcc : m.contains PIT c x y ≠ 0
    · unfold Mesh.contains at hcc
      simp only [Mesh.scan, if_pos hcc]
      exact Int.ofNat_nonneg c
    · have hne : t ≠ c := by
        intro e
        rw [e] at hc
        exact hcc hc
      have ht' : t ∈ rest := by
        rcases List.mem_cons.mp ht with h | h
        · exact absurd h hne
        · exact h
      unfold Mesh.contains at hcc
      simp only [Mesh.scan, if_neg hcc]
      exact ih ht'

theorem ldexp1_eq (e : Int) (h : -1074 ≤ e) : ldexp1 e = (2 : ℚ) ^ e := by
  unfold ldexp1
  rw [if_neg (not_lt.mpr h)]

theorem ldexp1_pos (e : Int) (h : -1074 ≤ e) : 0 < ldexp1 e := by
  rw [ldexp1_eq e h]
  exact zpow_pos (by norm_num) e

theorem I32Loop.i32 {z : Int} (h : I32Loop z) : I32 z := by
  unfold I32Loop at h
  unfold I32
  constructor <;> omega

theorem floor_div_mono (a b c : ℚ) (hc : 0 < c) (h : a ≤ b) : ⌊a / c⌋ ≤ ⌊b / c⌋ :=
  Int.floor_mono (div_le_div_of_nonneg_right h hc.le)

theorem cell_box (x c : ℚ) (hc : 0 < c) :
    (⌊x / c⌋ : ℚ) * c ≤ x ∧ x ≤ ((⌊x / c⌋ + 1 : Int) : ℚ) * c := by
  have h1 := Int.floor_le (x / c)
  have h2 := Int.lt_floor_add_one (x / c)
  constructor
  · exact (le_div_iff₀ hc).mp h1
  · push_cast
    exact ((div_lt_iff₀ hc).mp h2).le

theorem Mesh.bbox_I32Loop (m : Mesh) (t : Nat) (h : m.InRange t) :
    I32Loop ⌊(m.bbox t).1 / ldexp1 m.cell_size_⌋ ∧ I32Loop ⌊(m.bbox t).2.1 / ldexp1 m.cell_size_⌋ ∧
    I32Loop ⌊(m.bbox t).2.2.1 / ldexp1 m.cell_size_⌋ ∧
    I32Loop ⌊(m.bbox t).2.2.2 / ldexp1 m.cell_size_⌋ := by
  have h0 := h 0
  have h1 := h 1
  have h2 := h 2
  unfold Mesh.bbox
  simp only
  refine ⟨?_, ?_, ?_, ?_⟩
  · rcases min_choice (min (ToDouble (m.corner (m.triangles_.getD t default) 0).x)
        (ToDouble (m.corner (m.triangles_.getD t default) 1).x))
        (ToDouble (m.corner (m.triangles_.getD t default) 2).x) with e | e
    · rw [e]
      rcases min_choice (ToDouble (m.corner (m.triangles_.getD t default) 0).x)
        (ToDouble (m.corner (m.triangles_.getD t default) 1).x) with e' | e'
      · rw [e']; exact h0.1
      · rw [e']; exact h1.1
    · rw [e]; exact h2.1
  · rcases max_choice (max (ToDouble (m.corner (m.triangles_.getD t default) 0).x)
        (ToDouble (m.corner (m.triangles_.getD t default) 1).x))
        (ToDouble (m.corner (m.triangles_.getD t default) 2).x) with e | e
    · rw [e]
      rcases max_choice (ToDouble (m.corner (m.triangles_.getD t default) 0).x)
        (ToDouble (m.corner (m.triangles_.getD t default) 1).x) with e' | e'
      · rw [e']; exact h0.1
      · rw [e']; exact h1.1
    · rw [e]; exact h2.1
  · rcases min_choice (min (ToDouble (m.corner (m.triangles_.getD t default) 0).y)
        (ToDouble (m.corner (m.triangles_.getD t default) 1).y))
        (ToDouble (m.corner (m.triangles_.getD t default) 2).y) with e | e
    · rw [e]
      rcases min_choice (ToDouble (m.corner (m.triangles_.getD t default) 0).y)
        (ToDouble (m.corner (m.triangles_.getD t default) 1).y) with e' | e'
      · rw [e']; exact h0.2
      · rw [e']; exact h1.2
    · rw [e]; exact h2.2
  · rcases max_choice (max (ToDouble (m.corner (m.triangles_.getD t default) 0).y)
        (ToDouble (m.corner (m.triangles_.getD t default) 1).y))
        (ToDouble (m.corner (m.triangles_.getD t default) 2).y) with e | e
    · rw [e]
      rcases max_choice (ToDouble (m.corner (m.triangles_.getD t default) 0).y)
        (ToDouble (m.corner (m.triangles_.getD t default) 1).y) with e' | e'
      · rw [e']; exact h0.2
      · rw [e']; exact h1.2
    · rw [e]; exact h2.2

theorem Mesh.bbox_I32 (m : Mesh) (t : Nat) (h : m.InRange t) :
    I32 ⌊(m.bbox t).1 / ldexp1 m.cell_size_⌋ ∧ I32 ⌊(m.bbox t).2.1 / ldexp1 m.cell_size_⌋ ∧
    I32 ⌊(m.bbox t).2.2.1 / ldexp1 m.cell_size_⌋ ∧
    I32 ⌊(m.bbox t).2.2.2 / ldexp1 m.cell_size_⌋ :=
  ⟨(Mesh.bbox_I32Loop m t h).1.i32, (Mesh.bbox_I32Loop m t h).2.1.i32,
    (Mesh.bbox_I32Loop m t h).2.2.1.i32, (Mesh.bbox_I32Loop m t h).2.2.2.i32⟩

/-- If triangle `t` contains the query point and its grid coordinates fit in 32 bits, the built
index lists `t` under the cell of the query point. -/
theorem Mesh.buildIndex_lists_query (PIT : TriTest) (TIB : BoxTest)
    (hbounds : TriTest.InBounds PIT) (hexact : BoxTest.Exact TIB PIT)
    (m : Mesh) (hcellOK : m.CellOK) (x y : ℚ) (t : Nat) (ht : t < m.triangles_.length)
    (hcont : m.contains PIT t x y ≠ 0) (hrange : m.InRange t) (hq : m.ExactGrid t x y) :
    SpatialIndex.Lists (Mesh.buildIndex TIB m)
      (GridIndex (floorInt (ddiv x (ldexp1 m.cell_size_))) (floorInt (ddiv y (ldexp1 m.cell_size_)))) t := by
  have hcell := ldexp1_pos m.cell_size_ hcellOK.1
  obtain ⟨r1, r2, r3, r4⟩ := Mesh.bbox_I32 m t hrange
  have hb : inBounds (JetPoint.ofDoubles x y) (m.corner (m.triangles_.getD t default) 0)
      (m.corner (m.triangles_.getD t default) 1) (m.corner (m.triangles_.getD t default) 2) :=
    hbounds _ _ _ _ hcont
  obtain ⟨b1, b2, b3, b4⟩ := hb
  have b1' : (m.bbox t).1 ≤ x := b1
  have b2' : x ≤ (m.bbox t).2.1 := b2
  have b3' : (m.bbox t).2.2.1 ≤ y := b3
  have b4' : y ≤ (m.bbox t).2.2.2 := b4
  have f1 := floor_div_mono _ _ _ hcell b1'
  have f2 := floor_div_mono _ _ _ hcell b2'
  have f3 := floor_div_mono _ _ _ hcell b3'
  have f4 := floor_div_mono _ _ _ hcell b4'
  have rx : I32 ⌊x / ldexp1 m.cell_size_⌋ := I32_of_between _ _ _ r1 r2 f1 f2
  have ry : I32 ⌊y / ldexp1 m.cell_size_⌋ := I32_of_between _ _ _ r3 r4 f3 f4
  obtain ⟨q1, q2, q3, q4, q5, q6⟩ := hq
  have ex : floorInt (ddiv x (ldexp1 m.cell_size_)) = ⌊x / ldexp1 m.cell_size_⌋ := by
    rw [q5]
    exact toInt32_of_I32 _ rx
  have ey : floorInt (ddiv y (ldexp1 m.cell_size_)) = ⌊y / ldexp1 m.cell_size_⌋ := by
    rw [q6]
    exact toInt32_of_I32 _ ry
  apply Mesh.buildIndex_covers TIB m t ht
  · rw [ex, q1]; unfold floorInt; rw [toInt32_of_I32 _ r1]; exact f1
  · rw [ex, q2]; unfold floorInt; rw [toInt32_of_I32 _ r2]; exact f2
  · rw [ey, q3]; unfold floorInt; rw [toInt32_of_I32 _ r3]; exact f3
  · rw [ey, q4]; unfold floorInt; rw [toInt32_of_I32 _ r4]; exact f4
  · rw [ex, ey]
    obtain ⟨cx1, cx2⟩ := cell_box x _ hcell
    obtain ⟨cy1, cy2⟩ := cell_box y _ hcell
    exact hexact _ _ _ _ _ _ _ ⟨JetPoint.ofDoubles x y, cx1, cx2, cy1, cy2, hcont⟩

/-! ## Evaluation of the example meshes -/

theorem triMesh_buildIndex :
    Mesh.buildIndex TriangleIntersectsBox triMesh = [(0, [0]), (1, [0]), (4294967296, [0])] := by
  decide!

theorem triMesh_hits_11 : triMesh.hitsCell TriangleIntersectsBox 0 1 1 = false := by
  decide!

theorem triMesh_query :
    (triMesh.FindTriangle PointInTriangle TriangleIntersectsBox (1 / 4) (1 / 4)).1 = 0 := by
  decide!

theorem farMesh_bbox :
    farMesh.bbox 0 = (1073741824 + 1 / 20, 1073741824 + 1 / 5, 1 / 20, 1 / 5) := by
  decide!

theorem farMesh_columns :
    ⌊(farMesh.bbox 0).1 / ldexp1 farMesh.cell_size_⌋ = 4294967296 ∧
    floorInt (ddiv (farMesh.bbox 0).1 (ldexp1 farMesh.cell_size_)) = 0 := by
  decide!

theorem farMesh_buildIndex : Mesh.buildIndex TriangleIntersectsBox farMesh = [] := by
  decide!

theorem farMesh_contains :
    farMesh.contains PointInTriangle 0 (1073741824 + 1 / 10) (1 / 10) = 1 := by
  decide!

theorem farMesh_query :
    (farMesh.FindTriangle PointInTriangle TriangleIntersectsBox
      (1073741824 + 1 / 10) (1 / 10)).1 = -1 := by
  decide!

/-! ## The value of a `Mesh::FindTriangle` call that returns -/

/-- The value of a returning call is either `-1` or a valid index whose triangle contains the
query point; it is `-1` for a point contained in no triangle and on a mesh without triangles. -/
theorem Mesh.FindTriangle_result (PIT : TriTest) (TIB : BoxTest) (m : Mesh)
    (hm : m.IndexOK TIB) (x y : ℚ) :
    ((m.FindTriangle PIT TIB x y).1 = -1 ∨
      (0 ≤ (m.FindTriangle PIT TIB x y).1 ∧
        (m.FindTriangle PIT TIB x y).1 < (m.triangles_.length : Int) ∧
        m.contains PIT (m.FindTriangle PIT TIB x y).1.toNat x y ≠ 0)) ∧
    ((∀ t, t < m.triangles_.length → m.contains PIT t x y = 0) →
      (m.FindTriangle PIT TIB x y).1 = -1) ∧
    (m.triangles_ = [] → (m.FindTriangle PIT TIB x y).1 = -1) := by
  have main : (m.FindTriangle PIT TIB x y).1 = -1 ∨
      (0 ≤ (m.FindTriangle PIT TIB x y).1 ∧
        (m.FindTriangle PIT TIB x y).1 < (m.triangles_.length : Int) ∧
        m.contains PIT (m.FindTriangle PIT TIB x y).1.toNat x y ≠ 0) := by
    rw [Mesh.FindTriangle_fst, Mesh.indexAfter_eq TIB m hm]
    cases hf : SpatialIndex.find (Mesh.buildIndex TIB m)
      (GridIndex (floorInt (ddiv x (ldexp1 m.cell_size_))) (floorInt (ddiv y (ldexp1 m.cell_size_)))) with
    | none => left; rfl
    | some cands =>
      rcases Mesh.scan_spec PIT m x y cands with h | ⟨c, hc, h1, h2⟩
      · left; exact h
      · right
        have hlt := (Mesh.buildIndex_sound TIB m _ c ⟨cands, hf, hc⟩).1
        simp only [h1]
        refine ⟨Int.ofNat_nonneg c, by exact_mod_cast hlt, ?_⟩
        simpa using h2
  refine ⟨main, ?_, ?_⟩
  · intro hnone
    rcases main with h | ⟨h0, h1, h2⟩
    · exact h
    · exfalso
      apply h2
      apply hnone
      omega
  · intro hempty
    rcases main with h | ⟨h0, h1, h2⟩
    · exact h
    · rw [hempty] at h1
      simp at h1
      omega

/-- With an exact box test, the value of a returning call is non-negative when the query point
lies inside or on a triangle `t` whose corners have grid coordinates in `[-2 ^ 31, 2 ^ 31 - 1)`:
`t` is registered under the cell of the query point. -/
theorem Mesh.FindTriangle_covered (PIT : TriTest) (TIB : BoxTest)
    (hbounds : TriTest.InBounds PIT) (hexact : BoxTest.Exact TIB PIT)
    (m : Mesh) (hm : m.IndexOK TIB) (hcellOK : m.CellOK) (x y : ℚ) (t : Nat)
    (hq : m.ExactGrid t x y) (ht : t < m.triangles_.length)
    (hcont : m.contains PIT t x y ≠ 0) (hrange : m.InRange t) :
    0 ≤ (m.FindTriangle PIT TIB x y).1 ∧
    SpatialIndex.Lists (m.FindTriangle PIT TIB x y).2.spatial_index_
      (GridIndex (floorInt (ddiv x (ldexp1 m.cell_size_))) (floorInt (ddiv y (ldexp1 m.cell_size_)))) t := by
  obtain ⟨cands, hf, hmem⟩ :=
    Mesh.buildIndex_lists_query PIT TIB hbounds hexact m hcellOK x y t ht hcont hrange hq
  constructor
  · rw [Mesh.FindTriangle_fst, Mesh.indexAfter_eq TIB m hm, hf]
    exact Mesh.scan_nonneg PIT m x y cands t hmem hcont
  · rw [Mesh.FindTriangle_snd, Mesh.indexAfter_eq TIB m hm]
    exact ⟨cands, hf, hmem⟩

/-- C3. After the first `Mesh::FindTriangle` call has built the index, every triangle index
listed under a grid cell `(ix, iy)` is a valid triangle index, and that triangle intersects the
box of the cell (`TriangleIntersectsBox` holds on `[ix*cell, (ix+1)*cell] x
[iy*cell, (iy+1)*cell]`). -/
theorem Mesh.FindTriangle_registrations (PIT : TriTest) (TIB : BoxTest) (m : Mesh)
    (hm : m.spatial_index_ = []) (x y : ℚ) (ix iy : Int) (hix : I32 ix) (hiy : I32 iy)
    (cands : List Nat)
    (hfind : SpatialIndex.find (m.FindTriangle PIT TIB x y).2.spatial_index_ (GridIndex ix iy)
      = some cands)
    (t : Nat) (ht : t ∈ cands) :
    t < m.triangles_.length ∧ m.hitsCell TIB t ix iy = true := by
  rw [Mesh.FindTriangle_snd, Mesh.indexAfter_eq TIB m (Or.inl hm)] at hfind
  obtain ⟨hlt, jx, jy, hjx, hjy, hkey, hhit⟩ :=
    Mesh.buildIndex_sound TIB m _ t ⟨cands, hfind, ht⟩
  obtain ⟨ex, ey⟩ := GridIndex_inj ix iy jx jy hix hiy hjx hjy hkey
  rw [ex, ey]
  exact ⟨hlt, hhit⟩

theorem triMesh_contains : triMesh.contains PointInTriangle 0 (1 / 4) (1 / 4) = 1 := by
  decide!

theorem triMesh_inRange : triMesh.InRange 0 := by
  intro j
  fin_cases j <;> decide!

theorem triMesh_index_after (x y : ℚ) :
    (triMesh.FindTriangle PointInTriangle TriangleIntersectsBox x y).2.spatial_index_
      = [(0, [0]), (1, [0]), (4294967296, [0])] := by
  rw [Mesh.FindTriangle_snd, Mesh.indexAfter_eq _ _ (Or.inl rfl), triMesh_buildIndex]

/-- C3, on the one-triangle example mesh after `FindTriangle(0, 0)`: cell `(1, 0)` lists
triangle `0`, which intersects the box of that cell; cell `(1, 1)`, which the bounding box of
the triangle overlaps but the triangle does not, has no entry. -/
theorem Mesh.FindTriangle_registrations_witness :
    triMesh.spatial_index_ = [] ∧ I32 1 ∧ I32 0 ∧
    SpatialIndex.find
      (triMesh.FindTriangle PointInTriangle TriangleIntersectsBox 0 0).2.spatial_index_
      (GridIndex 1 0) = some [0] ∧
    SpatialIndex.find
      (triMesh.FindTriangle PointInTriangle TriangleIntersectsBox 0 0).2.spatial_index_
      (GridIndex 1 1) = none ∧
    (0 < triMesh.triangles_.length ∧ triMesh.hitsCell TriangleIntersectsBox 0 1 0 = true) :=
  ⟨rfl, by decide, by decide, by rw [triMesh_index_after]; decide,
    by rw [triMesh_index_after]; decide,
    Mesh.FindTriangle_registrations PointInTriangle TriangleIntersectsBox triMesh rfl 0 0 1 0
      (by decide) (by decide) [0] (by rw [triMesh_index_after]; decide) 0 (by decide)⟩

/-! ## `Mesh::UpdateDerivatives` -/

theorem updatePoints_spec (sqrt : ℚ → ℚ) (s : Shape) (l l' : List RPoint)
    (h : updatePoints sqrt s l = .ok l') :
    l'.length = l.length ∧
    ∀ i, i < l.length → updatePoint sqrt s (l.getD i default) = .ok (l'.getD i default) := by
  induction l generalizing l' with
  | nil =>
    simp only [updatePoints] at h
    cases h
    exact ⟨rfl, fun i hi => absurd hi (Nat.not_lt_zero _)⟩
  | cons pt rest ih =>
    simp only [updatePoints] at h
    cases h1 : updatePoint sqrt s pt with
    | error msg => rw [h1] at h; cases h
    | ok pt' =>
      rw [h1] at h
      cases h2 : updatePoints sqrt s rest with
      | error msg => rw [h2] at h; cases h
      | ok rest' =>
        rw [h2] at h
        cases h
        obtain ⟨hl, hp⟩ := ih rest' h2
        refine ⟨by simp [hl], ?_⟩
        intro i hi
        cases i with
        | zero => simpa using h1
        | succ k =>
          have hk : k < rest.length := by simpa using hi
          simpa using hp k hk

theorem updatePoints_error_iff (sqrt : ℚ → ℚ) (s : Shape) (l : List RPoint) :
    (∃ msg, updatePoints sqrt s l = .error msg) ↔
      ∃ pt ∈ l, 0 ≤ pt.original_piece ∧ ¬ pt.ProvenanceInRange s := by
  induction l with
  | nil => simp [updatePoints]
  | cons pt rest ih =>
    have hpt : (∃ msg, updatePoint sqrt s pt = .error msg) ↔
        (0 ≤ pt.original_piece ∧ ¬ pt.ProvenanceInRange s) := by
      unfold updatePoint RPoint.ProvenanceInRange
      by_cases h0 : 0 ≤ pt.original_piece
      · by_cases h1 : pt.original_piece < (s.NumPieces : Int) ∧ 0 ≤ pt.original_edge ∧
            pt.original_edge < ((s.Piece pt.original_piece.toNat).length : Int)
        · simp [h0, h1]
        · simp only [h0, h1, if_true, if_false]
          simp
      · simp [h0]
    simp only [updatePoints, List.mem_cons, exists_eq_or_imp]
    rw [← hpt, ← ih]
    cases h1 : updatePoint sqrt s pt with
    | error msg => simp
    | ok pt' =>
      cases h2 : updatePoints sqrt s rest with
      | error msg => simp
      | ok rest' => simp

theorem updatePoint_frame (sqrt : ℚ → ℚ) (s : Shape) (pt pt' : RPoint)
    (h : updatePoint sqrt s pt = .ok pt') :
    ToDouble pt'.p.x = ToDouble pt.p.x ∧ ToDouble pt'.p.y = ToDouble pt.p.y ∧ pt'.e = pt.e ∧
    pt'.original_piece = pt.original_piece ∧ pt'.original_edge = pt.original_edge ∧
    (pt.original_piece < 0 → pt' = pt) := by
  unfold updatePoint at h
  by_cases h0 : 0 ≤ pt.original_piece
  · by_cases h1 : pt.original_piece < (s.NumPieces : Int) ∧ 0 ≤ pt.original_edge ∧
        pt.original_edge < ((s.Piece pt.original_piece.toNat).length : Int)
    · simp only [h0, h1, if_true] at h
      cases h
      exact ⟨rfl, rfl, rfl, rfl, rfl, fun hneg => absurd h0 (not_le.mpr hneg)⟩
    · simp only [h0, h1, if_true, if_false] at h
      cases h
  · simp only [h0, if_false] at h
    cases h
    exact ⟨rfl, rfl, rfl, rfl, rfl, fun _ => rfl⟩

theorem updateMaterials_spec (s : Shape) (i : Nat) (l l' : List Material)
    (h : updateMaterials s i l = .ok l') :
    l'.length = l.length ∧ ∀ k, k < l.length → l'.getD k default = s.GetMaterial (i + k) := by
  induction l generalizing i l' with
  | nil =>
    simp only [updateMaterials] at h
    cases h
    exact ⟨rfl, fun k hk => absurd hk (Nat.not_lt_zero _)⟩
  | cons mat rest ih =>
    simp only [updateMaterials] at h
    by_cases he : mat.eq (s.GetMaterial i) = true
    · simp only [he, if_true] at h
      cases h2 : updateMaterials s (i + 1) rest with
      | error msg => rw [h2] at h; cases h
      | ok rest' =>
        rw [h2] at h
        cases h
        obtain ⟨hl, hp⟩ := ih (i + 1) rest' h2
        refine ⟨by simp [hl], ?_⟩
        intro k hk
        cases k with
        | zero => simp
        | succ j =>
          have hj : j < rest.length := by simpa using hk
          have := hp j hj
          simp only [List.getD_cons_succ]
          rw [this]
          congr 1
          omega
    · simp only [he] at h
      cases h

theorem updateMaterials_error_iff (s : Shape) (i : Nat) (l : List Material) :
    (∃ msg, updateMaterials s i l = .error msg) ↔
      ∃ k, k < l.length ∧ (l.getD k default).eq (s.GetMaterial (i + k)) = false := by
  induction l generalizing i with
  | nil => simp [updateMaterials]
  | cons mat rest ih =>
    simp only [updateMaterials]
    by_cases he : mat.eq (s.GetMaterial i) = true
    · simp only [he, if_true]
      have hrest : (∃ msg, (match updateMaterials s (i + 1) rest with
            | .error msg => (Except.error msg : Except String (List Material))
            | .ok rest' => .ok (s.GetMaterial i :: rest')) = .error msg) ↔
          ∃ msg, updateMaterials s (i + 1) rest = .error msg := by
        cases updateMaterials s (i + 1) rest <;> simp
      rw [hrest, ih (i + 1)]
      constructor
      · rintro ⟨k, hk, hf⟩
        refine ⟨k + 1, by simpa using hk, ?_⟩
        simp only [List.getD_cons_succ]
        rw [show i + (k + 1) = i + 1 + k by omega]
        exact hf
      · rintro ⟨k, hk, hf⟩
        cases k with
        | zero =>
          simp only [List.getD_cons_zero, Nat.add_zero] at hf
          rw [he] at hf
          cases hf
        | succ j =>
          refine ⟨j, by simpa using hk, ?_⟩
          simp only [List.getD_cons_succ] at hf
          rw [show i + (j + 1) = i + 1 + j by omega] at hf
          exact hf
    · simp only [he]
      constructor
      · intro _
        refine ⟨0, by simp, ?_⟩
        simpa using he
      · intro _
        exact ⟨_, rfl⟩

theorem Mesh.UpdateDerivatives_ok (sqrt : ℚ → ℚ) (s : Shape) (m m' : Mesh)
    (h : m.UpdateDerivatives sqrt s = .ok m') :
    ∃ pts mats, updatePoints sqrt s m.points_ = .ok pts ∧
      m.materials_.length = s.NumPieces ∧ updateMaterials s 0 m.materials_ = .ok mats ∧
      m' = { m with points_ := pts, materials_ := mats } := by
  unfold Mesh.UpdateDerivatives at h
  cases h1 : updatePoints sqrt s m.points_ with
  | error msg => rw [h1] at h; cases h
  | ok pts =>
    rw [h1] at h
    by_cases hl : m.materials_.length = s.NumPieces
    · simp only [hl, if_true] at h
      cases h2 : updateMaterials s 0 m.materials_ with
      | error msg => rw [h2] at h; cases h
      | ok mats =>
        rw [h2] at h
        cases h
        exact ⟨pts, mats, rfl, hl, rfl, rfl⟩
    · simp only [hl, if_false] at h
      cases h

theorem Mesh.UpdateDerivatives_keeps (sqrt : ℚ → ℚ) (s : Shape) (m m' : Mesh)
    (h : m.UpdateDerivatives sqrt s = .ok m') :
    m'.valid_mesh_ = m.valid_mesh_ ∧ m'.spatial_index_ = m.spatial_index_ ∧
    m'.points_.length = m.points_.length ∧
    ∀ i, i < m.points_.length →
      (m'.points_.getD i default).original_piece = (m.points_.getD i default).original_piece ∧
      (m'.points_.getD i default).original_edge = (m.points_.getD i default).original_edge := by
  obtain ⟨pts, mats, hpts, _, _, hm'⟩ := Mesh.UpdateDerivatives_ok sqrt s m m' h
  obtain ⟨hlen, hstep⟩ := updatePoints_spec sqrt s m.points_ pts hpts
  subst hm'
  refine ⟨rfl, rfl, hlen, ?_⟩
  intro i hi
  obtain ⟨_, _, _, f4, f5, _⟩ := updatePoint_frame sqrt s _ _ (hstep i hi)
  exact ⟨f4, f5⟩

/-- C6. A successful `Mesh::UpdateDerivatives(s)` changes only derivative values (and the
material copies): every mesh point keeps its coordinate values, edge metadata and provenance,
every triangle is unchanged, and a point with provenance `(-1, -1)` is unchanged altogether,
derivatives included. -/
theorem Mesh.UpdateDerivatives_frame (sqrt : ℚ → ℚ) (s : Shape) (m m' : Mesh)
    (h : m.UpdateDerivatives sqrt s = .ok m') :
    m'.triangles_ = m.triangles_ ∧ m'.points_.length = m.points_.length ∧
    m'.valid_mesh_ = m.valid_mesh_ ∧ m'.cell_size_ = m.cell_size_ ∧
    m'.spatial_index_ = m.spatial_index_ ∧ m'.dielectric_ = m.dielectric_ ∧
    ∀ i, i < m.points_.length →
      ToDouble (m'.points_.getD i default).p.x = ToDouble (m.points_.getD i default).p.x ∧
      ToDouble (m'.points_.getD i default).p.y = ToDouble (m.points_.getD i default).p.y ∧
      (m'.points_.getD i default).e = (m.points_.getD i default).e ∧
      (m'.points_.getD i default).original_piece = (m.points_.getD i default).original_piece ∧
      (m'.points_.getD i default).original_edge = (m.points_.getD i default).original_edge ∧
      (((m.points_.getD i default).original_piece = -1 ∧
          (m.points_.getD i default).original_edge = -1) →
        m'.points_.getD i default = m.points_.getD i default) := by
  obtain ⟨pts, mats, hpts, _, _, hm'⟩ := Mesh.UpdateDerivatives_ok sqrt s m m' h
  obtain ⟨hlen, hstep⟩ := updatePoints_spec sqrt s m.points_ pts hpts
  subst hm'
  refine ⟨rfl, hlen, rfl, rfl, rfl, rfl, ?_⟩
  intro i hi
  obtain ⟨f1, f2, f3, f4, f5, f6⟩ := updatePoint_frame sqrt s _ _ (hstep i hi)
  refine ⟨f1, f2, f3, f4, f5, ?_⟩
  intro hint
  apply f6
  rw [hint.1]
  decide

/-- C6, on the example mesh: the interior point `2` of `edgeMesh` is unchanged. -/
theorem Mesh.UpdateDerivatives_frame_witness :
    edgeMesh.UpdateDerivatives sqrtRounded squareShape = .ok edgeMeshUpdated ∧
    edgeMeshUpdated.triangles_ = edgeMesh.triangles_ ∧
    edgeMeshUpdated.points_.getD 2 default = edgeMesh.points_.getD 2 default :=
  ⟨by decide!,
    (Mesh.UpdateDerivatives_frame sqrtRounded squareShape edgeMesh edgeMeshUpdated
      (by decide!)).1,
    ((Mesh.UpdateDerivatives_frame sqrtRounded squareShape edgeMesh edgeMeshUpdated
      (by decide!)).2.2.2.2.2.2 2 (by decide)).2.2.2.2.2 (by decide!)⟩

/-- `Material::operator==` spelled out: color, the values of the real and imaginary part of the
permittivity, and the callback identifier agree. -/
theorem Material.eq_iff (a b : Material) :
    a.eq b = true ↔ a.color = b.color ∧ ToDouble a.epsilon.re = ToDouble b.epsilon.re ∧
      ToDouble a.epsilon.im = ToDouble b.epsilon.im ∧ a.callback = b.callback := by
  unfold Material.eq JetComplex.eq JetNum.eq ToDouble
  simp only [Bool.and_eq_true, decide_eq_true_eq]
  tauto

/-- C7 as stated fails: the example mesh carries the default material (permittivity `1`), the
shape `squareShapeEps2` has the same piece count and a material that differs from it only in
the permittivity scalar (`2`, same color and callback); `Mesh::UpdateDerivatives` does not
succeed but trips `CHECK(materials_[i] == s.GetMaterial(i))`. -/
theorem Mesh.UpdateDerivatives_misuse_counterexample :
    edgeMesh.materials_.length = squareShapeEps2.NumPieces ∧
    (edgeMesh.materials_.getD 0 default).color = (squareShapeEps2.GetMaterial 0).color ∧
    (edgeMesh.materials_.getD 0 default).callback = (squareShapeEps2.GetMaterial 0).callback ∧
    edgeMesh.UpdateDerivatives sqrtRounded squareShapeEps2
      = .error "CHECK failed: materials_[i] == s.GetMaterial(i)" := by
  decide!

/-- C7, amended. `Mesh::UpdateDerivatives(s)` raises an error iff some mesh point with a
non-negative piece fails the provenance range check, or the shape's piece count differs from
the mesh's material count, or at some position the mesh material and `s.GetMaterial(i)` differ
in color, in the value of the permittivity, or in the callback identifier. Materials that
differ only in the derivative of the permittivity do not raise it, and after every successful
call each mesh material equals the shape's material at the same position, derivative
included. -/
theorem Mesh.UpdateDerivatives_misuse (sqrt : ℚ → ℚ) (s : Shape) (m : Mesh) :
    ((∃ msg, m.UpdateDerivatives sqrt s = .error msg) ↔
      ((∃ pt ∈ m.points_, 0 ≤ pt.original_piece ∧ ¬ pt.ProvenanceInRange s) ∨
        m.materials_.length ≠ s.NumPieces ∨
        ∃ i, i < m.materials_.length ∧
          ¬ ((m.materials_.getD i default).color = (s.GetMaterial i).color ∧
            ToDouble (m.materials_.getD i default).epsilon.re
              = ToDouble (s.GetMaterial i).epsilon.re ∧
            ToDouble (m.materials_.getD i default).epsilon.im
              = ToDouble (s.GetMaterial i).epsilon.im ∧
            (m.materials_.getD i default).callback = (s.GetMaterial i).callback))) ∧
    (∀ m', m.UpdateDerivatives sqrt s = .ok m' →
      m'.materials_.length = s.NumPieces ∧
      ∀ i, i < s.NumPieces → m'.materials_.getD i default = s.GetMaterial i) := by
  constructor
  · have hmat : (∃ msg, updateMaterials s 0 m.materials_ = .error msg) ↔
        ∃ i, i < m.materials_.length ∧
          ¬ ((m.materials_.getD i default).color = (s.GetMaterial i).color ∧
            ToDouble (m.materials_.getD i default).epsilon.re
              = ToDouble (s.GetMaterial i).epsilon.re ∧
            ToDouble (m.materials_.getD i default).epsilon.im
              = ToDouble (s.GetMaterial i).epsilon.im ∧
            (m.materials_.getD i default).callback = (s.GetMaterial i).callback) := by
      rw [updateMaterials_error_iff]
      constructor
      · rintro ⟨k, hk, hf⟩
        refine ⟨k, hk, ?_⟩
        rw [← Material.eq_iff]
        rw [Nat.zero_add] at hf
        intro hc
        rw [hc] at hf
        cases hf
      · rintro ⟨k, hk, hf⟩
        refine ⟨k, hk, ?_⟩
        rw [← Material.eq_iff] at hf
        rw [Nat.zero_add]
        exact Bool.eq_false_iff.mpr hf
    rw [← updatePoints_error_iff sqrt s m.points_, ← hmat]
    unfold Mesh.UpdateDerivatives
    cases h1 : updatePoints sqrt s m.points_ with
    | error msg => simp
    | ok pts =>
      by_cases hl : m.materials_.length = s.NumPieces
      · simp only [hl, if_true]
        cases h2 : updateMaterials s 0 m.materials_ with
        | error msg => simp
        | ok mats => simp
      · simp [hl]
  · intro m' h
    obtain ⟨pts, mats, _, hlen, hmats, hm'⟩ := Mesh.UpdateDerivatives_ok sqrt s m m' h
    obtain ⟨hl, hp⟩ := updateMaterials_spec s 0 m.materials_ mats hmats
    subst hm'
    refine ⟨by simp only; rw [hl, hlen], ?_⟩
    intro i hi
    have := hp i (by rw [hlen]; exact hi)
    simpa using this

/-- C7 (amended), on the example mesh: a shape whose material differs from the mesh's only in
the derivative of the permittivity is accepted, and the mesh material becomes the shape's
material, derivative included. -/
theorem Mesh.UpdateDerivatives_misuse_witness :
    edgeMesh.UpdateDerivatives sqrtRounded squareShapeEpsDeriv
      = .ok { edgeMeshUpdated with materials_ := [squareShapeEpsDeriv.GetMaterial 0] } ∧
    edgeMesh.materials_.getD 0 default ≠ squareShapeEpsDeriv.GetMaterial 0 ∧
    ({ edgeMeshUpdated with materials_ := [squareShapeEpsDeriv.GetMaterial 0] } : Mesh).materials_.length
      = squareShapeEpsDeriv.NumPieces ∧
    ∀ i, i < squareShapeEpsDeriv.NumPieces →
      ({ edgeMeshUpdated with materials_ := [squareShapeEpsDeriv.GetMaterial 0] } : Mesh).materials_.getD
        i default = squareShapeEpsDeriv.GetMaterial i :=
  ⟨by decide!, by decide!,
    (Mesh.UpdateDerivatives_misuse sqrtRounded squareShapeEpsDeriv edgeMesh).2 _ (by decide!)⟩

/-- C8. `Material::operator==` is true iff the colors are equal, the values of the complex
permittivity (real and imaginary part) are equal and the callback identifiers are equal; the
derivatives carried by the permittivity never affect the result; the relation is reflexive,
symmetric and transitive. -/
theorem Material.eq_equivalence :
    (∀ a b : Material, a.eq b = true ↔
      a.color = b.color ∧ ToDouble a.epsilon.re = ToDouble b.epsilon.re ∧
        ToDouble a.epsilon.im = ToDouble b.epsilon.im ∧ a.callback = b.callback) ∧
    (∀ (a b : Material) (d1 d2 d3 d4 : ℚ),
      (a.setEpsilonDerivative d1 d2).eq (b.setEpsilonDerivative d3 d4) = a.eq b) ∧
    (∀ a : Material, a.eq a = true) ∧
    (∀ a b : Material, a.eq b = true → b.eq a = true) ∧
    (∀ a b c : Material, a.eq b = true → b.eq c = true → a.eq c = true) := by
  have key : ∀ a b : Material, a.eq b = true ↔
      a.color = b.color ∧ ToDouble a.epsilon.re = ToDouble b.epsilon.re ∧
        ToDouble a.epsilon.im = ToDouble b.epsilon.im ∧ a.callback = b.callback := by
    intro a b
    unfold Material.eq JetComplex.eq JetNum.eq ToDouble
    simp only [Bool.and_eq_true, decide_eq_true_eq]
    tauto
  refine ⟨key, ?_, ?_, ?_, ?_⟩
  · intro a b d1 d2 d3 d4
    rfl
  · intro a
    exact (key a a).mpr ⟨rfl, rfl, rfl, rfl⟩
  · intro a b hab
    obtain ⟨h1, h2, h3, h4⟩ := (key a b).mp hab
    exact (key b a).mpr ⟨h1.symm, h2.symm, h3.symm, h4.symm⟩
  · intro a b c hab hbc
    obtain ⟨h1, h2, h3, h4⟩ := (key a b).mp hab
    obtain ⟨g1, g2, g3, g4⟩ := (key b c).mp hbc
    exact (key a c).mpr ⟨h1.trans g1, h2.trans g2, h3.trans g3, h4.trans g4⟩

/-! ## Mesh construction -/

theorem kernelPointlist_getD (s : Shape) (index_map : List (Nat × Nat)) (u : Nat)
    (hu : u < index_map.length) :
    (kernelPointlist s index_map).getD (2 * u) 0
      = ToDouble (s.vertex (index_map.getD u default)).p.x ∧
    (kernelPointlist s index_map).getD (2 * u + 1) 0
      = ToDouble (s.vertex (index_map.getD u default)).p.y := by
  induction index_map generalizing u with
  | nil => cases hu
  | cons a l ih =>
    cases u with
    | zero => simp [kernelPointlist]
    | succ k =>
      have hk : k < l.length := by simpa using hu
      obtain ⟨h1, h2⟩ := ih k hk
      have e1 : 2 * (k + 1) = (2 * k) + 1 + 1 := by ring
      unfold kernelPointlist at h1 h2 ⊢
      rw [e1]
      simp only [List.flatMap_cons, List.cons_append, List.nil_append, List.getD_cons_succ]
      exact ⟨h1, h2⟩

theorem kernelPointmarkerlist_getD (index_map : List (Nat × Nat)) (u : Nat)
    (hu : u < index_map.length) :
    (kernelPointmarkerlist index_map).getD u 0 = 2 + (u : Int) := by
  unfold kernelPointmarkerlist
  rw [List.getD_eq_getElem _ _ (by simpa using hu)]
  simp

theorem kernelInput_points (env : Env) (s : Shape) (tin : triangulateio)
    (h : kernelInput env s = .ok tin) :
    tin.pointlist = kernelPointlist s s.pointIndex.index_map ∧
    tin.pointmarkerlist = kernelPointmarkerlist s.pointIndex.index_map ∧
    tin.numberofpoints = (s.pointIndex.index_map.length : Int) := by
  unfold kernelInput at h
  cases h1 : holePoints env s with
  | error msg => rw [h1] at h; cases h
  | ok hole_points =>
    rw [h1] at h
    cases h2 : kernelSegments s s.pointIndex.point_map with
    | error msg => rw [h2] at h; cases h
    | ok seg =>
      rw [h2] at h
      cases h3 : kernelRegions env s with
      | error msg => rw [h3] at h; cases h
      | ok regionlist =>
        rw [h3] at h
        cases h
        exact ⟨rfl, rfl, rfl⟩

theorem interpretPoint_copy (env : Env) (s : Shape) (index_map : List (Nat × Nat)) (x y : ℚ)
    (m : Int) (hm : 2 ≤ m) (hm2 : m - 2 < (index_map.length : Int)) :
    interpretPoint env s index_map x y m =
      .ok { p := JetPoint.ofDoubles x y
            e := (s.vertex (getI index_map (m - 2))).e
            original_piece := ((getI index_map (m - 2)).1 : Int)
            original_edge := ((getI index_map (m - 2)).2 : Int) } := by
  unfold interpretPoint
  have h1 : m ≥ 2 := hm
  simp only [h1, hm2, if_true]
  rfl

/-- C9. Point-marker round trip. The assembled kernel input gives input point `u` (for every
UPI `u`) the coordinate values of the representative shape vertex `index_map[u]` and the marker
`2 + u`; the interpreter maps an output point with marker `m >= 2`, `m - 2` below the number
of unique points, to the provenance `index_map[m - 2]` with the edge metadata of that shape
vertex; so an output point that carries the marker of input point `u` gets the edge metadata
and provenance of vertex `index_map[u]`. -/
theorem kernel_point_marker_roundtrip (env : Env) (s : Shape) (tin : triangulateio)
    (h : kernelInput env s = .ok tin) (u : Nat) (hu : u < s.pointIndex.index_map.length)
    (x y : ℚ) (m : Int) (hm : 2 ≤ m) (hm2 : m - 2 < (s.pointIndex.index_map.length : Int)) :
    tin.numberofpoints = (s.pointIndex.index_map.length : Int) ∧
    tin.pointlist.getD (2 * u) 0
      = ToDouble (s.vertex (s.pointIndex.index_map.getD u default)).p.x ∧
    tin.pointlist.getD (2 * u + 1) 0
      = ToDouble (s.vertex (s.pointIndex.index_map.getD u default)).p.y ∧
    tin.pointmarkerlist.getD u 0 = 2 + (u : Int) ∧
    interpretPoint env s s.pointIndex.index_map x y m =
      .ok { p := JetPoint.ofDoubles x y
            e := (s.vertex (getI s.pointIndex.index_map (m - 2))).e
            original_piece := ((getI s.pointIndex.index_map (m - 2)).1 : Int)
            original_edge := ((getI s.pointIndex.index_map (m - 2)).2 : Int) } ∧
    interpretPoint env s s.pointIndex.index_map x y (tin.pointmarkerlist.getD u 0) =
      .ok { p := JetPoint.ofDoubles x y
            e := (s.vertex (s.pointIndex.index_map.getD u default)).e
            original_piece := ((s.pointIndex.index_map.getD u default).1 : Int)
            original_edge := ((s.pointIndex.index_map.getD u default).2 : Int) } := by
  obtain ⟨e1, e2, e3⟩ := kernelInput_points env s tin h
  obtain ⟨c1, c2⟩ := kernelPointlist_getD s s.pointIndex.index_map u hu
  have c3 := kernelPointmarkerlist_getD s.pointIndex.index_map u hu
  rw [e1, e2]
  refine ⟨e3, c1, c2, c3, interpretPoint_copy env s _ x y m hm hm2, ?_⟩
  rw [c3, interpretPoint_copy env s _ x y (2 + (u : Int)) (by omega) (by omega)]
  have hg : getI s.pointIndex.index_map (2 + (u : Int) - 2) = s.pointIndex.index_map.getD u default := by
    unfold getI
    have h0 : (0 : Int) ≤ 2 + (u : Int) - 2 := by omega
    have h1 : (2 + (u : Int) - 2).toNat = u := by omega
    rw [if_pos h0, h1]
  rw [hg]

/-- C9, on `squareShape`: input point `1` is vertex `(0, 1)` at `(1, 0)` with marker `3`, and
an output point with marker `3` gets provenance `(0, 1)`. -/
theorem kernel_point_marker_roundtrip_witness :
    (∃ tin, kernelInput exampleEnv squareShape = .ok tin ∧
      tin.pointlist.getD 2 0 = 1 ∧ tin.pointlist.getD 3 0 = 0 ∧
      tin.pointmarkerlist.getD 1 0 = 3) ∧
    squareShape.pointIndex.index_map = [(0, 0), (0, 1), (0, 2), (0, 3)] ∧
    interpretPoint exampleEnv squareShape squareShape.pointIndex.index_map 1 0 3 =
      .ok { p := JetPoint.ofDoubles 1 0
            e := (squareShape.vertex (getI squareShape.pointIndex.index_map (3 - 2))).e
            original_piece := ((getI squareShape.pointIndex.index_map (3 - 2)).1 : Int)
            original_edge := ((getI squareShape.pointIndex.index_map (3 - 2)).2 : Int) } :=
  ⟨⟨_, rfl, by decide!, by decide!, by decide!⟩, by decide!,
    (kernel_point_marker_roundtrip exampleEnv squareShape _ rfl 1 (by decide!) 1 0 3
      (by decide) (by decide!)).2.2.2.2.1⟩

theorem Mesh.construct_geometry_error (env : Env) (s : Shape) (L : ℚ) (lua : Option Lua)
    (c0 : Int) (G : ℚ) (msg : String) (h : env.GeometryError s = some msg) :
    Mesh.construct env s L lua c0 G = .ok (Mesh.invalid c0, G) := by
  unfold Mesh.construct
  rw [h]

theorem Mesh.construct_sharp (env : Env) (s : Shape) (L : ℚ) (lua : Option Lua)
    (c0 : Int) (G : ℚ) (h : env.GeometryError s = none)
    (hs : ToDouble (env.SharpestAngle s) < kSharpestAllowableAngle) :
    Mesh.construct env s L lua c0 G = .ok (Mesh.invalid (frexpExp L - 2), G) := by
  unfold Mesh.construct
  rw [h]
  simp only [hs, if_true]

theorem Mesh.construct_kernel_failure (env : Env) (s : Shape) (L : ℚ) (lua : Option Lua)
    (c0 : Int) (G : ℚ) (h : env.GeometryError s = none)
    (hs : ¬ ToDouble (env.SharpestAngle s) < kSharpestAllowableAngle)
    (tin : triangulateio) (htin : kernelInput env s = .ok tin)
    (hk : env.triangulate (kernelOptions L) (triunsuitable (sqr L)) tin = none) :
    Mesh.construct env s L lua c0 G = .ok (Mesh.invalid (frexpExp L - 2), sqr L) := by
  unfold Mesh.construct
  rw [h]
  simp only [hs, if_false, htin, hk]

theorem Mesh.construct_success (env : Env) (s : Shape) (L : ℚ) (lua : Option Lua)
    (c0 : Int) (G : ℚ) (h : env.GeometryError s = none)
    (hs : ¬ ToDouble (env.SharpestAngle s) < kSharpestAllowableAngle)
    (tin tout : triangulateio) (htin : kernelInput env s = .ok tin)
    (hk : env.triangulate (kernelOptions L) (triunsuitable (sqr L)) tin = some tout)
    (m : Mesh) (G' : ℚ) (hc : Mesh.construct env s L lua c0 G = .ok (m, G')) :
    ∃ points triangles m1,
      interpretPoints env s s.pointIndex.index_map tout = .ok points ∧
      interpretTriangles s tout = .ok triangles ∧
      Mesh.UpdateDerivatives env.sqrt s
        { valid_mesh_ := true, points_ := points, triangles_ := triangles,
          materials_ := (List.range s.NumPieces).map s.GetMaterial,
          cell_size_ := frexpExp L - 2, spatial_index_ := [], dielectric_ := [] } = .ok m1 ∧
      G' = sqr L ∧
      ((lua = none ∧ m = m1) ∨
        ∃ l, lua = some l ∧ m = { m1 with dielectric_ := Mesh.DeterminePointDielectric l m1 }) := by
  unfold Mesh.construct at hc
  rw [h] at hc
  simp only [hs, if_false, htin, hk] at hc
  cases h1 : interpretPoints env s s.pointIndex.index_map tout with
  | error msg => rw [h1] at hc; cases hc
  | ok points =>
    rw [h1] at hc
    cases h2 : interpretTriangles s tout with
    | error msg => rw [h2] at hc; cases hc
    | ok triangles =>
      rw [h2] at hc
      simp only at hc
      cases h3 : Mesh.UpdateDerivatives env.sqrt s
          { valid_mesh_ := true, points_ := points, triangles_ := triangles,
            materials_ := (List.range s.NumPieces).map s.GetMaterial,
            cell_size_ := frexpExp L - 2, spatial_index_ := [], dielectric_ := [] } with
      | error msg => rw [h3] at hc; cases hc
      | ok m1 =>
        rw [h3] at hc
        cases lua with
        | none =>
          have hc' := Except.ok.inj hc
          exact ⟨points, triangles, m1, rfl, rfl, h3, (congrArg Prod.snd hc').symm,
            Or.inl ⟨rfl, (congrArg Prod.fst hc').symm⟩⟩
        | some l =>
          have hc' := Except.ok.inj hc
          exact ⟨points, triangles, m1, rfl, rfl, h3, (congrArg Prod.snd hc').symm,
            Or.inr ⟨l, rfl, (congrArg Prod.fst hc').symm⟩⟩

theorem Mesh.construct_success_valid (env : Env) (s : Shape) (L : ℚ) (lua : Option Lua)
    (c0 : Int) (G : ℚ) (h : env.GeometryError s = none)
    (hs : ¬ ToDouble (env.SharpestAngle s) < kSharpestAllowableAngle)
    (tin tout : triangulateio) (htin : kernelInput env s = .ok tin)
    (hk : env.triangulate (kernelOptions L) (triunsuitable (sqr L)) tin = some tout)
    (m : Mesh) (G' : ℚ) (hc : Mesh.construct env s L lua c0 G = .ok (m, G')) :
    m.valid_mesh_ = true := by
  obtain ⟨points, triangles, m1, _, _, h3, _, hm⟩ :=
    Mesh.construct_success env s L lua c0 G h hs tin tout htin hk m G' hc
  have hv := (Mesh.UpdateDerivatives_keeps env.sqrt s _ m1 h3).1
  rcases hm with ⟨_, rfl⟩ | ⟨l, _, rfl⟩
  · exact hv
  · exact hv

theorem foldlE_inv {α β : Type} (Q : β → Prop) (f : β → α → Except String β) (l : List α)
    (b r : β) (hb : Q b) (hf : ∀ b a b', f b a = .ok b' → Q b → Q b')
    (h : foldlE f b l = .ok r) : Q r := by
  induction l generalizing b with
  | nil =>
    simp only [foldlE] at h
    cases h
    exact hb
  | cons a rest ih =>
    simp only [foldlE] at h
    cases h1 : f b a with
    | error msg => rw [h1] at h; cases h
    | ok b' =>
      rw [h1] at h
      exact ih b' (hf b a b' h1 hb) h

theorem interpretPoint_provenanceOK (env : Env) (s : Shape) (index_map : List (Nat × Nat))
    (x y : ℚ) (m : Int) (pt : RPoint) (h : interpretPoint env s index_map x y m = .ok pt) :
    pt.ProvenanceOK := by
  unfold interpretPoint at h
  by_cases h1 : m ≥ 2
  · by_cases h2 : m - 2 < (index_map.length : Int)
    · simp only [h1, h2, if_true] at h
      cases h
      exact Or.inr (Int.ofNat_nonneg _)
    · simp only [h1, h2, if_true, if_false] at h
      cases h
  · by_cases h3 : m < 0
    · by_cases h4 : -m - 1 < (index_map.length : Int)
      · simp only [h1, h3, h4, if_true, if_false] at h
        cases h
        exact Or.inr (Int.ofNat_nonneg _)
      · simp only [h1, h3, h4, if_true, if_false] at h
        cases h
    · by_cases h5 : m = 1
      · simp only [h1, h3, h5, if_true, if_false] at h
        cases h
      · simp only [h1, h3, h5, if_false] at h
        cases h
        exact Or.inl ⟨rfl, rfl⟩

theorem interpretPoints_provenanceOK (env : Env) (s : Shape) (index_map : List (Nat × Nat))
    (tout : triangulateio) (points : List RPoint)
    (h : interpretPoints env s index_map tout = .ok points) :
    ∀ q ∈ points, q.ProvenanceOK := by
  unfold interpretPoints at h
  refine foldlE_inv (fun pts => ∀ q ∈ pts, q.ProvenanceOK) _ _ _ _ ?_ ?_ h
  · intro q hq
    cases hq
  · intro pts i pts' hstep hpts
    cases hp : interpretPoint env s index_map (tout.pointlist.getD (2 * i) 0)
        (tout.pointlist.getD (2 * i + 1) 0) (tout.pointmarkerlist.getD i 0) with
    | error msg => rw [hp] at hstep; cases hstep
    | ok pt =>
      rw [hp] at hstep
      cases hstep
      intro q hq
      rcases List.mem_append.mp hq with h1 | h1
      · exact hpts q h1
      · have : q = pt := by simpa using h1
        rw [this]
        exact interpretPoint_provenanceOK env s index_map _ _ _ pt hp

/-- Every point of a constructed mesh has provenance `(-1, -1)` or a non-negative piece. -/
theorem Mesh.construct_provenanceOK (env : Env) (s : Shape) (L : ℚ) (lua : Option Lua)
    (c0 : Int) (G : ℚ) (m : Mesh) (G' : ℚ)
    (hc : Mesh.construct env s L lua c0 G = .ok (m, G')) :
    ∀ q ∈ m.points_, q.ProvenanceOK := by
  cases hG : env.GeometryError s with
  | some msg =>
    rw [Mesh.construct_geometry_error env s L lua c0 G msg hG] at hc
    cases hc
    intro q hq
    cases hq
  | none =>
    by_cases hs : ToDouble (env.SharpestAngle s) < kSharpestAllowableAngle
    · rw [Mesh.construct_sharp env s L lua c0 G hG hs] at hc
      cases hc
      intro q hq
      cases hq
    · cases htin : kernelInput env s with
      | error msg =>
        unfold Mesh.construct at hc
        rw [hG] at hc
        simp only [hs, if_false, htin] at hc
        cases hc
      | ok tin =>
        cases hk : env.triangulate (kernelOptions L) (triunsuitable (sqr L)) tin with
        | none =>
          rw [Mesh.construct_kernel_failure env s L lua c0 G hG hs tin htin hk] at hc
          cases hc
          intro q hq
          cases hq
        | some tout =>
          obtain ⟨points, triangles, m1, h1, _, h3, _, hm⟩ :=
            Mesh.construct_success env s L lua c0 G hG hs tin tout htin hk m G' hc
          have hpts := interpretPoints_provenanceOK env s _ tout points h1
          obtain ⟨_, _, hlen, hfr⟩ := Mesh.UpdateDerivatives_keeps env.sqrt s _ m1 h3
          have hm1 : ∀ q ∈ m1.points_, q.ProvenanceOK := by
            intro q hq
            obtain ⟨i, hi, rfl⟩ := List.getElem_of_mem hq
            have hi' : i < points.length := by rw [← hlen]; exact hi
            obtain ⟨f4, f5⟩ := hfr i hi'
            simp only [List.getD_eq_getElem _ _ hi, List.getD_eq_getElem _ _ hi'] at f4 f5
            have hold := hpts _ (List.getElem_mem hi')
            unfold RPoint.ProvenanceOK at hold ⊢
            rw [f4, f5]
            exact hold
          rcases hm with ⟨_, rfl⟩ | ⟨l, _, rfl⟩
          · exact hm1
          · exact hm1

/-- A constructed mesh starts with an empty spatial index. -/
theorem Mesh.construct_index_empty (env : Env) (s : Shape) (L : ℚ) (lua : Option Lua)
    (c0 : Int) (G : ℚ) (m : Mesh) (G' : ℚ)
    (hc : Mesh.construct env s L lua c0 G = .ok (m, G')) :
    m.spatial_index_ = [] := by
  cases hG : env.GeometryError s with
  | some msg =>
    rw [Mesh.construct_geometry_error env s L lua c0 G msg hG] at hc
    cases hc
    rfl
  | none =>
    by_cases hs : ToDouble (env.SharpestAngle s) < kSharpestAllowableAngle
    · rw [Mesh.construct_sharp env s L lua c0 G hG hs] at hc
      cases hc
      rfl
    · cases htin : kernelInput env s with
      | error msg =>
        unfold Mesh.construct at hc
        rw [hG] at hc
        simp only [hs, if_false, htin] at hc
        cases hc
      | ok tin =>
        cases hk : env.triangulate (kernelOptions L) (triunsuitable (sqr L)) tin with
        | none =>
          rw [Mesh.construct_kernel_failure env s L lua c0 G hG hs tin htin hk] at hc
          cases hc
          rfl
        | some tout =>
          obtain ⟨points, triangles, m1, _, _, h3, _, hm⟩ :=
            Mesh.construct_success env s L lua c0 G hG hs tin tout htin hk m G' hc
          have hi := (Mesh.UpdateDerivatives_keeps env.sqrt s _ m1 h3).2.1
          rcases hm with ⟨_, rfl⟩ | ⟨l, _, rfl⟩
          · exact hi
          · exact hi

/-- C4. `Mesh::Mesh` yields a valid mesh iff the shape has no geometry error, its sharpest
angle is not below the fixed minimum `1e-4` (an angle equal to the minimum is accepted), and
the kernel returns without signalling failure. In each of the three failure cases the
constructor returns with the mesh invalid and the point, triangle and material arrays empty.
(The constructor returns unless an internal `CHECK` or `Panic` aborts the program.) -/
theorem Mesh.construct_valid_iff (env : Env) (s : Shape) (L : ℚ) (lua : Option Lua)
    (c0 : Int) (G : ℚ) :
    (∀ m G', Mesh.construct env s L lua c0 G = .ok (m, G') →
      (m.valid_mesh_ = true ↔
        (env.GeometryError s = none ∧
          kSharpestAllowableAngle ≤ ToDouble (env.SharpestAngle s) ∧
          ∃ tin tout, kernelInput env s = .ok tin ∧
            env.triangulate (kernelOptions L) (triunsuitable (sqr L)) tin = some tout)) ∧
      (m.valid_mesh_ = false → m.points_ = [] ∧ m.triangles_ = [] ∧ m.materials_ = [])) ∧
    (env.GeometryError s ≠ none →
      Mesh.construct env s L lua c0 G = .ok (Mesh.invalid c0, G)) ∧
    (env.GeometryError s = none →
      ToDouble (env.SharpestAngle s) < kSharpestAllowableAngle →
      Mesh.construct env s L lua c0 G = .ok (Mesh.invalid (frexpExp L - 2), G)) ∧
    (env.GeometryError s = none →
      kSharpestAllowableAngle ≤ ToDouble (env.SharpestAngle s) →
      ∀ tin, kernelInput env s = .ok tin →
        env.triangulate (kernelOptions L) (triunsuitable (sqr L)) tin = none →
        Mesh.construct env s L lua c0 G = .ok (Mesh.invalid (frexpExp L - 2), sqr L)) := by
  refine ⟨?_, ?_, ?_, ?_⟩
  · intro m G' hc
    cases hG : env.GeometryError s with
    | some msg =>
      rw [Mesh.construct_geometry_error env s L lua c0 G msg hG] at hc
      cases hc
      simp [Mesh.invalid]
    | none =>
      by_cases hs : ToDouble (env.SharpestAngle s) < kSharpestAllowableAngle
      · rw [Mesh.construct_sharp env s L lua c0 G hG hs] at hc
        cases hc
        have : ¬ kSharpestAllowableAngle ≤ ToDouble (env.SharpestAngle s) := not_le.mpr hs
        simp [Mesh.invalid, this]
      · cases htin : kernelInput env s with
        | error msg =>
          unfold Mesh.construct at hc
          rw [hG] at hc
          simp only [hs, if_false, htin] at hc
          cases hc
        | ok tin =>
          cases hk : env.triangulate (kernelOptions L) (triunsuitable (sqr L)) tin with
          | none =>
            rw [Mesh.construct_kernel_failure env s L lua c0 G hG hs tin htin hk] at hc
            cases hc
            refine ⟨?_, fun _ => ⟨rfl, rfl, rfl⟩⟩
            constructor
            · intro hv
              simp [Mesh.invalid] at hv
            · rintro ⟨_, _, tin', tout', e1, e2⟩
              cases e1
              rw [hk] at e2
              cases e2
          | some tout =>
            have hv := Mesh.construct_success_valid env s L lua c0 G hG hs tin tout htin hk
              m G' hc
            refine ⟨?_, ?_⟩
            · constructor
              · intro _
                exact ⟨rfl, not_lt.mp hs, tin, tout, rfl, hk⟩
              · intro _
                exact hv
            · intro hf
              rw [hv] at hf
              cases hf
  · intro hG
    cases hG' : env.GeometryError s with
    | none => exact absurd hG' hG
    | some msg => exact Mesh.construct_geometry_error env s L lua c0 G msg hG'
  · intro hG hs
    exact Mesh.construct_sharp env s L lua c0 G hG hs
  · intro hG hs tin htin hk
    exact Mesh.construct_kernel_failure env s L lua c0 G hG (not_lt.mpr hs) tin htin hk

/-- C4, on `squareShape` with the example collaborators: with target edge length `1/2` the
constructor returns the valid mesh `squareMesh`; with target edge length `1/8` the example
kernel fails and the mesh is invalid and empty. -/
theorem Mesh.construct_valid_iff_witness :
    Mesh.construct exampleEnv squareShape (1 / 2) none 7 0 = .ok (squareMesh, 1 / 4) ∧
    squareMesh.valid_mesh_ = true ∧
    Mesh.construct exampleEnv squareShape (1 / 8) none 7 0
      = .ok (Mesh.invalid (-4), 1 / 64) ∧
    (squareMesh.valid_mesh_ = true ↔
      (exampleEnv.GeometryError squareShape = none ∧
        kSharpestAllowableAngle ≤ ToDouble (exampleEnv.SharpestAngle squareShape) ∧
        ∃ tin tout, kernelInput exampleEnv squareShape = .ok tin ∧
          exampleEnv.triangulate (kernelOptions (1 / 2)) (triunsuitable (sqr (1 / 2))) tin
            = some tout)) :=
  ⟨by decide!, rfl, by decide!,
    ((Mesh.construct_valid_iff exampleEnv squareShape (1 / 2) none 7 0).1 squareMesh (1 / 4)
      (by decide!)).1⟩

/-! ## Interpretation of the output triangles -/

theorem Int3.ofFn_get (f : Fin 3 → Int) (j : Fin 3) : (Int3.ofFn f) j = f j := by
  fin_cases j <;> rfl

theorem toInt32_natCast_of_lt (k : Int) (h0 : 0 ≤ k) (h1 : k < 2 ^ 31) : toInt32 k = k :=
  toInt32_of_I32 k ⟨by omega, h1⟩

theorem truncInt_intCast (k : Int) (hk : I32 k) : truncInt (k : ℚ) = k := by
  unfold truncInt
  by_cases h : (0 : ℚ) ≤ (k : ℚ)
  · rw [if_pos h, Int.floor_intCast, toInt32_of_I32 k hk]
  · rw [if_neg h, Int.ceil_intCast, toInt32_of_I32 k hk]

/-- The list collected by a loop that appends one checked result per index. -/
theorem foldlE_collect {α : Type} [Inhabited α] (g : Nat → Except String α)
    (f : List α → Nat → Except String (List α))
    (hf : ∀ acc i, (∀ msg, g i = .error msg → f acc i = .error msg) ∧
      (∀ t, g i = .ok t → f acc i = .ok (acc ++ [t])))
    (l : List Nat) (init r : List α) (h : foldlE f init l = .ok r) :
    ∃ out, r = init ++ out ∧ out.length = l.length ∧
      ∀ k, k < l.length → g (l.getD k 0) = .ok (out.getD k default) := by
  induction l generalizing init with
  | nil =>
    simp only [foldlE] at h
    cases h
    exact ⟨[], by simp, rfl, fun k hk => absurd hk (Nat.not_lt_zero _)⟩
  | cons a rest ih =>
    simp only [foldlE] at h
    cases hg : g a with
    | error msg =>
      rw [(hf init a).1 msg hg] at h
      cases h
    | ok t =>
      rw [(hf init a).2 t hg] at h
      obtain ⟨out, hr, hlen, hk⟩ := ih (init ++ [t]) h
      refine ⟨t :: out, by rw [hr]; simp, by simp [hlen], ?_⟩
      intro k hklt
      cases k with
      | zero => simpa using hg
      | succ k' =>
        have : k' < rest.length := by simpa using hklt
        simpa using hk k' this

theorem getD_range (n k : Nat) (hk : k < n) : (List.range n).getD k 0 = k := by
  rw [List.getD_eq_getElem _ _ (by simpa using hk)]
  simp

theorem interpretTriangles_spec (s : Shape) (tout : triangulateio) (tris : List Triangle)
    (h : interpretTriangles s tout = .ok tris) :
    tout.numberofcorners = 3 ∧ tout.numberoftriangleattributes = 1 ∧
    ∃ attributes, tout.triangleattributelist = some attributes ∧
      tris.length = tout.numberoftriangles.toNat ∧
      ∀ i, i < tout.numberoftriangles.toNat →
        interpretTriangle s tout attributes i = .ok (tris.getD i default) := by
  unfold interpretTriangles at h
  by_cases h1 : tout.numberofcorners = 3
  · by_cases h2 : tout.numberoftriangleattributes = 1
    · simp only [h1, h2, if_true] at h
      cases h3 : tout.triangleattributelist with
      | none => rw [h3] at h; cases h
      | some attributes =>
        rw [h3] at h
        simp only at h
        obtain ⟨out, hr, hlen, hk⟩ :=
          foldlE_collect (interpretTriangle s tout attributes) _
            (fun acc i => ⟨fun msg hg => by simp only [hg], fun t hg => by simp only [hg]⟩)
            (List.range tout.numberoftriangles.toNat) [] tris h
        simp only [List.nil_append] at hr
        subst hr
        refine ⟨h1, h2, attributes, rfl, by simpa using hlen, ?_⟩
        intro i hi
        have := hk i (by simpa using hi)
        rw [getD_range _ _ hi] at this
        exact this
    · simp only [h1, h2, if_true, if_false] at h
      cases h
  · simp only [h1, if_false] at h
    cases h

theorem interpretTriangle_ok (s : Shape) (tout : triangulateio) (attributes : List ℚ) (i : Nat)
    (t : Triangle) (h : interpretTriangle s tout attributes i = .ok t) :
    (t.material : ℚ) = attributes.getD i 0 ∧ 0 ≤ t.material ∧
    t.material < (s.NumPieces : Int) ∧ t.material = truncInt (attributes.getD i 0) ∧
    (∀ j : Fin 3, t.index j = tout.corner i j) ∧
    (∀ j : Fin 3, t.neighbor j = tout.neighborSlot i (j + 2)) := by
  unfold interpretTriangle at h
  by_cases h1 : ((truncInt (attributes.getD i 0) : Int) : ℚ) = attributes.getD i 0
  · by_cases h2 : 0 ≤ truncInt (attributes.getD i 0) ∧
        truncInt (attributes.getD i 0) < (s.NumPieces : Int)
    · simp only [h1, h2, if_true, and_self] at h
      cases h
      refine ⟨h1, h2.1, h2.2, rfl, ?_, ?_⟩
      · intro j
        simp only [Int3.ofFn_get]
        rfl
      · intro j
        simp only [Int3.ofFn_get]
        unfold triangulateio.neighborSlot
        rw [Fin.val_add]
        rfl
    · simp only [h1, h2, if_true, if_false] at h
      cases h
  · simp only [h1, if_false] at h
    cases h

/-- C11. Interpretation of a kernel output triangle succeeds iff its region attribute is an
exact integer `k` with `0 <= k < NumPieces` (`NumPieces()` is an `int`); on success the
material index of the triangle is the attribute converted to an integer, which is `k`; a
non-integral or out-of-range attribute makes the interpretation fail (a failed `CHECK`), it is
not rounded or clamped into range. -/
theorem interpretTriangle_succeeds_iff (s : Shape) (tout : triangulateio)
    (attributes : List ℚ) (i : Nat) (hN : (s.NumPieces : Int) < 2 ^ 31) :
    ((∃ t, interpretTriangle s tout attributes i = .ok t) ↔
      s.RegionAttribute (attributes.getD i 0)) ∧
    (∀ t, interpretTriangle s tout attributes i = .ok t →
      (t.material : ℚ) = attributes.getD i 0 ∧ t.material = truncInt (attributes.getD i 0) ∧
      0 ≤ t.material ∧ t.material < (s.NumPieces : Int)) ∧
    (¬ s.RegionAttribute (attributes.getD i 0) →
      ∃ msg, interpretTriangle s tout attributes i = .error msg) := by
  have hfwd : ∀ t, interpretTriangle s tout attributes i = .ok t →
      (t.material : ℚ) = attributes.getD i 0 ∧ t.material = truncInt (attributes.getD i 0) ∧
      0 ≤ t.material ∧ t.material < (s.NumPieces : Int) := by
    intro t ht
    obtain ⟨a1, a2, a3, a4, _, _⟩ := interpretTriangle_ok s tout attributes i t ht
    exact ⟨a1, a4, a2, a3⟩
  have hiff : (∃ t, interpretTriangle s tout attributes i = .ok t) ↔
      s.RegionAttribute (attributes.getD i 0) := by
    constructor
    · rintro ⟨t, ht⟩
      obtain ⟨a1, _, a3, a4⟩ := hfwd t ht
      exact ⟨t.material, a1, a3, a4⟩
    · rintro ⟨k, hk, h0, h1⟩
      have htr : truncInt (attributes.getD i 0) = k := by
        rw [← hk]
        exact truncInt_intCast k ⟨by omega, by omega⟩
      unfold interpretTriangle
      have c1 : ((truncInt (attributes.getD i 0) : Int) : ℚ) = attributes.getD i 0 := by
        rw [htr, hk]
      have c2 : 0 ≤ truncInt (attributes.getD i 0) ∧
          truncInt (attributes.getD i 0) < (s.NumPieces : Int) := by
        rw [htr]
        exact ⟨h0, h1⟩
      simp only [c1, c2, if_true, and_self]
      exact ⟨_, rfl⟩
  refine ⟨hiff, hfwd, ?_⟩
  intro hno
  cases hr : interpretTriangle s tout attributes i with
  | error msg => exact ⟨msg, rfl⟩
  | ok t => exact absurd (hiff.mp ⟨t, hr⟩) hno

/-- C11, on the example output: the attribute `0` of triangle `1` is accepted for the one-piece
`squareShape` and becomes material `0`; the attributes `1/2` and `1` are rejected. -/
theorem interpretTriangle_succeeds_iff_witness :
    (squareShape.NumPieces : Int) < 2 ^ 31 ∧
    (∃ t, interpretTriangle squareShape (squareOutput squareInput) [0, 0] 1 = .ok t ∧
      t.material = 0) ∧
    interpretTriangle squareShape (squareOutput squareInput) [0, 1 / 2] 1
      = .error "CHECK failed: polygon_index == tout.triangleattributelist[i]" ∧
    interpretTriangle squareShape (squareOutput squareInput) [0, 1] 1
      = .error "CHECK failed: polygon_index >= 0 && polygon_index < s.NumPieces()" ∧
    ((∃ t, interpretTriangle squareShape (squareOutput squareInput) [0, 0] 1 = .ok t) ↔
      squareShape.RegionAttribute (([0, 0] : List ℚ).getD 1 0)) :=
  ⟨by decide, ⟨⟨⟨0, 2, 3⟩, 0, ⟨0, -1, -1⟩⟩, by decide!, by decide!⟩, by decide!, by decide!,
    (interpretTriangle_succeeds_iff squareShape (squareOutput squareInput) [0, 0] 1
      (by decide)).1⟩

theorem fin3_add_two_add_one (j : Fin 3) : j + 2 + 1 = j := by
  fin_cases j <;> rfl

theorem fin3_add_two_add_two (j : Fin 3) : j + 2 + 2 = j + 1 := by
  fin_cases j <;> rfl

/-- C12. For every output triangle `i` and local edge `j`, the mesh triangle has
`index[j]` = kernel corner `j` of triangle `i` and `neighbor[j]` = kernel neighbor slot
`(j + 2) mod 3` of triangle `i`; it is `-1` exactly when that kernel slot is `-1`; and under
the kernel's convention that slot `k` is the triangle across the edge opposite corner `k`, a
neighbor `n` that exists is a triangle that has both vertices `index[j]` and
`index[(j + 1) mod 3]` of the edge among its corners. -/
theorem interpretTriangles_adjacency (s : Shape) (tout : triangulateio) (tris : List Triangle)
    (h : interpretTriangles s tout = .ok tris) (i : Nat) (hi : i < tris.length) (j : Fin 3) :
    (tris.getD i default).index j = tout.corner i j ∧
    (tris.getD i default).neighbor j = tout.neighborSlot i (j + 2) ∧
    ((tris.getD i default).neighbor j = -1 ↔ tout.neighborSlot i (j + 2) = -1) ∧
    (tout.NeighborOpposite → ∀ n : Nat, (tris.getD i default).neighbor j = (n : Int) →
      n < tris.length →
      (∃ a : Fin 3, (tris.getD n default).index a = (tris.getD i default).index j) ∧
      (∃ b : Fin 3, (tris.getD n default).index b = (tris.getD i default).index (j + 1))) := by
  obtain ⟨_, _, attributes, _, hlen, hall⟩ := interpretTriangles_spec s tout tris h
  have hi' : i < tout.numberoftriangles.toNat := by rw [← hlen]; exact hi
  obtain ⟨_, _, _, _, hidx, hnb⟩ := interpretTriangle_ok s tout attributes i _ (hall i hi')
  refine ⟨hidx j, hnb j, by rw [hnb j], ?_⟩
  intro hconv n hn hnlt
  have hn' : n < tout.numberoftriangles.toNat := by rw [← hlen]; exact hnlt
  obtain ⟨_, _, _, _, hidxn, _⟩ := interpretTriangle_ok s tout attributes n _ (hall n hn')
  rw [hnb j] at hn
  obtain ⟨⟨a, ha⟩, ⟨b, hb⟩⟩ := hconv i (j + 2) n hi' hn hn'
  rw [fin3_add_two_add_one] at ha
  rw [fin3_add_two_add_two] at hb
  exact ⟨⟨a, by rw [hidxn a, hidx j, ha]⟩, ⟨b, by rw [hidxn b, hidx (j + 1), hb]⟩⟩

theorem squareOutput_neighborOpposite : (squareOutput squareInput).NeighborOpposite := by
  intro i k n hi hs hn
  have hi2 : i < 2 := hi
  have hn2 : n < 2 := hn
  interval_cases i <;> fin_cases k <;> interval_cases n <;>
    first
      | (exfalso; revert hs; decide)
      | decide

theorem squareOutput_triangles :
    interpretTriangles squareShape (squareOutput squareInput) = .ok squareMesh.triangles_ := by
  decide!

/-- C12, on the example output: edge `2` of mesh triangle `0` (from point `2` to point `0`)
has neighbor `1`, taken from kernel slot `1`, and triangle `1` has both points among its
corners; edge `0` has neighbor `-1`. -/
theorem interpretTriangles_adjacency_witness :
    (squareMesh.triangles_.getD 0 default).neighbor 2 = 1 ∧
    (squareMesh.triangles_.getD 0 default).neighbor 0 = -1 ∧
    (squareOutput squareInput).neighborSlot 0 (2 + 2) = 1 ∧
    (squareOutput squareInput).NeighborOpposite ∧
    ((∃ a : Fin 3, (squareMesh.triangles_.getD 1 default).index a
        = (squareMesh.triangles_.getD 0 default).index 2) ∧
      (∃ b : Fin 3, (squareMesh.triangles_.getD 1 default).index b
        = (squareMesh.triangles_.getD 0 default).index (2 + 1))) :=
  ⟨by decide, by decide, by decide, squareOutput_neighborOpposite,
    (interpretTriangles_adjacency squareShape (squareOutput squareInput) squareMesh.triangles_
      squareOutput_triangles 0 (by decide) 2).2.2.2 squareOutput_neighborOpposite 1
      (by decide) (by decide)⟩

/-! ## The refinement oracle and the kernel options -/

theorem Mesh.construct_reaches_kernel (env : Env) (s : Shape) (L : ℚ) (lua : Option Lua)
    (c0 : Int) (G : ℚ) (m : Mesh) (G' : ℚ)
    (hc : Mesh.construct env s L lua c0 G = .ok (m, G'))
    (hG : env.GeometryError s = none)
    (hs : ¬ ToDouble (env.SharpestAngle s) < kSharpestAllowableAngle) :
    G' = sqr L ∧ ∃ tin, kernelInput env s = .ok tin ∧
      (m.valid_mesh_ = true ↔
        (env.triangulate (kernelOptions L) (triunsuitable (sqr L)) tin).isSome = true) := by
  cases htin : kernelInput env s with
  | error msg =>
    unfold Mesh.construct at hc
    rw [hG] at hc
    simp only [hs, if_false, htin] at hc
    cases hc
  | ok tin =>
    cases hk : env.triangulate (kernelOptions L) (triunsuitable (sqr L)) tin with
    | none =>
      rw [Mesh.construct_kernel_failure env s L lua c0 G hG hs tin htin hk] at hc
      cases hc
      exact ⟨rfl, tin, rfl, by simp [hk, Mesh.invalid]⟩
    | some tout =>
      have hv := Mesh.construct_success_valid env s L lua c0 G hG hs tin tout htin hk m G' hc
      obtain ⟨_, _, _, _, _, _, hG', _⟩ :=
        Mesh.construct_success env s L lua c0 G hG hs tin tout htin hk m G' hc
      exact ⟨hG', tin, rfl, by simp [hk, hv]⟩

theorem squareMesh_construct :
    Mesh.construct exampleEnv squareShape (1 / 2) none 7 0 = .ok (squareMesh, 1 / 4) := by
  decide!

/-! ## Construction does not read the threshold left behind -/

theorem Mesh.construct_arrays (env : Env) (s : Shape) (L : ℚ) (lua : Option Lua)
    (c1 c2 : Int) (G1 G2 : ℚ) :
    Except.map Mesh.arrays (Mesh.construct env s L lua c1 G1)
      = Except.map Mesh.arrays (Mesh.construct env s L lua c2 G2) := by
  unfold Mesh.construct
  cases env.GeometryError s with
  | some msg => rfl
  | none =>
    simp only
    by_cases hs : ToDouble (env.SharpestAngle s) < kSharpestAllowableAngle
    · simp only [hs, if_true]
      rfl
    · simp only [hs, if_false]

/-- C18. Construction is determined by its arguments: with the same collaborators (a
deterministic kernel), the same shape and the same target edge length, two constructions abort
alike or return meshes with identical validity and point, triangle, material and dielectric
arrays, whatever value the process-wide threshold (and the uninitialised `cell_size_`) held
before each call. -/
theorem Mesh.construct_deterministic (env : Env) (s : Shape) (L : ℚ) (lua : Option Lua)
    (c1 c2 : Int) (G1 G2 : ℚ) :
    (∀ msg, Mesh.construct env s L lua c1 G1 = .error msg ↔
      Mesh.construct env s L lua c2 G2 = .error msg) ∧
    (∀ m1 T1 m2 T2, Mesh.construct env s L lua c1 G1 = .ok (m1, T1) →
      Mesh.construct env s L lua c2 G2 = .ok (m2, T2) →
      m1.valid_mesh_ = m2.valid_mesh_ ∧ m1.points_ = m2.points_ ∧
      m1.triangles_ = m2.triangles_ ∧ m1.materials_ = m2.materials_ ∧
      m1.dielectric_ = m2.dielectric_) ∧
    ((∃ r, Mesh.construct env s L lua c1 G1 = .ok r) ↔
      (∃ r, Mesh.construct env s L lua c2 G2 = .ok r)) := by
  have key := Mesh.construct_arrays env s L lua c1 c2 G1 G2
  refine ⟨?_, ?_, ?_⟩
  · intro msg
    cases h1 : Mesh.construct env s L lua c1 G1 with
    | error e1 =>
      cases h2 : Mesh.construct env s L lua c2 G2 with
      | error e2 =>
        rw [h1, h2] at key
        simp only [Except.map] at key
        have := Except.error.inj key
        rw [this]
      | ok r2 =>
        rw [h1, h2] at key
        simp only [Except.map] at key
        cases key
    | ok r1 =>
      cases h2 : Mesh.construct env s L lua c2 G2 with
      | error e2 =>
        rw [h1, h2] at key
        simp only [Except.map] at key
        cases key
      | ok r2 => simp
  · intro m1 T1 m2 T2 h1 h2
    rw [h1, h2] at key
    simp only [Except.map, Mesh.arrays] at key
    have := Except.ok.inj key
    simp only [Prod.mk.injEq] at this
    exact this
  · cases h1 : Mesh.construct env s L lua c1 G1 with
    | error e1 =>
      cases h2 : Mesh.construct env s L lua c2 G2 with
      | error e2 => simp
      | ok r2 =>
        rw [h1, h2] at key
        simp only [Except.map] at key
        cases key
    | ok r1 =>
      cases h2 : Mesh.construct env s L lua c2 G2 with
      | error e2 =>
        rw [h1, h2] at key
        simp only [Except.map] at key
        cases key
      | ok r2 => simp

theorem squareMesh_construct_other :
    Mesh.construct exampleEnv squareShape (1 / 2) none (-3) 100 = .ok (squareMesh, 1 / 4) := by
  decide!

/-- C18, on `squareShape`: constructions entered with thresholds `0` and `100` return the same
arrays. -/
theorem Mesh.construct_deterministic_witness :
    Mesh.construct exampleEnv squareShape (1 / 2) none 7 0 = .ok (squareMesh, 1 / 4) ∧
    Mesh.construct exampleEnv squareShape (1 / 2) none (-3) 100 = .ok (squareMesh, 1 / 4) ∧
    (squareMesh.valid_mesh_ = squareMesh.valid_mesh_ ∧ squareMesh.points_ = squareMesh.points_ ∧
      squareMesh.triangles_ = squareMesh.triangles_ ∧
      squareMesh.materials_ = squareMesh.materials_ ∧
      squareMesh.dielectric_ = squareMesh.dielectric_) :=
  ⟨squareMesh_construct, squareMesh_construct_other,
    (Mesh.construct_deterministic exampleEnv squareShape (1 / 2) none 7 (-3) 0 100).2.1
      squareMesh (1 / 4) squareMesh (1 / 4) squareMesh_construct squareMesh_construct_other⟩

/-! ## The dielectric pass: marks, assignment and the loop over materials -/

theorem markSet_length (mark : List Bool) (a : Int) : (markSet mark a).length = mark.length := by
  unfold markSet
  split <;> simp

theorem markSet_getD (mark : List Bool) (a : Int) (j : Nat) :
    (markSet mark a).getD j false
      = (mark.getD j false || (decide (a = (j : Int)) && decide (j < mark.length))) := by
  unfold markSet
  by_cases ha : 0 ≤ a
  · simp only [ha, if_true]
    obtain ⟨n, rfl⟩ := Int.eq_ofNat_of_zero_le ha
    simp only [Int.toNat_ofNat, List.getD_eq_getElem?_getD, List.getElem?_set, Nat.cast_inj]
    by_cases hn : n = j
    · subst hn
      by_cases hl : n < mark.length
      · simp [hl]
      · simp [hl, List.getElem?_eq_none (Nat.le_of_not_lt hl)]
    · simp [hn]
  · simp only [ha, if_false]
    have : a ≠ (j : Int) := by
      intro h
      apply ha
      rw [h]
      exact Int.natCast_nonneg j
    simp [this]

theorem markFold_spec (i : Nat) (ts : List Triangle) (mark : List Bool) :
    (ts.foldl (fun mark t =>
        if t.material = (i : Int) then
          markSet (markSet (markSet mark (t.index 0)) (t.index 1)) (t.index 2)
        else mark) mark).length = mark.length ∧
    ∀ j, (ts.foldl (fun mark t =>
        if t.material = (i : Int) then
          markSet (markSet (markSet mark (t.index 0)) (t.index 1)) (t.index 2)
        else mark) mark).getD j false
      = (mark.getD j false || (decide (j < mark.length) &&
          ts.any (fun t => decide (t.material = (i : Int)) && t.hasVertex j))) := by
  induction ts generalizing mark with
  | nil => simp
  | cons t rest ih =>
    simp only [List.foldl_cons, List.any_cons]
    by_cases hm : t.material = (i : Int)
    · simp only [hm, if_true, decide_True, Bool.true_and]
      obtain ⟨h1, h2⟩ := ih (markSet (markSet (markSet mark (t.index 0)) (t.index 1)) (t.index 2))
      refine ⟨?_, ?_⟩
      · rw [h1, markSet_length, markSet_length, markSet_length]
      · intro j
        rw [h2 j]
        simp only [markSet_getD, markSet_length]
        unfold Triangle.hasVertex
        generalize mark.getD j false = b0
        generalize decide (j < mark.length) = b1
        generalize decide (t.index 0 = (j : Int)) = b2
        generalize decide (t.index 1 = (j : Int)) = b3
        generalize decide (t.index 2 = (j : Int)) = b4
        generalize (rest.any fun t => decide (t.material = (i : Int)) &&
          (decide (t.index 0 = (j : Int)) || decide (t.index 1 = (j : Int)) ||
            decide (t.index 2 = (j : Int)))) = b5
        cases b0 <;> cases b1 <;> cases b2 <;> cases b3 <;> cases b4 <;> cases b5 <;> rfl
    · simp only [hm, if_false, decide_False, Bool.false_and, Bool.false_or]
      exact ih mark

theorem Mesh.markMaterial_length (m : Mesh) (i : Nat) :
    (m.markMaterial i).length = m.points_.length := by
  unfold Mesh.markMaterial
  rw [(markFold_spec i m.triangles_ _).1]
  simp

theorem Mesh.markMaterial_getD (m : Mesh) (i j : Nat) :
    (m.markMaterial i).getD j false = (decide (j < m.points_.length) && m.touches i j) := by
  unfold Mesh.markMaterial
  rw [(markFold_spec i m.triangles_ _).2 j]
  unfold Mesh.touches
  by_cases hj : j < m.points_.length
  · simp [hj, List.getD_eq_getElem?_getD]
  · simp [hj, List.getD_eq_getElem?_getD]

theorem markedPoints_eq (mark : List Bool) (pts : List RPoint) (h : mark.length = pts.length) :
    markedPoints mark pts
      = ((List.range pts.length).filter (fun j => mark.getD j false)).map
          (fun j => pts.getD j default) := by
  induction mark generalizing pts with
  | nil =>
    cases pts with
    | nil => simp [markedPoints]
    | cons p ps => simp at h
  | cons mk marks ih =>
    cases pts with
    | nil => simp at h
    | cons p ps =>
      have hl : marks.length = ps.length := by simpa using h
      have hf : ∀ b : Bool, ((fun j => (b :: marks).getD j false) ∘ Nat.succ)
          = (fun j => marks.getD j false) := by
        intro b
        funext j
        simp
      have hg : ((fun j => (p :: ps).getD j default) ∘ Nat.succ)
          = (fun j => ps.getD j default) := by
        funext j
        simp
      simp only [markedPoints, List.length_cons, List.range_succ_eq_map, List.filter_cons,
        List.getD_cons_zero, List.filter_map, List.map_map, hf, hg]
      rw [ih ps hl]
      cases mk
      · simp only [Bool.false_eq_true, if_false, List.map_map, hg]
      · simp only [if_true, List.map_cons, List.getD_cons_zero, List.map_map, hg]

theorem Mesh.markedPoints_touchedBy (m : Mesh) (i : Nat) :
    markedPoints (m.markMaterial i) m.points_
      = (m.touchedBy i).map (fun j => m.points_.getD j default) := by
  rw [markedPoints_eq _ _ (m.markMaterial_length i)]
  unfold Mesh.touchedBy
  congr 1
  apply List.filter_congr
  intro j hj
  rw [m.markMaterial_getD i j]
  simp [List.mem_range.mp hj]

theorem count_true_pos (mark : List Bool) :
    0 < mark.count true ↔ (List.range mark.length).filter (fun j => mark.getD j false) ≠ [] := by
  rw [List.count_pos_iff, List.mem_iff_getElem]
  constructor
  · rintro ⟨n, hn, h⟩
    intro he
    have : n ∈ (List.range mark.length).filter (fun j => mark.getD j false) := by
      rw [List.mem_filter]
      refine ⟨List.mem_range.mpr hn, ?_⟩
      rw [List.getD_eq_getElem _ _ hn]
      exact h
    rw [he] at this
    cases this
  · intro h
    obtain ⟨n, hn⟩ := List.exists_mem_of_ne_nil _ h
    rw [List.mem_filter] at hn
    have hlt := List.mem_range.mp hn.1
    refine ⟨n, hlt, ?_⟩
    have := hn.2
    rw [List.getD_eq_getElem _ _ hlt] at this
    exact this

theorem Mesh.count_pos_iff_touched (m : Mesh) (i : Nat) :
    0 < (m.markMaterial i).count true ↔ m.touchedBy i ≠ [] := by
  rw [count_true_pos, m.markMaterial_length i]
  unfold Mesh.touchedBy
  have : (List.range m.points_.length).filter (fun j => (m.markMaterial i).getD j false)
      = (List.range m.points_.length).filter (m.touches i) := by
    apply List.filter_congr
    intro j hj
    rw [m.markMaterial_getD i j]
    simp [List.mem_range.mp hj]
  rw [this]

theorem assignResults_length (r0 : List JetNum) (r1 : Option (List JetNum)) (mark : List Bool)
    (ds : List JetComplex) (c : Nat) : (assignResults r0 r1 c mark ds).length = ds.length := by
  induction mark generalizing ds c with
  | nil => simp [assignResults]
  | cons mk marks ih =>
    cases ds with
    | nil => simp [assignResults]
    | cons d ds => simp [assignResults, ih]

theorem assignResults_unmarked (r0 : List JetNum) (r1 : Option (List JetNum)) (mark : List Bool)
    (ds : List JetComplex) (c j : Nat) (h : mark.getD j false = false) :
    (assignResults r0 r1 c mark ds).getD j default = ds.getD j default := by
  induction mark generalizing ds c j with
  | nil => simp [assignResults]
  | cons mk marks ih =>
    cases ds with
    | nil => simp [assignResults]
    | cons d ds =>
      cases j with
      | zero =>
        have hmk : mk = false := by simpa using h
        subst hmk
        simp [assignResults]
      | succ j =>
        have hj : marks.getD j false = false := by simpa using h
        simp only [assignResults, List.getD_cons_succ]
        exact ih ds _ j hj

theorem assignResults_marked (r0 : List JetNum) (r1 : Option (List JetNum)) (mark : List Bool)
    (ds : List JetComplex) (c k j : Nat) (hl : mark.length = ds.length)
    (h : ((List.range mark.length).filter (fun j => mark.getD j false))[k]? = some j) :
    (assignResults r0 r1 c mark ds).getD j default = resultValue r0 r1 (c + k) := by
  induction mark generalizing ds c k j with
  | nil => simp at h
  | cons mk marks ih =>
    cases ds with
    | nil => simp at hl
    | cons d ds =>
      have hl2 : marks.length = ds.length := by simpa using hl
      have hf : ((fun j => (mk :: marks).getD j false) ∘ Nat.succ)
          = (fun j => marks.getD j false) := by
        funext j
        simp
      simp only [List.length_cons, List.range_succ_eq_map, List.filter_cons,
        List.getD_cons_zero, List.filter_map, hf] at h
      cases mk with
      | false =>
        simp only [Bool.false_eq_true, if_false, List.getElem?_map, Option.map_eq_some'] at h
        obtain ⟨j2, hj2, rfl⟩ := h
        simp only [assignResults, Bool.false_eq_true, if_false, List.getD_cons_succ, Nat.add_zero]
        exact ih ds c k j2 hl2 hj2
      | true =>
        simp only [if_true] at h
        cases k with
        | zero =>
          simp only [List.getElem?_cons_zero, Option.some.injEq] at h
          subst h
          simp only [assignResults, if_true, List.getD_cons_zero, Nat.add_zero]
          unfold resultValue
          rfl
        | succ k =>
          simp only [List.getElem?_cons_succ, List.getElem?_map, Option.map_eq_some'] at h
          obtain ⟨j2, hj2, rfl⟩ := h
          simp only [assignResults, if_true, List.getD_cons_succ]
          rw [ih ds (c + 1) k j2 hl2 hj2]
          congr 1
          omega

theorem Mesh.assign_touched (m : Mesh) (i : Nat) (r0 : List JetNum) (r1 : Option (List JetNum))
    (ds : List JetComplex) (hl : ds.length = m.points_.length) (k j : Nat)
    (h : (m.touchedBy i)[k]? = some j) :
    (assignResults r0 r1 0 (m.markMaterial i) ds).getD j default = resultValue r0 r1 k := by
  have := assignResults_marked r0 r1 (m.markMaterial i) ds 0 k j
    (by rw [m.markMaterial_length i, hl])
  rw [Nat.zero_add] at this
  apply this
  rw [m.markMaterial_length i]
  have hq : (List.range m.points_.length).filter (fun j => (m.markMaterial i).getD j false)
      = m.touchedBy i := by
    unfold Mesh.touchedBy
    apply List.filter_congr
    intro j hj
    rw [m.markMaterial_getD i j]
    simp [List.mem_range.mp hj]
  rw [hq]
  exact h

theorem Mesh.assign_untouched (m : Mesh) (i : Nat) (r0 : List JetNum)
    (r1 : Option (List JetNum)) (ds : List JetComplex) (j : Nat)
    (h : m.touches i j = false) :
    (assignResults r0 r1 0 (m.markMaterial i) ds).getD j default = ds.getD j default := by
  apply assignResults_unmarked
  rw [m.markMaterial_getD i j, h]
  simp

/-- One iteration of the recorded loop, in terms of the touched points. -/
theorem Mesh.dielectricRun_cons (lua : Lua) (m : Mesh) (i : Nat) (rest : List Nat)
    (d : List JetComplex) :
    m.dielectricRun lua (i :: rest) d =
      if (m.materials_.getD i default).callback = "" then m.dielectricRun lua rest d
      else if m.touchedBy i ≠ [] then
        match m.callOutcome lua (m.callArgs i) with
        | none => ([m.callArgs i], [])
        | some (r0, r1) =>
          (m.callArgs i ::
            (m.dielectricRun lua rest (assignResults r0 r1 0 (m.markMaterial i) d)).1,
           (m.dielectricRun lua rest (assignResults r0 r1 0 (m.markMaterial i) d)).2)
      else m.dielectricRun lua rest d := by
  have hx : (markedPoints (m.markMaterial i) m.points_).map (fun pt => pt.p.x)
      = (m.callArgs i).2.1 := by
    rw [m.markedPoints_touchedBy i, List.map_map]
    rfl
  have hy : (markedPoints (m.markMaterial i) m.points_).map (fun pt => pt.p.y)
      = (m.callArgs i).2.2 := by
    rw [m.markedPoints_touchedBy i, List.map_map]
    rfl
  rw [Mesh.dielectricRun]
  by_cases hc : (m.materials_.getD i default).callback = ""
  · simp only [hc, if_true]
  · simp only [hc, if_false]
    by_cases ht : m.touchedBy i ≠ []
    · rw [if_pos ht]
      simp only [(m.count_pos_iff_touched i).mpr ht, if_true, hx, hy]
      rfl
    · have hn : ¬ 0 < (m.markMaterial i).count true :=
        fun h => ht ((m.count_pos_iff_touched i).mp h)
      rw [if_neg ht]
      simp only [hn, if_false]

theorem Mesh.dielectricRun_snd (lua : Lua) (m : Mesh) (l : List Nat) (d : List JetComplex) :
    (m.dielectricRun lua l d).2 = m.dielectricLoop lua l d := by
  induction l generalizing d with
  | nil => rfl
  | cons i rest ih =>
    rw [Mesh.dielectricRun, Mesh.dielectricLoop]
    by_cases hc : (m.materials_.getD i default).callback = ""
    · simp only [hc, if_true]
      exact ih d
    · simp only [hc, if_false]
      by_cases hn : 0 < (m.markMaterial i).count true
      · simp only [hn, if_true]
        cases lua (m.materials_.getD i default).callback
            ((markedPoints (m.markMaterial i) m.points_).map (fun pt => pt.p.x))
            ((markedPoints (m.markMaterial i) m.points_).map (fun pt => pt.p.y)) with
        | none => rfl
        | some r =>
          obtain ⟨r0, r1⟩ := r
          exact ih _
      · simp only [hn, if_false]
        exact ih d

theorem Mesh.DeterminePointDielectricRun_snd (lua : Lua) (m : Mesh) :
    (m.DeterminePointDielectricRun lua).2 = m.DeterminePointDielectric lua := by
  unfold Mesh.DeterminePointDielectricRun Mesh.DeterminePointDielectric
  split
  · rfl
  · exact m.dielectricRun_snd lua _ _

theorem Mesh.dielectricRun_skip (lua : Lua) (m : Mesh) (i : Nat) (rest : List Nat)
    (d : List JetComplex)
    (h : (m.materials_.getD i default).callback = "" ∨ m.touchedBy i = []) :
    m.dielectricRun lua (i :: rest) d = m.dielectricRun lua rest d := by
  rw [m.dielectricRun_cons lua i rest d]
  by_cases hc : (m.materials_.getD i default).callback = ""
  · rw [if_pos hc]
  · rw [if_neg hc]
    rcases h with h | h
    · exact absurd h hc
    · rw [if_neg (not_not.mpr h)]

theorem Mesh.dielectricRun_none (lua : Lua) (m : Mesh) (i : Nat) (rest : List Nat)
    (d : List JetComplex) (hc : (m.materials_.getD i default).callback ≠ "")
    (ht : m.touchedBy i ≠ []) (ho : m.callOutcome lua (m.callArgs i) = none) :
    m.dielectricRun lua (i :: rest) d = ([m.callArgs i], []) := by
  rw [m.dielectricRun_cons lua i rest d, if_neg hc, if_pos ht]
  simp only [ho]

theorem Mesh.dielectricRun_some (lua : Lua) (m : Mesh) (i : Nat) (rest : List Nat)
    (d : List JetComplex) (hc : (m.materials_.getD i default).callback ≠ "")
    (ht : m.touchedBy i ≠ []) (r0 : List JetNum) (r1 : Option (List JetNum))
    (ho : m.callOutcome lua (m.callArgs i) = some (r0, r1)) :
    m.dielectricRun lua (i :: rest) d =
      (m.callArgs i ::
        (m.dielectricRun lua rest (assignResults r0 r1 0 (m.markMaterial i) d)).1,
       (m.dielectricRun lua rest (assignResults r0 r1 0 (m.markMaterial i) d)).2) := by
  rw [m.dielectricRun_cons lua i rest d, if_neg hc, if_pos ht]
  simp only [ho]

theorem Mesh.dielectric_cases (lua : Lua) (m : Mesh) (i : Nat) :
    ((m.materials_.getD i default).callback = "" ∨ m.touchedBy i = []) ∨
    ((m.materials_.getD i default).callback ≠ "" ∧ m.touchedBy i ≠ [] ∧
      m.callOutcome lua (m.callArgs i) = none) ∨
    ((m.materials_.getD i default).callback ≠ "" ∧ m.touchedBy i ≠ [] ∧
      ∃ r0 r1, m.callOutcome lua (m.callArgs i) = some (r0, r1)) := by
  by_cases hc : (m.materials_.getD i default).callback = ""
  · exact Or.inl (Or.inl hc)
  · by_cases ht : m.touchedBy i = []
    · exact Or.inl (Or.inr ht)
    · cases ho : m.callOutcome lua (m.callArgs i) with
      | none => exact Or.inr (Or.inl ⟨hc, ht, rfl⟩)
      | some r => exact Or.inr (Or.inr ⟨hc, ht, r.1, r.2, rfl⟩)

/-- Every recorded invocation is the expected one of a callback-bearing material of the list
that touches a point. -/
theorem Mesh.dielectricRun_calls (lua : Lua) (m : Mesh) (l : List Nat) (d : List JetComplex) :
    ∀ c ∈ (m.dielectricRun lua l d).1,
      c.1 ∈ l ∧ (m.materials_.getD c.1 default).callback ≠ "" ∧ m.touchedBy c.1 ≠ [] ∧
        c = m.callArgs c.1 := by
  induction l generalizing d with
  | nil => intro c hc; simp [Mesh.dielectricRun] at hc
  | cons i rest ih =>
    intro c hcm
    rcases m.dielectric_cases lua i with h | ⟨hc, ht, ho⟩ | ⟨hc, ht, r0, r1, ho⟩
    · rw [m.dielectricRun_skip lua i rest d h] at hcm
      obtain ⟨h1, h2⟩ := ih d c hcm
      exact ⟨List.mem_cons_of_mem _ h1, h2⟩
    · rw [m.dielectricRun_none lua i rest d hc ht ho] at hcm
      have hci : c = m.callArgs i := by simpa using hcm
      subst hci
      exact ⟨List.mem_cons_self _ _, hc, ht, rfl⟩
    · rw [m.dielectricRun_some lua i rest d hc ht r0 r1 ho] at hcm
      rcases List.mem_cons.mp hcm with hci | hcr
      · subst hci
        exact ⟨List.mem_cons_self _ _, hc, ht, rfl⟩
      · obtain ⟨h1, h2⟩ := ih _ c hcr
        exact ⟨List.mem_cons_of_mem _ h1, h2⟩

/-- The materials of the recorded invocations, in order, are a sublist of the loop range. -/
theorem Mesh.dielectricRun_sublist (lua : Lua) (m : Mesh) (l : List Nat)
    (d : List JetComplex) :
    ((m.dielectricRun lua l d).1.map Prod.fst).Sublist l := by
  induction l generalizing d with
  | nil => simp [Mesh.dielectricRun]
  | cons i rest ih =>
    rcases m.dielectric_cases lua i with h | ⟨hc, ht, ho⟩ | ⟨hc, ht, r0, r1, ho⟩
    · rw [m.dielectricRun_skip lua i rest d h]
      exact List.Sublist.cons _ (ih d)
    · rw [m.dielectricRun_none lua i rest d hc ht ho]
      simp [Mesh.callArgs]
    · rw [m.dielectricRun_some lua i rest d hc ht r0 r1 ho]
      simp only [List.map_cons]
      exact List.Sublist.cons₂ _ (ih _)

theorem getLast?_cons_of_some {α : Type} (a c : α) (l : List α) (h : l.getLast? = some c) :
    (a :: l).getLast? = some c := by
  cases l with
  | nil => simp at h
  | cons b tl =>
    rw [List.getLast?_cons_cons]
    exact h

/-- A failed invocation is the last one made and leaves the result empty. -/
theorem Mesh.dielectricRun_fail (lua : Lua) (m : Mesh) (l : List Nat) (d : List JetComplex)
    (hl : l.Pairwise (· < ·)) :
    ∀ c ∈ (m.dielectricRun lua l d).1, m.callOutcome lua c = none →
      (m.dielectricRun lua l d).2 = [] ∧ (m.dielectricRun lua l d).1.getLast? = some c ∧
      ∀ c2 ∈ (m.dielectricRun lua l d).1, c2.1 ≤ c.1 := by
  induction l generalizing d with
  | nil => intro c hc; simp [Mesh.dielectricRun] at hc
  | cons i rest ih =>
    intro c hcm hfail
    have hrest := (List.pairwise_cons.mp hl).2
    have hlt := (List.pairwise_cons.mp hl).1
    rcases m.dielectric_cases lua i with h | ⟨hc, ht, ho⟩ | ⟨hc, ht, r0, r1, ho⟩
    · rw [m.dielectricRun_skip lua i rest d h] at hcm ⊢
      exact ih d hrest c hcm hfail
    · rw [m.dielectricRun_none lua i rest d hc ht ho] at hcm ⊢
      have hci : c = m.callArgs i := by simpa using hcm
      subst hci
      refine ⟨rfl, rfl, ?_⟩
      intro c2 hc2
      have : c2 = m.callArgs i := by simpa using hc2
      rw [this]
    · rw [m.dielectricRun_some lua i rest d hc ht r0 r1 ho] at hcm ⊢
      rcases List.mem_cons.mp hcm with hci | hcr
      · subst hci
        rw [ho] at hfail
        cases hfail
      · obtain ⟨h1, h2, h3⟩ := ih _ hrest c hcr hfail
        refine ⟨h1, ?_, ?_⟩
        · simp only
          exact getLast?_cons_of_some _ _ _ h2
        · intro c2 hc2
          rcases List.mem_cons.mp hc2 with e | e
          · rw [e]
            have hin := (m.dielectricRun_calls lua rest _ c hcr).1
            exact Nat.le_of_lt (hlt _ hin)
          · exact h3 c2 e

/-- When every invocation succeeds, the result keeps its length, every callback-bearing
material that touches a point has been invoked, and points touched by none keep their value. -/
theorem Mesh.dielectricRun_ok (lua : Lua) (m : Mesh) (l : List Nat) (d : List JetComplex)
    (hok : ∀ c ∈ (m.dielectricRun lua l d).1, m.callOutcome lua c ≠ none) :
    (m.dielectricRun lua l d).2.length = d.length ∧
    (∀ i ∈ l, (m.materials_.getD i default).callback ≠ "" → m.touchedBy i ≠ [] →
      m.callArgs i ∈ (m.dielectricRun lua l d).1) ∧
    (∀ j, (∀ i ∈ l, (m.materials_.getD i default).callback ≠ "" → m.touches i j = false) →
      (m.dielectricRun lua l d).2.getD j default = d.getD j default) := by
  induction l generalizing d with
  | nil => simp [Mesh.dielectricRun]
  | cons i rest ih =>
    rcases m.dielectric_cases lua i with h | ⟨hc, ht, ho⟩ | ⟨hc, ht, r0, r1, ho⟩
    · rw [m.dielectricRun_skip lua i rest d h] at hok ⊢
      obtain ⟨h1, h2, h3⟩ := ih d hok
      refine ⟨h1, ?_, ?_⟩
      · intro i2 hi2 hc2 ht2
        rcases List.mem_cons.mp hi2 with e | e
        · subst e
          rcases h with h | h
          · exact absurd h hc2
          · exact absurd h ht2
        · exact h2 i2 e hc2 ht2
      · intro j hj
        exact h3 j (fun i2 hi2 => hj i2 (List.mem_cons_of_mem _ hi2))
    · rw [m.dielectricRun_none lua i rest d hc ht ho] at hok
      exact absurd ho (hok _ (List.mem_singleton.mpr rfl))
    · rw [m.dielectricRun_some lua i rest d hc ht r0 r1 ho] at hok ⊢
      obtain ⟨h1, h2, h3⟩ := ih (assignResults r0 r1 0 (m.markMaterial i) d)
        (fun c hcm => hok c (List.mem_cons_of_mem _ hcm))
      refine ⟨?_, ?_, ?_⟩
      · simp only
        rw [h1, assignResults_length]
      · intro i2 hi2 hc2 ht2
        rcases List.mem_cons.mp hi2 with e | e
        · subst e
          exact List.mem_cons_self _ _
        · exact List.mem_cons_of_mem _ (h2 i2 e hc2 ht2)
      · intro j hj
        simp only
        rw [h3 j (fun i2 hi2 => hj i2 (List.mem_cons_of_mem _ hi2))]
        exact m.assign_untouched i r0 r1 d j (hj i (List.mem_cons_self _ _) hc)

/-- When every invocation succeeds, a point keeps the value assigned by the last
callback-bearing material that touches it. -/
theorem Mesh.dielectricRun_last (lua : Lua) (m : Mesh) (pre post : List Nat) (i : Nat)
    (d : List JetComplex) (hd : d.length = m.points_.length)
    (hok : ∀ c ∈ (m.dielectricRun lua (pre ++ i :: post) d).1, m.callOutcome lua c ≠ none)
    (hc : (m.materials_.getD i default).callback ≠ "")
    (r0 : List JetNum) (r1 : Option (List JetNum))
    (ho : m.callOutcome lua (m.callArgs i) = some (r0, r1))
    (k j : Nat) (hk : (m.touchedBy i)[k]? = some j)
    (hpost : ∀ i2 ∈ post, (m.materials_.getD i2 default).callback ≠ "" →
      m.touches i2 j = false) :
    (m.dielectricRun lua (pre ++ i :: post) d).2.getD j default = resultValue r0 r1 k := by
  have ht : m.touchedBy i ≠ [] := by
    intro h
    rw [h] at hk
    simp at hk
  induction pre generalizing d with
  | nil =>
    simp only [List.nil_append] at hok ⊢
    rw [m.dielectricRun_some lua i post d hc ht r0 r1 ho] at hok ⊢
    simp only
    rw [(m.dielectricRun_ok lua post _ (fun c hcm => hok c (List.mem_cons_of_mem _ hcm))).2.2 j
      hpost]
    exact m.assign_touched i r0 r1 d hd k j hk
  | cons p pre ih =>
    simp only [List.cons_append] at hok ⊢
    rcases m.dielectric_cases lua p with h | ⟨hc2, ht2, ho2⟩ | ⟨hc2, ht2, q0, q1, ho2⟩
    · rw [m.dielectricRun_skip lua p _ d h] at hok ⊢
      exact ih d hd hok
    · rw [m.dielectricRun_none lua p _ d hc2 ht2 ho2] at hok
      exact absurd ho2 (hok _ (List.mem_singleton.mpr rfl))
    · rw [m.dielectricRun_some lua p _ d hc2 ht2 q0 q1 ho2] at hok ⊢
      simp only
      exact ih _ (by rw [assignResults_length, hd])
        (fun c hcm => hok c (List.mem_cons_of_mem _ hcm))

theorem Mesh.touchedBy_spec (m : Mesh) (i : Nat) :
    (m.touchedBy i).Pairwise (· < ·) ∧
    ∀ j, j ∈ m.touchedBy i ↔ j < m.points_.length ∧
      ∃ t ∈ m.triangles_, t.material = (i : Int) ∧
        (t.index 0 = (j : Int) ∨ t.index 1 = (j : Int) ∨ t.index 2 = (j : Int)) := by
  refine ⟨List.Pairwise.filter _ (List.pairwise_lt_range _), ?_⟩
  intro j
  unfold Mesh.touchedBy Mesh.touches Triangle.hasVertex
  simp only [List.mem_filter, List.mem_range, List.any_eq_true, Bool.and_eq_true,
    Bool.or_eq_true, decide_eq_true_eq, or_assoc]

theorem Mesh.touchedBy_ne_nil (m : Mesh) (hv : m.VerticesValid) (i : Nat) :
    m.touchedBy i ≠ [] ↔ ∃ t ∈ m.triangles_, t.material = (i : Int) := by
  constructor
  · intro h
    obtain ⟨j, hj⟩ := List.exists_mem_of_ne_nil _ h
    obtain ⟨_, t, ht, hm, _⟩ := ((m.touchedBy_spec i).2 j).mp hj
    exact ⟨t, ht, hm⟩
  · rintro ⟨t, ht, hm⟩
    obtain ⟨h0, h1⟩ := hv t ht 0
    obtain ⟨n, hn⟩ := Int.eq_ofNat_of_zero_le h0
    have hmem : n ∈ m.touchedBy i := by
      rw [(m.touchedBy_spec i).2 n]
      refine ⟨?_, t, ht, hm, Or.inl hn⟩
      rw [hn] at h1
      exact Int.ofNat_lt.mp h1
    exact List.ne_nil_of_mem hmem

theorem range_split (n i : Nat) (h : i < n) :
    List.range n = List.range i ++ i :: (List.range (n - i - 1)).map (fun x => i + (x + 1)) := by
  have e : n = i + (1 + (n - i - 1)) := by omega
  conv_lhs => rw [e]
  rw [List.range_add, Nat.add_comm 1, List.range_succ_eq_map]
  simp [Function.comp_def]

theorem Mesh.callback_of_all (m : Mesh)
    (h : m.materials_.all (fun mat => decide (mat.callback = "")) = true) (i : Nat)
    (hi : i < m.materials_.length) : (m.materials_.getD i default).callback = "" := by
  rw [List.all_eq_true] at h
  have := h (m.materials_.getD i default)
    (by rw [List.getD_eq_getElem _ _ hi]; exact List.getElem_mem hi)
  simpa using this

theorem Mesh.construct_with_lua (env : Env) (s : Shape) (L : ℚ) (l : Lua) (c0 : Int) (G : ℚ)
    (mesh : Mesh) (T : ℚ) (hc : Mesh.construct env s L (some l) c0 G = .ok (mesh, T)) :
    ∃ m0, Mesh.construct env s L none c0 G = .ok (m0, T) ∧
      mesh = { m0 with
        dielectric_ := if m0.valid_mesh_ = true then m0.DeterminePointDielectric l else [] } := by
  unfold Mesh.construct at hc ⊢
  cases hG : env.GeometryError s with
  | some msg =>
    rw [hG] at hc
    obtain ⟨hm, hT⟩ := Prod.mk.inj (Except.ok.inj hc)
    subst hm
    subst hT
    exact ⟨_, rfl, rfl⟩
  | none =>
    rw [hG] at hc
    simp only at hc ⊢
    by_cases hs : ToDouble (env.SharpestAngle s) < kSharpestAllowableAngle
    · simp only [hs, if_true] at hc ⊢
      obtain ⟨hm, hT⟩ := Prod.mk.inj (Except.ok.inj hc)
      subst hm
      subst hT
      exact ⟨_, rfl, rfl⟩
    · simp only [hs, if_false] at hc ⊢
      cases htin : kernelInput env s with
      | error msg => rw [htin] at hc; cases hc
      | ok tin =>
        rw [htin] at hc
        simp only at hc ⊢
        cases hk : env.triangulate (kernelOptions L) (triunsuitable (sqr L)) tin with
        | none =>
          rw [hk] at hc
          obtain ⟨hm, hT⟩ := Prod.mk.inj (Except.ok.inj hc)
          subst hm
          subst hT
          exact ⟨_, rfl, rfl⟩
        | some tout =>
          rw [hk] at hc
          simp only at hc ⊢
          cases h1 : interpretPoints env s s.pointIndex.index_map tout with
          | error msg => rw [h1] at hc; cases hc
          | ok points =>
            rw [h1] at hc
            simp only at hc ⊢
            cases h2 : interpretTriangles s tout with
            | error msg => rw [h2] at hc; cases hc
            | ok triangles =>
              rw [h2] at hc
              simp only at hc ⊢
              cases h3 : Mesh.UpdateDerivatives env.sqrt s
                  { valid_mesh_ := true, points_ := points, triangles_ := triangles,
                    materials_ := (List.range s.NumPieces).map s.GetMaterial,
                    cell_size_ := frexpExp L - 2, spatial_index_ := [],
                    dielectric_ := [] } with
              | error msg => rw [h3] at hc; cases hc
              | ok m1 =>
                rw [h3] at hc
                simp only at hc ⊢
                have hv := (Mesh.UpdateDerivatives_keeps env.sqrt s _ m1 h3).1
                obtain ⟨hm, hT⟩ := Prod.mk.inj (Except.ok.inj hc)
                subst hm
                subst hT
                refine ⟨m1, rfl, ?_⟩
                simp only [hv, if_true]

/-! ## The contract of `DeterminePointDielectric` -/

/-- C15. In `DeterminePointDielectric` every callback invocation is made for a material with
a non-empty callback and at least one triangle, and receives the `x` and `y` coordinates of
exactly the distinct points that are vertices of a triangle of that material, in increasing
point-index order (`Mesh.touchedBy`); materials are invoked at most once, in index order, so a
material without triangles is never invoked. When the invocations succeed, every
callback-bearing material that touches a point is invoked, and its `k`-th point holds result
element `k` (`resultValue`: complex from two vectors, scalar from one) on return unless a later
callback-bearing material touches that point too. With valid vertex indices a material touches
a point iff it has a triangle. -/
theorem Mesh.DeterminePointDielectric_calls (lua : Lua) (m : Mesh) :
    (m.DeterminePointDielectricRun lua).2 = m.DeterminePointDielectric lua ∧
    (∀ i, (m.touchedBy i).Pairwise (· < ·) ∧
      ∀ j, j ∈ m.touchedBy i ↔ j < m.points_.length ∧
        ∃ t ∈ m.triangles_, t.material = (i : Int) ∧
          (t.index 0 = (j : Int) ∨ t.index 1 = (j : Int) ∨ t.index 2 = (j : Int))) ∧
    (∀ c ∈ (m.DeterminePointDielectricRun lua).1,
      c.1 < m.materials_.length ∧ (m.materials_.getD c.1 default).callback ≠ "" ∧
      (∃ t ∈ m.triangles_, t.material = (c.1 : Int)) ∧
      c.2.1 = (m.touchedBy c.1).map (fun j => (m.points_.getD j default).p.x) ∧
      c.2.2 = (m.touchedBy c.1).map (fun j => (m.points_.getD j default).p.y)) ∧
    ((m.DeterminePointDielectricRun lua).1.map Prod.fst).Pairwise (· < ·) ∧
    ((∀ c ∈ (m.DeterminePointDielectricRun lua).1, m.callOutcome lua c ≠ none) →
      ∀ i, i < m.materials_.length → (m.materials_.getD i default).callback ≠ "" →
        m.touchedBy i ≠ [] →
        m.callArgs i ∈ (m.DeterminePointDielectricRun lua).1 ∧
        ∀ r0 r1 k j, m.callOutcome lua (m.callArgs i) = some (r0, r1) →
          (m.touchedBy i)[k]? = some j →
          (∀ i2, i < i2 → i2 < m.materials_.length →
            (m.materials_.getD i2 default).callback ≠ "" → m.touches i2 j = false) →
          (m.DeterminePointDielectric lua).getD j default = resultValue r0 r1 k) ∧
    (m.VerticesValid → ∀ i, (m.touchedBy i ≠ [] ↔ ∃ t ∈ m.triangles_, t.material = (i : Int))) := by
  refine ⟨m.DeterminePointDielectricRun_snd lua, fun i => m.touchedBy_spec i, ?_, ?_, ?_,
    fun hv i => m.touchedBy_ne_nil hv i⟩
  · intro c hc
    unfold Mesh.DeterminePointDielectricRun at hc
    split at hc
    · simp at hc
    · obtain ⟨h1, h2, h3, h4⟩ := m.dielectricRun_calls lua _ _ c hc
      obtain ⟨j, hj⟩ := List.exists_mem_of_ne_nil _ h3
      obtain ⟨_, t, ht, hm, _⟩ := ((m.touchedBy_spec c.1).2 j).mp hj
      refine ⟨List.mem_range.mp h1, h2, ⟨t, ht, hm⟩, ?_, ?_⟩
      · exact congrArg (fun x => x.2.1) h4
      · exact congrArg (fun x => x.2.2) h4
  · unfold Mesh.DeterminePointDielectricRun
    split
    · simp
    · exact List.Pairwise.sublist (m.dielectricRun_sublist lua _ _) (List.pairwise_lt_range _)
  · intro hok i hi hc ht
    rw [← m.DeterminePointDielectricRun_snd lua]
    unfold Mesh.DeterminePointDielectricRun at hok ⊢
    split at hok
    · rename_i hall
      exact absurd (m.callback_of_all hall i hi) hc
    · rename_i hall
      simp only [hall, if_false]
      refine ⟨(m.dielectricRun_ok lua _ _ hok).2.1 i (List.mem_range.mpr hi) hc ht, ?_⟩
      intro r0 r1 k j ho hk hlater
      have hsplit := range_split m.materials_.length i hi
      rw [hsplit] at hok ⊢
      apply m.dielectricRun_last lua _ _ i _ (by simp) hok hc r0 r1 ho k j hk
      intro i2 hi2 hc2
      obtain ⟨x, hx, rfl⟩ := List.mem_map.mp hi2
      have hx2 := List.mem_range.mp hx
      exact hlater _ (by omega) (by omega) hc2

/-- C15, on `squareMeshCallback`: the only invocation passes the coordinates of points 0..3,
and point 2 holds result element 2. -/
theorem Mesh.DeterminePointDielectric_calls_witness :
    squareMeshCallback.DeterminePointDielectricRun exampleLua
      = ([(0, [⟨0, 1⟩, ⟨1, 3⟩, ⟨1, 0⟩, ⟨0, 0⟩], [⟨0, 5⟩, ⟨0, 9⟩, ⟨1, 0⟩, ⟨1, 0⟩])],
         [⟨⟨0, 1⟩, ⟨0, 5⟩⟩, ⟨⟨1, 3⟩, ⟨0, 9⟩⟩, ⟨⟨1, 0⟩, ⟨1, 0⟩⟩, ⟨⟨0, 0⟩, ⟨1, 0⟩⟩,
          JetComplex.ofReal (JetNum.ofDouble 1), JetComplex.ofReal (JetNum.ofDouble 1)]) ∧
    squareMeshCallback.touchedBy 0 = [0, 1, 2, 3] ∧
    (squareMeshCallback.DeterminePointDielectric exampleLua).getD 2 default
      = resultValue [⟨0, 1⟩, ⟨1, 3⟩, ⟨1, 0⟩, ⟨0, 0⟩]
          (some [⟨0, 5⟩, ⟨0, 9⟩, ⟨1, 0⟩, ⟨1, 0⟩]) 2 :=
  ⟨by decide!, by decide!,
    ((Mesh.DeterminePointDielectric_calls exampleLua squareMeshCallback).2.2.2.2.1
      (by decide!) 0 (by decide!) (by decide!) (by decide!)).2
      [⟨0, 1⟩, ⟨1, 3⟩, ⟨1, 0⟩, ⟨0, 0⟩] (some [⟨0, 5⟩, ⟨0, 9⟩, ⟨1, 0⟩, ⟨1, 0⟩]) 2 2
      (by decide!) (by decide!) (fun i2 h1 h2 _ => absurd h2 (Nat.not_lt.mpr h1))⟩

/-- C16. `DeterminePointDielectric` yields an empty result (and invokes nothing) when no
material has a callback identifier. Otherwise, when every invocation succeeds, the result has
exactly one entry per mesh point, and every point that is not a vertex of a triangle whose
material has a callback holds the value 1, whatever the materials without callback are. -/
theorem Mesh.DeterminePointDielectric_default (lua : Lua) (m : Mesh) :
    ((∀ mat ∈ m.materials_, mat.callback = "") →
      m.DeterminePointDielectric lua = [] ∧ (m.DeterminePointDielectricRun lua).1 = []) ∧
    (m.haveCallbacks →
      (∀ c ∈ (m.DeterminePointDielectricRun lua).1, m.callOutcome lua c ≠ none) →
      (m.DeterminePointDielectric lua).length = m.points_.length ∧
      ∀ j, j < m.points_.length → ¬ m.touchedByCallback j →
        (m.DeterminePointDielectric lua)[j]? = some (JetComplex.ofReal (JetNum.ofDouble 1))) := by
  constructor
  · intro h
    have hall : m.materials_.all (fun mat => decide (mat.callback = "")) = true := by
      rw [List.all_eq_true]
      intro mat hmat
      simpa using h mat hmat
    unfold Mesh.DeterminePointDielectric Mesh.DeterminePointDielectricRun
    simp only [hall, if_true]
    exact ⟨trivial, trivial⟩
  · rintro ⟨mat, hmat, hcb⟩ hok
    have hall : ¬ m.materials_.all (fun mat => decide (mat.callback = "")) = true := by
      rw [List.all_eq_true]
      intro h
      exact hcb (by simpa using h mat hmat)
    rw [← m.DeterminePointDielectricRun_snd lua]
    unfold Mesh.DeterminePointDielectricRun at hok ⊢
    simp only [hall, if_false, Bool.false_eq_true] at hok ⊢
    obtain ⟨h1, _, h3⟩ := m.dielectricRun_ok lua _ _ hok
    have hlen : (m.dielectricRun lua (List.range m.materials_.length)
        (List.replicate m.points_.length (JetComplex.ofReal (JetNum.ofDouble 1)))).2.length
        = m.points_.length := by
      rw [h1, List.length_replicate]
    refine ⟨hlen, ?_⟩
    intro j hj hnot
    have hval := h3 j (by
      intro i hi hc
      cases ht : m.touches i j with
      | false => rfl
      | true => exact absurd ⟨i, List.mem_range.mp hi, hc, ht⟩ hnot)
    rw [List.getD_eq_getElem _ _ (by rw [hlen]; exact hj),
      List.getD_eq_getElem _ _ (by rw [List.length_replicate]; exact hj),
      List.getElem_replicate] at hval
    rw [List.getElem?_eq_getElem (by rw [hlen]; exact hj), hval]

/-- C16, on `squareMeshCallback` (points 4 and 5 belong to no triangle) and on `squareMesh`
(no callback). -/
theorem Mesh.DeterminePointDielectric_default_witness :
    (squareMesh.DeterminePointDielectric exampleLua = [] ∧
      (squareMesh.DeterminePointDielectricRun exampleLua).1 = []) ∧
    ((squareMeshCallback.DeterminePointDielectric exampleLua).length = 6 ∧
      (squareMeshCallback.DeterminePointDielectric exampleLua)[5]?
        = some (JetComplex.ofReal (JetNum.ofDouble 1))) :=
  ⟨(Mesh.DeterminePointDielectric_default exampleLua squareMesh).1 (by decide!),
    ((Mesh.DeterminePointDielectric_default exampleLua squareMeshCallback).2
        ⟨_, List.mem_singleton.mpr rfl, by decide!⟩ (by decide!)).1,
    ((Mesh.DeterminePointDielectric_default exampleLua squareMeshCallback).2
        ⟨_, List.mem_singleton.mpr rfl, by decide!⟩ (by decide!)).2 5 (by decide!)
      (by
        rintro ⟨i, hi, _, ht⟩
        have h0 : i = 0 := Nat.lt_one_iff.mp hi
        subst h0
        revert ht
        decide!)⟩

/-- C17. If a callback invocation of `DeterminePointDielectric` fails, the result is empty on
return, that invocation is the last one made and no material after it is invoked. In the
constructor the pass only writes `dielectric_`: the mesh constructed with a Lua state has the
validity, points, triangles, materials, cell size and index of the mesh constructed without,
and an empty `dielectric_` when an invocation failed. -/
theorem Mesh.DeterminePointDielectric_failure (lua : Lua) :
    (∀ (m : Mesh), ∀ c ∈ (m.DeterminePointDielectricRun lua).1, m.callOutcome lua c = none →
      m.DeterminePointDielectric lua = [] ∧
      (m.DeterminePointDielectricRun lua).1.getLast? = some c ∧
      ∀ c2 ∈ (m.DeterminePointDielectricRun lua).1, c2.1 ≤ c.1) ∧
    (∀ (env : Env) (s : Shape) (L : ℚ) (c0 : Int) (G : ℚ) (mesh : Mesh) (T : ℚ),
      Mesh.construct env s L (some lua) c0 G = .ok (mesh, T) →
      ∃ m0, Mesh.construct env s L none c0 G = .ok (m0, T) ∧
        mesh.valid_mesh_ = m0.valid_mesh_ ∧ mesh.points_ = m0.points_ ∧
        mesh.triangles_ = m0.triangles_ ∧ mesh.materials_ = m0.materials_ ∧
        mesh.cell_size_ = m0.cell_size_ ∧ mesh.spatial_index_ = m0.spatial_index_ ∧
        mesh.dielectric_
          = (if m0.valid_mesh_ = true then m0.DeterminePointDielectric lua else []) ∧
        ((∃ c ∈ (m0.DeterminePointDielectricRun lua).1, m0.callOutcome lua c = none) →
          mesh.dielectric_ = [])) := by
  have hfail : ∀ (m : Mesh), ∀ c ∈ (m.DeterminePointDielectricRun lua).1,
      m.callOutcome lua c = none →
      m.DeterminePointDielectric lua = [] ∧
      (m.DeterminePointDielectricRun lua).1.getLast? = some c ∧
      ∀ c2 ∈ (m.DeterminePointDielectricRun lua).1, c2.1 ≤ c.1 := by
    intro m c hc hnone
    rw [← m.DeterminePointDielectricRun_snd lua]
    unfold Mesh.DeterminePointDielectricRun at hc ⊢
    split at hc
    · simp at hc
    · rename_i hall
      simp only [hall, if_false]
      exact m.dielectricRun_fail lua _ _ (List.pairwise_lt_range _) c hc hnone
  refine ⟨hfail, ?_⟩
  intro env s L c0 G mesh T hc
  obtain ⟨m0, h0, hm⟩ := Mesh.construct_with_lua env s L lua c0 G mesh T hc
  subst hm
  refine ⟨m0, h0, rfl, rfl, rfl, rfl, rfl, rfl, rfl, ?_⟩
  rintro ⟨c, hcm, hnone⟩
  simp only
  split
  · exact (hfail m0 c hcm hnone).1
  · rfl

/-- C17, on `threeMaterialMesh`: the callback of material 0 succeeds, that of material 1
fails, material 2 is not invoked and the result is empty. -/
theorem Mesh.DeterminePointDielectric_failure_witness :
    (threeMaterialMesh.DeterminePointDielectricRun exampleLua).1
      = [threeMaterialMesh.callArgs 0, threeMaterialMesh.callArgs 1] ∧
    threeMaterialMesh.callOutcome exampleLua (threeMaterialMesh.callArgs 0) ≠ none ∧
    threeMaterialMesh.callOutcome exampleLua (threeMaterialMesh.callArgs 1) = none ∧
    threeMaterialMesh.touchedBy 2 = [3, 4, 5] ∧
    (threeMaterialMesh.DeterminePointDielectric exampleLua = [] ∧
      (threeMaterialMesh.DeterminePointDielectricRun exampleLua).1.getLast?
        = some (threeMaterialMesh.callArgs 1) ∧
      ∀ c2 ∈ (threeMaterialMesh.DeterminePointDielectricRun exampleLua).1, c2.1 ≤ 1) :=
  ⟨by decide!, by decide!, by decide!, by decide!,
    (Mesh.DeterminePointDielectric_failure exampleLua).1 threeMaterialMesh
      (threeMaterialMesh.callArgs 1) (by decide!) (by decide!)⟩

/-! ## First occurrences -/

theorem firstOccurrences_keys {α κ : Type} [DecidableEq κ] (key : α → κ) (l : List α) (k : κ) :
    k ∈ (firstOccurrences key l).map key ↔ k ∈ l.map key := by
  induction l with
  | nil => simp [firstOccurrences]
  | cons b l ih =>
    simp only [firstOccurrences, List.map_cons, List.mem_cons]
    constructor
    · rintro (h | h)
      · exact Or.inl h
      · obtain ⟨x, hx, rfl⟩ := List.mem_map.mp h
        exact Or.inr (ih.mp (List.mem_map.mpr ⟨x, (List.mem_filter.mp hx).1, rfl⟩))
    · rintro (h | h)
      · exact Or.inl h
      · by_cases hk : k = key b
        · exact Or.inl hk
        · obtain ⟨x, hx, rfl⟩ := List.mem_map.mp (ih.mpr h)
          exact Or.inr (List.mem_map.mpr ⟨x, List.mem_filter.mpr ⟨hx, by simpa using hk⟩, rfl⟩)

theorem firstOccurrences_sublist {α κ : Type} [DecidableEq κ] (key : α → κ) (l : List α) :
    (firstOccurrences key l).Sublist l := by
  induction l with
  | nil => simp [firstOccurrences]
  | cons b l ih =>
    simp only [firstOccurrences]
    exact List.Sublist.cons₂ _ ((List.filter_sublist _).trans ih)

theorem firstOccurrences_nodup {α κ : Type} [DecidableEq κ] (key : α → κ) (l : List α) :
    ((firstOccurrences key l).map key).Nodup := by
  induction l with
  | nil => simp [firstOccurrences]
  | cons b l ih =>
    simp only [firstOccurrences, List.map_cons, List.nodup_cons]
    constructor
    · intro h
      obtain ⟨x, hx, hxb⟩ := List.mem_map.mp h
      have := (List.mem_filter.mp hx).2
      simp only [decide_eq_true_eq] at this
      exact this hxb
    · exact List.Nodup.sublist (List.Sublist.map key (List.filter_sublist _)) ih

theorem firstOccurrences_snoc {α κ : Type} [DecidableEq κ] (key : α → κ) (l : List α) (a : α) :
    firstOccurrences key (l ++ [a])
      = firstOccurrences key l ++ (if key a ∈ l.map key then [] else [a]) := by
  induction l with
  | nil => simp [firstOccurrences]
  | cons b l ih =>
    simp only [List.cons_append, firstOccurrences, List.append_eq]
    rw [ih, List.filter_append]
    by_cases hab : key a = key b
    · by_cases hm : key a ∈ l.map key
      · simp [hab, hm]
      · simp [hab, hm]
    · have hba : ¬ key b = key a := fun e => hab e.symm
      by_cases hm : key a ∈ l.map key
      · simp [hab, hba, hm]
      · simp [hab, hba, hm]

theorem firstOccurrences_length {α κ : Type} [DecidableEq κ] (key : α → κ) (l : List α) :
    (firstOccurrences key l).length = (l.map key).toFinset.card := by
  have h : ((firstOccurrences key l).map key).toFinset = (l.map key).toFinset := by
    ext k
    simp only [List.mem_toFinset]
    exact firstOccurrences_keys key l k
  rw [← h, List.toFinset_card_of_nodup (firstOccurrences_nodup key l), List.length_map]

/-! ## The association list `point_map` -/

theorem PointMap.find_mem (pm : PointMap) (k : ℚ × ℚ) (v : Nat)
    (h : PointMap.find pm k = some v) : (k, v) ∈ pm := by
  induction pm with
  | nil => simp [PointMap.find] at h
  | cons kv rest ih =>
    obtain ⟨k0, v0⟩ := kv
    simp only [PointMap.find] at h
    by_cases hk : k0 = k
    · simp only [hk, if_true, Option.some.injEq] at h
      subst hk
      subst h
      exact List.mem_cons_self _ _
    · simp only [hk, if_false] at h
      exact List.mem_cons_of_mem _ (ih h)

theorem PointMap.find_none_iff (pm : PointMap) (k : ℚ × ℚ) :
    PointMap.find pm k = none ↔ k ∉ pm.map Prod.fst := by
  induction pm with
  | nil => simp [PointMap.find]
  | cons kv rest ih =>
    obtain ⟨k0, v0⟩ := kv
    simp only [PointMap.find, List.map_cons, List.mem_cons, not_or]
    by_cases hk : k0 = k
    · simp [hk]
    · simp only [hk, if_false, ih]
      constructor
      · intro h
        exact ⟨fun e => hk e.symm, h⟩
      · intro h
        exact h.2

theorem PointMap.find_of_mem (pm : PointMap) (hn : (pm.map Prod.fst).Nodup) (k : ℚ × ℚ)
    (v : Nat) (h : (k, v) ∈ pm) : PointMap.find pm k = some v := by
  induction pm with
  | nil => cases h
  | cons kv rest ih =>
    obtain ⟨k0, v0⟩ := kv
    simp only [List.map_cons, List.nodup_cons] at hn
    simp only [PointMap.find]
    rcases List.mem_cons.mp h with e | e
    · obtain ⟨e1, e2⟩ := Prod.mk.inj e
      simp [e1, e2]
    · by_cases hk : k0 = k
      · exfalso
        apply hn.1
        rw [hk]
        exact List.mem_map.mpr ⟨(k, v), e, rfl⟩
      · simp only [hk, if_false]
        exact ih hn.2 e

theorem mem_zip_range {α : Type} (keys : List α) (k : α) (v : Nat) :
    (k, v) ∈ List.zip keys (List.range keys.length) ↔ keys[v]? = some k := by
  rw [List.mem_iff_getElem?]
  constructor
  · rintro ⟨i, hi⟩
    obtain ⟨h1, h2⟩ := List.getElem?_zip_eq_some.mp hi
    simp only at h1 h2
    have hlt : i < keys.length := by
      by_contra hge
      rw [List.getElem?_eq_none (by simpa using Nat.le_of_not_lt hge)] at h2
      cases h2
    rw [List.getElem?_range hlt] at h2
    have : i = v := Option.some.inj h2
    rw [← this]
    exact h1
  · intro h
    have hlt : v < keys.length := by
      by_contra hge
      rw [List.getElem?_eq_none (Nat.le_of_not_lt hge)] at h
      cases h
    exact ⟨v, List.getElem?_zip_eq_some.mpr ⟨h, List.getElem?_range hlt⟩⟩

theorem positionOf_spec {κ : Type} [DecidableEq κ] (k : κ) (l : List κ) (h : k ∈ l) :
    positionOf k l < l.length ∧ l[positionOf k l]? = some k := by
  induction l with
  | nil => cases h
  | cons a rest ih =>
    simp only [positionOf]
    by_cases ha : a = k
    · simp [ha]
    · simp only [ha, if_false, List.length_cons, List.getElem?_cons_succ]
      rcases List.mem_cons.mp h with e | e
      · exact absurd e.symm ha
      · exact ⟨Nat.succ_lt_succ (ih e).1, (ih e).2⟩

/-! ## The deduplication loops -/

theorem foldl_flatMap_pairs {β : Type} (f : β → Nat → Nat → β) (len : Nat → Nat) (l : List Nat)
    (init : β) :
    l.foldl (fun st i => (List.range (len i)).foldl (fun st2 j => f st2 i j) st) init
      = (l.flatMap (fun i => (List.range (len i)).map (fun j => (i, j)))).foldl
          (fun st ij => f st ij.1 ij.2) init := by
  induction l generalizing init with
  | nil => rfl
  | cons i rest ih =>
    simp only [List.foldl_cons, List.flatMap_cons, List.foldl_append, List.foldl_map]
    exact ih _

theorem Shape.pointIndex_boundary (s : Shape) :
    s.pointIndex = s.boundary.foldl (fun st ij => PointIndex.visit s st ij.1 ij.2) ⟨[], []⟩ := by
  unfold Shape.pointIndex Shape.boundary
  exact foldl_flatMap_pairs (fun st i j => PointIndex.visit s st i j)
    (fun i => (s.Piece i).length) _ _

theorem PointIndex.fold_spec (s : Shape) (P : List (Nat × Nat)) :
    (P.foldl (fun st ij => PointIndex.visit s st ij.1 ij.2) ⟨[], []⟩).index_map
      = firstOccurrences s.coords P ∧
    (P.foldl (fun st ij => PointIndex.visit s st ij.1 ij.2) ⟨[], []⟩).point_map
      = List.zip ((firstOccurrences s.coords P).map s.coords)
          (List.range (firstOccurrences s.coords P).length) := by
  induction P using List.reverseRecOn with
  | nil => simp [firstOccurrences]
  | append_singleton P a ih =>
    obtain ⟨h1, h2⟩ := ih
    rw [List.foldl_append, firstOccurrences_snoc]
    simp only [List.foldl_cons, List.foldl_nil]
    generalize P.foldl (fun st ij => PointIndex.visit s st ij.1 ij.2) ⟨[], []⟩ = st at h1 h2 ⊢
    have hkey : ((s.Piece a.1).getD a.2 default).p.key = s.coords a := rfl
    have hfst : st.point_map.map Prod.fst = (firstOccurrences s.coords P).map s.coords := by
      rw [h2]
      exact List.map_fst_zip _ _ (by simp)
    unfold PointIndex.visit
    simp only [hkey]
    by_cases hm : s.coords a ∈ P.map s.coords
    · have hsome : ¬ (PointMap.find st.point_map (s.coords a)).isNone = true := by
        rw [Option.isNone_iff_eq_none, PointMap.find_none_iff, hfst, not_not]
        exact (firstOccurrences_keys s.coords P _).mpr hm
      simp only [hsome, hm, if_true, if_false, List.append_nil]
      exact ⟨h1, h2⟩
    · have hnone : (PointMap.find st.point_map (s.coords a)).isNone = true := by
        rw [Option.isNone_iff_eq_none, PointMap.find_none_iff, hfst]
        exact fun h => hm ((firstOccurrences_keys s.coords P _).mp h)
      simp only [hnone, hm, if_true, if_false]
      refine ⟨by rw [h1], ?_⟩
      rw [h1, h2, List.map_append, List.length_append, List.length_singleton,
        List.range_succ, List.zip_append (by simp)]
      rfl

theorem Shape.pointIndex_spec (s : Shape) :
    s.pointIndex.index_map = s.firstPoints ∧
    s.pointIndex.point_map
      = List.zip (s.firstPoints.map s.coords) (List.range s.firstPoints.length) := by
  rw [s.pointIndex_boundary]
  exact PointIndex.fold_spec s s.boundary

theorem Shape.mem_boundary (s : Shape) (ij : Nat × Nat) :
    ij ∈ s.boundary ↔ ij.1 < s.NumPieces ∧ ij.2 < (s.Piece ij.1).length := by
  obtain ⟨i, j⟩ := ij
  unfold Shape.boundary
  simp only [List.mem_flatMap, List.mem_range, List.mem_map, Prod.mk.injEq]
  constructor
  · rintro ⟨i2, hi2, j2, hj2, rfl, rfl⟩
    exact ⟨hi2, hj2⟩
  · rintro ⟨h1, h2⟩
    exact ⟨i, h1, j, h2, rfl, rfl⟩

/-- The point map finds the coordinates `k` at `u` iff `u` is the position of the first
occurrence with coordinates `k`. -/
theorem Shape.find_iff (s : Shape) (k : ℚ × ℚ) (u : Nat) :
    s.pointIndex.point_map.find k = some u ↔ (s.firstPoints.map s.coords)[u]? = some k := by
  rw [(s.pointIndex_spec).2]
  have hlen : s.firstPoints.length = (s.firstPoints.map s.coords).length := by simp
  rw [hlen]
  constructor
  · intro h
    exact (mem_zip_range _ k u).mp (PointMap.find_mem _ k u h)
  · intro h
    apply PointMap.find_of_mem
    · rw [List.map_fst_zip _ _ (by simp)]
      exact firstOccurrences_nodup s.coords s.boundary
    · exact (mem_zip_range _ k u).mpr h

theorem Shape.find_UPI (s : Shape) (ij : Nat × Nat) (h : ij ∈ s.boundary) :
    s.pointIndex.point_map.find (s.coords ij) = some (s.UPI ij) ∧
    s.UPI ij < s.firstPoints.length := by
  have hmem : s.coords ij ∈ s.firstPoints.map s.coords :=
    (firstOccurrences_keys s.coords s.boundary _).mpr (List.mem_map.mpr ⟨ij, h, rfl⟩)
  obtain ⟨hlt, hget⟩ := positionOf_spec (s.coords ij) _ hmem
  refine ⟨?_, by simpa using hlt⟩
  rw [s.find_iff]
  exact hget

/-! ## The segment loops -/

theorem foldlE_append {α β : Type} (f : β → α → Except String β) (b : β) (l1 l2 : List α) :
    foldlE f b (l1 ++ l2)
      = match foldlE f b l1 with
        | .error msg => .error msg
        | .ok b2 => foldlE f b2 l2 := by
  induction l1 generalizing b with
  | nil => rfl
  | cons a rest ih =>
    simp only [List.cons_append, foldlE]
    cases f b a with
    | error msg => rfl
    | ok b2 => exact ih b2

theorem foldlE_map {α β γ : Type} (f : β → α → Except String β) (g : γ → α) (b : β)
    (l : List γ) : foldlE f b (l.map g) = foldlE (fun st c => f st (g c)) b l := by
  induction l generalizing b with
  | nil => rfl
  | cons a rest ih =>
    simp only [List.map_cons, foldlE]
    cases f b (g a) with
    | error msg => rfl
    | ok b2 => exact ih b2

theorem foldlE_flatMap_pairs {β : Type} (f : β → Nat → Nat → Except String β)
    (len : Nat → Nat) (l : List Nat) (init : β) :
    foldlE (fun st i => foldlE (fun st2 j => f st2 i j) st (List.range (len i))) init l
      = foldlE (fun st ij => f st ij.1 ij.2) init
          (l.flatMap (fun i => (List.range (len i)).map (fun j => (i, j)))) := by
  induction l generalizing init with
  | nil => rfl
  | cons i rest ih =>
    simp only [List.flatMap_cons, foldlE, foldlE_append, foldlE_map]
    cases foldlE (fun st2 j => f st2 i j) init (List.range (len i)) with
    | error msg => rfl
    | ok b2 => exact ih b2

theorem foldlE_ok {α β : Type} (f : β → α → Except String β) (g : β → α → β) (l : List α)
    (h : ∀ a ∈ l, ∀ b, f b a = .ok (g b a)) (b : β) :
    foldlE f b l = .ok (l.foldl g b) := by
  induction l generalizing b with
  | nil => rfl
  | cons a rest ih =>
    simp only [foldlE, List.foldl_cons]
    rw [h a (List.mem_cons_self _ _) b]
    exact ih (fun a2 h2 => h a2 (List.mem_cons_of_mem _ h2)) _

theorem Shape.next_mem (s : Shape) (ij : Nat × Nat) (h : ij ∈ s.boundary) :
    s.next ij ∈ s.boundary := by
  rw [s.mem_boundary] at h ⊢
  refine ⟨h.1, ?_⟩
  exact Nat.mod_lt _ (Nat.lt_of_le_of_lt (Nat.zero_le _) h.2)

theorem SegmentState.visit_boundary (s : Shape) (st : SegmentState) (ij : Nat × Nat)
    (h : ij ∈ s.boundary) :
    SegmentState.visit s s.pointIndex.point_map st ij.1 ij.2
      = .ok (st.emit (s.UPI ij, s.UPI (s.next ij))) := by
  have h1 : s.pointIndex.point_map.find ((s.Piece ij.1).getD ij.2 default).p.key
      = some (s.UPI ij) := (s.find_UPI ij h).1
  have h2 : s.pointIndex.point_map.find
      ((s.Piece ij.1).getD ((ij.2 + 1) % (s.Piece ij.1).length) default).p.key
      = some (s.UPI (s.next ij)) := (s.find_UPI (s.next ij) (s.next_mem ij h)).1
  unfold SegmentState.visit SegmentState.emit
  simp only [h1, h2]
  split <;> rfl

theorem kernelSegments_eq (s : Shape) :
    kernelSegments s s.pointIndex.point_map
      = .ok (s.edges.foldl SegmentState.emit ⟨[], [], []⟩) := by
  unfold kernelSegments
  rw [foldlE_flatMap_pairs (fun st i j => SegmentState.visit s s.pointIndex.point_map st i j)
    (fun i => (s.Piece i).length)]
  have := foldlE_ok (fun st ij => SegmentState.visit s s.pointIndex.point_map st ij.1 ij.2)
    (fun st ij => st.emit (s.UPI ij, s.UPI (s.next ij))) s.boundary
    (fun ij hij st => SegmentState.visit_boundary s st ij hij) ⟨[], [], []⟩
  unfold Shape.boundary at this
  rw [this]
  unfold Shape.edges Shape.boundary
  rw [List.foldl_map]

theorem SegmentState.emit_fold (E : List (Nat × Nat)) :
    (∀ e, e ∈ (E.foldl SegmentState.emit ⟨[], [], []⟩).segment_map ↔ e ∈ E) ∧
    (E.foldl SegmentState.emit ⟨[], [], []⟩).segmentlist
      = (firstOccurrences id E).flatMap (fun e => [(e.1 : Int), (e.2 : Int)]) ∧
    (E.foldl SegmentState.emit ⟨[], [], []⟩).segmentmarkerlist
      = (firstOccurrences id E).map (fun e => -1 - (e.1 : Int)) := by
  induction E using List.reverseRecOn with
  | nil => simp [firstOccurrences]
  | append_singleton E a ih =>
    obtain ⟨h1, h2, h3⟩ := ih
    rw [List.foldl_append, firstOccurrences_snoc]
    simp only [List.foldl_cons, List.foldl_nil, List.map_id, id_eq]
    generalize E.foldl SegmentState.emit ⟨[], [], []⟩ = st at h1 h2 h3 ⊢
    unfold SegmentState.emit
    by_cases hm : a ∈ E
    · have hs : a ∈ st.segment_map := (h1 a).mpr hm
      simp only [hs, hm, if_true, List.append_nil]
      refine ⟨?_, h2, h3⟩
      intro e
      rw [h1 e, List.mem_append, List.mem_singleton]
      constructor
      · exact Or.inl
      · rintro (h | h)
        · exact h
        · rw [h]; exact hm
    · have hs : a ∉ st.segment_map := fun h => hm ((h1 a).mp h)
      simp only [hs, hm, if_false]
      refine ⟨?_, ?_, ?_⟩
      · intro e
        rw [List.mem_cons, h1 e, List.mem_append, List.mem_singleton]
        exact Or.comm
      · rw [h2, List.flatMap_append]
        simp
      · rw [h3, List.map_append]
        simp

theorem Shape.UPI_firstPoints (s : Shape) (u : Nat) (hu : u < s.firstPoints.length) :
    s.firstPoints.getD u default ∈ s.boundary ∧ s.UPI (s.firstPoints.getD u default) = u := by
  have hmem : s.firstPoints.getD u default ∈ s.boundary := by
    rw [List.getD_eq_getElem _ _ hu]
    exact (firstOccurrences_sublist s.coords s.boundary).subset (List.getElem_mem hu)
  refine ⟨hmem, ?_⟩
  have h1 := (s.find_UPI _ hmem).1
  have h2 : s.pointIndex.point_map.find (s.coords (s.firstPoints.getD u default)) = some u := by
    rw [s.find_iff, List.getElem?_map, List.getD_eq_getElem _ _ hu,
      List.getElem?_eq_getElem hu]
    rfl
  rw [h1] at h2
  exact Option.some.inj h2

/-! ## The point index against its reference description -/

/-- C19. Point deduplication equals its reference description: `index_map` is the list of
first occurrences, in scan order, of the distinct coordinate pairs of the boundary points, and
`point_map` sends the coordinates of every boundary point to the position in `index_map` of
the first occurrence with these coordinates (and holds no other key). Hence two boundary points
get the same UPI iff their coordinates are equal, the UPIs are exactly `0..n-1` for `n` distinct
coordinate pairs, and looking up the coordinates of `index_map[u]` returns `u`. -/
theorem Shape.pointIndex_reference (s : Shape) :
    s.pointIndex.index_map = s.firstPoints ∧
    (∀ ij ∈ s.boundary,
      s.pointIndex.point_map.find (s.coords ij) = some (s.UPI ij) ∧
      s.UPI ij < s.pointIndex.index_map.length ∧
      s.coords (s.pointIndex.index_map.getD (s.UPI ij) default) = s.coords ij) ∧
    (∀ k, s.pointIndex.point_map.find k = none ↔ k ∉ s.boundary.map s.coords) ∧
    (∀ a ∈ s.boundary, ∀ b ∈ s.boundary,
      (s.pointIndex.point_map.find (s.coords a) = s.pointIndex.point_map.find (s.coords b)
        ↔ s.coords a = s.coords b)) ∧
    s.pointIndex.index_map.length = (s.boundary.map s.coords).toFinset.card ∧
    (∀ u, u < s.pointIndex.index_map.length →
      (∃ ij ∈ s.boundary, s.pointIndex.point_map.find (s.coords ij) = some u) ∧
      s.pointIndex.point_map.find (s.coords (s.pointIndex.index_map.getD u default)) = some u) ∧
    (∀ ij, ij ∈ s.boundary ↔ ij.1 < s.NumPieces ∧ ij.2 < (s.Piece ij.1).length) ∧
    (s.firstPoints.Sublist s.boundary ∧ (s.firstPoints.map s.coords).Nodup ∧
      firstOccurrences s.coords [] = [] ∧
      ∀ l a, (s.coords a ∈ l.map s.coords →
          firstOccurrences s.coords (l ++ [a]) = firstOccurrences s.coords l) ∧
        (s.coords a ∉ l.map s.coords →
          firstOccurrences s.coords (l ++ [a]) = firstOccurrences s.coords l ++ [a])) := by
  have hidx := (s.pointIndex_spec).1
  refine ⟨hidx, ?_, ?_, ?_, ?_, ?_, s.mem_boundary,
    firstOccurrences_sublist s.coords s.boundary, firstOccurrences_nodup s.coords s.boundary,
    rfl, ?_⟩
  · intro ij hij
    obtain ⟨h1, h2⟩ := s.find_UPI ij hij
    refine ⟨h1, by rw [hidx]; exact h2, ?_⟩
    have h3 := (s.find_iff _ _).mp h1
    rw [List.getElem?_map, List.getElem?_eq_getElem h2] at h3
    rw [hidx, List.getD_eq_getElem _ _ h2]
    exact Option.some.inj h3
  · intro k
    rw [PointMap.find_none_iff, (s.pointIndex_spec).2, List.map_fst_zip _ _ (by simp)]
    exact not_congr (firstOccurrences_keys s.coords s.boundary k)
  · intro a ha b hb
    constructor
    · intro h
      rw [(s.find_UPI a ha).1] at h
      have h1 := (s.find_iff _ _).mp (s.find_UPI a ha).1
      have h2 := (s.find_iff _ _).mp h.symm
      rw [h1] at h2
      exact Option.some.inj h2
    · intro h
      rw [h]
  · rw [hidx]
    exact firstOccurrences_length s.coords s.boundary
  · intro u hu
    rw [hidx] at hu ⊢
    obtain ⟨hmem, hupi⟩ := s.UPI_firstPoints u hu
    have h := (s.find_UPI _ hmem).1
    rw [hupi] at h
    exact ⟨⟨_, hmem, h⟩, h⟩
  · intro l a
    rw [firstOccurrences_snoc]
    constructor
    · intro h
      rw [if_pos h, List.append_nil]
    · intro h
      rw [if_neg h]

/-- C19, on `twoPieceShape`: seven boundary points with five distinct coordinate pairs; the
first point of the second piece has the coordinates of point 1 of the first piece. -/
theorem Shape.pointIndex_reference_witness :
    twoPieceShape.pointIndex.index_map = [(0, 0), (0, 1), (0, 2), (0, 3), (1, 1)] ∧
    twoPieceShape.boundary = [(0, 0), (0, 1), (0, 2), (0, 3), (1, 0), (1, 1), (1, 2)] ∧
    twoPieceShape.UPI (1, 0) = 1 ∧
    (twoPieceShape.pointIndex.point_map.find (twoPieceShape.coords (1, 0))
        = some (twoPieceShape.UPI (1, 0)) ∧
      twoPieceShape.UPI (1, 0) < twoPieceShape.pointIndex.index_map.length ∧
      twoPieceShape.coords
          (twoPieceShape.pointIndex.index_map.getD (twoPieceShape.UPI (1, 0)) default)
        = twoPieceShape.coords (1, 0)) :=
  ⟨by decide!, by decide!, by decide!,
    (Shape.pointIndex_reference twoPieceShape).2.1 (1, 0) (by decide!)⟩

/-! ## The segment list against its reference description -/

/-- C20. The segment loops never fail their `CHECK` on the point map of the shape, and emit
exactly the distinct ordered pairs (UPI of point `j`, UPI of point `(j + 1) mod size`) in order
of first occurrence: `segmentlist` holds the two UPIs of each and `segmentmarkerlist` holds
`-1 - (UPI of the first end point)`. The number of segments is at least the number of unique
points and at most the number of boundary points (the `count` that sizes the arrays), and an
edge traversed in both directions yields two segments. -/
theorem kernelSegments_reference (s : Shape) :
    ∃ st, kernelSegments s s.pointIndex.point_map = .ok st ∧
      st.segmentlist = s.firstEdges.flatMap (fun e => [(e.1 : Int), (e.2 : Int)]) ∧
      st.segmentmarkerlist = s.firstEdges.map (fun e => -1 - (e.1 : Int)) ∧
      (∀ env tin, kernelInput env s = .ok tin →
        tin.segmentlist = st.segmentlist ∧ tin.segmentmarkerlist = st.segmentmarkerlist ∧
        tin.numberofsegments = (s.firstEdges.length : Int)) ∧
      s.firstEdges.Nodup ∧
      (∀ e, e ∈ s.firstEdges ↔ ∃ ij ∈ s.boundary, e = (s.UPI ij, s.UPI (s.next ij))) ∧
      (s.firstEdges.Sublist s.edges ∧ firstOccurrences id ([] : List (Nat × Nat)) = [] ∧
        ∀ (l : List (Nat × Nat)) (a : Nat × Nat),
          (a ∈ l → firstOccurrences id (l ++ [a]) = firstOccurrences id l) ∧
          (a ∉ l → firstOccurrences id (l ++ [a]) = firstOccurrences id l ++ [a])) ∧
      s.pointIndex.index_map.length ≤ s.firstEdges.length ∧
      s.firstEdges.length ≤ s.boundary.length ∧
      s.boundary.length = ((List.range s.NumPieces).map (fun i => (s.Piece i).length)).sum ∧
      (∀ a b, a ≠ b → (a, b) ∈ s.edges → (b, a) ∈ s.edges →
        (a, b) ∈ s.firstEdges ∧ (b, a) ∈ s.firstEdges ∧ (a, b) ≠ (b, a)) := by
  have hfold := SegmentState.emit_fold s.edges
  have hkeys : ∀ e, e ∈ s.firstEdges ↔ e ∈ s.edges := by
    intro e
    have := firstOccurrences_keys id s.edges e
    simpa using this
  have hnodup : s.firstEdges.Nodup := by
    have := firstOccurrences_nodup id s.edges
    simpa using this
  refine ⟨_, kernelSegments_eq s, hfold.2.1, hfold.2.2, ?_, hnodup, ?_,
    ⟨firstOccurrences_sublist id s.edges, rfl, ?_⟩, ?_, ?_, ?_, ?_⟩
  · intro env tin h
    unfold kernelInput at h
    rw [kernelSegments_eq s] at h
    cases hh : holePoints env s with
    | error msg => rw [hh] at h; cases h
    | ok hole_points =>
      rw [hh] at h
      simp only at h
      cases hr : kernelRegions env s with
      | error msg => rw [hr] at h; cases h
      | ok regionlist =>
        rw [hr] at h
        simp only at h
        have e := Except.ok.inj h
        subst e
        refine ⟨rfl, rfl, ?_⟩
        simp only
        rw [hfold.2.2, List.length_map]
        rfl
  · intro e
    rw [hkeys e]
    unfold Shape.edges
    rw [List.mem_map]
    constructor
    · rintro ⟨ij, h1, h2⟩
      exact ⟨ij, h1, h2.symm⟩
    · rintro ⟨ij, h1, h2⟩
      exact ⟨ij, h1, h2.symm⟩
  · intro l a
    rw [firstOccurrences_snoc, List.map_id]
    constructor
    · intro h
      rw [if_pos (show id a ∈ l from h), List.append_nil]
    · intro h
      rw [if_neg (show ¬ id a ∈ l from h)]
  · rw [(s.pointIndex_spec).1]
    have hsub : List.range s.firstPoints.length ⊆ s.firstEdges.map Prod.fst := by
      intro u hu
      have hu2 := List.mem_range.mp hu
      obtain ⟨hmem, hupi⟩ := s.UPI_firstPoints u hu2
      apply List.mem_map.mpr
      refine ⟨(u, s.UPI (s.next (s.firstPoints.getD u default))), ?_, rfl⟩
      rw [hkeys]
      unfold Shape.edges
      apply List.mem_map.mpr
      exact ⟨_, hmem, by rw [hupi]⟩
    have := ((List.nodup_range _).subperm hsub).length_le
    simpa using this
  · have := (firstOccurrences_sublist id s.edges).length_le
    unfold Shape.edges at this
    rw [List.length_map] at this
    exact this
  · unfold Shape.boundary
    rw [List.length_flatMap]
    congr 1
    apply List.map_congr_left
    intro i _
    simp
  · intro a b hab h1 h2
    refine ⟨(hkeys _).mpr h1, (hkeys _).mpr h2, ?_⟩
    intro e
    exact hab (Prod.mk.inj e).1

/-- C20, on `twoPieceShape`: seven edges, none repeated; the shared edge appears as `(1, 2)`
from the square and as `(2, 1)` from the triangle. -/
theorem kernelSegments_reference_witness :
    kernelSegments twoPieceShape twoPieceShape.pointIndex.point_map
      = .ok ⟨[(2, 1), (4, 2), (1, 4), (3, 0), (2, 3), (1, 2), (0, 1)],
          [0, 1, 1, 2, 2, 3, 3, 0, 1, 4, 4, 2, 2, 1], [-1, -2, -3, -4, -2, -5, -3]⟩ ∧
    twoPieceShape.firstEdges = [(0, 1), (1, 2), (2, 3), (3, 0), (1, 4), (4, 2), (2, 1)] ∧
    ∃ st, kernelSegments twoPieceShape twoPieceShape.pointIndex.point_map = .ok st ∧
      st.segmentlist = twoPieceShape.firstEdges.flatMap (fun e => [(e.1 : Int), (e.2 : Int)]) ∧
      st.segmentmarkerlist = twoPieceShape.firstEdges.map (fun e => -1 - (e.1 : Int)) ∧
      ((1, 2) ∈ twoPieceShape.firstEdges ∧ (2, 1) ∈ twoPieceShape.firstEdges ∧
        ((1 : Nat), (2 : Nat)) ≠ (2, 1)) :=
  ⟨by decide!, by decide!,
    match kernelSegments_reference twoPieceShape with
    | ⟨st, h1, h2, h3, _, _, _, _, _, _, _, h11⟩ =>
      ⟨st, h1, h2, h3, h11 1 2 (by decide) (by decide!) (by decide!)⟩⟩

/-! ## The grid key -/

theorem toInt32_toUInt32 (z : Int) (h : I32 z) : toInt32 ((toUInt32 z : Nat) : Int) = z := by
  unfold toUInt32 toInt32
  unfold I32 at h
  rw [Int.toNat_of_nonneg (Int.emod_nonneg _ (by norm_num))]
  omega

/-- C28. `GridIndex` is injective on pairs of 32-bit signed integers, negative values
included: the key is below `2 ^ 64`, `ix` is recovered from its upper 32 bits and `iy` from its
lower 32 bits, so equal keys mean equal cells and two distinct cells never share an entry of
the spatial index. -/
theorem GridIndex_recover (ix iy jx jy : Int) (h1 : I32 ix) (h2 : I32 iy) (h3 : I32 jx)
    (h4 : I32 jy) :
    GridIndex ix iy < 2 ^ 64 ∧
    toInt32 ((GridIndex ix iy / 2 ^ 32 : Nat) : Int) = ix ∧
    toInt32 ((GridIndex ix iy % 2 ^ 32 : Nat) : Int) = iy ∧
    (GridIndex ix iy = GridIndex jx jy → ix = jx ∧ iy = jy) ∧
    ((ix, iy) ≠ (jx, jy) → GridIndex ix iy ≠ GridIndex jx jy) ∧
    (∀ (idx : SpatialIndex) (t : Nat), (ix, iy) ≠ (jx, jy) →
      SpatialIndex.find (SpatialIndex.push idx (GridIndex ix iy) t) (GridIndex jx jy)
        = SpatialIndex.find idx (GridIndex jx jy)) := by
  have hx := toUInt32_lt ix
  have hy := toUInt32_lt iy
  have hdiv : GridIndex ix iy / 2 ^ 32 = toUInt32 ix := by
    rw [GridIndex_eq_add]
    omega
  have hmod : GridIndex ix iy % 2 ^ 32 = toUInt32 iy := by
    rw [GridIndex_eq_add]
    omega
  have hne : (ix, iy) ≠ (jx, jy) → GridIndex ix iy ≠ GridIndex jx jy := by
    intro hne h
    obtain ⟨e1, e2⟩ := GridIndex_inj ix iy jx jy h1 h2 h3 h4 h
    exact hne (by rw [e1, e2])
  refine ⟨?_, ?_, ?_, GridIndex_inj ix iy jx jy h1 h2 h3 h4, hne, ?_⟩
  · rw [GridIndex_eq_add]
    omega
  · rw [hdiv]
    exact toInt32_toUInt32 ix h1
  · rw [hmod]
    exact toInt32_toUInt32 iy h2
  · intro idx t hcell
    rw [SpatialIndex.find_push, if_neg (fun e => hne hcell e.symm)]

/-- C28, on the cells `(-1, -2147483648)` and `(-1, 2147483647)`. -/
theorem GridIndex_recover_witness :
    GridIndex (-1) (-2147483648) = 18446744071562067968 ∧
    (GridIndex (-1) (-2147483648) < 2 ^ 64 ∧
      toInt32 ((GridIndex (-1) (-2147483648) / 2 ^ 32 : Nat) : Int) = -1 ∧
      toInt32 ((GridIndex (-1) (-2147483648) % 2 ^ 32 : Nat) : Int) = -2147483648) ∧
    GridIndex (-1) (-2147483648) ≠ GridIndex (-1) 2147483647 :=
  ⟨by decide,
    ⟨(GridIndex_recover (-1) (-2147483648) (-1) 2147483647 (by decide) (by decide) (by decide)
        (by decide)).1,
     (GridIndex_recover (-1) (-2147483648) (-1) 2147483647 (by decide) (by decide) (by decide)
        (by decide)).2.1,
     (GridIndex_recover (-1) (-2147483648) (-1) 2147483647 (by decide) (by decide) (by decide)
        (by decide)).2.2.1⟩,
    (GridIndex_recover (-1) (-2147483648) (-1) 2147483647 (by decide) (by decide) (by decide)
        (by decide)).2.2.2.2.1 (by decide)⟩

/-! ## The cell size of the grid -/

theorem Mesh.construct_cell_size (env : Env) (s : Shape) (L : ℚ) (lua : Option Lua)
    (c0 : Int) (G : ℚ) (m : Mesh) (T : ℚ) (hG : env.GeometryError s = none)
    (hc : Mesh.construct env s L lua c0 G = .ok (m, T)) :
    m.cell_size_ = frexpExp L - 2 := by
  by_cases hs : ToDouble (env.SharpestAngle s) < kSharpestAllowableAngle
  · rw [Mesh.construct_sharp env s L lua c0 G hG hs] at hc
    obtain ⟨hm, _⟩ := Prod.mk.inj (Except.ok.inj hc)
    rw [← hm]
    rfl
  · cases htin : kernelInput env s with
    | error msg =>
      unfold Mesh.construct at hc
      rw [hG] at hc
      simp only [hs, if_false, htin] at hc
      cases hc
    | ok tin =>
      cases hk : env.triangulate (kernelOptions L) (triunsuitable (sqr L)) tin with
      | none =>
        rw [Mesh.construct_kernel_failure env s L lua c0 G hG hs tin htin hk] at hc
        obtain ⟨hm, _⟩ := Prod.mk.inj (Except.ok.inj hc)
        rw [← hm]
        rfl
      | some tout =>
        obtain ⟨points, triangles, m1, _, _, h3, _, hm⟩ :=
          Mesh.construct_success env s L lua c0 G hG hs tin tout htin hk m T hc
        obtain ⟨pts, mats, _, _, _, hm1⟩ := Mesh.UpdateDerivatives_ok env.sqrt s _ m1 h3
        rcases hm with ⟨_, rfl⟩ | ⟨l, _, rfl⟩
        · rw [hm1]
        · rw [hm1]

theorem frexpExp_eq (L : ℚ) (e : Int) (h1 : (2 : ℚ) ^ (e - 1) ≤ L) (h2 : L < (2 : ℚ) ^ e) :
    frexpExp L = e := by
  have hL : 0 < L := lt_of_lt_of_le (zpow_pos (by norm_num) _) h1
  unfold frexpExp
  rw [if_neg (ne_of_gt hL), abs_of_pos hL]
  have a1 : e - 1 ≤ Int.log 2 L :=
    (Int.zpow_le_iff_le_log (by norm_num) hL).mp (by simpa using h1)
  have a2 : Int.log 2 L < e :=
    (Int.lt_zpow_iff_log_lt (by norm_num) hL).mp (by simpa using h2)
  omega

theorem frexpExp_bounds (L : ℚ) (hL : 0 < L) :
    (2 : ℚ) ^ (frexpExp L - 1) ≤ L ∧ L < (2 : ℚ) ^ frexpExp L := by
  unfold frexpExp
  rw [if_neg (ne_of_gt hL), abs_of_pos hL]
  have h1 : ((2 : ℕ) : ℚ) ^ Int.log 2 L ≤ L := Int.zpow_log_le_self (by norm_num) hL
  have h2 : L < ((2 : ℕ) : ℚ) ^ (Int.log 2 L + 1) := Int.lt_zpow_succ_log_self (by norm_num) L
  simp only [Nat.cast_ofNat] at h1 h2
  rw [show Int.log 2 L + 1 - 1 = Int.log 2 L by ring]
  exact ⟨h1, h2⟩

theorem frexpExp_range (L : ℚ) (h1 : (2 : ℚ) ^ (-1073 : Int) ≤ L) (h2 : L < (2 : ℚ) ^ (1024 : Int)) :
    -1072 ≤ frexpExp L ∧ frexpExp L ≤ 1024 := by
  have hL : 0 < L := lt_of_lt_of_le (zpow_pos (by norm_num) _) h1
  obtain ⟨b1, b2⟩ := frexpExp_bounds L hL
  constructor
  · by_contra hlt
    have hle : frexpExp L ≤ -1073 := by omega
    have : (2 : ℚ) ^ frexpExp L ≤ (2 : ℚ) ^ (-1073 : Int) :=
      zpow_le_zpow_right₀ (by norm_num) hle
    linarith
  · by_contra hgt
    have hle : (1024 : Int) ≤ frexpExp L - 1 := by omega
    have : (2 : ℚ) ^ (1024 : Int) ≤ (2 : ℚ) ^ (frexpExp L - 1) :=
      zpow_le_zpow_right₀ (by norm_num) hle
    linarith

theorem ldexp1_frexp_bounds (L : ℚ) (h1 : (2 : ℚ) ^ (-1073 : Int) ≤ L)
    (h2 : L < (2 : ℚ) ^ (1024 : Int)) :
    L / 4 < ldexp1 (frexpExp L - 2) ∧ ldexp1 (frexpExp L - 2) ≤ L / 2 := by
  have hL : 0 < L := lt_of_lt_of_le (zpow_pos (by norm_num) _) h1
  obtain ⟨r1, _⟩ := frexpExp_range L h1 h2
  obtain ⟨b1, b2⟩ := frexpExp_bounds L hL
  rw [ldexp1_eq _ (by omega)]
  have e1 : (2 : ℚ) ^ (frexpExp L - 1) = (2 : ℚ) ^ (frexpExp L - 2) * 2 := by
    rw [show frexpExp L - 1 = frexpExp L - 2 + 1 by ring, zpow_add_one₀ (by norm_num)]
  have e2 : (2 : ℚ) ^ frexpExp L = (2 : ℚ) ^ (frexpExp L - 2) * 4 := by
    rw [show frexpExp L = frexpExp L - 2 + 1 + 1 by ring, zpow_add_one₀ (by norm_num),
      zpow_add_one₀ (by norm_num)]
    ring_nf
  rw [e1] at b1
  rw [e2] at b2
  constructor <;> linarith

theorem half_in_range :
    (2 : ℚ) ^ (-1073 : Int) ≤ 1 / 2 ∧ (1 / 2 : ℚ) < (2 : ℚ) ^ (1024 : Int) := by
  constructor
  · have : (2 : ℚ) ^ (-1073 : Int) ≤ (2 : ℚ) ^ (-1 : Int) :=
      zpow_le_zpow_right₀ (by norm_num) (by norm_num)
    simpa using this
  · have : (2 : ℚ) ^ (0 : Int) ≤ (2 : ℚ) ^ (1024 : Int) :=
      zpow_le_zpow_right₀ (by norm_num) (by norm_num)
    have h1 : (2 : ℚ) ^ (0 : Int) = 1 := by norm_num
    linarith

/-- C25 as stated fails at the smallest positive `double` `L = 2 ^ (-1074)`: `frexp` gives the
exponent `-1073`, so `cell_size_ = -1075`, and `ldexp(1, -1075)` underflows to `0`: the cell
side of every mesh constructed with this `L` is `0`, which is neither a power of two nor above
`L / 4`. -/
theorem cell_size_bounds_counterexample :
    (0 : ℚ) < (2 : ℚ) ^ (-1074 : Int) ∧
    frexpExp ((2 : ℚ) ^ (-1074 : Int)) - 2 = -1075 ∧
    (∀ (env : Env) (s : Shape) (lua : Option Lua) (c0 : Int) (G : ℚ) (m : Mesh) (T : ℚ),
      env.GeometryError s = none →
      Mesh.construct env s ((2 : ℚ) ^ (-1074 : Int)) lua c0 G = .ok (m, T) →
      ldexp1 m.cell_size_ = 0) ∧
    ¬ ((2 : ℚ) ^ (-1074 : Int) / 4 < ldexp1 (frexpExp ((2 : ℚ) ^ (-1074 : Int)) - 2)) := by
  have he : frexpExp ((2 : ℚ) ^ (-1074 : Int)) = -1073 :=
    frexpExp_eq _ _ (by norm_num) (zpow_lt_zpow_right₀ (by norm_num) (by norm_num))
  have hp : (0 : ℚ) < (2 : ℚ) ^ (-1074 : Int) := zpow_pos (by norm_num) _
  refine ⟨hp, by rw [he]; norm_num, ?_, ?_⟩
  · intro env s lua c0 G m T hG hcon
    rw [Mesh.construct_cell_size env s _ lua c0 G m T hG hcon, he]
    rfl
  · rw [he]
    have : ldexp1 (-1073 - 2) = 0 := rfl
    rw [this]
    linarith

/-- C25, amended. For every target edge length `L` with `2 ^ (-1073) ≤ L < 2 ^ 1024` (every
positive finite `double` except the smallest subnormal `2 ^ (-1074)`) a construction that passes
the geometry check leaves `cell_size_` equal to the `frexp` exponent of `L` minus 2, the cell
side `ldexp(1, cell_size_)` is the power of two `2 ^ cell_size_`, and `L / 4 < cell ≤ L / 2`.
For `L = 0.1` (any `L` in `[1/16, 1/8)`) the cell side is `1 / 32`, and every coordinate of the
unit square whose quotient by the cell side is exact (no underflow) has grid column (row)
between `0` and `32`. -/
theorem cell_size_bounds (L : ℚ) (h1 : (2 : ℚ) ^ (-1073 : Int) ≤ L)
    (h2 : L < (2 : ℚ) ^ (1024 : Int)) :
    (∀ (env : Env) (s : Shape) (lua : Option Lua) (c0 : Int) (G : ℚ) (m : Mesh) (T : ℚ),
      env.GeometryError s = none → Mesh.construct env s L lua c0 G = .ok (m, T) →
      m.cell_size_ = frexpExp L - 2 ∧ -1074 ≤ m.cell_size_ ∧ m.cell_size_ ≤ 1022 ∧
      ldexp1 m.cell_size_ = (2 : ℚ) ^ m.cell_size_) ∧
    L / 4 < ldexp1 (frexpExp L - 2) ∧ ldexp1 (frexpExp L - 2) ≤ L / 2 ∧
    (∀ L0 : ℚ, 1 / 16 ≤ L0 → L0 < 1 / 8 →
      frexpExp L0 - 2 = -5 ∧ ldexp1 (frexpExp L0 - 2) = 1 / 32 ∧
      floorInt (ddiv 0 (ldexp1 (frexpExp L0 - 2))) = 0 ∧
      floorInt (ddiv 1 (ldexp1 (frexpExp L0 - 2))) = 32 ∧
      (∀ c : ℚ, 0 ≤ c → c ≤ 1 →
        ddiv c (ldexp1 (frexpExp L0 - 2)) = c / ldexp1 (frexpExp L0 - 2) →
        0 ≤ floorInt (ddiv c (ldexp1 (frexpExp L0 - 2))) ∧
        floorInt (ddiv c (ldexp1 (frexpExp L0 - 2))) ≤ 32)) ∧
    ((1 / 16 : ℚ) ≤ 1 / 10 ∧ (1 / 10 : ℚ) < 1 / 8) := by
  refine ⟨?_, (ldexp1_frexp_bounds L h1 h2).1, (ldexp1_frexp_bounds L h1 h2).2, ?_,
    by norm_num, by norm_num⟩
  · intro env s lua c0 G m T hG hcon
    have hcs := Mesh.construct_cell_size env s L lua c0 G m T hG hcon
    obtain ⟨r1, r2⟩ := frexpExp_range L h1 h2
    have hok : -1074 ≤ m.cell_size_ ∧ m.cell_size_ ≤ 1022 := by
      rw [hcs]
      constructor <;> omega
    exact ⟨hcs, hok.1, hok.2, ldexp1_eq _ hok.1⟩
  · intro L0 a1 a2
    have he0 : frexpExp L0 = -3 :=
      frexpExp_eq L0 (-3) (by norm_num; linarith) (by norm_num; linarith)
    have he : frexpExp L0 - 2 = -5 := by rw [he0]; norm_num
    have hc : ldexp1 (frexpExp L0 - 2) = 1 / 32 := by
      rw [he, ldexp1_eq _ (by norm_num)]
      norm_num
    refine ⟨he, hc, ?_, ?_, ?_⟩
    · rw [hc]
      decide!
    · rw [hc]
      decide!
    · intro c h0 h1 hq
      rw [hq, hc]
      have hf0 : (0 : Int) ≤ ⌊c / (1 / 32)⌋ := Int.floor_nonneg.mpr (by positivity)
      have hf1 : ⌊c / (1 / 32)⌋ ≤ 32 := by
        have : c / (1 / 32) ≤ ((32 : Int) : ℚ) := by
          rw [div_le_iff₀ (by norm_num)]
          norm_num
          linarith
        exact Int.floor_le_floor this |>.trans (by rw [Int.floor_intCast])
      unfold floorInt
      rw [toInt32_of_I32 _ ⟨by omega, by omega⟩]
      exact ⟨hf0, hf1⟩

/-- C25 amended, at `L = 1 / 2` on `squareShape`: the cell side is `1 / 4`. -/
theorem cell_size_bounds_witness :
    (2 : ℚ) ^ (-1073 : Int) ≤ 1 / 2 ∧ (1 / 2 : ℚ) < (2 : ℚ) ^ (1024 : Int) ∧
    squareMesh.cell_size_ = frexpExp (1 / 2) - 2 ∧ ldexp1 squareMesh.cell_size_ = 1 / 4 ∧
    (1 / 2 : ℚ) / 4 < ldexp1 (frexpExp (1 / 2) - 2) ∧
    ldexp1 (frexpExp (1 / 2) - 2) ≤ (1 / 2 : ℚ) / 2 :=
  ⟨half_in_range.1, half_in_range.2,
    ((cell_size_bounds (1 / 2) half_in_range.1 half_in_range.2).1 exampleEnv squareShape none 7
      0 squareMesh (1 / 4) rfl squareMesh_construct).1,
    by decide!,
    (cell_size_bounds (1 / 2) half_in_range.1 half_in_range.2).2.1,
    (cell_size_bounds (1 / 2) half_in_range.1 half_in_range.2).2.2.1⟩

/-! ## The process-wide threshold after construction -/

/-- C26, refuted: constructing `squareShape` with target edge length `1 / 2` while the
threshold holds `0` returns with the threshold at `1 / 4`. -/
theorem Mesh.construct_threshold_counterexample :
    ¬ (∀ (env : Env) (s : Shape) (L : ℚ) (lua : Option Lua) (c0 : Int) (G : ℚ) (m : Mesh)
        (T : ℚ), Mesh.construct env s L lua c0 G = .ok (m, T) → T = G) := by
  intro h
  have := h exampleEnv squareShape (1 / 2) none 7 0 squareMesh (1 / 4) squareMesh_construct
  revert this
  decide!

/-- C26, amended. When construction returns, the process-wide threshold holds the value it
held before the call exactly on the two precondition failures (geometry error, too sharp
angle), which return before it is written; on every return after the kernel call (success or
kernel failure) it holds the square of the target edge length (the `double` product
`sqr(L)`) and is not restored. -/
theorem Mesh.construct_threshold (env : Env) (s : Shape) (L : ℚ) (lua : Option Lua)
    (c0 : Int) (G : ℚ) (m : Mesh) (T : ℚ)
    (hc : Mesh.construct env s L lua c0 G = .ok (m, T)) :
    ((env.GeometryError s ≠ none ∨
        ToDouble (env.SharpestAngle s) < kSharpestAllowableAngle) → T = G ∧ m.valid_mesh_ = false) ∧
    (env.GeometryError s = none → ¬ ToDouble (env.SharpestAngle s) < kSharpestAllowableAngle →
      T = sqr L) := by
  constructor
  · intro h
    cases hG : env.GeometryError s with
    | some msg =>
      rw [Mesh.construct_geometry_error env s L lua c0 G msg hG] at hc
      obtain ⟨hm, hT⟩ := Prod.mk.inj (Except.ok.inj hc)
      rw [← hm, ← hT]
      exact ⟨rfl, rfl⟩
    | none =>
      rcases h with h | h
      · exact absurd hG h
      · rw [Mesh.construct_sharp env s L lua c0 G hG h] at hc
        obtain ⟨hm, hT⟩ := Prod.mk.inj (Except.ok.inj hc)
        rw [← hm, ← hT]
        exact ⟨rfl, rfl⟩
  · intro hG hs
    exact (Mesh.construct_reaches_kernel env s L lua c0 G m T hc hG hs).1

/-- C26 amended, on `squareShape`: the construction reaches the kernel and leaves `1 / 4`. -/
theorem Mesh.construct_threshold_witness :
    Mesh.construct exampleEnv squareShape (1 / 2) none 7 0 = .ok (squareMesh, 1 / 4) ∧
    (1 / 4 : ℚ) = sqr (1 / 2) :=
  ⟨squareMesh_construct,
    (Mesh.construct_threshold exampleEnv squareShape (1 / 2) none 7 0 squareMesh (1 / 4)
      squareMesh_construct).2 rfl (by decide!)⟩

/-! ## The reserved markers -/

theorem kernelInput_segments (env : Env) (s : Shape) (tin : triangulateio)
    (h : kernelInput env s = .ok tin) :
    tin.segmentlist = s.firstEdges.flatMap (fun e => [(e.1 : Int), (e.2 : Int)]) ∧
    tin.segmentmarkerlist = s.firstEdges.map (fun e => -1 - (e.1 : Int)) ∧
    tin.numberofsegments = (s.firstEdges.length : Int) := by
  have hfold := SegmentState.emit_fold s.edges
  unfold kernelInput at h
  rw [kernelSegments_eq s] at h
  cases hh : holePoints env s with
  | error msg => rw [hh] at h; cases h
  | ok hole_points =>
    rw [hh] at h
    simp only at h
    cases hr : kernelRegions env s with
    | error msg => rw [hr] at h; cases h
    | ok regionlist =>
      rw [hr] at h
      simp only at h
      have e := Except.ok.inj h
      subst e
      refine ⟨hfold.2.1, hfold.2.2, ?_⟩
      simp only
      rw [hfold.2.2, List.length_map]
      rfl

/-- C23. Interpreting a kernel output point whose decoded UPI is in range aborts iff its
marker is exactly 1. A marker of 0 never aborts and yields the point with default edge metadata
and provenance `(-1, -1)`. No marker that the assembler puts on an input point or segment is 0
or 1: point markers are at least 2 and segment markers are at most -1. -/
theorem interpretPoint_reserved (env : Env) (s : Shape) :
    (∀ (index_map : List (Nat × Nat)) (x y : ℚ) (marker : Int),
      markerInRange index_map.length marker →
      ((∃ msg, interpretPoint env s index_map x y marker = .error msg) ↔ marker = 1)) ∧
    (∀ (index_map : List (Nat × Nat)) (x y : ℚ),
      interpretPoint env s index_map x y 0
        = .ok { p := JetPoint.ofDoubles x y, e := default, original_piece := -1,
                original_edge := -1 }) ∧
    (∀ tin, kernelInput env s = .ok tin →
      (∀ mk ∈ tin.pointmarkerlist, 2 ≤ mk) ∧ (∀ mk ∈ tin.segmentmarkerlist, mk ≤ -1)) := by
  refine ⟨?_, ?_, ?_⟩
  · intro index_map x y marker hr
    unfold interpretPoint
    by_cases h2 : marker ≥ 2
    · have hlt := hr.1 h2
      simp only [h2, if_true, hlt]
      constructor
      · rintro ⟨msg, h⟩
        cases h
      · intro h
        omega
    · by_cases hn : marker < 0
      · have hlt := hr.2 hn
        simp only [h2, if_false, hn, if_true, hlt]
        constructor
        · rintro ⟨msg, h⟩
          cases h
        · intro h
          omega
      · simp only [h2, hn, if_false]
        by_cases h1 : marker = 1
        · simp only [h1, if_true]
          exact ⟨fun _ => trivial, fun _ => ⟨_, rfl⟩⟩
        · simp only [h1, if_false]
          constructor
          · rintro ⟨msg, h⟩
            cases h
          · intro h
            exact absurd h (fun e => e)
  · intro index_map x y
    rfl
  · intro tin h
    obtain ⟨_, hp, _⟩ := kernelInput_points env s tin h
    obtain ⟨_, hs, _⟩ := kernelInput_segments env s tin h
    constructor
    · intro mk hmk
      rw [hp] at hmk
      unfold kernelPointmarkerlist at hmk
      obtain ⟨u, _, rfl⟩ := List.mem_map.mp hmk
      omega
    · intro mk hmk
      rw [hs] at hmk
      obtain ⟨e, _, rfl⟩ := List.mem_map.mp hmk
      omega

/-- C23, on `squareShape`: marker 1 aborts, marker 0 gives an interior point, and the input
markers are `2..5` and `-1..-4`. -/
theorem interpretPoint_reserved_witness :
    ((∃ msg, interpretPoint exampleEnv squareShape squareShape.pointIndex.index_map
        (1 / 2) (1 / 2) 1 = .error msg) ↔ (1 : Int) = 1) ∧
    interpretPoint exampleEnv squareShape squareShape.pointIndex.index_map (1 / 2) (1 / 2) 0
      = .ok (RPoint.ofXY (1 / 2) (1 / 2)) ∧
    squareInput.pointmarkerlist = [2, 3, 4, 5] ∧
    squareInput.segmentmarkerlist = [-1, -2, -3, -4] ∧
    ((∀ mk ∈ squareInput.pointmarkerlist, 2 ≤ mk) ∧
      (∀ mk ∈ squareInput.segmentmarkerlist, mk ≤ -1)) :=
  ⟨(interpretPoint_reserved exampleEnv squareShape).1 squareShape.pointIndex.index_map
      (1 / 2) (1 / 2) 1 (by decide!),
    (interpretPoint_reserved exampleEnv squareShape).2.1 _ _ _,
    by decide!, by decide!,
    (interpretPoint_reserved exampleEnv squareShape).2.2 squareInput (by decide!)⟩

/-! ## The region list -/

theorem isAHole_getD (env : Env) (s : Shape) (i : Nat) (hi : i < s.NumPieces) :
    (isAHole env s).getD i false = decide (ToDouble (env.Area s i) < 0) := by
  unfold isAHole
  rw [List.getD_eq_getElem _ _ (by simpa using hi)]
  simp

theorem numHoles_add (env : Env) (s : Shape) :
    numHoles env s + (s.nonHoles env).length = s.NumPieces ∧
    numHoles env s
      = ((List.range s.NumPieces).filter (fun i => decide (ToDouble (env.Area s i) < 0))).length := by
  have h1 : numHoles env s
      = ((List.range s.NumPieces).filter
          (fun i => decide (ToDouble (env.Area s i) < 0))).length := by
    unfold numHoles isAHole
    rw [List.count, List.countP_map, List.countP_eq_length_filter]
    congr 1
    apply List.filter_congr
    intro i _
    simp
  refine ⟨?_, h1⟩
  rw [h1]
  unfold Shape.nonHoles
  have := List.length_eq_countP_add_countP
    (fun i => decide (ToDouble (env.Area s i) < 0)) (List.range s.NumPieces)
  rw [List.countP_eq_length_filter, List.countP_eq_length_filter, List.length_range] at this
  have hB : ((List.range s.NumPieces).filter
      (fun a => decide (¬ decide (ToDouble (env.Area s a) < 0) = true))).length
      = ((List.range s.NumPieces).filter
          (fun i => decide (¬ ToDouble (env.Area s i) < 0))).length := by
    congr 1
    apply List.filter_congr
    intro i _
    simp
  rw [hB] at this
  omega

theorem regionEntry_some (env : Env) (s : Shape) (i : Nat) (p : JetPoint)
    (h : regionSeed env s i = some p) :
    regionEntry env s i = [ToDouble p.x, ToDouble p.y, (i : ℚ), -1] := by
  unfold regionEntry
  rw [h]

theorem regionEntries_spec (env : Env) (s : Shape) (l : List Nat)
    (h : ∀ i ∈ l, (regionSeed env s i).isSome = true) :
    (l.flatMap (regionEntry env s)).length = 4 * l.length ∧
    ∀ k, k < l.length → ∃ p, regionSeed env s (l.getD k 0) = some p ∧
      (l.flatMap (regionEntry env s)).getD (4 * k) 0 = ToDouble p.x ∧
      (l.flatMap (regionEntry env s)).getD (4 * k + 1) 0 = ToDouble p.y ∧
      (l.flatMap (regionEntry env s)).getD (4 * k + 2) 0 = ((l.getD k 0 : Nat) : ℚ) ∧
      (l.flatMap (regionEntry env s)).getD (4 * k + 3) 0 = -1 := by
  induction l with
  | nil => exact ⟨rfl, fun k hk => absurd hk (Nat.not_lt_zero _)⟩
  | cons i rest ih =>
    obtain ⟨p, hp⟩ := Option.isSome_iff_exists.mp (h i (List.mem_cons_self _ _))
    obtain ⟨h1, h2⟩ := ih (fun j hj => h j (List.mem_cons_of_mem _ hj))
    rw [List.flatMap_cons, regionEntry_some env s i p hp]
    constructor
    · simp only [List.length_append, List.length_cons, List.length_nil, h1]
      omega
    · intro k hk
      cases k with
      | zero => exact ⟨p, hp, rfl, rfl, rfl, rfl⟩
      | succ k =>
        obtain ⟨q, hq, e0, e1, e2, e3⟩ := h2 k (by simpa using hk)
        refine ⟨q, hq, ?_, ?_, ?_, ?_⟩
        · rw [show 4 * (k + 1) = (4 * k) + 4 by ring]
          simpa using e0
        · rw [show 4 * (k + 1) + 1 = (4 * k + 1) + 4 by ring]
          simpa using e1
        · rw [show 4 * (k + 1) + 2 = (4 * k + 2) + 4 by ring]
          simpa using e2
        · rw [show 4 * (k + 1) + 3 = (4 * k + 3) + 4 by ring]
          simpa using e3

theorem regionVisit_fold (env : Env) (s : Shape) (l : List Nat) (acc : List ℚ)
    (hl : ∀ i ∈ l, i < s.NumPieces) :
    (foldlE (regionVisit env s) acc l = .error "AnyPointInPoly failed" ∧
      ∃ i ∈ l.filter (fun i => decide (¬ ToDouble (env.Area s i) < 0)),
        regionSeed env s i = none) ∨
    (foldlE (regionVisit env s) acc l
        = .ok (acc ++ (l.filter (fun i => decide (¬ ToDouble (env.Area s i) < 0))).flatMap
            (regionEntry env s)) ∧
      ∀ i ∈ l.filter (fun i => decide (¬ ToDouble (env.Area s i) < 0)),
        (regionSeed env s i).isSome = true) := by
  induction l generalizing acc with
  | nil =>
    right
    simp [foldlE]
  | cons i rest ih =>
    have hi := hl i (List.mem_cons_self _ _)
    have hrest : ∀ j ∈ rest, j < s.NumPieces := fun j hj => hl j (List.mem_cons_of_mem _ hj)
    simp only [foldlE]
    by_cases ha : ToDouble (env.Area s i) < 0
    · have hstep : regionVisit env s acc i = .ok acc := by
        unfold regionVisit
        rw [isAHole_getD env s i hi]
        simp [ha]
      rw [hstep]
      simp only [List.filter_cons, ha, not_true_eq_false, decide_False, Bool.false_eq_true,
        if_false]
      exact ih acc hrest
    · simp only [List.filter_cons, ha, not_false_eq_true, decide_True, if_true]
      cases hseed : env.AnyPointInPoly (s.Piece i ++ holePieces env s)
          ((s.Piece i).length : Int) with
      | none =>
        have hstep : regionVisit env s acc i = .error "AnyPointInPoly failed" := by
          unfold regionVisit
          rw [isAHole_getD env s i hi]
          simp [ha, hseed]
        rw [hstep]
        left
        exact ⟨rfl, i, List.mem_cons_self _ _, hseed⟩
      | some p =>
        have hstep : regionVisit env s acc i
            = .ok (acc ++ [ToDouble p.x, ToDouble p.y, (i : ℚ), -1]) := by
          unfold regionVisit
          rw [isAHole_getD env s i hi]
          simp [ha, hseed]
        rw [hstep]
        simp only
        rcases ih (acc ++ [ToDouble p.x, ToDouble p.y, (i : ℚ), -1]) hrest with
          ⟨h1, j, hj, hnone⟩ | ⟨h1, h2⟩
        · left
          exact ⟨h1, j, List.mem_cons_of_mem _ hj, hnone⟩
        · right
          refine ⟨?_, ?_⟩
          · rw [h1, List.flatMap_cons, regionEntry_some env s i p hseed, List.append_assoc]
          · intro j hj
            rcases List.mem_cons.mp hj with e | e
            · rw [e]
              unfold regionSeed
              rw [hseed]
              rfl
            · exact h2 j e

theorem kernelRegions_cases (env : Env) (s : Shape) :
    (kernelRegions env s = .error "AnyPointInPoly failed" ∧
      ∃ i ∈ s.nonHoles env, regionSeed env s i = none) ∨
    (kernelRegions env s = .ok (regionEntries env s) ∧
      ∀ i ∈ s.nonHoles env, (regionSeed env s i).isSome = true) := by
  unfold kernelRegions
  rcases regionVisit_fold env s (List.range s.NumPieces) []
      (fun i hi => List.mem_range.mp hi) with ⟨h1, h2⟩ | ⟨h1, h2⟩
  · left
    rw [h1]
    exact ⟨rfl, h2⟩
  · right
    rw [h1]
    simp only [List.nil_append]
    have hlen := (regionEntries_spec env s _ h2).1
    have hadd := (numHoles_add env s).1
    unfold Shape.nonHoles at hadd
    have hcheck : (((List.range s.NumPieces).filter
        (fun i => decide (¬ ToDouble (env.Area s i) < 0))).flatMap (regionEntry env s)).length
        / 4 = s.NumPieces - numHoles env s := by
      rw [hlen]
      omega
    rw [if_pos hcheck]
    exact ⟨rfl, h2⟩

/-- C22. The kernel region list has exactly one entry per piece whose signed area is not
negative, in increasing piece order: the seed point, the piece index as attribute and `-1` as
area. Pieces of negative area contribute nothing, `numberofregions` is `NumPieces` minus the
number of negative-area pieces, and the `CHECK` on the emitted count never fails: the region
loop either returns this list or stops in `AnyPointInPoly`. -/
theorem kernelRegions_reference (env : Env) (s : Shape) :
    kernelRegions env s ≠ .error "CHECK failed: offset == s.NumPieces() - num_holes" ∧
    ((∀ i ∈ s.nonHoles env, (regionSeed env s i).isSome = true) →
      kernelRegions env s = .ok (regionEntries env s)) ∧
    (∀ r, kernelRegions env s = .ok r →
      r = regionEntries env s ∧ r.length = 4 * (s.nonHoles env).length ∧
      ∀ k, k < (s.nonHoles env).length →
        ∃ p, regionSeed env s ((s.nonHoles env).getD k 0) = some p ∧
          r.getD (4 * k) 0 = ToDouble p.x ∧ r.getD (4 * k + 1) 0 = ToDouble p.y ∧
          r.getD (4 * k + 2) 0 = (((s.nonHoles env).getD k 0 : Nat) : ℚ) ∧
          r.getD (4 * k + 3) 0 = -1) ∧
    ((s.nonHoles env).Pairwise (· < ·) ∧
      ∀ i, i ∈ s.nonHoles env ↔ i < s.NumPieces ∧ ¬ ToDouble (env.Area s i) < 0) ∧
    (numHoles env s
        = ((List.range s.NumPieces).filter
            (fun i => decide (ToDouble (env.Area s i) < 0))).length ∧
      numHoles env s + (s.nonHoles env).length = s.NumPieces) ∧
    (∀ tin, kernelInput env s = .ok tin →
      tin.regionlist = regionEntries env s ∧
      tin.numberofregions = (s.NumPieces : Int) - (numHoles env s : Int) ∧
      tin.numberofregions = ((s.nonHoles env).length : Int)) := by
  have hcases := kernelRegions_cases env s
  have hadd := numHoles_add env s
  have hok : ∀ r, kernelRegions env s = .ok r →
      r = regionEntries env s ∧ ∀ i ∈ s.nonHoles env, (regionSeed env s i).isSome = true := by
    intro r hr
    rcases hcases with ⟨h1, _⟩ | ⟨h1, h2⟩
    · rw [h1] at hr
      cases hr
    · rw [h1] at hr
      exact ⟨(Except.ok.inj hr).symm, h2⟩
  refine ⟨?_, ?_, ?_, ⟨?_, ?_⟩, ⟨hadd.2, hadd.1⟩, ?_⟩
  · rcases hcases with ⟨h1, _⟩ | ⟨h1, _⟩
    · rw [h1]
      decide
    · rw [h1]
      intro h
      cases h
  · intro hall
    rcases hcases with ⟨_, i, hi, hnone⟩ | ⟨h1, _⟩
    · have := hall i hi
      rw [hnone] at this
      cases this
    · exact h1
  · intro r hr
    obtain ⟨h1, h2⟩ := hok r hr
    subst h1
    exact ⟨rfl, regionEntries_spec env s _ h2⟩
  · exact List.Pairwise.filter _ (List.pairwise_lt_range _)
  · intro i
    unfold Shape.nonHoles
    simp only [List.mem_filter, List.mem_range, decide_eq_true_eq]
  · intro tin h
    unfold kernelInput at h
    cases hh : holePoints env s with
    | error msg => rw [hh] at h; cases h
    | ok hole_points =>
      rw [hh] at h
      simp only at h
      cases hsg : kernelSegments s s.pointIndex.point_map with
      | error msg => rw [hsg] at h; cases h
      | ok seg =>
        rw [hsg] at h
        simp only at h
        cases hr : kernelRegions env s with
        | error msg => rw [hr] at h; cases h
        | ok regionlist =>
          rw [hr] at h
          simp only at h
          have e := Except.ok.inj h
          subst e
          refine ⟨(hok regionlist hr).1, rfl, ?_⟩
          simp only
          have := hadd.1
          omega

/-- C22, on `twoPieceShape` with piece 0 a hole: the only region is that of piece 1, with
attribute 1. -/
theorem kernelRegions_reference_witness :
    twoPieceShape.nonHoles holeEnv = [1] ∧ numHoles holeEnv twoPieceShape = 1 ∧
    kernelRegions holeEnv twoPieceShape = .ok [1 / 2, 1 / 2, 1, -1] ∧
    kernelRegions holeEnv twoPieceShape = .ok (regionEntries holeEnv twoPieceShape) :=
  ⟨by decide!, by decide!, by decide!,
    (kernelRegions_reference holeEnv twoPieceShape).2.1 (by decide!)⟩

/-! ## Points created on boundary segments -/

/-- C24. The branch for a negative marker writes slot 0 only: the mesh point has the shared
kind of the segment in `kind[0]`, while `kind[1]` and `dist[1]` keep the values of the
default-constructed `EdgeInfo`. -/
theorem interpretPoint_slots (env : Env) (s : Shape) (index_map : List (Nat × Nat))
    (x y : ℚ) (m : Int) (hm : m < 0) (hm2 : -m - 1 < (index_map.length : Int)) :
    ∃ pt, interpretPoint env s index_map x y m = .ok pt ∧
      pt.e.kind0 = (env.SharedKind (s.vertex (getI index_map (-m - 1))).e
        (s.vertex (s.next (getI index_map (-m - 1)))).e).1 ∧
      pt.e.kind1 = (default : EdgeInfo).kind1 ∧ pt.e.dist1 = (default : EdgeInfo).dist1 := by
  have h1 : ¬ m ≥ 2 := by omega
  unfold interpretPoint
  simp only [h1, hm, hm2, if_true, if_false]
  exact ⟨_, rfl, rfl, rfl, rfl⟩

/-- C24, on `portShape`: the point `(1/2, 0)` created on the port edge of kind 5 (marker -1)
gets `kind[0] = 5` and `kind[1] = 0`. -/
theorem interpretPoint_slots_witness :
    (exampleEnv.SharedKind (portShape.vertex (0, 0)).e (portShape.vertex (0, 1)).e).1 = 5 ∧
    interpretPoint exampleEnv portShape portShape.pointIndex.index_map (1 / 2) 0 (-1)
      = .ok ⟨JetPoint.ofDoubles (1 / 2) 0, ⟨5, 0, 0, 0⟩, 0, 0⟩ ∧
    ∃ pt, interpretPoint exampleEnv portShape portShape.pointIndex.index_map (1 / 2) 0 (-1)
        = .ok pt ∧
      pt.e.kind0 = (exampleEnv.SharedKind
        (portShape.vertex (getI portShape.pointIndex.index_map (-(-1) - 1))).e
        (portShape.vertex
          (portShape.next (getI portShape.pointIndex.index_map (-(-1) - 1)))).e).1 ∧
      pt.e.kind1 = (default : EdgeInfo).kind1 ∧ pt.e.dist1 = (default : EdgeInfo).dist1 :=
  ⟨by decide!, by decide!,
    interpretPoint_slots exampleEnv portShape portShape.pointIndex.index_map (1 / 2) 0 (-1)
      (by decide) (by decide!)⟩

/-- C21. On `paintedShape` the segments `(1, 2)` of the square and `(1, 4)` of the triangle
both carry marker `-2`. Decoding `-2` gives UPI 1, `index_map[1] = (0, 1)` and the successor
`(0, 2)` of UPI 2: not the second end point 4 of the triangle's segment, and an output point
`(3/2, 0)` created on that segment gets the provenance `(0, 1)` of the square's edge. -/
theorem kernelSegments_marker_clash :
    paintedShape.firstEdges = [(0, 1), (1, 2), (2, 3), (3, 0), (1, 4), (4, 2), (2, 1)] ∧
    (kernelSegments paintedShape paintedShape.pointIndex.point_map).map
        (fun st => (st.segmentlist, st.segmentmarkerlist))
      = .ok ([0, 1, 1, 2, 2, 3, 3, 0, 1, 4, 4, 2, 2, 1], [-1, -2, -3, -4, -2, -5, -3]) ∧
    paintedShape.pointIndex.index_map = [(0, 0), (0, 1), (0, 2), (0, 3), (1, 1)] ∧
    getI paintedShape.pointIndex.index_map (-(-2) - 1) = (0, 1) ∧
    paintedShape.UPI (paintedShape.next (0, 1)) = 2 ∧
    paintedShape.coords (1, 0) = (1, 0) ∧ paintedShape.coords (1, 1) = (2, 0) ∧
    paintedShape.coords (0, 1) = (1, 0) ∧ paintedShape.coords (0, 2) = (1, 1) ∧
    interpretPoint exampleEnv paintedShape paintedShape.pointIndex.index_map (3 / 2) 0 (-2)
      = .ok ⟨JetPoint.ofDoubles (3 / 2) 0, default, 0, 1⟩ := by
  refine ⟨by decide!, by decide!, by decide!, by decide!, by decide!, by decide!, by decide!,
    by decide!, by decide!, by decide!⟩

/-! ## Points shared by several callback-bearing materials -/

/-- C29. When all callback invocations of `DeterminePointDielectric` succeed and `i` is the
highest-indexed callback-bearing material with a triangle at the mesh point `j`, the final
dielectric value of `j` is the value that the callback of `i` returned for it (`j` being the
`k`-th point passed to that callback), whatever lower-indexed materials wrote there. -/
theorem Mesh.DeterminePointDielectric_overwrite (lua : Lua) (m : Mesh)
    (hok : ∀ c ∈ (m.DeterminePointDielectricRun lua).1, m.callOutcome lua c ≠ none)
    (i j k : Nat) (hi : i < m.materials_.length)
    (hc : (m.materials_.getD i default).callback ≠ "")
    (hk : (m.touchedBy i)[k]? = some j)
    (hlast : ∀ i2, i < i2 → i2 < m.materials_.length →
      (m.materials_.getD i2 default).callback ≠ "" → m.touches i2 j = false) :
    ∃ r0 r1, m.callOutcome lua (m.callArgs i) = some (r0, r1) ∧
      m.callArgs i ∈ (m.DeterminePointDielectricRun lua).1 ∧
      (m.DeterminePointDielectric lua)[j]? = some (resultValue r0 r1 k) := by
  have ht : m.touchedBy i ≠ [] := by
    intro h
    rw [h] at hk
    simp at hk
  have hj : j < m.points_.length := by
    have hmem : j ∈ m.touchedBy i := List.mem_iff_getElem?.mpr ⟨k, hk⟩
    exact ((m.touchedBy_spec i).2 j).mp hmem |>.1
  rw [← m.DeterminePointDielectricRun_snd lua]
  unfold Mesh.DeterminePointDielectricRun at hok ⊢
  by_cases hall : m.materials_.all (fun mat => decide (mat.callback = "")) = true
  · exact absurd (m.callback_of_all hall i hi) hc
  · simp only [hall, if_false, Bool.false_eq_true] at hok ⊢
    obtain ⟨hlen, hcalled, _⟩ := m.dielectricRun_ok lua _ _ hok
    have hmem := hcalled i (List.mem_range.mpr hi) hc ht
    cases ho : m.callOutcome lua (m.callArgs i) with
    | none => exact absurd ho (hok _ hmem)
    | some r =>
      obtain ⟨r0, r1⟩ := r
      refine ⟨r0, r1, rfl, hmem, ?_⟩
      have hlen2 : j < (m.dielectricRun lua (List.range m.materials_.length)
          (List.replicate m.points_.length (JetComplex.ofReal (JetNum.ofDouble 1)))).2.length := by
        rw [hlen, List.length_replicate]
        exact hj
      rw [List.getElem?_eq_getElem hlen2, ← List.getD_eq_getElem _ default hlen2]
      congr 1
      have hsplit := range_split m.materials_.length i hi
      rw [hsplit] at hok ⊢
      apply m.dielectricRun_last lua _ _ i _ (by simp) hok hc r0 r1 ho k j hk
      intro i2 hi2 hc2
      obtain ⟨x, hx, rfl⟩ := List.mem_map.mp hi2
      have hx2 := List.mem_range.mp hx
      exact hlast _ (by omega) (by omega) hc2

/-- C29, on `twoCallbackMesh`: point 2 is a vertex of triangles of both materials; material 0
writes the scalar 7 there, material 1 overwrites it with `(1, 1)`, and point 1, touched by
material 0 only, keeps 7. -/
theorem Mesh.DeterminePointDielectric_overwrite_witness :
    twoCallbackMesh.touchedBy 0 = [0, 1, 2] ∧ twoCallbackMesh.touchedBy 1 = [0, 2, 3] ∧
    resultValue [⟨7, 0⟩, ⟨7, 0⟩, ⟨7, 0⟩] none 2 = JetComplex.ofReal (JetNum.ofDouble 7) ∧
    (twoCallbackMesh.DeterminePointDielectric twoLua)[1]?
      = some (JetComplex.ofReal (JetNum.ofDouble 7)) ∧
    (twoCallbackMesh.DeterminePointDielectric twoLua)[2]? = some ⟨⟨1, 0⟩, ⟨1, 0⟩⟩ ∧
    ∃ r0 r1, twoCallbackMesh.callOutcome twoLua (twoCallbackMesh.callArgs 1) = some (r0, r1) ∧
      twoCallbackMesh.callArgs 1 ∈ (twoCallbackMesh.DeterminePointDielectricRun twoLua).1 ∧
      (twoCallbackMesh.DeterminePointDielectric twoLua)[2]? = some (resultValue r0 r1 1) :=
  ⟨by decide!, by decide!, by decide!, by decide!, by decide!,
    Mesh.DeterminePointDielectric_overwrite twoLua twoCallbackMesh (by decide!) 1 2 1
      (by decide!) (by decide!) (by decide!)
      (fun i2 h1 h2 _ => absurd h2 (by
        have : twoCallbackMesh.materials_.length = 2 := rfl
        omega))⟩

/-! ## The checks of `UpdateDerivatives` at the end of construction -/

theorem Shape.index_map_entry (s : Shape) (u : Int) (h0 : 0 ≤ u)
    (h1 : u < (s.pointIndex.index_map.length : Int)) :
    (getI s.pointIndex.index_map u).1 < s.NumPieces ∧
    (getI s.pointIndex.index_map u).2 < (s.Piece (getI s.pointIndex.index_map u).1).length := by
  unfold getI
  rw [if_pos h0]
  have hlt : u.toNat < s.pointIndex.index_map.length := by omega
  rw [List.getD_eq_getElem _ _ hlt]
  have hmem : s.pointIndex.index_map[u.toNat] ∈ s.boundary := by
    have hsub : s.pointIndex.index_map = s.firstPoints := (s.pointIndex_spec).1
    have hmem2 : s.pointIndex.index_map[u.toNat] ∈ s.firstPoints := by
      rw [← hsub]
      exact List.getElem_mem hlt
    exact (firstOccurrences_sublist s.coords s.boundary).subset hmem2
  exact (s.mem_boundary _).mp hmem

theorem interpretPoint_provenanceValid (env : Env) (s : Shape) (x y : ℚ) (m : Int)
    (pt : RPoint) (h : interpretPoint env s s.pointIndex.index_map x y m = .ok pt) :
    pt.ProvenanceValid s := by
  unfold interpretPoint at h
  unfold RPoint.ProvenanceValid RPoint.ProvenanceInRange
  by_cases h1 : m ≥ 2
  · by_cases h2 : m - 2 < (s.pointIndex.index_map.length : Int)
    · simp only [h1, h2, if_true] at h
      obtain ⟨e1, e2⟩ := s.index_map_entry (m - 2) (by omega) h2
      cases h
      right
      simp only [Int.toNat_ofNat]
      exact ⟨Int.natCast_nonneg _, Int.ofNat_lt.mpr e1, Int.natCast_nonneg _,
        Int.ofNat_lt.mpr e2⟩
    · simp only [h1, h2, if_true, if_false] at h
      cases h
  · by_cases h3 : m < 0
    · by_cases h2 : -m - 1 < (s.pointIndex.index_map.length : Int)
      · simp only [h1, h3, h2, if_true, if_false] at h
        obtain ⟨e1, e2⟩ := s.index_map_entry (-m - 1) (by omega) h2
        cases h
        right
        simp only [Int.toNat_ofNat]
        exact ⟨Int.natCast_nonneg _, Int.ofNat_lt.mpr e1, Int.natCast_nonneg _,
          Int.ofNat_lt.mpr e2⟩
      · simp only [h1, h3, h2, if_true, if_false] at h
        cases h
    · by_cases h4 : m = 1
      · simp only [h1, h3, if_false] at h
        rw [if_pos h4] at h
        cases h
      · simp only [h1, h3, h4, if_false] at h
        cases h
        left
        exact ⟨rfl, rfl⟩

theorem interpretPoints_provenanceValid (env : Env) (s : Shape) (tout : triangulateio)
    (points : List RPoint)
    (h : interpretPoints env s s.pointIndex.index_map tout = .ok points) :
    ∀ q ∈ points, q.ProvenanceValid s := by
  unfold interpretPoints at h
  refine foldlE_inv (fun pts => ∀ q ∈ pts, q.ProvenanceValid s) _ _ _ _ ?_ ?_ h
  · intro q hq
    cases hq
  · intro pts i pts' hstep hpts
    cases hp : interpretPoint env s s.pointIndex.index_map (tout.pointlist.getD (2 * i) 0)
        (tout.pointlist.getD (2 * i + 1) 0) (tout.pointmarkerlist.getD i 0) with
    | error msg => rw [hp] at hstep; cases hstep
    | ok pt =>
      rw [hp] at hstep
      cases hstep
      intro q hq
      rcases List.mem_append.mp hq with h1 | h1
      · exact hpts q h1
      · have : q = pt := by simpa using h1
        rw [this]
        exact interpretPoint_provenanceValid env s _ _ _ pt hp

theorem Material.eq_self (a : Material) : a.eq a = true :=
  (Material.eq_iff a a).mpr ⟨rfl, rfl, rfl, rfl⟩

/-- A mesh whose points have valid provenance and whose materials are those of the shape
passes every check of `UpdateDerivatives`. -/
theorem Mesh.UpdateDerivatives_returns (sqrt : ℚ → ℚ) (s : Shape) (m : Mesh)
    (hp : ∀ q ∈ m.points_, q.ProvenanceValid s)
    (hm : m.materials_ = (List.range s.NumPieces).map s.GetMaterial) :
    ∃ m1, m.UpdateDerivatives sqrt s = .ok m1 := by
  unfold Mesh.UpdateDerivatives
  cases h1 : updatePoints sqrt s m.points_ with
  | error msg =>
    exfalso
    obtain ⟨pt, hpt, h0, hnot⟩ := (updatePoints_error_iff sqrt s m.points_).mp ⟨msg, h1⟩
    rcases hp pt hpt with ⟨e, _⟩ | ⟨_, hin⟩
    · rw [e] at h0
      exact absurd h0 (by decide)
    · exact hnot hin
  | ok pts =>
    simp only
    have hlen : m.materials_.length = s.NumPieces := by
      rw [hm, List.length_map, List.length_range]
    rw [if_pos hlen]
    cases h2 : updateMaterials s 0 m.materials_ with
    | error msg =>
      exfalso
      obtain ⟨k, hk, hne⟩ := (updateMaterials_error_iff s 0 m.materials_).mp ⟨msg, h2⟩
      have hk2 : k < s.NumPieces := by rw [← hlen]; exact hk
      have hget : m.materials_.getD k default = s.GetMaterial (0 + k) := by
        rw [List.getD_eq_getElem _ _ hk]
        simp only [hm, List.getElem_map, List.getElem_range, Nat.zero_add]
      rw [hget, Material.eq_self] at hne
      cases hne
    | ok mats => exact ⟨_, rfl⟩

/-- C30. After every successful construction from `s` each mesh point has provenance
`(-1, -1)` or `(piece, edge)` with `0 ≤ piece < s.NumPieces()` and `0 ≤ edge <` the size of that
piece, and the material array has `s.NumPieces()` entries, equal to the materials of `s` by
position. The `UpdateDerivatives(s)` call at the end of construction always returns: every abort
of the constructor comes from assembling the kernel input or interpreting the kernel output. -/
theorem Mesh.construct_update_safe (env : Env) (s : Shape) (L : ℚ) (lua : Option Lua)
    (c0 : Int) (G : ℚ) :
    (∀ m T, Mesh.construct env s L lua c0 G = .ok (m, T) → m.valid_mesh_ = true →
      (∀ q ∈ m.points_, q.ProvenanceValid s) ∧ m.materials_.length = s.NumPieces ∧
      ∀ i, i < s.NumPieces → m.materials_.getD i default = s.GetMaterial i) ∧
    (∀ (tout : triangulateio) (points : List RPoint) (triangles : List Triangle),
      interpretPoints env s s.pointIndex.index_map tout = .ok points →
      ∃ m1, Mesh.UpdateDerivatives env.sqrt s
        { valid_mesh_ := true, points_ := points, triangles_ := triangles,
          materials_ := (List.range s.NumPieces).map s.GetMaterial,
          cell_size_ := frexpExp L - 2, spatial_index_ := [], dielectric_ := [] } = .ok m1) ∧
    (∀ msg, Mesh.construct env s L lua c0 G = .error msg →
      kernelInput env s = .error msg ∨
      ∃ tin tout, kernelInput env s = .ok tin ∧
        env.triangulate (kernelOptions L) (triunsuitable (sqr L)) tin = some tout ∧
        (interpretPoints env s s.pointIndex.index_map tout = .error msg ∨
          interpretTriangles s tout = .error msg)) := by
  have hsafe : ∀ (tout : triangulateio) (points : List RPoint) (triangles : List Triangle),
      interpretPoints env s s.pointIndex.index_map tout = .ok points →
      ∃ m1, Mesh.UpdateDerivatives env.sqrt s
        { valid_mesh_ := true, points_ := points, triangles_ := triangles,
          materials_ := (List.range s.NumPieces).map s.GetMaterial,
          cell_size_ := frexpExp L - 2, spatial_index_ := [], dielectric_ := [] } = .ok m1 := by
    intro tout points triangles h
    exact Mesh.UpdateDerivatives_returns env.sqrt s _
      (interpretPoints_provenanceValid env s tout points h) rfl
  refine ⟨?_, hsafe, ?_⟩
  · intro m T hc hv
    cases hG : env.GeometryError s with
    | some msg =>
      rw [Mesh.construct_geometry_error env s L lua c0 G msg hG] at hc
      obtain ⟨hm, _⟩ := Prod.mk.inj (Except.ok.inj hc)
      rw [← hm] at hv
      cases hv
    | none =>
      by_cases hs : ToDouble (env.SharpestAngle s) < kSharpestAllowableAngle
      · rw [Mesh.construct_sharp env s L lua c0 G hG hs] at hc
        obtain ⟨hm, _⟩ := Prod.mk.inj (Except.ok.inj hc)
        rw [← hm] at hv
        cases hv
      · cases htin : kernelInput env s with
        | error msg =>
          unfold Mesh.construct at hc
          rw [hG] at hc
          simp only [hs, if_false, htin] at hc
          cases hc
        | ok tin =>
          cases hk : env.triangulate (kernelOptions L) (triunsuitable (sqr L)) tin with
          | none =>
            rw [Mesh.construct_kernel_failure env s L lua c0 G hG hs tin htin hk] at hc
            obtain ⟨hm, _⟩ := Prod.mk.inj (Except.ok.inj hc)
            rw [← hm] at hv
            cases hv
          | some tout =>
            obtain ⟨points, triangles, m1, h1, _, h3, _, hm⟩ :=
              Mesh.construct_success env s L lua c0 G hG hs tin tout htin hk m T hc
            have hpts := interpretPoints_provenanceValid env s tout points h1
            obtain ⟨pts, mats, hup, _, hum, hm1⟩ := Mesh.UpdateDerivatives_ok env.sqrt s _ m1 h3
            simp only at hup hum
            obtain ⟨hlen, hstep⟩ := updatePoints_spec env.sqrt s points pts hup
            obtain ⟨hmlen, hmat⟩ := updateMaterials_spec s 0 _ mats hum
            have key : (∀ q ∈ m1.points_, q.ProvenanceValid s) ∧
                m1.materials_.length = s.NumPieces ∧
                ∀ i, i < s.NumPieces → m1.materials_.getD i default = s.GetMaterial i := by
              rw [hm1]
              simp only
              refine ⟨?_, ?_, ?_⟩
              · intro q hq
                obtain ⟨i, hi, rfl⟩ := List.getElem_of_mem hq
                have hi2 : i < points.length := by rw [← hlen]; exact hi
                have hfr := updatePoint_frame env.sqrt s _ _ (hstep i hi2)
                obtain ⟨_, _, _, f4, f5, _⟩ := hfr
                simp only [List.getD_eq_getElem _ _ hi, List.getD_eq_getElem _ _ hi2] at f4 f5
                have hold := hpts _ (List.getElem_mem hi2)
                unfold RPoint.ProvenanceValid RPoint.ProvenanceInRange at hold ⊢
                rw [f4, f5]
                exact hold
              · rw [hmlen, List.length_map, List.length_range]
              · intro i hi
                have := hmat i (by rw [List.length_map, List.length_range]; exact hi)
                rw [Nat.zero_add] at this
                exact this
            rcases hm with ⟨_, rfl⟩ | ⟨l, _, rfl⟩
            · exact key
            · exact key
  · intro msg hc
    unfold Mesh.construct at hc
    cases hG : env.GeometryError s with
    | some e => rw [hG] at hc; cases hc
    | none =>
      rw [hG] at hc
      simp only at hc
      by_cases hs : ToDouble (env.SharpestAngle s) < kSharpestAllowableAngle
      · simp only [hs, if_true] at hc
        cases hc
      · simp only [hs, if_false] at hc
        cases htin : kernelInput env s with
        | error e =>
          rw [htin] at hc
          left
          exact congrArg _ (Except.error.inj hc)
        | ok tin =>
          rw [htin] at hc
          simp only at hc
          cases hk : env.triangulate (kernelOptions L) (triunsuitable (sqr L)) tin with
          | none => rw [hk] at hc; cases hc
          | some tout =>
            rw [hk] at hc
            simp only at hc
            right
            refine ⟨tin, tout, rfl, hk, ?_⟩
            cases h1 : interpretPoints env s s.pointIndex.index_map tout with
            | error e =>
              rw [h1] at hc
              left
              exact congrArg _ (Except.error.inj hc)
            | ok points =>
              rw [h1] at hc
              simp only at hc
              cases h2 : interpretTriangles s tout with
              | error e =>
                rw [h2] at hc
                right
                exact congrArg _ (Except.error.inj hc)
              | ok triangles =>
                rw [h2] at hc
                simp only at hc
                obtain ⟨m1, h3⟩ := hsafe tout points triangles h1
                rw [h3] at hc
                cases lua with
                | none => cases hc
                | some l => cases hc

/-- C30, on `squareShape`: the six points of the constructed mesh have valid provenance and
its material is the material of the shape. -/
theorem Mesh.construct_update_safe_witness :
    Mesh.construct exampleEnv squareShape (1 / 2) none 7 0 = .ok (squareMesh, 1 / 4) ∧
    ((∀ q ∈ squareMesh.points_, q.ProvenanceValid squareShape) ∧
      squareMesh.materials_.length = squareShape.NumPieces ∧
      ∀ i, i < squareShape.NumPieces →
        squareMesh.materials_.getD i default = squareShape.GetMaterial i) :=
  ⟨squareMesh_construct,
    (Mesh.construct_update_safe exampleEnv squareShape (1 / 2) none 7 0).1 squareMesh (1 / 4)
      squareMesh_construct rfl⟩

/-! ## The order of the candidates of a cell -/

theorem foldl_product {α β γ : Type} (f : γ → α → β → γ) (l1 : List α) (l2 : List β)
    (init : γ) :
    l1.foldl (fun acc a => l2.foldl (fun acc2 b => f acc2 a b) acc) init
      = (List.product l1 l2).foldl (fun acc ab => f acc ab.1 ab.2) init := by
  induction l1 generalizing init with
  | nil => rfl
  | cons a rest ih =>
    have hp : List.product (a :: rest) l2 = l2.map (Prod.mk a) ++ List.product rest l2 := by
      simp [List.product]
    rw [hp]
    simp only [List.foldl_cons, List.foldl_append, List.foldl_map]
    exact ih _

theorem loopRange_nodup (lo hi : Int) : (loopRange lo hi).Nodup := by
  unfold loopRange
  apply List.Nodup.map _ (List.nodup_range _)
  intro a b h
  simpa using h

theorem pushFold_sorted {κ : Type} (g : κ → Nat) (hit : κ → Bool) (i : Nat) (ps : List κ)
    (hnd : (ps.map g).Nodup) (idx : SpatialIndex)
    (h : ∀ k l, SpatialIndex.find idx k = some l →
      l.Pairwise (· < ·) ∧ (∀ t ∈ l, t ≤ i) ∧ (i ∈ l → k ∉ ps.map g)) :
    ∀ k l, SpatialIndex.find
        (ps.foldl (fun acc a => if hit a = true then SpatialIndex.push acc (g a) i else acc) idx)
        k = some l →
      l.Pairwise (· < ·) ∧ ∀ t ∈ l, t ≤ i := by
  induction ps generalizing idx with
  | nil =>
    intro k l hf
    exact ⟨(h k l hf).1, (h k l hf).2.1⟩
  | cons a rest ih =>
    simp only [List.map_cons, List.nodup_cons] at hnd
    simp only [List.foldl_cons]
    apply ih hnd.2
    intro k l hf
    by_cases ha : hit a = true
    · simp only [ha, if_true] at hf
      rw [SpatialIndex.find_push] at hf
      by_cases hk : k = g a
      · rw [if_pos hk] at hf
        have hl : l = (SpatialIndex.find idx (g a)).getD [] ++ [i] := (Option.some.inj hf).symm
        have hold : ((SpatialIndex.find idx (g a)).getD []).Pairwise (· < ·) ∧
            ∀ t ∈ (SpatialIndex.find idx (g a)).getD [], t < i := by
          cases hfind : SpatialIndex.find idx (g a) with
          | none =>
            simp only [Option.getD_none]
            exact ⟨List.Pairwise.nil, fun t ht => absurd ht (List.not_mem_nil t)⟩
          | some l0 =>
            simp only [Option.getD_some]
            obtain ⟨p1, p2, p3⟩ := h (g a) l0 hfind
            refine ⟨p1, ?_⟩
            intro t ht
            have hne : t ≠ i := by
              intro e
              rw [e] at ht
              exact p3 ht (by simp)
            exact Nat.lt_of_le_of_ne (p2 t ht) hne
        rw [hl]
        refine ⟨?_, ?_, ?_⟩
        · rw [List.pairwise_append]
          refine ⟨hold.1, List.pairwise_singleton _ _, ?_⟩
          intro t ht b hb
          rw [List.mem_singleton.mp hb]
          exact hold.2 t ht
        · intro t ht
          rcases List.mem_append.mp ht with e | e
          · exact Nat.le_of_lt (hold.2 t e)
          · rw [List.mem_singleton.mp e]
        · intro _
          rw [hk]
          exact hnd.1
      · rw [if_neg hk] at hf
        obtain ⟨p1, p2, p3⟩ := h k l hf
        refine ⟨p1, p2, ?_⟩
        intro hi hmem
        exact p3 hi (by simp [hmem])
    · simp only [ha, if_false, Bool.false_eq_true] at hf
      obtain ⟨p1, p2, p3⟩ := h k l hf
      refine ⟨p1, p2, ?_⟩
      intro hi hmem
      exact p3 hi (by simp [hmem])

theorem Mesh.registerTriangle_sorted (TIB : BoxTest) (m : Mesh) (idx : SpatialIndex) (i : Nat)
    (h : ∀ k l, SpatialIndex.find idx k = some l → l.Pairwise (· < ·) ∧ ∀ t ∈ l, t < i) :
    ∀ k l, SpatialIndex.find (Mesh.registerTriangle TIB m idx i) k = some l →
      l.Pairwise (· < ·) ∧ ∀ t ∈ l, t < i + 1 := by
  rw [Mesh.registerTriangle_eq,
    foldl_product (fun acc (ix iy : Int) =>
      if m.hitsCell TIB i ix iy = true then SpatialIndex.push acc (GridIndex ix iy) i else acc)]
  intro k l hf
  have hnd : ((List.product
      (loopRange (floorInt (ddiv (m.bbox i).1 (ldexp1 m.cell_size_)))
        (floorInt (ddiv (m.bbox i).2.1 (ldexp1 m.cell_size_))))
      (loopRange (floorInt (ddiv (m.bbox i).2.2.1 (ldexp1 m.cell_size_)))
        (floorInt (ddiv (m.bbox i).2.2.2 (ldexp1 m.cell_size_))))).map
      (fun ab : Int × Int => GridIndex ab.1 ab.2)).Nodup := by
    apply List.Nodup.map_on _ (List.Nodup.product (loopRange_nodup _ _) (loopRange_nodup _ _))
    intro a ha b hb hab
    obtain ⟨a1, a2⟩ := List.mem_product.mp ha
    obtain ⟨b1, b2⟩ := List.mem_product.mp hb
    rw [mem_loopRange] at a1 a2 b1 b2
    have i1 := I32_of_between _ _ a.1 (toInt32_I32 _) (toInt32_I32 _) a1.1 a1.2
    have i2 := I32_of_between _ _ a.2 (toInt32_I32 _) (toInt32_I32 _) a2.1 a2.2
    have i3 := I32_of_between _ _ b.1 (toInt32_I32 _) (toInt32_I32 _) b1.1 b1.2
    have i4 := I32_of_between _ _ b.2 (toInt32_I32 _) (toInt32_I32 _) b2.1 b2.2
    obtain ⟨e1, e2⟩ := GridIndex_inj a.1 a.2 b.1 b.2 i1 i2 i3 i4 hab
    exact Prod.ext e1 e2
  have := pushFold_sorted (fun ab : Int × Int => GridIndex ab.1 ab.2)
    (fun ab : Int × Int => m.hitsCell TIB i ab.1 ab.2) i _ hnd idx
    (fun k l hk => ⟨(h k l hk).1, fun t ht => Nat.le_of_lt ((h k l hk).2 t ht),
      fun hi => absurd ((h k l hk).2 i hi) (Nat.lt_irrefl i)⟩) k l hf
  exact ⟨this.1, fun t ht => Nat.lt_succ_of_le (this.2 t ht)⟩

theorem Mesh.buildIndex_sorted_upto (TIB : BoxTest) (m : Mesh) (n : Nat) :
    ∀ k l, SpatialIndex.find ((List.range n).foldl (Mesh.registerTriangle TIB m) []) k = some l →
      l.Pairwise (· < ·) ∧ ∀ t ∈ l, t < n := by
  induction n with
  | zero =>
    intro k l hf
    simp [SpatialIndex.find] at hf
  | succ n ih =>
    rw [List.range_succ, List.foldl_append]
    simp only [List.foldl_cons, List.foldl_nil]
    exact Mesh.registerTriangle_sorted TIB m _ n ih

/-- Every candidate list of the built index is strictly increasing. -/
theorem Mesh.buildIndex_sorted (TIB : BoxTest) (m : Mesh) (k : Nat) (l : List Nat)
    (h : SpatialIndex.find (Mesh.buildIndex TIB m) k = some l) : l.Pairwise (· < ·) :=
  (Mesh.buildIndex_sorted_upto TIB m m.triangles_.length k l h).1

/-- The scan of a strictly increasing candidate list returns a candidate that is not above any
candidate containing the point. -/
theorem Mesh.scan_least (PIT : TriTest) (m : Mesh) (x y : ℚ) (cands : List Nat)
    (hs : cands.Pairwise (· < ·)) (t : Nat) (ht : t ∈ cands)
    (hc : m.contains PIT t x y ≠ 0) :
    ∃ c, c ∈ cands ∧ m.scan PIT (JetPoint.ofDoubles x y) cands = (c : Int) ∧
      m.contains PIT c x y ≠ 0 ∧ c ≤ t := by
  induction cands with
  | nil => cases ht
  | cons c rest ih =>
    obtain ⟨hlt, hrest⟩ := List.pairwise_cons.mp hs
    by_cases hcc : m.contains PIT c x y ≠ 0
    · refine ⟨c, List.mem_cons_self _ _, ?_, hcc, ?_⟩
      · unfold Mesh.contains at hcc
        simp only [Mesh.scan, if_pos hcc]
      · rcases List.mem_cons.mp ht with e | e
        · rw [e]
        · exact Nat.le_of_lt (hlt t e)
    · have hne : t ≠ c := by
        intro e
        rw [e] at hc
        exact hcc hc
      have ht2 : t ∈ rest := by
        rcases List.mem_cons.mp ht with e | e
        · exact absurd e hne
        · exact e
      obtain ⟨d, hd, h1, h2, h3⟩ := ih hrest ht2
      refine ⟨d, List.mem_cons_of_mem _ hd, ?_, h2, h3⟩
      unfold Mesh.contains at hcc
      simp only [Mesh.scan, if_neg hcc]
      exact h1

/-! ## The returned triangle is the first that contains the point -/

theorem wideMesh_query :
    (wideMesh.FindTriangle PointInTriangle TriangleIntersectsBox 0 (1 / 2)).1 = 1 := by
  decide!

theorem wideMesh_contains :
    wideMesh.contains PointInTriangle 0 0 (1 / 2) = -1 ∧
    wideMesh.contains PointInTriangle 1 0 (1 / 2) = -1 := by
  constructor <;> decide!

theorem wideMesh_columns :
    ⌊(wideMesh.bbox 0).2.1 / ldexp1 wideMesh.cell_size_⌋ = 2147483648 ∧
    floorInt (ddiv (wideMesh.bbox 0).2.1 (ldexp1 wideMesh.cell_size_)) = -2147483648 := by
  constructor <;> decide!

/-- After a returning call every cell's candidate list is strictly increasing, and with an exact
box test the value is a containing triangle of index at most `t` for every containing triangle
`t` whose corners have grid coordinates in `[-2 ^ 31, 2 ^ 31 - 1)`. -/
theorem Mesh.FindTriangle_smallest (PIT : TriTest) (TIB : BoxTest)
    (hbounds : TriTest.InBounds PIT) (hexact : BoxTest.Exact TIB PIT)
    (m : Mesh) (hm : m.IndexOK TIB) (hcellOK : m.CellOK) (x y : ℚ) :
    (∀ k l, SpatialIndex.find (m.FindTriangle PIT TIB x y).2.spatial_index_ k = some l →
      l.Pairwise (· < ·)) ∧
    (∀ t, t < m.triangles_.length → m.contains PIT t x y ≠ 0 → m.InRange t →
      m.ExactGrid t x y →
      0 ≤ (m.FindTriangle PIT TIB x y).1 ∧ (m.FindTriangle PIT TIB x y).1 ≤ (t : Int) ∧
      m.contains PIT (m.FindTriangle PIT TIB x y).1.toNat x y ≠ 0) := by
  constructor
  · intro k l hf
    rw [Mesh.FindTriangle_snd, Mesh.indexAfter_eq TIB m hm] at hf
    exact Mesh.buildIndex_sorted TIB m k l hf
  · intro t ht hcont hrange hq
    obtain ⟨cands, hf, hmem⟩ :=
      Mesh.buildIndex_lists_query PIT TIB hbounds hexact m hcellOK x y t ht hcont hrange hq
    obtain ⟨c, _, hscan, hc, hle⟩ := Mesh.scan_least PIT m x y cands
      (Mesh.buildIndex_sorted TIB m _ cands hf) t hmem hcont
    rw [Mesh.FindTriangle_fst, Mesh.indexAfter_eq TIB m hm, hf]
    simp only
    rw [hscan]
    refine ⟨Int.natCast_nonneg c, Int.ofNat_le.mpr hle, ?_⟩
    rw [Int.toNat_ofNat]
    exact hc

theorem squareMesh_inRange : squareMesh.InRange 1 := by
  intro j
  fin_cases j <;> decide!

/-! ## The loops over grid cells on 32-bit integers -/

theorem foldlO_sound {α β : Type} (f : β → α → Option β) (g : β → α → β) (l : List α)
    (h : ∀ a ∈ l, ∀ b b2, f b a = some b2 → b2 = g b a) (b r : β)
    (hr : foldlO f b l = some r) : r = l.foldl g b := by
  induction l generalizing b with
  | nil =>
    simp only [foldlO] at hr
    exact (Option.some.inj hr).symm
  | cons a rest ih =>
    simp only [foldlO] at hr
    cases hfa : f b a with
    | none => rw [hfa] at hr; cases hr
    | some b2 =>
      rw [hfa] at hr
      have e := h a (List.mem_cons_self _ _) b b2 hfa
      rw [List.foldl_cons, ← e]
      exact ih (fun a2 ha2 => h a2 (List.mem_cons_of_mem _ ha2)) b2 hr

theorem foldlO_total {α β : Type} (f : β → α → Option β) (g : β → α → β) (l : List α)
    (h : ∀ a ∈ l, ∀ b, f b a = some (g b a)) (b : β) :
    foldlO f b l = some (l.foldl g b) := by
  induction l generalizing b with
  | nil => rfl
  | cons a rest ih =>
    simp only [foldlO, h a (List.mem_cons_self _ _) b, List.foldl_cons]
    exact ih (fun a2 ha2 => h a2 (List.mem_cons_of_mem _ ha2)) (g b a)

theorem toInt32_succ_of_loop (lo hi z : Int) (h1 : I32 lo) (h2 : I32 hi)
    (hne : hi ≠ 2 ^ 31 - 1) (hz : z ∈ loopRange lo hi) : toInt32 (z + 1) = z + 1 := by
  rw [mem_loopRange] at hz
  unfold I32 at h1 h2
  apply toInt32_of_I32
  unfold I32
  constructor <;> omega

theorem Mesh.registerTriangleRun_eq (TIB : BoxTest) (m : Mesh) (idx : SpatialIndex) (i : Nat) :
    Mesh.registerTriangleRun TIB m idx i =
      forInt (floorInt (ddiv (m.bbox i).1 (ldexp1 m.cell_size_)))
          (floorInt (ddiv (m.bbox i).2.1 (ldexp1 m.cell_size_)))
        (fun acc (ix : Int) =>
          forInt (floorInt (ddiv (m.bbox i).2.2.1 (ldexp1 m.cell_size_)))
              (floorInt (ddiv (m.bbox i).2.2.2 (ldexp1 m.cell_size_)))
            (fun acc2 (iy : Int) =>
              some (if TIB (m.corner (m.triangles_.getD i default) 0)
                  (m.corner (m.triangles_.getD i default) 1)
                  (m.corner (m.triangles_.getD i default) 2)
                  (ix * ldexp1 m.cell_size_) ((toInt32 (ix + 1) : ℚ) * ldexp1 m.cell_size_)
                  (iy * ldexp1 m.cell_size_) ((toInt32 (iy + 1) : ℚ) * ldexp1 m.cell_size_)
                then SpatialIndex.push acc2 (GridIndex ix iy) i else acc2)) acc) idx := rfl

/-- Inside loops that end, the body of the run is the body of `Mesh.registerTriangle`. -/
theorem Mesh.registerTriangleRun_inner (TIB : BoxTest) (m : Mesh) (i : Nat) (ix : Int)
    (hix : toInt32 (ix + 1) = ix + 1)
    (hy : floorInt (ddiv (m.bbox i).2.2.2 (ldexp1 m.cell_size_)) ≠ 2 ^ 31 - 1) (acc : SpatialIndex) :
    forInt (floorInt (ddiv (m.bbox i).2.2.1 (ldexp1 m.cell_size_)))
        (floorInt (ddiv (m.bbox i).2.2.2 (ldexp1 m.cell_size_)))
      (fun acc2 (iy : Int) =>
        some (if TIB (m.corner (m.triangles_.getD i default) 0)
            (m.corner (m.triangles_.getD i default) 1)
            (m.corner (m.triangles_.getD i default) 2)
            (ix * ldexp1 m.cell_size_) ((toInt32 (ix + 1) : ℚ) * ldexp1 m.cell_size_)
            (iy * ldexp1 m.cell_size_) ((toInt32 (iy + 1) : ℚ) * ldexp1 m.cell_size_)
          then SpatialIndex.push acc2 (GridIndex ix iy) i else acc2)) acc =
    some ((loopRange (floorInt (ddiv (m.bbox i).2.2.1 (ldexp1 m.cell_size_)))
        (floorInt (ddiv (m.bbox i).2.2.2 (ldexp1 m.cell_size_)))).foldl
      (fun acc2 (iy : Int) =>
        if m.hitsCell TIB i ix iy = true
        then SpatialIndex.push acc2 (GridIndex ix iy) i else acc2) acc) := by
  unfold forInt
  rw [if_neg hy]
  apply foldlO_total
  intro iy hiy b
  have e := toInt32_succ_of_loop _ _ iy (toInt32_I32 _) (toInt32_I32 _) hy hiy
  rw [hix, e]
  rfl

/-- A run of the loop body for triangle `i` that returns yields `Mesh.registerTriangle`. -/
theorem Mesh.registerTriangleRun_sound (TIB : BoxTest) (m : Mesh) (idx r : SpatialIndex)
    (i : Nat) (h : Mesh.registerTriangleRun TIB m idx i = some r) :
    r = Mesh.registerTriangle TIB m idx i := by
  rw [Mesh.registerTriangleRun_eq] at h
  rw [Mesh.registerTriangle_eq]
  unfold forInt at h
  by_cases hx : floorInt (ddiv (m.bbox i).2.1 (ldexp1 m.cell_size_)) = 2 ^ 31 - 1
  · rw [if_pos hx] at h
    cases h
  · rw [if_neg hx] at h
    refine foldlO_sound _ _ _ ?_ idx r h
    intro ix hix b b2 hb
    have e := toInt32_succ_of_loop _ _ ix (toInt32_I32 _) (toInt32_I32 _) hx hix
    by_cases hy : floorInt (ddiv (m.bbox i).2.2.2 (ldexp1 m.cell_size_)) = 2 ^ 31 - 1
    · rw [if_pos hy] at hb
      cases hb
    · have := Mesh.registerTriangleRun_inner TIB m i ix e hy b
      unfold forInt at this
      rw [this] at hb
      exact (Option.some.inj hb).symm

/-- The loop body for triangle `i` returns when neither loop bound is `INT_MAX`. -/
theorem Mesh.registerTriangleRun_ends (TIB : BoxTest) (m : Mesh) (idx : SpatialIndex) (i : Nat)
    (hx : floorInt (ddiv (m.bbox i).2.1 (ldexp1 m.cell_size_)) ≠ 2 ^ 31 - 1)
    (hy : floorInt (ddiv (m.bbox i).2.2.2 (ldexp1 m.cell_size_)) ≠ 2 ^ 31 - 1) :
    Mesh.registerTriangleRun TIB m idx i = some (Mesh.registerTriangle TIB m idx i) := by
  rw [Mesh.registerTriangleRun_eq, Mesh.registerTriangle_eq]
  unfold forInt
  rw [if_neg hx]
  apply foldlO_total
  intro ix hix b
  have e := toInt32_succ_of_loop _ _ ix (toInt32_I32 _) (toInt32_I32 _) hx hix
  have := Mesh.registerTriangleRun_inner TIB m i ix e hy b
  unfold forInt at this
  exact this

theorem Mesh.buildIndexRun_sound (TIB : BoxTest) (m : Mesh) (r : SpatialIndex)
    (h : Mesh.buildIndexRun TIB m = some r) : r = Mesh.buildIndex TIB m := by
  unfold Mesh.buildIndexRun at h
  unfold Mesh.buildIndex
  exact foldlO_sound _ _ _
    (fun i _ b b2 hb => Mesh.registerTriangleRun_sound TIB m b b2 i hb) [] r h

theorem Mesh.buildIndexRun_ends (TIB : BoxTest) (m : Mesh) (h : m.BuildEnds) :
    Mesh.buildIndexRun TIB m = some (Mesh.buildIndex TIB m) := by
  unfold Mesh.buildIndexRun Mesh.buildIndex
  apply foldlO_total
  intro i hi b
  exact Mesh.registerTriangleRun_ends TIB m b i (h i (List.mem_range.mp hi)).1
    (h i (List.mem_range.mp hi)).2

/-- A call that returns yields the value `Mesh.FindTriangle`. -/
theorem Mesh.FindTriangleRun_sound (PIT : TriTest) (TIB : BoxTest) (m : Mesh) (x y : ℚ)
    (r : Int × Mesh) (h : m.FindTriangleRun PIT TIB x y = some r) :
    r = m.FindTriangle PIT TIB x y := by
  unfold Mesh.FindTriangleRun at h
  unfold Mesh.FindTriangle
  cases hE : m.spatial_index_.isEmpty
  · simp only [hE, Bool.false_eq_true, if_false] at h ⊢
    cases hf : SpatialIndex.find m.spatial_index_
      (GridIndex (floorInt (ddiv x (ldexp1 m.cell_size_))) (floorInt (ddiv y (ldexp1 m.cell_size_)))) with
    | none =>
      rw [hf] at h
      exact (Option.some.inj h).symm
    | some c =>
      rw [hf] at h
      exact (Option.some.inj h).symm
  · simp only [hE, if_true] at h ⊢
    cases hb : Mesh.buildIndexRun TIB m with
    | none =>
      rw [hb] at h
      cases h
    | some idx =>
      rw [hb] at h
      have e := Mesh.buildIndexRun_sound TIB m idx hb
      subst e
      cases hf : SpatialIndex.find (Mesh.buildIndex TIB m)
        (GridIndex (floorInt (ddiv x (ldexp1 m.cell_size_))) (floorInt (ddiv y (ldexp1 m.cell_size_)))) with
      | none =>
        simp only [hf] at h
        exact (Option.some.inj h).symm
      | some c =>
        simp only [hf] at h
        exact (Option.some.inj h).symm

/-- The call returns when the index is already built or its build ends. -/
theorem Mesh.FindTriangleRun_ends (PIT : TriTest) (TIB : BoxTest) (m : Mesh) (x y : ℚ)
    (h : m.BuildEnds ∨ m.spatial_index_ ≠ []) :
    m.FindTriangleRun PIT TIB x y = some (m.FindTriangle PIT TIB x y) := by
  have key : ∃ r, m.FindTriangleRun PIT TIB x y = some r := by
    unfold Mesh.FindTriangleRun
    cases hE : m.spatial_index_.isEmpty
    · simp only [Bool.false_eq_true, if_false]
      cases hf : SpatialIndex.find m.spatial_index_
        (GridIndex (floorInt (ddiv x (ldexp1 m.cell_size_))) (floorInt (ddiv y (ldexp1 m.cell_size_)))) with
      | none => exact ⟨_, rfl⟩
      | some c => exact ⟨_, rfl⟩
    · have hb : m.BuildEnds := by
        rcases h with h | h
        · exact h
        · exact absurd (List.isEmpty_iff.mp hE) h
      simp only [if_true, Mesh.buildIndexRun_ends TIB m hb]
      cases hf : SpatialIndex.find (Mesh.buildIndex TIB m)
        (GridIndex (floorInt (ddiv x (ldexp1 m.cell_size_))) (floorInt (ddiv y (ldexp1 m.cell_size_)))) with
      | none => exact ⟨_, rfl⟩
      | some c => exact ⟨_, rfl⟩
  obtain ⟨r, hr⟩ := key
  rw [hr, Mesh.FindTriangleRun_sound PIT TIB m x y r hr]

theorem Mesh.buildEnds_of_gridInRange (m : Mesh) (h : m.GridInRange) : m.BuildEnds := by
  intro i hi
  obtain ⟨hr, _, q2, _, q4, _, _⟩ := h.2 i hi
  obtain ⟨_, r2, _, r4⟩ := Mesh.bbox_I32Loop m i hr
  rw [q2, q4]
  unfold floorInt
  rw [toInt32_of_I32 _ r2.i32, toInt32_of_I32 _ r4.i32]
  unfold I32Loop at r2 r4
  constructor <;> omega

theorem Mesh.buildEnds_of_nil (m : Mesh) (h : m.triangles_ = []) : m.BuildEnds := by
  intro i hi
  rw [h] at hi
  exact absurd hi (Nat.not_lt_zero _)

theorem Mesh.IndexBuilt.indexOK {TIB : BoxTest} {m : Mesh} (h : m.IndexBuilt TIB) :
    m.IndexOK TIB := by
  rcases h with h | h
  · exact Or.inl h
  · exact Or.inr (Mesh.buildIndexRun_sound TIB m _ h)

theorem Mesh.IndexBuilt.ends {TIB : BoxTest} {m : Mesh} (h : m.IndexBuilt TIB)
    (hne : m.spatial_index_ ≠ []) : Mesh.buildIndexRun TIB m = some (Mesh.buildIndex TIB m) := by
  rcases h with h | h
  · exact absurd h hne
  · rw [h, ← Mesh.buildIndexRun_sound TIB m _ h]

theorem maxMesh_column :
    ⌊(maxMesh.bbox 0).2.1 / ldexp1 maxMesh.cell_size_⌋ = 2147483647 ∧
    floorInt (ddiv (maxMesh.bbox 0).2.1 (ldexp1 maxMesh.cell_size_)) = 2 ^ 31 - 1 := by
  constructor <;> decide!

theorem maxMesh_run :
    maxMesh.FindTriangleRun PointInTriangle TriangleIntersectsBox 0 0 = none := by
  decide!

theorem maxMesh_contains : maxMesh.contains PointInTriangle 0 0 0 = 0 := by
  decide!

/-! ## Claims about `Mesh::FindTriangle` -/

/-- C1 as stated fails on `maxMesh`, a mesh of one triangle whose last grid column is
`INT_MAX = 2 ^ 31 - 1`: the loop `for (int ix = ixmin; ix <= ixmax; ix++)` of the index build
never ends, so the query `(0, 0)`, a point contained in no triangle, does not yield `-1`: the
call does not return. -/
theorem Mesh.FindTriangleRun_result_counterexample :
    maxMesh.IndexBuilt TriangleIntersectsBox ∧ maxMesh.CellOK ∧
    (∀ t, t < maxMesh.triangles_.length → maxMesh.contains PointInTriangle t 0 0 = 0) ∧
    floorInt (ddiv (maxMesh.bbox 0).2.1 (ldexp1 maxMesh.cell_size_)) = 2 ^ 31 - 1 ∧
    maxMesh.FindTriangleRun PointInTriangle TriangleIntersectsBox 0 0 = none ∧
    ¬ (∃ m2, maxMesh.FindTriangleRun PointInTriangle TriangleIntersectsBox 0 0
      = some (-1, m2)) := by
  refine ⟨Or.inl rfl, by decide, ?_, maxMesh_column.2, maxMesh_run, ?_⟩
  · intro t ht
    have h0 : t = 0 := by
      have : maxMesh.triangles_.length = 1 := rfl
      omega
    rw [h0]
    exact maxMesh_contains
  · rintro ⟨m2, h⟩
    rw [maxMesh_run] at h
    cases h

/-- C1, amended. On every mesh, whenever `Mesh::FindTriangle(x, y)` returns, it returns either
`-1` or an index `t` with `0 <= t < triangles_.size()` whose triangle contains the query point
(`PointInTriangle` is nonzero). The call does return when the index is already built, or the
cell side is a positive finite `double` and no loop of the index build has the upper bound
`INT_MAX` (no triangle's last grid column or row is `2 ^ 31 - 1`), which is so in particular
when the grid coordinates of all triangles lie in `[-2 ^ 31, 2 ^ 31 - 1)`; then a point
contained in no triangle yields `-1`. Any query on a mesh without triangles returns `-1`. -/
theorem Mesh.FindTriangleRun_result (PIT : TriTest) (TIB : BoxTest) (m : Mesh)
    (hm : m.IndexBuilt TIB) (x y : ℚ) :
    (∀ r m2, m.FindTriangleRun PIT TIB x y = some (r, m2) →
      r = -1 ∨ (0 ≤ r ∧ r < (m.triangles_.length : Int) ∧ m.contains PIT r.toNat x y ≠ 0)) ∧
    ((m.CellOK ∧ m.BuildEnds) ∨ m.spatial_index_ ≠ [] →
      ∃ r m2, m.FindTriangleRun PIT TIB x y = some (r, m2) ∧
        (r = -1 ∨ (0 ≤ r ∧ r < (m.triangles_.length : Int) ∧
          m.contains PIT r.toNat x y ≠ 0)) ∧
        ((∀ t, t < m.triangles_.length → m.contains PIT t x y = 0) → r = -1)) ∧
    (m.GridInRange → m.CellOK ∧ m.BuildEnds) ∧
    (m.triangles_ = [] → ∃ m2, m.FindTriangleRun PIT TIB x y = some (-1, m2)) := by
  obtain ⟨a1, a2, a3⟩ := Mesh.FindTriangle_result PIT TIB m hm.indexOK x y
  refine ⟨?_, ?_, fun hg => ⟨hg.1, Mesh.buildEnds_of_gridInRange m hg⟩, ?_⟩
  · intro r m2 hr
    have e := Mesh.FindTriangleRun_sound PIT TIB m x y _ hr
    rw [← e] at a1
    exact a1
  · intro hends
    have hends2 : m.BuildEnds ∨ m.spatial_index_ ≠ [] := by
      rcases hends with h | h
      · exact Or.inl h.2
      · exact Or.inr h
    refine ⟨(m.FindTriangle PIT TIB x y).1, (m.FindTriangle PIT TIB x y).2,
      Mesh.FindTriangleRun_ends PIT TIB m x y hends2, a1, a2⟩
  · intro hnil
    refine ⟨(m.FindTriangle PIT TIB x y).2, ?_⟩
    rw [Mesh.FindTriangleRun_ends PIT TIB m x y (Or.inl (Mesh.buildEnds_of_nil m hnil))]
    have := a3 hnil
    rw [← this]

theorem triMesh_gridInRange : triMesh.GridInRange := by
  refine ⟨by decide, ?_⟩
  intro i hi
  have h0 : i = 0 := by
    have : triMesh.triangles_.length = 1 := rfl
    omega
  rw [h0]
  exact ⟨triMesh_inRange, by decide!⟩

theorem triMesh_run :
    triMesh.FindTriangleRun PointInTriangle TriangleIntersectsBox (1 / 4) (1 / 4) =
      some (0, { triMesh with spatial_index_ := [(0, [0]), (1, [0]), (4294967296, [0])] }) := by
  decide!

/-- C1 amended, on the one-triangle example mesh: the query `(1/4, 1/4)` returns triangle `0`,
which contains the point. -/
theorem Mesh.FindTriangleRun_result_witness :
    triMesh.IndexBuilt TriangleIntersectsBox ∧ triMesh.GridInRange ∧
    (triMesh.CellOK ∧ triMesh.BuildEnds) ∧
    (triMesh.FindTriangleRun PointInTriangle TriangleIntersectsBox (1 / 4) (1 / 4)).map Prod.fst
      = some 0 ∧
    ((0 : Int) = -1 ∨ ((0 : Int) ≤ 0 ∧ (0 : Int) < (triMesh.triangles_.length : Int) ∧
      triMesh.contains PointInTriangle (0 : Int).toNat (1 / 4) (1 / 4) ≠ 0)) :=
  ⟨Or.inl rfl, triMesh_gridInRange,
    (Mesh.FindTriangleRun_result PointInTriangle TriangleIntersectsBox triMesh (Or.inl rfl)
      (1 / 4) (1 / 4)).2.2.1 triMesh_gridInRange,
    by rw [triMesh_run]; rfl,
    (Mesh.FindTriangleRun_result PointInTriangle TriangleIntersectsBox triMesh (Or.inl rfl)
      (1 / 4) (1 / 4)).1 0 _ triMesh_run⟩

theorem farMesh_buildEnds : farMesh.BuildEnds := by
  decide!

/-- C2 as stated fails: with the exact box test, the example mesh `farMesh` has a triangle that
contains the query point, the index build ends, and `Mesh::FindTriangle` answers `-1`, because
the grid column `floor(x / cell) = 2 ^ 32` of the triangle does not fit in the 32-bit cell
coordinates. (The triangle is registered nowhere whatever value the out-of-range conversion
yields: the only cells it could be tested against lie at 32-bit columns, far from the
triangle.) -/
theorem Mesh.FindTriangleRun_covered_counterexample :
    BoxTest.Exact TriangleIntersectsBox PointInTriangle ∧
    farMesh.IndexBuilt TriangleIntersectsBox ∧ farMesh.CellOK ∧ farMesh.BuildEnds ∧
    0 < farMesh.triangles_.length ∧
    farMesh.contains PointInTriangle 0 (1073741824 + 1 / 10) (1 / 10) ≠ 0 ∧
    (farMesh.FindTriangleRun PointInTriangle TriangleIntersectsBox
      (1073741824 + 1 / 10) (1 / 10)).map Prod.fst = some (-1) := by
  refine ⟨TriangleIntersectsBox_exact, Or.inl rfl, by decide, farMesh_buildEnds, by decide,
    by rw [farMesh_contains]; decide, ?_⟩
  rw [Mesh.FindTriangleRun_ends _ _ _ _ _ (Or.inl farMesh_buildEnds), Option.map_some',
    farMesh_query]

/-- C2, amended. Let `TriangleIntersectsBox` be exact, the cell side a positive finite `double`
with `cell_size_ ≤ 991`, and the index already built or its build ending (no triangle's last
grid column or row is `INT_MAX`, as when the grid coordinates of all triangles lie in
`[-2 ^ 31, 2 ^ 31 - 1)`). If the query point `(x, y)` lies inside or on a mesh triangle
`t` whose corners have grid coordinates `floor(c / cell)` in `[-2 ^ 31, 2 ^ 31 - 1)`, and the
divisions by the cell side of the bounds of `t` and of `x` and `y` are exact (none underflows),
then `Mesh::FindTriangle(x, y)` returns, and the index it returns is non-negative: `t` is
registered under the cell of the query point. -/
theorem Mesh.FindTriangleRun_covered (PIT : TriTest) (TIB : BoxTest)
    (hbounds : TriTest.InBounds PIT) (hexact : BoxTest.Exact TIB PIT)
    (m : Mesh) (hm : m.IndexBuilt TIB) (hcell : m.CellOK)
    (hends : m.BuildEnds ∨ m.spatial_index_ ≠ []) (x y : ℚ) (t : Nat)
    (ht : t < m.triangles_.length) (hcont : m.contains PIT t x y ≠ 0) (hrange : m.InRange t)
    (hq : m.ExactGrid t x y) :
    ∃ r m2, m.FindTriangleRun PIT TIB x y = some (r, m2) ∧ 0 ≤ r ∧
      SpatialIndex.Lists m2.spatial_index_
        (GridIndex (floorInt (ddiv x (ldexp1 m.cell_size_))) (floorInt (ddiv y (ldexp1 m.cell_size_))))
        t := by
  obtain ⟨a1, a2⟩ :=
    Mesh.FindTriangle_covered PIT TIB hbounds hexact m hm.indexOK hcell x y t hq ht hcont hrange
  exact ⟨(m.FindTriangle PIT TIB x y).1, (m.FindTriangle PIT TIB x y).2,
    Mesh.FindTriangleRun_ends PIT TIB m x y hends, a1, a2⟩

/-- C2 (amended), on the one-triangle example mesh with the exact geometry tests: the covered
query `(1/4, 1/4)` gets a non-negative answer. -/
theorem Mesh.FindTriangleRun_covered_witness :
    TriTest.InBounds PointInTriangle ∧ BoxTest.Exact TriangleIntersectsBox PointInTriangle ∧
    triMesh.IndexBuilt TriangleIntersectsBox ∧ triMesh.CellOK ∧
    (triMesh.BuildEnds ∨ triMesh.spatial_index_ ≠ []) ∧ 0 < triMesh.triangles_.length ∧
    triMesh.contains PointInTriangle 0 (1 / 4) (1 / 4) ≠ 0 ∧ triMesh.InRange 0 ∧
    triMesh.ExactGrid 0 (1 / 4) (1 / 4) ∧
    (triMesh.FindTriangleRun PointInTriangle TriangleIntersectsBox (1 / 4) (1 / 4)).map Prod.fst
      = some 0 ∧
    (∃ r m2, triMesh.FindTriangleRun PointInTriangle TriangleIntersectsBox (1 / 4) (1 / 4)
        = some (r, m2) ∧ 0 ≤ r ∧
      SpatialIndex.Lists m2.spatial_index_
        (GridIndex (floorInt (ddiv (1 / 4 : ℚ) (ldexp1 triMesh.cell_size_)))
          (floorInt (ddiv (1 / 4 : ℚ) (ldexp1 triMesh.cell_size_)))) 0) :=
  ⟨PointInTriangle_inBounds, TriangleIntersectsBox_exact, Or.inl rfl, by decide,
    Or.inl (by decide!), by decide, by rw [triMesh_contains]; decide, triMesh_inRange,
    by decide!, by rw [triMesh_run]; rfl,
    Mesh.FindTriangleRun_covered PointInTriangle TriangleIntersectsBox PointInTriangle_inBounds
      TriangleIntersectsBox_exact triMesh (Or.inl rfl) (by decide) (Or.inl (by decide!))
      (1 / 4) (1 / 4) 0 (by decide) (by rw [triMesh_contains]; decide) triMesh_inRange
      (by decide!)⟩

theorem wideMesh_buildEnds : wideMesh.BuildEnds := by
  decide!

theorem squareMesh_buildEnds : squareMesh.BuildEnds := by
  decide!

theorem squareMesh_query :
    (squareMesh.FindTriangle PointInTriangle TriangleIntersectsBox (1 / 2) (1 / 2)).1 = 0 := by
  decide!

/-- C27 as stated fails on `wideMesh` with the exact box test: the index build ends, the query
point `(0, 1/2)` lies on the edge shared by triangles 0 and 1, `FindTriangle` returns 1, and
triangle 0, of smaller index, contains the point too (its last grid column `2 ^ 31` wraps, so
it is registered nowhere). -/
theorem Mesh.FindTriangleRun_smallest_counterexample :
    BoxTest.Exact TriangleIntersectsBox PointInTriangle ∧
    wideMesh.IndexBuilt TriangleIntersectsBox ∧ wideMesh.CellOK ∧ wideMesh.BuildEnds ∧
    (wideMesh.FindTriangleRun PointInTriangle TriangleIntersectsBox 0 (1 / 2)).map Prod.fst
      = some 1 ∧
    0 < wideMesh.triangles_.length ∧
    wideMesh.contains PointInTriangle 0 0 (1 / 2) ≠ 0 ∧
    ⌊(wideMesh.bbox 0).2.1 / ldexp1 wideMesh.cell_size_⌋ = 2147483648 := by
  refine ⟨TriangleIntersectsBox_exact, Or.inl rfl, by decide, wideMesh_buildEnds, ?_, by decide,
    by rw [wideMesh_contains.1]; decide, wideMesh_columns.1⟩
  rw [Mesh.FindTriangleRun_ends _ _ _ _ _ (Or.inl wideMesh_buildEnds), Option.map_some',
    wideMesh_query]

/-- C27, amended. Whenever `Mesh::FindTriangle` returns, every cell's candidate list is strictly
increasing, and whenever a triangle `t` whose corners have grid coordinates in
`[-2 ^ 31, 2 ^ 31 - 1)` contains the query point, the returned index is that of a triangle that
contains the point and is at most `t` (assuming that the cell side is a positive finite
`double` with `cell_size_ ≤ 991`, that the divisions by the cell side of the bounds of `t` and
of the query coordinates are exact, that `TriangleIntersectsBox` is exact and that
`PointInTriangle` reports only points of the bounding box): the result is the smallest index
among the containing triangles within that grid range. The call returns when the index is
already built or its build ends. -/
theorem Mesh.FindTriangleRun_smallest (PIT : TriTest) (TIB : BoxTest)
    (hbounds : TriTest.InBounds PIT) (hexact : BoxTest.Exact TIB PIT)
    (m : Mesh) (hm : m.IndexBuilt TIB) (hcell : m.CellOK) (x y : ℚ) :
    (∀ r m2, m.FindTriangleRun PIT TIB x y = some (r, m2) →
      (∀ k l, SpatialIndex.find m2.spatial_index_ k = some l → l.Pairwise (· < ·)) ∧
      (∀ t, t < m.triangles_.length → m.contains PIT t x y ≠ 0 → m.InRange t →
        m.ExactGrid t x y →
        0 ≤ r ∧ r ≤ (t : Int) ∧ m.contains PIT r.toNat x y ≠ 0)) ∧
    (m.BuildEnds ∨ m.spatial_index_ ≠ [] →
      ∃ r m2, m.FindTriangleRun PIT TIB x y = some (r, m2)) := by
  obtain ⟨a1, a2⟩ := Mesh.FindTriangle_smallest PIT TIB hbounds hexact m hm.indexOK hcell x y
  constructor
  · intro r m2 hr
    have e := Mesh.FindTriangleRun_sound PIT TIB m x y _ hr
    rw [← e] at a1 a2
    exact ⟨a1, a2⟩
  · intro hends
    exact ⟨_, _, Mesh.FindTriangleRun_ends PIT TIB m x y hends⟩

/-- C27 amended, on `squareMesh`: the point `(1/2, 1/2)` lies on the diagonal shared by
triangles 0 and 1, and the call returns 0. -/
theorem Mesh.FindTriangleRun_smallest_witness :
    TriTest.InBounds PointInTriangle ∧ BoxTest.Exact TriangleIntersectsBox PointInTriangle ∧
    squareMesh.IndexBuilt TriangleIntersectsBox ∧ squareMesh.CellOK ∧
    squareMesh.contains PointInTriangle 0 (1 / 2) (1 / 2) ≠ 0 ∧
    squareMesh.contains PointInTriangle 1 (1 / 2) (1 / 2) ≠ 0 ∧
    (squareMesh.FindTriangleRun PointInTriangle TriangleIntersectsBox (1 / 2) (1 / 2)).map
      Prod.fst = some 0 ∧
    ((0 : Int) ≤ (squareMesh.FindTriangle PointInTriangle TriangleIntersectsBox
        (1 / 2) (1 / 2)).1 ∧
      (squareMesh.FindTriangle PointInTriangle TriangleIntersectsBox (1 / 2) (1 / 2)).1
        ≤ ((1 : Nat) : Int) ∧
      squareMesh.contains PointInTriangle
        (squareMesh.FindTriangle PointInTriangle TriangleIntersectsBox (1 / 2) (1 / 2)).1.toNat
        (1 / 2) (1 / 2) ≠ 0) :=
  ⟨PointInTriangle_inBounds, TriangleIntersectsBox_exact, Or.inl rfl, by decide,
    by decide!, by decide!,
    by rw [Mesh.FindTriangleRun_ends _ _ _ _ _ (Or.inl squareMesh_buildEnds), Option.map_some',
      squareMesh_query],
    ((Mesh.FindTriangleRun_smallest PointInTriangle TriangleIntersectsBox
      PointInTriangle_inBounds TriangleIntersectsBox_exact squareMesh (Or.inl rfl) (by decide)
      (1 / 2) (1 / 2)).1 _ _
      (Mesh.FindTriangleRun_ends _ _ _ _ _ (Or.inl squareMesh_buildEnds))).2 1 (by decide)
      (by decide!) squareMesh_inRange (by decide!)⟩

/-! ## The option string of the kernel call -/


/-- The constructor calls the kernel once, with the option string `kernelOptions L` and the
oracle `triunsuitable` reading `sqr(L)`: a kernel that answers this one call alike gives the same
construction. -/
theorem Mesh.construct_kernel_congr (env : Env)
    (k : String → Oracle → triangulateio → Option triangulateio) (s : Shape) (L : ℚ)
    (lua : Option Lua) (c0 : Int) (G : ℚ)
    (h : ∀ tin, k (kernelOptions L) (triunsuitable (sqr L)) tin
      = env.triangulate (kernelOptions L) (triunsuitable (sqr L)) tin) :
    Mesh.construct { env with triangulate := k } s L lua c0 G
      = Mesh.construct env s L lua c0 G := by
  unfold Mesh.construct
  dsimp only
  cases hG : env.GeometryError s with
  | some msg => rfl
  | none =>
    dsimp only
    by_cases hs : ToDouble (env.SharpestAngle s) < kSharpestAllowableAngle
    · rw [if_pos hs, if_pos hs]
    · rw [if_neg hs, if_neg hs]
      have hin : kernelInput { env with triangulate := k } s = kernelInput env s := rfl
      rw [hin]
      cases htin : kernelInput env s with
      | error msg => rfl
      | ok tin =>
        dsimp only
        rw [h tin]
        rfl

theorem kernelOptions_pos (L : ℚ) (h : 0 < L) : kernelOptions L = "zpAQqun" := by
  unfold kernelOptions
  rw [if_pos h]

theorem kernelOptions_nonpos (L : ℚ) (h : L ≤ 0) : kernelOptions L = "zpAQn" := by
  unfold kernelOptions
  rw [if_neg (not_lt.mpr h)]

theorem contractEnv_contract : contractEnv.OracleOnlyWithU := by
  intro options o1 o2 tin hu
  unfold contractEnv
  simp only [hu, false_and, if_false]

theorem contractEnv_construct :
    Mesh.construct contractEnv squareShape 0 none 7 5 = .ok (squareMesh, 0) := by
  decide!

/-- C14. The one kernel call of `Mesh::Mesh` is made with the option string `kernelOptions L`:
the construction is the same with every kernel that answers calls with this string alike. The
string contains `q` and `u` (oracle-driven refinement) iff the target edge length is positive,
and then is `zpAQqun`; for a target edge length `<= 0` it is exactly `zpAQn` (zero-based
indexing, constrained triangulation, region attributes, quiet, adjacency), so with a kernel
that calls the oracle back only under option `u` the construction is the same whatever oracle
the kernel is handed: the oracle is never consulted. -/
theorem Mesh.construct_options (env : Env) (s : Shape) (L : ℚ) (lua : Option Lua) (c0 : Int)
    (G : ℚ) :
    (∀ k : String → Oracle → triangulateio → Option triangulateio,
      (∀ oracle tin, k (kernelOptions L) oracle tin
        = env.triangulate (kernelOptions L) oracle tin) →
      Mesh.construct { env with triangulate := k } s L lua c0 G
        = Mesh.construct env s L lua c0 G) ∧
    (('q' ∈ (kernelOptions L).toList ∧ 'u' ∈ (kernelOptions L).toList) ↔ 0 < L) ∧
    (0 < L → kernelOptions L = "zpAQqun") ∧
    (L ≤ 0 → kernelOptions L = "zpAQn") ∧
    (L ≤ 0 → env.OracleOnlyWithU → ∀ oracle : Oracle,
      Mesh.construct { env with triangulate := fun o _ tin => env.triangulate o oracle tin }
        s L lua c0 G = Mesh.construct env s L lua c0 G) := by
  refine ⟨?_, ?_, kernelOptions_pos L, kernelOptions_nonpos L, ?_⟩
  · intro k hk
    exact Mesh.construct_kernel_congr env k s L lua c0 G (fun tin => hk _ tin)
  · by_cases h : 0 < L
    · rw [kernelOptions_pos L h]
      exact ⟨fun _ => h, fun _ => by decide⟩
    · rw [kernelOptions_nonpos L (not_lt.mp h)]
      constructor
      · intro hq
        exact absurd hq.1 (by decide)
      · intro hL
        exact absurd hL h
  · intro hL hK oracle
    apply Mesh.construct_kernel_congr env _ s L lua c0 G
    intro tin
    rw [kernelOptions_nonpos L hL]
    exact hK "zpAQn" _ _ tin (by decide)

/-- C14, on examples: with target edge length `0` and a kernel that keeps the contract of the
`-u` switch, `squareShape` is meshed without refinement, and the construction is the same when
the kernel is handed an oracle that rejects every triangle; target edge length `1/2` requests
refinement. -/
theorem Mesh.construct_options_witness :
    contractEnv.OracleOnlyWithU ∧
    Mesh.construct contractEnv squareShape 0 none 7 5 = .ok (squareMesh, 0) ∧
    Mesh.construct
      { contractEnv with
        triangulate := fun o _ tin => contractEnv.triangulate o (fun _ _ _ _ => 1) tin }
      squareShape 0 none 7 5 = .ok (squareMesh, 0) ∧
    kernelOptions 0 = "zpAQn" ∧ kernelOptions (1 / 2) = "zpAQqun" ∧
    Mesh.construct contractEnv squareShape (1 / 2) none 7 5 = .ok (squareMesh, 1 / 4) :=
  ⟨contractEnv_contract, contractEnv_construct,
    ((Mesh.construct_options contractEnv squareShape 0 none 7 5).2.2.2.2 (le_refl 0)
      contractEnv_contract (fun _ _ _ _ => 1)).trans contractEnv_construct,
    (Mesh.construct_options contractEnv squareShape 0 none 7 5).2.2.2.1 (le_refl 0),
    by decide!, by decide!⟩

/-! ## The refinement oracle -/

theorem sqLen_comm (a b : ℚ × ℚ) : sqLen a b = sqLen b a := by
  unfold sqLen; ring

theorem sqLenD_comm (a b : ℚ × ℚ) : sqLenD a b = sqLenD b a := by
  unfold sqLenD
  rw [dsub_comm a.1 b.1, dsub_comm a.2 b.2, dmul_neg_neg, dmul_neg_neg]

theorem triunsuitable_eq (G : ℚ) (v1 v2 v3 : ℚ × ℚ) (area : ℚ) :
    triunsuitable G v1 v2 v3 area = if G < longestSqD v1 v2 v3 then 1 else 0 := by
  have h : max (sqLenD v1 v3) (max (sqLenD v2 v3) (sqLenD v1 v2)) = longestSqD v1 v2 v3 := by
    unfold longestSqD
    rw [sqLenD_comm v3 v1]
    ac_rfl
  unfold triunsuitable
  simp only [gt_iff_lt]
  rw [← h]
  rfl

theorem longestSqD_perm (v1 v2 v3 : ℚ × ℚ) :
    longestSqD v1 v3 v2 = longestSqD v1 v2 v3 ∧ longestSqD v2 v1 v3 = longestSqD v1 v2 v3 ∧
    longestSqD v2 v3 v1 = longestSqD v1 v2 v3 ∧ longestSqD v3 v1 v2 = longestSqD v1 v2 v3 ∧
    longestSqD v3 v2 v1 = longestSqD v1 v2 v3 := by
  unfold longestSqD
  simp only [sqLenD_comm v2 v1, sqLenD_comm v3 v2, sqLenD_comm v1 v3]
  refine ⟨?_, ?_, ?_, ?_, ?_⟩ <;> ac_rfl

theorem updatePoint_deriv (sqrt : ℚ → ℚ) (s : Shape) (pt pt' : RPoint)
    (h : updatePoint sqrt s pt = .ok pt') (h0 : 0 ≤ pt.original_piece) :
    pt'.p.x.Derivative =
      dadd (dmul (dsub 1 (edgeAlpha sqrt pt.p (s.edgeStart pt.original_piece pt.original_edge).p
            (s.edgeEnd pt.original_piece pt.original_edge).p))
          (s.edgeStart pt.original_piece pt.original_edge).p.x.Derivative)
        (dmul (edgeAlpha sqrt pt.p (s.edgeStart pt.original_piece pt.original_edge).p
            (s.edgeEnd pt.original_piece pt.original_edge).p)
          (s.edgeEnd pt.original_piece pt.original_edge).p.x.Derivative) ∧
    pt'.p.y.Derivative =
      dadd (dmul (dsub 1 (edgeAlpha sqrt pt.p (s.edgeStart pt.original_piece pt.original_edge).p
            (s.edgeEnd pt.original_piece pt.original_edge).p))
          (s.edgeStart pt.original_piece pt.original_edge).p.y.Derivative)
        (dmul (edgeAlpha sqrt pt.p (s.edgeStart pt.original_piece pt.original_edge).p
            (s.edgeEnd pt.original_piece pt.original_edge).p)
          (s.edgeEnd pt.original_piece pt.original_edge).p.y.Derivative) := by
  unfold updatePoint at h
  by_cases h1 : pt.original_piece < (s.NumPieces : Int) ∧ 0 ≤ pt.original_edge ∧
      pt.original_edge < ((s.Piece pt.original_piece.toNat).length : Int)
  · simp only [h0, h1, if_true] at h
    cases h
    exact ⟨rfl, rfl⟩
  · simp only [h0, h1, if_true, if_false] at h
    cases h

theorem roundMesh_update :
    roundMesh.UpdateDerivatives sqrtRounded roundShape =
      .ok { roundMesh with points_ := [⟨⟨⟨1 / 2, 1 / 2⟩, ⟨0, 0⟩⟩, default, 0, 0⟩] } := by
  decide!

end Rama
